import Mathlib

/-!
# libfev: waiter handshake, waiters queue, mutex, condition, semaphore, timers

A shallow embedding of parts of `libfev` (fibers multiplexed on worker threads)
and theorems about them.

Conventions of the embedding.

* C `unsigned`/`atomic_uint` fields are `Nat`; `int32_t`, `long`, `time_t` are
  `Int`, with explicit wrap-around where the source can overflow.
* Pointers are `Nat` addresses; objects living behind pointers (timers) are
  kept in an explicit memory `Nat → object`.
* A critical section bracketed by `fev_ilock_lock` / `fev_ilock_unlock` is
  taken as one step: the ilock guarantees that no other fiber runs inside the
  same bracket.  The fiber to which the ilock is handed on release belongs to
  the ilock, not to the protected object, and is not part of these models.
* A function that parks the calling fiber (`fev_waiter_wait`) is split at the
  park: the part before it and the part run after the wake-up.
-/

set_option autoImplicit false

namespace Fev

/-! ## Waiter (`fev_waiter_intf.h`, `fev_waiter_impl.h`) -/

/-- Result of `fev_waiter_wake` (`enum fev_waiter_wake_result`). -/
inductive fev_waiter_wake_result where
  | FEV_WAITER_FAILED
  | FEV_WAITER_SET_ONLY
  | FEV_WAITER_SET_AND_WAKE_UP
  deriving DecidableEq, Repr

open fev_waiter_wake_result

/-- Wake reason `FEV_WAITER_NONE` (`enum fev_waiter_wake_reason`, value 0). -/
def FEV_WAITER_NONE : Nat := 0
/-- Wake reason `FEV_WAITER_READY`. -/
def FEV_WAITER_READY : Nat := 1
/-- Wake reason `FEV_WAITER_TIMED_OUT_CHECK`. -/
def FEV_WAITER_TIMED_OUT_CHECK : Nat := 2
/-- Wake reason `FEV_WAITER_TIMED_OUT_NO_CHECK`. -/
def FEV_WAITER_TIMED_OUT_NO_CHECK : Nat := 3

/-- The record `struct fev_waiter`.  `fiber` is the address of the fiber to wake. -/
structure fev_waiter where
  reason : Nat
  do_wake : Nat
  wake_reason : Nat
  wait_for_post : Nat
  wait_for_wake : Nat
  fiber : Nat
  deriving DecidableEq, Repr

/-- The function `fev_waiter_wake(waiter, reason)` run without interleaving:
compare-and-swap of `reason` from `FEV_WAITER_NONE`, then exchange of `do_wake`
with 0, then the store to `wake_reason` when the exchange read a non-zero value,
then the store of 0 to `wait_for_wake`. -/
def fev_waiter_wake (waiter : fev_waiter) (reason : Nat) :
    fev_waiter × fev_waiter_wake_result :=
  if waiter.reason = FEV_WAITER_NONE then
    let w1 := { waiter with reason := reason }
    let do_wake := w1.do_wake
    let w2 := { w1 with do_wake := 0 }
    if do_wake ≠ 0 then
      let w3 := { w2 with wake_reason := reason }
      ({ w3 with wait_for_wake := 0 }, FEV_WAITER_SET_AND_WAKE_UP)
    else
      ({ w2 with wait_for_wake := 0 }, FEV_WAITER_SET_ONLY)
  else
    (waiter, FEV_WAITER_FAILED)

/-! ## Waiters queue (`fev_waiters_queue_intf.h`, `fev_waiters_queue_impl.h`) -/

/-- The record `struct fev_waiters_queue_node`; the `TAILQ_ENTRY` link is the
position of the node in the list `fev_waiters_queue.nodes`. -/
structure fev_waiters_queue_node where
  waiter : fev_waiter
  deleted : Bool
  deriving DecidableEq, Repr

/-- The record `struct fev_waiters_queue`: the `TAILQ` of nodes, head first. -/
structure fev_waiters_queue where
  nodes : List fev_waiters_queue_node
  deriving DecidableEq, Repr

/-- A pointer to a waiters queue inside a larger object of type `σ`
(`&mutex->wq`, `&cond->wq`, `&sem->wq`): how to read it and how to write it. -/
structure queue_ref (σ : Type) where
  get : σ → fev_waiters_queue
  set : fev_waiters_queue → σ → σ

/-- Local variables of the loop of `fev_waiters_queue_wake`, together with the
nodes taken off the queue so far (each as it is left on its owner's stack, with
the result of `fev_waiter_wake` on it). -/
structure wake_loop_state where
  nodes : List fev_waiters_queue_node
  removed : List (fev_waiters_queue_node × fev_waiter_wake_result)
  fibers : List Nat
  num_fibers : Nat
  num_woken : Nat
  deriving DecidableEq, Repr

/-- One pass of the body of `while (num_woken < max_waiters)` on the head `node`
of the queue: remove it, mark it deleted, try to wake its waiter with
`FEV_WAITER_READY`, count it when that did not fail, and collect its fiber when
the result is `FEV_WAITER_SET_AND_WAKE_UP`. -/
def fev_waiters_queue_wake_body (node : fev_waiters_queue_node)
    (rest : List fev_waiters_queue_node) (st : wake_loop_state) : wake_loop_state :=
  let r := fev_waiter_wake node.waiter FEV_WAITER_READY
  let node1 : fev_waiters_queue_node := { waiter := r.1, deleted := true }
  let st1 := { st with nodes := rest, removed := st.removed ++ [(node1, r.2)] }
  if r.2 ≠ FEV_WAITER_FAILED then
    let st2 := { st1 with num_woken := st1.num_woken + 1 }
    if r.2 = FEV_WAITER_SET_AND_WAKE_UP then
      { st2 with fibers := st2.fibers ++ [r.1.fiber], num_fibers := st2.num_fibers + 1 }
    else st2
  else st1

/-- The loop `while (num_woken < max_waiters) { node = TAILQ_FIRST; if (node == NULL) break; ... }`
of `fev_waiters_queue_wake`; every pass removes the head, so the recursion is on
the queue. -/
def fev_waiters_queue_wake_loop (max_waiters : Nat) :
    List fev_waiters_queue_node → wake_loop_state → wake_loop_state
  | [], st => { st with nodes := [] }
  | node :: rest, st =>
    if st.num_woken < max_waiters then
      fev_waiters_queue_wake_loop max_waiters rest (fev_waiters_queue_wake_body node rest st)
    else { st with nodes := node :: rest }

/-- The function `fev_waiters_queue_wake(queue, max_waiters, callback, callback_arg)`
on an object `s` holding the queue: the loop, then the callback (when not NULL)
with the number of woken waiters and whether the queue is now empty.  Returns the
object and the final loop variables (`fibers` is what is passed to
`fev_cur_wake_stq`). -/
def fev_waiters_queue_wake {σ : Type} (queue : queue_ref σ) (max_waiters : Nat)
    (callback : Option (Nat → Bool → σ → σ)) (s : σ) : σ × wake_loop_state :=
  let st := fev_waiters_queue_wake_loop max_waiters (queue.get s).nodes
    { nodes := (queue.get s).nodes, removed := [], fibers := [], num_fibers := 0, num_woken := 0 }
  let s1 := queue.set { nodes := st.nodes } s
  match callback with
  | some cb => (cb st.num_woken st.nodes.isEmpty s1, st)
  | none => (s1, st)

/-- What `fev_waiters_queue_wait` has done when it either returns without
waiting or reaches `fev_waiter_wait` / `fev_timed_wait`. -/
structure wait_enter_result (σ : Type) where
  /-- the object right after `recheck` returned, the queue lock still held -/
  rechecked : σ
  /-- the object when the queue lock is released -/
  state : σ
  /-- true when the node was appended and the caller goes on to wait -/
  parked : Bool
  /-- the caller's node as prepared (and appended when `parked`) -/
  node : fev_waiters_queue_node

/-- The first part of `fev_waiters_queue_wait(queue, abs_time, recheck, recheck_arg)`
for the fiber `cur_fiber`: prepare the waiter, take the queue lock, run `recheck`
(when not NULL) and return 0 without waiting when it says so, otherwise
`TAILQ_INSERT_TAIL` the node and release the lock.  `wake_reason0` and
`wait_for_post0` are the values found in the fields of the stack-allocated
waiter that the function does not initialise. -/
def fev_waiters_queue_wait_enter {σ : Type} (queue : queue_ref σ) (cur_fiber : Nat)
    (recheck : Option (σ → σ × Bool)) (s : σ)
    (wake_reason0 : Nat) (wait_for_post0 : Nat) : wait_enter_result σ :=
  let waiter : fev_waiter :=
    { reason := FEV_WAITER_NONE, do_wake := 0, wake_reason := wake_reason0,
      wait_for_post := wait_for_post0, wait_for_wake := 1, fiber := cur_fiber }
  let node : fev_waiters_queue_node := { waiter := waiter, deleted := false }
  let r : σ × Bool :=
    match recheck with
    | some f => f s
    | none => (s, true)
  if r.2 = false then
    { rechecked := r.1, state := r.1, parked := false, node := node }
  else
    { rechecked := r.1,
      state := queue.set { nodes := (queue.get r.1).nodes ++ [node] } r.1,
      parked := true, node := node }

/-! ## Mutex (`fev_mutex_intf.h`, `fev_mutex.c`) -/

/-- The record `struct fev_mutex`: `state` is 0 (unlocked), 1 (locked, no
waiters) or 2 (locked, some waiters). -/
structure fev_mutex where
  state : Nat
  wq : fev_waiters_queue
  deriving DecidableEq, Repr

/-- The pointer `&mutex->wq`. -/
def fev_mutex_wq : queue_ref fev_mutex :=
  { get := fun m => m.wq, set := fun q m => { m with wq := q } }

/-- The function `fev_mutex_try_lock`: strong compare-and-swap of `state` from 0 to 1. -/
def fev_mutex_try_lock (mutex : fev_mutex) : fev_mutex × Bool :=
  if mutex.state = 0 then ({ mutex with state := 1 }, true) else (mutex, false)

/-- The function `fev_mutex_lock_recheck`: exchange `state` with 2; when it was 0
store 1 and tell the caller not to wait. -/
def fev_mutex_lock_recheck (mutex : fev_mutex) : fev_mutex × Bool :=
  let state := mutex.state
  let m1 := { mutex with state := 2 }
  if state = 0 then ({ m1 with state := 1 }, false) else (m1, true)

/-- Outcome of `fev_mutex_lock` up to its return or to the point where the
caller waits. -/
structure mutex_lock_result where
  mutex : fev_mutex
  /-- `fev_waiters_queue_wait` was called -/
  slow_path : Bool
  /-- the caller's node was queued and the caller waits in `fev_waiter_wait` -/
  parked : Bool
  deriving DecidableEq, Repr

/-- The function `fev_mutex_lock` for the fiber `cur_fiber`, up to its return
(`parked = false`) or to `fev_waiter_wait` (`parked = true`; the call returns
once the node has been woken by `fev_waiters_queue_wake`). -/
def fev_mutex_lock (mutex : fev_mutex) (cur_fiber : Nat)
    (wake_reason0 : Nat) (wait_for_post0 : Nat) : mutex_lock_result :=
  let t := fev_mutex_try_lock mutex
  if t.2 then { mutex := t.1, slow_path := false, parked := false }
  else
    let r := fev_waiters_queue_wait_enter fev_mutex_wq cur_fiber
      (some fev_mutex_lock_recheck) t.1 wake_reason0 wait_for_post0
    { mutex := r.state, slow_path := true, parked := r.parked }

/-- The function `fev_mutex_unlock_callback(arg, num_woken, is_empty)`. -/
def fev_mutex_unlock_callback (num_woken : Nat) (is_empty : Bool) (mutex : fev_mutex) :
    fev_mutex :=
  if num_woken = 0 then { mutex with state := 0 }
  else if is_empty then { mutex with state := 1 }
  else mutex

/-- Outcome of `fev_mutex_unlock`. -/
structure mutex_unlock_result where
  mutex : fev_mutex
  /-- `fev_waiters_queue_wake` was called -/
  slow_path : Bool
  /-- nodes taken off the queue, in order, with the result of `fev_waiter_wake` -/
  removed : List (fev_waiters_queue_node × fev_waiter_wake_result)
  /-- fibers handed to `fev_cur_wake_stq` -/
  fibers : List Nat
  num_woken : Nat
  deriving DecidableEq, Repr

/-- The function `fev_mutex_unlock`: strong compare-and-swap of `state` from 1 to
0; on failure `fev_waiters_queue_wake(&mutex->wq, 1, &fev_mutex_unlock_callback, mutex)`. -/
def fev_mutex_unlock (mutex : fev_mutex) : mutex_unlock_result :=
  if mutex.state = 1 then
    { mutex := { mutex with state := 0 }, slow_path := false, removed := [], fibers := [],
      num_woken := 0 }
  else
    let r := fev_waiters_queue_wake fev_mutex_wq 1 (some fev_mutex_unlock_callback) mutex
    { mutex := r.1, slow_path := true, removed := r.2.removed, fibers := r.2.fibers,
      num_woken := r.2.num_woken }

/-- Fibers whose waiter was woken by a `fev_mutex_unlock` call: the nodes taken
off the queue on which `fev_waiter_wake` did not fail (the ones counted in
`num_woken`), in queue order. -/
def mutex_unlock_result.woken (r : mutex_unlock_result) : List Nat :=
  (r.removed.filter (fun x => decide (x.2 ≠ FEV_WAITER_FAILED))).map (fun x => x.1.waiter.fiber)

/-- The fibers woken by `k` successive calls of `fev_mutex_unlock`, in the order
in which they are woken, and the mutex after the calls. -/
def fev_mutex_unlock_times : Nat → fev_mutex → List Nat × fev_mutex
  | 0, mutex => ([], mutex)
  | k + 1, mutex =>
    let r := fev_mutex_unlock mutex
    let rest := fev_mutex_unlock_times k r.mutex
    (r.woken ++ rest.1, rest.2)

/-- A queued node whose waiter has not been woken yet (`reason` is still
`FEV_WAITER_NONE`). -/
def fev_waiters_queue_node.pending (node : fev_waiters_queue_node) : Bool :=
  decide (node.waiter.reason = FEV_WAITER_NONE)

/-! ## Semaphore (`fev_sem.h`, `fev_sem.c`) -/

/-- Two's-complement wrap of an integer to `int32_t`. -/
def int32_wrap (x : Int) : Int := (x + 2147483648) % 4294967296 - 2147483648

/-- The record `struct fev_sem`. -/
structure fev_sem where
  value : Int
  wq : fev_waiters_queue
  deriving DecidableEq, Repr

/-- The pointer `&sem->wq`. -/
def fev_sem_wq : queue_ref fev_sem :=
  { get := fun s => s.wq, set := fun q s => { s with wq := q } }

/-- The function `fev_sem_wait_recheck`: take a unit when `value > 0` and tell the
caller not to wait (`value--` on a positive `int32_t` cannot overflow). -/
def fev_sem_wait_recheck (sem : fev_sem) : fev_sem × Bool :=
  if sem.value > 0 then ({ sem with value := sem.value - 1 }, false)
  else (sem, true)

/-- The function `fev_sem_wait` for the fiber `cur_fiber`, up to its return
(`parked = false`) or to `fev_waiter_wait` (`parked = true`). -/
def fev_sem_wait (sem : fev_sem) (cur_fiber : Nat) (wake_reason0 : Nat) (wait_for_post0 : Nat) :
    wait_enter_result fev_sem :=
  fev_waiters_queue_wait_enter fev_sem_wq cur_fiber (some fev_sem_wait_recheck) sem
    wake_reason0 wait_for_post0

/-- The function `fev_sem_post_callback(arg, num_woken, is_empty)`; `value++` on
`int32_t` is taken with two's-complement wrap-around. -/
def fev_sem_post_callback (num_woken : Nat) (_is_empty : Bool) (sem : fev_sem) : fev_sem :=
  if num_woken = 0 then { sem with value := int32_wrap (sem.value + 1) } else sem

/-- The function `fev_sem_post`:
`fev_waiters_queue_wake(&sem->wq, 1, &fev_sem_post_callback, sem)`. -/
def fev_sem_post (sem : fev_sem) : fev_sem × wake_loop_state :=
  fev_waiters_queue_wake fev_sem_wq 1 (some fev_sem_post_callback) sem

/-- `n` successive calls of `fev_sem_post`; the second component lists, call by
call, the number of waiters woken. -/
def fev_sem_post_times : Nat → fev_sem → fev_sem × List Nat
  | 0, sem => (sem, [])
  | n + 1, sem =>
    let r := fev_sem_post sem
    let rest := fev_sem_post_times n r.1
    (rest.1, r.2.num_woken :: rest.2)

/-- `n` successive calls of `fev_sem_wait` by the fiber `cur_fiber`, each one
started only when the one before has returned without waiting; the second
component lists, call by call, whether the caller was parked (the sequence stops
at the first call that parks). -/
def fev_sem_wait_times (cur_fiber : Nat) (wake_reason0 : Nat) (wait_for_post0 : Nat) :
    Nat → fev_sem → fev_sem × List Bool
  | 0, sem => (sem, [])
  | n + 1, sem =>
    let r := fev_sem_wait sem cur_fiber wake_reason0 wait_for_post0
    if r.parked then (r.state, [true])
    else
      let rest := fev_sem_wait_times cur_fiber wake_reason0 wait_for_post0 n r.state
      (rest.1, false :: rest.2)

/-! ## Condition (`fev_cond_intf.h`, `fev_cond.c`) -/

/-- The record `struct fev_cond`. -/
structure fev_cond where
  wq : fev_waiters_queue
  deriving DecidableEq, Repr

/-- The objects reachable from a `fev_cond_wait(cond, mutex)` call: the condition,
the mutex, and the fibers handed so far to `fev_cur_wake_stq`. -/
structure cond_wait_world where
  cond : fev_cond
  mutex : fev_mutex
  woken : List Nat
  deriving DecidableEq, Repr

/-- The pointer `&cond->wq`. -/
def fev_cond_wq : queue_ref cond_wait_world :=
  { get := fun w => w.cond.wq, set := fun q w => { w with cond := { wq := q } } }

/-- The function `fev_cond_wait_recheck`: `fev_mutex_unlock(mutex); return true;`. -/
def fev_cond_wait_recheck (w : cond_wait_world) : cond_wait_world × Bool :=
  let r := fev_mutex_unlock w.mutex
  ({ w with mutex := r.mutex, woken := w.woken ++ r.fibers }, true)

/-- The function `fev_cond_wait(cond, mutex)` for the fiber `cur_fiber`, up to
`fev_waiter_wait` inside `fev_waiters_queue_wait(&cond->wq, NULL, &fev_cond_wait_recheck, mutex)`. -/
def fev_cond_wait_enter (w : cond_wait_world) (cur_fiber : Nat)
    (wake_reason0 : Nat) (wait_for_post0 : Nat) : wait_enter_result cond_wait_world :=
  fev_waiters_queue_wait_enter fev_cond_wq cur_fiber (some fev_cond_wait_recheck) w
    wake_reason0 wait_for_post0

/-- The rest of `fev_cond_wait(cond, mutex)`, run once the caller's node has been
woken and `fev_waiters_queue_wait` has returned 0: `fev_mutex_lock(mutex)`, on the
objects as they are at that time. -/
def fev_cond_wait_resume (w : cond_wait_world) (cur_fiber : Nat)
    (wake_reason0 : Nat) (wait_for_post0 : Nat) : cond_wait_world × mutex_lock_result :=
  let r := fev_mutex_lock w.mutex cur_fiber wake_reason0 wait_for_post0
  ({ w with mutex := r.mutex }, r)

/-! ## The waiter handshake as a step relation

One call of `fev_waiter_enable_wake_ups` and any number of calls of
`fev_waiter_wake` on the same waiter, interleaved at the granularity of their
atomic operations (sequentially consistent). -/

/-- Program points of `fev_waiter_enable_wake_ups`, named after the atomic
operation executed next. -/
inductive enable_pc where
  | store_do_wake
  | load_reason
  | xchg_do_wake
  | store_wake_reason
  | store_wait_for_post
  | done
  deriving DecidableEq, Repr

/-- Local state of the call of `fev_waiter_enable_wake_ups`: program point and the
locals `reason`, `do_wake`, `fiber` (NULL is `none`). -/
structure enable_thread where
  pc : enable_pc
  reason : Nat
  do_wake : Nat
  fiber : Option Nat
  deriving DecidableEq, Repr

/-- Program points of `fev_waiter_wake`, named after the atomic operation
executed next. -/
inductive wake_pc where
  | cas_reason
  | xchg_do_wake
  | store_wake_reason
  | store_wait_for_wake
  | done
  deriving DecidableEq, Repr

/-- Local state of one call of `fev_waiter_wake`: program point, the argument
`reason`, the local `do_wake`, and `result` once it is assigned. -/
structure wake_thread where
  pc : wake_pc
  reason : Nat
  do_wake : Nat
  result : Option fev_waiter_wake_result
  deriving DecidableEq, Repr

/-- The shared waiter and the local states of the running calls. -/
structure handshake_state where
  waiter : fev_waiter
  enabler : enable_thread
  wakers : List wake_thread
  deriving DecidableEq, Repr

/-- One atomic operation of `fev_waiter_enable_wake_ups`; `none` once it has
returned. -/
def enable_thread_step (w : fev_waiter) (t : enable_thread) :
    Option (fev_waiter × enable_thread) :=
  match t.pc with
  | .store_do_wake =>
    some ({ w with do_wake := 1 }, { t with pc := .load_reason })
  | .load_reason =>
    if w.reason ≠ 0 then some (w, { t with reason := w.reason, pc := .xchg_do_wake })
    else some (w, { t with reason := w.reason, pc := .store_wait_for_post })
  | .xchg_do_wake =>
    if w.do_wake ≠ 0 then
      some ({ w with do_wake := 0 }, { t with do_wake := w.do_wake, pc := .store_wake_reason })
    else
      some ({ w with do_wake := 0 }, { t with do_wake := w.do_wake, pc := .store_wait_for_post })
  | .store_wake_reason =>
    some ({ w with wake_reason := t.reason },
      { t with fiber := some w.fiber, pc := .store_wait_for_post })
  | .store_wait_for_post =>
    some ({ w with wait_for_post := 0 }, { t with pc := .done })
  | .done => none

/-- One atomic operation of `fev_waiter_wake`; `none` once it has returned. -/
def wake_thread_step (w : fev_waiter) (t : wake_thread) : Option (fev_waiter × wake_thread) :=
  match t.pc with
  | .cas_reason =>
    if w.reason = FEV_WAITER_NONE then
      some ({ w with reason := t.reason }, { t with pc := .xchg_do_wake })
    else
      some (w, { t with result := some FEV_WAITER_FAILED, pc := .done })
  | .xchg_do_wake =>
    if w.do_wake ≠ 0 then
      some ({ w with do_wake := 0 }, { t with do_wake := w.do_wake, pc := .store_wake_reason })
    else
      some ({ w with do_wake := 0 },
        { t with do_wake := w.do_wake, result := some FEV_WAITER_SET_ONLY,
                 pc := .store_wait_for_wake })
  | .store_wake_reason =>
    some ({ w with wake_reason := t.reason },
      { t with result := some FEV_WAITER_SET_AND_WAKE_UP, pc := .store_wait_for_wake })
  | .store_wait_for_wake =>
    some ({ w with wait_for_wake := 0 }, { t with pc := .done })
  | .done => none

/-- Who takes the next step: the call of `fev_waiter_enable_wake_ups` or the
`i`-th call of `fev_waiter_wake`. -/
inductive handshake_label where
  | enable
  | wake (i : Nat)
  deriving DecidableEq, Repr

/-- One step of the interleaving; `none` when the chosen call does not exist or
has returned. -/
def handshake_step (l : handshake_label) (s : handshake_state) : Option handshake_state :=
  match l with
  | .enable =>
    match enable_thread_step s.waiter s.enabler with
    | some (w, t) => some { s with waiter := w, enabler := t }
    | none => none
  | .wake i =>
    match s.wakers[i]? with
    | some t =>
      match wake_thread_step s.waiter t with
      | some (w, t2) => some { s with waiter := w, wakers := s.wakers.set i t2 }
      | none => none
    | none => none

/-- A run of the interleaving along a schedule. -/
def handshake_run : List handshake_label → handshake_state → Option handshake_state
  | [], s => some s
  | l :: ls, s =>
    match handshake_step l s with
    | some s2 => handshake_run ls s2
    | none => none

/-- The start: the waiter as given, `fev_waiter_enable_wake_ups` about to run, and
one call `fev_waiter_wake(waiter, r)` about to run for each `r` of `reasons`. -/
def handshake_init (w : fev_waiter) (reasons : List Nat) : handshake_state :=
  { waiter := w,
    enabler := { pc := .store_do_wake, reason := 0, do_wake := 0, fiber := none },
    wakers := reasons.map (fun r => { pc := .cas_reason, reason := r, do_wake := 0,
                                      result := none }) }

/-- The call of `fev_waiter_wake` read `do_wake = 1` in its exchange. -/
def wake_thread.got (t : wake_thread) : Bool :=
  decide (t.pc = .store_wake_reason) || decide (t.result = some FEV_WAITER_SET_AND_WAKE_UP)

/-- The call of `fev_waiter_wake` read `do_wake = 1`, stored `wake_reason` and
reports `FEV_WAITER_SET_AND_WAKE_UP`, which makes its caller reschedule the fiber. -/
def wake_thread.took (t : wake_thread) : Bool :=
  decide (t.result = some FEV_WAITER_SET_AND_WAKE_UP)

/-- The compare-and-swap of `reason` of this call of `fev_waiter_wake` succeeded. -/
def wake_thread.set_reason (t : wake_thread) : Bool :=
  decide (t.pc = .xchg_do_wake) || decide (t.pc = .store_wake_reason) ||
    decide (t.result = some FEV_WAITER_SET_ONLY) ||
    decide (t.result = some FEV_WAITER_SET_AND_WAKE_UP)

/-- The call of `fev_waiter_wake` has returned a result other than
`FEV_WAITER_FAILED`. -/
def wake_thread.returned_set (t : wake_thread) : Bool :=
  decide (t.pc = .done) &&
    (decide (t.result = some FEV_WAITER_SET_ONLY) ||
      decide (t.result = some FEV_WAITER_SET_AND_WAKE_UP))

/-- The call of `fev_waiter_enable_wake_ups` read `do_wake = 1` in its exchange. -/
def enable_thread.got (t : enable_thread) : Bool :=
  decide (t.pc = .store_wake_reason) || t.fiber.isSome

/-- The call of `fev_waiter_enable_wake_ups` read `do_wake = 1`, stored
`wake_reason` and took the fiber (which it passes to `fev_cur_wake_one`). -/
def enable_thread.took (t : enable_thread) : Bool := t.fiber.isSome

/-- Number of parties whose exchange read `do_wake = 1`. -/
def handshake_state.num_got (s : handshake_state) : Nat :=
  (if s.enabler.got then 1 else 0) + s.wakers.countP wake_thread.got

/-- Number of parties that read `do_wake = 1`, stored `wake_reason` and took the
fiber for rescheduling. -/
def handshake_state.num_took (s : handshake_state) : Nat :=
  (if s.enabler.took then 1 else 0) + s.wakers.countP wake_thread.took

/-- The call of `fev_waiter_wake` is about to exchange `do_wake`. -/
def wake_thread.at_xchg (t : wake_thread) : Bool := decide (t.pc = .xchg_do_wake)

/-- Consistency of the local state of a call of `fev_waiter_wake` with its program
point: the reason passed is not `FEV_WAITER_NONE` (asserted on entry), and
`result` is assigned exactly where the code assigns it. -/
def wake_thread.wf (t : wake_thread) : Prop :=
  t.reason ≠ FEV_WAITER_NONE ∧
  match t.pc with
  | .cas_reason => t.result = none
  | .xchg_do_wake => t.result = none
  | .store_wake_reason => t.result = none
  | .store_wait_for_wake =>
    t.result = some FEV_WAITER_SET_ONLY ∨ t.result = some FEV_WAITER_SET_AND_WAKE_UP
  | .done => t.result ≠ none

/-- Consistency of the local state of `fev_waiter_enable_wake_ups` with its
program point. -/
def enable_thread.wf (t : enable_thread) : Prop :=
  match t.pc with
  | .store_do_wake => t.fiber = none
  | .load_reason => t.fiber = none
  | .xchg_do_wake => t.fiber = none ∧ t.reason ≠ 0
  | .store_wake_reason => t.fiber = none ∧ t.reason ≠ 0
  | .store_wait_for_post => True
  | .done => True

/-- Invariant of the handshake.  The right to reschedule the fiber is a token:
not yet issued (the enabler has not stored `do_wake`), or held in `do_wake`, or
taken by the one party whose exchange read 1.  At most one call of
`fev_waiter_wake` wins the compare-and-swap of `reason`.  While `do_wake` is set,
somebody is still bound to exchange it: the enabler (about to load `reason` or to
exchange), the winner of the compare-and-swap (about to exchange), or a future
winner (`reason` still `FEV_WAITER_NONE`). -/
def handshake_inv (s : handshake_state) : Prop :=
  (s.num_got + (if s.waiter.do_wake ≠ 0 then 1 else 0) +
      (if s.enabler.pc = .store_do_wake then 1 else 0) = 1) ∧
  (s.wakers.countP wake_thread.set_reason =
      (if s.waiter.reason ≠ FEV_WAITER_NONE then 1 else 0)) ∧
  (s.waiter.do_wake ≠ 0 →
      s.enabler.pc = .load_reason ∨ s.enabler.pc = .xchg_do_wake ∨
      s.waiter.reason = FEV_WAITER_NONE ∨ 0 < s.wakers.countP wake_thread.at_xchg) ∧
  (0 < s.num_took → s.waiter.wake_reason ≠ FEV_WAITER_NONE) ∧
  (∀ t ∈ s.wakers, t.result = some FEV_WAITER_FAILED → s.waiter.reason ≠ FEV_WAITER_NONE) ∧
  s.enabler.wf ∧
  (∀ t ∈ s.wakers, t.wf)

/-! ## Time (`fev_time.h`) -/

/-- The record `struct timespec` (`time_t` and `long` are 64-bit signed). -/
structure timespec where
  tv_sec : Int
  tv_nsec : Int
  deriving DecidableEq, Repr

/-- The constant `FEV_NSECS_PER_SEC`. -/
def FEV_NSECS_PER_SEC : Int := 1000000000

/-- Two's-complement wrap of an integer to `long` (64 bits). -/
def long_wrap (x : Int) : Int :=
  (x + 9223372036854775808) % 18446744073709551616 - 9223372036854775808

/-- What `fev_timespec_assert_valid` asserts, for a value of the type:
`tv_sec >= 0` (and representable) and `0 <= tv_nsec < FEV_NSECS_PER_SEC`. -/
def fev_timespec_valid (ts : timespec) : Prop :=
  0 ≤ ts.tv_sec ∧ ts.tv_sec < 9223372036854775808 ∧ 0 ≤ ts.tv_nsec ∧
    ts.tv_nsec < FEV_NSECS_PER_SEC

instance (ts : timespec) : Decidable (fev_timespec_valid ts) := by
  unfold fev_timespec_valid; infer_instance

/-- The function `fev_timespec_cmp`, for `time_t` = `long` (the `_Generic` branch
taken on 64-bit Linux): the difference of the seconds when it is not 0, else the
difference of the nanoseconds, both computed in `long`. -/
def fev_timespec_cmp (lhs rhs : timespec) : Int :=
  let sec_cmp := long_wrap (lhs.tv_sec - rhs.tv_sec)
  if sec_cmp ≠ 0 then sec_cmp else long_wrap (lhs.tv_nsec - rhs.tv_nsec)

/-- The time `lhs` is not later than `rhs`. -/
def timespec_le (lhs rhs : timespec) : Prop :=
  lhs.tv_sec < rhs.tv_sec ∨ (lhs.tv_sec = rhs.tv_sec ∧ lhs.tv_nsec ≤ rhs.tv_nsec)

/-- The time `lhs` is strictly earlier than `rhs`. -/
def timespec_lt (lhs rhs : timespec) : Prop :=
  lhs.tv_sec < rhs.tv_sec ∨ (lhs.tv_sec = rhs.tv_sec ∧ lhs.tv_nsec < rhs.tv_nsec)

instance (a b : timespec) : Decidable (timespec_le a b) := by
  unfold timespec_le; infer_instance

instance (a b : timespec) : Decidable (timespec_lt a b) := by
  unfold timespec_lt; infer_instance

/-- A time in nanoseconds. -/
def timespec_ns (ts : timespec) : Int := ts.tv_sec * 1000000000 + ts.tv_nsec

/-! ## Timers bucket as a binary heap (`fev_timers_binheap.h`, `fev_timers_binheap.c`) -/

/-- The constant `SIZE_MAX` (64-bit `size_t`). -/
def SIZE_MAX : Nat := 18446744073709551615

/-- The constant `ENOMEM`. -/
def ENOMEM : Int := 12

/-- The record `struct fev_timer`; `waiter` is the address of the owning waiter. -/
structure fev_timer where
  abs_time : timespec
  index : Nat
  waiter : Nat
  deriving DecidableEq, Repr

/-- The timers in memory: address of a `struct fev_timer` to its content. -/
abbrev timer_mem := Nat → fev_timer

/-- The record `struct fev_timers_bucket`.  `heap` is the array of timer
pointers, as a map from index to address (the indices below `capacity` are the
allocated ones); `min` is the shadow minimum (NULL is `none`); `timeout` is the
timeout last handed to `fev_poller_set_timeout` for this bucket. -/
structure fev_timers_bucket where
  heap : Nat → Nat
  len : Nat
  capacity : Nat
  min : Option Nat
  timeout : Option timespec

/-- The store `heap[i] = p`. -/
def heap_set (heap : Nat → Nat) (i : Nat) (p : Nat) : Nat → Nat :=
  fun j => if j = i then p else heap j

/-- The store `p->index = i`. -/
def set_index (mem : timer_mem) (p : Nat) (i : Nat) : timer_mem :=
  fun q => if q = p then { mem q with index := i } else mem q

/-- The function `fev_timers_cmp(lhs, rhs)` on two timer pointers. -/
def fev_timers_cmp (mem : timer_mem) (lhs rhs : Nat) : Int :=
  fev_timespec_cmp (mem lhs).abs_time (mem rhs).abs_time

/-- The function `fev_timer_is_expired`. -/
def fev_timer_is_expired (mem : timer_mem) (timer : Nat) : Bool :=
  decide ((mem timer).index = SIZE_MAX)

/-- The function `fev_timer_set_expired`. -/
def fev_timer_set_expired (mem : timer_mem) (timer : Nat) : timer_mem :=
  set_index mem timer SIZE_MAX

/-- The function `fev_timers_bucket_empty`. -/
def fev_timers_bucket_empty (bucket : fev_timers_bucket) : Bool := decide (bucket.len = 0)

/-- The function `fev_timers_bucket_min` (`heap[0]`; the bucket must not be empty). -/
def fev_timers_bucket_min (bucket : fev_timers_bucket) : Nat := bucket.heap 0

/-- The `for (;;)` loop of `fev_timers_sift_up`, entered with `len > 0`.  At the
head of every pass `index == len`, so one variable stands for both.  Every pass
halves the index, so `fuel >= index` passes are never exhausted. -/
def fev_timers_sift_up_loop (timer : Nat) :
    Nat → (Nat → Nat) → timer_mem → Nat → (Nat → Nat) × timer_mem × Nat
  | 0, heap, mem, index => (heap, mem, index)
  | fuel + 1, heap, mem, index =>
    let len := (index - 1) / 2
    let parent_ptr := heap len
    if fev_timers_cmp mem parent_ptr timer ≤ 0 then (heap, mem, index)
    else
      let heap1 := heap_set heap index parent_ptr
      let mem1 := set_index mem parent_ptr index
      if len = 0 then (heap1, mem1, len)
      else fev_timers_sift_up_loop timer fuel heap1 mem1 len

/-- The function `fev_timers_sift_up(heap, len, timer)`. -/
def fev_timers_sift_up (heap : Nat → Nat) (mem : timer_mem) (len : Nat) (timer : Nat) :
    (Nat → Nat) × timer_mem :=
  let r := if len > 0 then fev_timers_sift_up_loop timer len heap mem len else (heap, mem, len)
  (heap_set r.1 r.2.2 timer, set_index r.2.1 timer r.2.2)

/-- The `for (;;)` loop of `fev_timers_sift_down`, entered with `len >= 2` (`len`
already decremented).  Every pass moves `start` to one of its children, so
`fuel >= len - start` passes are never exhausted.  The products `child * 2 + 1`
stay below `len`, hence cannot overflow `size_t`. -/
def fev_timers_sift_down_loop (len : Nat) (last_ptr : Nat) :
    Nat → (Nat → Nat) → timer_mem → Nat → (Nat → Nat) × timer_mem × Nat
  | 0, heap, mem, start => (heap, mem, start)
  | fuel + 1, heap, mem, start =>
    if (len - 2) / 2 < start then (heap, mem, start)
    else
      let left := start * 2 + 1
      let right := left + 1
      let child :=
        if right < len ∧ fev_timers_cmp mem (heap right) (heap left) < 0 then right else left
      let child_ptr := heap child
      if fev_timers_cmp mem last_ptr child_ptr ≤ 0 then (heap, mem, start)
      else
        fev_timers_sift_down_loop len last_ptr fuel (heap_set heap start child_ptr)
          (set_index mem child_ptr start) child

/-- The function `fev_timers_sift_down(heap, len, start)` (`len >= 1`,
`start < len`). -/
def fev_timers_sift_down (heap : Nat → Nat) (mem : timer_mem) (len : Nat) (start : Nat) :
    (Nat → Nat) × timer_mem :=
  if start = len - 1 then (heap, mem)
  else
    let len1 := len - 1
    let last_ptr := heap len1
    let r :=
      if len1 ≥ 2 then fev_timers_sift_down_loop len1 last_ptr len1 heap mem start
      else (heap, mem, start)
    (heap_set r.1 r.2.2 last_ptr, set_index r.2.1 last_ptr r.2.2)

/-- The function `fev_timers_bucket_grow` when `fev_realloc` succeeds: the
capacity doubles (1 when it was 0), the content is kept. -/
def fev_timers_bucket_grow (bucket : fev_timers_bucket) : fev_timers_bucket :=
  let capacity := 2 * bucket.capacity
  { bucket with capacity := if capacity = 0 then 1 else capacity }

/-- The function `fev_timers_bucket_add(bucket, timer)`; `realloc_ok` tells whether
`fev_realloc` succeeds should the bucket have to grow.  Returns the bucket, the
memory and the return value (`-ENOMEM`, or `min_changed`). -/
def fev_timers_bucket_add (bucket : fev_timers_bucket) (mem : timer_mem) (timer : Nat)
    (realloc_ok : Bool) : fev_timers_bucket × timer_mem × Int :=
  if bucket.len = bucket.capacity ∧ realloc_ok = false then (bucket, mem, -ENOMEM)
  else
    let bucket1 := if bucket.len = bucket.capacity then fev_timers_bucket_grow bucket else bucket
    let r := fev_timers_sift_up bucket1.heap mem bucket1.len timer
    let bucket2 := { bucket1 with heap := r.1, len := bucket1.len + 1 }
    (bucket2, r.2, if (r.2 timer).index = 0 then 1 else 0)

/-- The function `fev_timers_bucket_del(bucket, timer)` (the bucket is not empty
and the timer not expired).  Returns the bucket, the memory and `min_changed`. -/
def fev_timers_bucket_del (bucket : fev_timers_bucket) (mem : timer_mem) (timer : Nat) :
    fev_timers_bucket × timer_mem × Int :=
  let index := (mem timer).index
  let r := fev_timers_sift_down bucket.heap mem bucket.len index
  let len1 := bucket.len - 1
  if index > 0 then
    let r2 := if index < len1 then fev_timers_sift_up r.1 r.2 index (r.1 index) else r
    ({ bucket with heap := r2.1, len := len1 }, r2.2, 0)
  else
    ({ bucket with heap := r.1, len := len1 }, r.2, 1)

/-- The function `fev_timers_bucket_del_min(bucket)` (the bucket is not empty). -/
def fev_timers_bucket_del_min (bucket : fev_timers_bucket) (mem : timer_mem) :
    fev_timers_bucket × timer_mem :=
  let r := fev_timers_sift_down bucket.heap mem bucket.len 0
  ({ bucket with heap := r.1, len := bucket.len - 1 }, r.2)

/-- The bucket left by `fev_timers_bucket_init`. -/
def fev_timers_bucket_init : fev_timers_bucket :=
  { heap := fun _ => 0, len := 0, capacity := 0, min := none, timeout := none }

/-- The expiry time of the timer at address `p`, in nanoseconds. -/
def tkey (mem : timer_mem) (p : Nat) : Int := timespec_ns (mem p).abs_time

/-- The timer at address `p` has a valid expiry time. -/
def tvalid (mem : timer_mem) (p : Nat) : Prop := fev_timespec_valid (mem p).abs_time

/-- The timer at address `p` is currently in the bucket (`heap[0..len)`). -/
def in_bucket (bucket : fev_timers_bucket) (p : Nat) : Prop :=
  ∃ i, i < bucket.len ∧ bucket.heap i = p

/-- Well-formed binary-heap bucket: `len <= capacity`, every timer knows its
position, every parent is not later than its children, and the expiry times are
valid. -/
def bucket_wf (bucket : fev_timers_bucket) (mem : timer_mem) : Prop :=
  bucket.len ≤ bucket.capacity ∧
  (∀ i, i < bucket.len → (mem (bucket.heap i)).index = i) ∧
  (∀ i, 0 < i → i < bucket.len →
    timespec_le (mem (bucket.heap ((i - 1) / 2))).abs_time (mem (bucket.heap i)).abs_time) ∧
  (∀ i, i < bucket.len → fev_timespec_valid (mem (bucket.heap i)).abs_time)

/-- Loop invariant of `fev_timers_sift_up` on `heap[0..n)` with the hole at
`idx` (the place where `timer` would go): the entries outside the hole are valid,
know their position and differ from `timer`; the heap order holds on every edge
that does not touch the hole; `timer` is not later than the children of the hole;
the parent of the hole is not later than the children of the hole. -/
def sift_up_inv (n timer : Nat) (heap : Nat → Nat) (mem : timer_mem) (idx : Nat) : Prop :=
  idx < n ∧
  tvalid mem timer ∧
  (∀ i, i < n → i ≠ idx → tvalid mem (heap i)) ∧
  (∀ i, i < n → i ≠ idx → (mem (heap i)).index = i) ∧
  (∀ i, i < n → i ≠ idx → heap i ≠ timer) ∧
  (∀ i, 0 < i → i < n → i ≠ idx → (i - 1) / 2 ≠ idx →
    tkey mem (heap ((i - 1) / 2)) ≤ tkey mem (heap i)) ∧
  (∀ c, 0 < c → c < n → (c - 1) / 2 = idx → tkey mem timer ≤ tkey mem (heap c)) ∧
  (∀ c, 0 < c → c < n → (c - 1) / 2 = idx → 0 < idx →
    tkey mem (heap ((idx - 1) / 2)) ≤ tkey mem (heap c))

/-- How a sift loop relates the state `(heap, mem, idx)` it starts from to the
state `(heap2, mem2, idx2)` it reaches, on `heap[0..n)`: the entries outside the
hole are the same timers; only `index` fields change, and only of timers in the
heap. -/
def sift_rel (n : Nat) (heap : Nat → Nat) (mem : timer_mem) (idx : Nat)
    (heap2 : Nat → Nat) (mem2 : timer_mem) (idx2 : Nat) : Prop :=
  (∀ q, (∃ i, i < n ∧ i ≠ idx2 ∧ heap2 i = q) ↔ (∃ i, i < n ∧ i ≠ idx ∧ heap i = q)) ∧
  (∀ q, (mem2 q).abs_time = (mem q).abs_time ∧ (mem2 q).waiter = (mem q).waiter) ∧
  (∀ q, (∀ i, i < n → i ≠ idx → heap i ≠ q) → mem2 q = mem q) ∧
  (∀ j, n ≤ j → heap2 j = heap j)

/-- Loop invariant of `fev_timers_sift_down` on `heap[0..n)` (`n` the decremented
length), started at `start0`, with the hole at `hole` (the place where `last`
would go): the entries outside the hole are valid, know their position and
differ from `last`; the heap order holds on every edge that touches neither the
hole nor comes into `start0`; the parent of the hole is not later than the
children of the hole; once the hole has moved, its parent is not later than
`last`, and the edge into `start0` is in order. -/
def sift_down_inv (n last start0 : Nat) (heap : Nat → Nat) (mem : timer_mem) (hole : Nat) :
    Prop :=
  start0 ≤ hole ∧ hole < n ∧
  tvalid mem last ∧
  (∀ i, i < n → i ≠ hole → tvalid mem (heap i)) ∧
  (∀ i, i < n → i ≠ hole → (mem (heap i)).index = i) ∧
  (∀ i, i < n → i ≠ hole → heap i ≠ last) ∧
  (∀ i, 0 < i → i < n → i ≠ hole → (i - 1) / 2 ≠ hole → i ≠ start0 →
    tkey mem (heap ((i - 1) / 2)) ≤ tkey mem (heap i)) ∧
  (∀ c, 0 < c → c < n → (c - 1) / 2 = hole → 0 < hole →
    tkey mem (heap ((hole - 1) / 2)) ≤ tkey mem (heap c)) ∧
  (hole ≠ start0 → tkey mem (heap ((hole - 1) / 2)) ≤ tkey mem last) ∧
  (hole ≠ start0 → 0 < start0 →
    tkey mem (heap ((start0 - 1) / 2)) ≤ tkey mem (heap start0))

/-- States of a bucket and of the timers in memory reached from the bucket left
by `fev_timers_bucket_init` by `fev_timers_bucket_add` (of a timer with a valid
time that is not in the bucket, without allocation failure),
`fev_timers_bucket_del` (of a timer in the bucket), `fev_timers_bucket_del_min`
(on a non-empty bucket), and by writes to timers that are not in the bucket. -/
inductive bucket_reachable : fev_timers_bucket → timer_mem → Prop where
  | init (mem : timer_mem) : bucket_reachable fev_timers_bucket_init mem
  | add (bucket : fev_timers_bucket) (mem : timer_mem) (timer : Nat) :
      bucket_reachable bucket mem → ¬ in_bucket bucket timer →
      fev_timespec_valid (mem timer).abs_time →
      bucket_reachable (fev_timers_bucket_add bucket mem timer true).1
        (fev_timers_bucket_add bucket mem timer true).2.1
  | del (bucket : fev_timers_bucket) (mem : timer_mem) (timer : Nat) :
      bucket_reachable bucket mem → in_bucket bucket timer →
      bucket_reachable (fev_timers_bucket_del bucket mem timer).1
        (fev_timers_bucket_del bucket mem timer).2.1
  | del_min (bucket : fev_timers_bucket) (mem : timer_mem) :
      bucket_reachable bucket mem → bucket.len ≠ 0 →
      bucket_reachable (fev_timers_bucket_del_min bucket mem).1
        (fev_timers_bucket_del_min bucket mem).2
  | write (bucket : fev_timers_bucket) (mem mem2 : timer_mem) :
      bucket_reachable bucket mem → (∀ p, in_bucket bucket p → mem2 p = mem p) →
      bucket_reachable bucket mem2

/-- The entries `heap[0..n)` form a binary heap: valid expiry times, every timer
knows its position, every parent is not later than its children. -/
def heap_ok (heap : Nat → Nat) (mem : timer_mem) (n : Nat) : Prop :=
  (∀ i, i < n → tvalid mem (heap i)) ∧
  (∀ i, i < n → (mem (heap i)).index = i) ∧
  (∀ i, 0 < i → i < n → tkey mem (heap ((i - 1) / 2)) ≤ tkey mem (heap i))

/-- The child of `start` picked by a pass of the loop of `fev_timers_sift_down`:
the right one when it exists and is earlier than the left one, else the left one. -/
def sift_down_child (n : Nat) (heap : Nat → Nat) (mem : timer_mem) (start : Nat) : Nat :=
  if start * 2 + 1 + 1 < n ∧
      fev_timers_cmp mem (heap (start * 2 + 1 + 1)) (heap (start * 2 + 1)) < 0 then
    start * 2 + 1 + 1
  else start * 2 + 1

/-- The calls `fev_timers_bucket_add(bucket, t)` for the timers `t` of a list, in
the order of the list, without allocation failure. -/
def bucket_add_all : List Nat → fev_timers_bucket × timer_mem → fev_timers_bucket × timer_mem
  | [], s => s
  | t :: ts, s =>
    let r := fev_timers_bucket_add s.1 s.2 t true
    bucket_add_all ts (r.1, r.2.1)

/-- The loop `while (!fev_timers_bucket_empty(b)) { min = fev_timers_bucket_min(b);
fev_timers_bucket_del_min(b); }`, run for at most `fuel` passes: the timers read,
in order, and the final state. -/
def bucket_drain : Nat → fev_timers_bucket × timer_mem →
    List Nat × (fev_timers_bucket × timer_mem)
  | 0, s => ([], s)
  | fuel + 1, s =>
    if fev_timers_bucket_empty s.1 then ([], s)
    else
      let min := fev_timers_bucket_min s.1
      let rest := bucket_drain fuel (fev_timers_bucket_del_min s.1 s.2)
      (min :: rest.1, rest.2)

/-! ## Timers (`fev_timers.c`) over binary-heap buckets, `FEV_TIMERS_ADD_CAN_FAIL == 1`

The functions below run under the lock of the bucket and are taken as one step
each; `fev_process_timer_fd` runs under `min_lock` only. -/

/-- The constant `ETIMEDOUT` (Linux). -/
def ETIMEDOUT : Int := 110

/-- The constant `EAGAIN` (Linux). -/
def EAGAIN : Int := 11

/-- A bucket of timers, the timers in memory and the waiters in memory (address
of a `struct fev_waiter` to its content). -/
structure timers_state where
  bucket : fev_timers_bucket
  mem : timer_mem
  waiters : Nat → fev_waiter

/-- The function `fev_poller_set_timeout(bucket, abs_time)`: arms the timer of the
bucket. -/
def fev_poller_set_timeout (bucket : fev_timers_bucket) (abs_time : timespec) :
    fev_timers_bucket :=
  { bucket with timeout := some abs_time }

/-- The store of `waiter` at the address `p`. -/
def set_waiter (waiters : Nat → fev_waiter) (p : Nat) (waiter : fev_waiter) :
    Nat → fev_waiter :=
  fun q => if q = p then waiter else waiters q

/-- The function `fev_timers_add(bucket, timer)`: the state and the return value. -/
def fev_timers_add (s : timers_state) (timer : Nat) (realloc_ok : Bool) :
    timers_state × Int :=
  let r := fev_timers_bucket_add s.bucket s.mem timer realloc_ok
  let ret := r.2.2
  if ret < 0 then ({ s with bucket := r.1, mem := r.2.1 }, ret)
  else
    let min_changed := ret
    if min_changed ≠ 0 then
      let bucket1 := { r.1 with min := some timer }
      ({ s with bucket := fev_poller_set_timeout bucket1 (r.2.1 timer).abs_time, mem := r.2.1 },
        0)
    else ({ s with bucket := r.1, mem := r.2.1 }, 0)

/-- The function `fev_timers_del(bucket, timer)`. -/
def fev_timers_del (s : timers_state) (timer : Nat) : timers_state :=
  if fev_timer_is_expired s.mem timer then s
  else
    let r := fev_timers_bucket_del s.bucket s.mem timer
    let min_changed := r.2.2
    if min_changed = 0 then { s with bucket := r.1, mem := r.2.1 }
    else
      let min := if fev_timers_bucket_empty r.1 then none else some (fev_timers_bucket_min r.1)
      let bucket1 := { r.1 with min := min }
      match min with
      | none => { s with bucket := bucket1, mem := r.2.1 }
      | some m => { s with bucket := fev_poller_set_timeout bucket1 (r.2.1 m).abs_time,
                           mem := r.2.1 }

/-- State of the loop of `fev_timers_wake_expired`: the timers state, the list
`fibers`, the counter `num` (32 bits), the record `calls` of the calls of
`fev_waiter_wake` made so far: for each call, the timer whose waiter is woken and
the value of `fev_timer_is_expired` for that timer when the call is made; and the
record `mins` of what `bucket->min` holds at the removals and at the calls made so
far: for each pass, its value when `fev_timers_bucket_del_min` is called and its
value when `fev_waiter_wake` is called (what a poller that takes `min_lock` at that
moment reads). -/
structure wake_expired_state where
  state : timers_state
  fibers : List Nat
  num : Nat
  calls : List (Nat × Bool)
  mins : List (Option Nat)

/-- The `while` loop of `fev_timers_wake_expired`, for at most `fuel` passes; every
pass that does not leave the loop removes a timer, so `fuel >= bucket->len`
passes are never exhausted. -/
def fev_timers_wake_expired_loop (now : timespec) :
    Nat → wake_expired_state → wake_expired_state
  | 0, w => w
  | fuel + 1, w =>
    if fev_timers_bucket_empty w.state.bucket then w
    else
      let min := fev_timers_bucket_min w.state.bucket
      if fev_timespec_cmp (w.state.mem min).abs_time now > 0 then w
      else
        let r := fev_timers_bucket_del_min w.state.bucket w.state.mem
        let mem1 := fev_timer_set_expired r.2 min
        let waiter := (mem1 min).waiter
        let call := (min, fev_timer_is_expired mem1 min)
        let res := fev_waiter_wake (w.state.waiters waiter) FEV_WAITER_TIMED_OUT_NO_CHECK
        let waiters1 := set_waiter w.state.waiters waiter res.1
        let woken := decide (res.2 = FEV_WAITER_SET_AND_WAKE_UP)
        fev_timers_wake_expired_loop now fuel
          { state := { bucket := r.1, mem := mem1, waiters := waiters1 },
            fibers := if woken then w.fibers ++ [res.1.fiber] else w.fibers,
            num := if woken then (w.num + 1) % 4294967296 else w.num,
            calls := w.calls ++ [call],
            mins := w.mins ++ [w.state.bucket.min, r.1.min] }

/-- The function `fev_timers_wake_expired(bucket, fibers, num_fibers)` with an
empty list `fibers`; `now` is the time read by `fev_clock_get_time`. -/
def fev_timers_wake_expired (s : timers_state) (now : timespec) : wake_expired_state :=
  fev_timers_wake_expired_loop now s.bucket.len
    { state := s, fibers := [], num := 0, calls := [], mins := [] }

/-- Result of `fev_timers_process`: the state, the return value `expired`, the
fibers to wake, the calls of `fev_waiter_wake` made, and what `bucket->min` held at
the removals of the expired timers and at these calls (the record `mins` of
`fev_timers_wake_expired`). -/
structure process_result where
  state : timers_state
  expired : Bool
  fibers : List Nat
  calls : List (Nat × Bool)
  mins : List (Option Nat)

/-- The function `fev_timers_process(bucket, timer)`, up to the release of the lock
of the bucket. -/
def fev_timers_process (s : timers_state) (timer : Nat) (now : timespec) : process_result :=
  let s1 := { s with bucket := { s.bucket with min := none } }
  let w := fev_timers_wake_expired s1 now
  let expired := fev_timer_is_expired w.state.mem timer
  let r :=
    if expired then (w.state.bucket, w.state.mem)
    else
      let d := fev_timers_bucket_del w.state.bucket w.state.mem timer
      (d.1, d.2.1)
  let bucket2 :=
    if fev_timers_bucket_empty r.1 then r.1
    else
      let min := fev_timers_bucket_min r.1
      fev_poller_set_timeout { r.1 with min := some min } (r.2 min).abs_time
  { state := { bucket := bucket2, mem := r.2, waiters := w.state.waiters },
    expired := expired, fibers := w.fibers, calls := w.calls, mins := w.mins }

/-- The function `fev_process_timer_fd` of the epoll poller on the bucket: the
state, the fiber returned (NULL is `none`), and the timers on whose behalf
`fev_waiter_wake` was called. -/
def fev_process_timer_fd (s : timers_state) : timers_state × Option Nat × List Nat :=
  match s.bucket.min with
  | none => (s, none, [])
  | some min =>
    let waiter := (s.mem min).waiter
    let res := fev_waiter_wake (s.waiters waiter) FEV_WAITER_TIMED_OUT_CHECK
    ({ s with waiters := set_waiter s.waiters waiter res.1 },
      if res.2 = FEV_WAITER_SET_AND_WAKE_UP then some res.1.fiber else none, [min])

/-- The function `fev_timed_wait(waiter, abs_time)` up to `fev_waiter_wait`; `timer`
is the address of the local variable `timer`.  Returns the state and, when the
function returns without waiting, its return value. -/
def fev_timed_wait_enter (s : timers_state) (timer waiter : Nat) (abs_time : timespec)
    (realloc_ok : Bool) : timers_state × Option Int :=
  let mem1 : timer_mem := fun q => if q = timer then ⟨abs_time, 0, waiter⟩ else s.mem q
  let r := fev_timers_add { s with mem := mem1 } timer realloc_ok
  if r.2 < 0 then (r.1, some r.2) else (r.1, none)

/-- The function `fev_timed_wait` from the return of `fev_waiter_wait` with the wake
reason `reason` (not `FEV_WAITER_NONE`): the state and the return value. -/
def fev_timed_wait_resume (s : timers_state) (timer : Nat) (reason : Nat) (now : timespec) :
    timers_state × Int :=
  if reason = FEV_WAITER_READY then (fev_timers_del s timer, 0)
  else if reason = FEV_WAITER_TIMED_OUT_NO_CHECK then (s, -ETIMEDOUT)
  else
    let r := fev_timers_process s timer now
    (r.state, if r.expired then -ETIMEDOUT else -EAGAIN)

/-- The shadow minimum of the bucket is NULL or the timer at the root of the
non-empty heap. -/
def shadow_ok (bucket : fev_timers_bucket) : Prop :=
  bucket.min = none ∨ (bucket.len ≠ 0 ∧ bucket.min = some (fev_timers_bucket_min bucket))

/-- An operation on a bucket and its timers: a call of `fev_timers_add`,
`fev_timers_del` or `fev_timers_process` by a fiber in `fev_timed_wait`, a timer
event handled by the poller (`fev_process_timer_fd`), or a write to the memory
of timers (`write mem` leaves `mem` as the memory of the timers). -/
inductive timers_op where
  | add (timer : Nat) (realloc_ok : Bool)
  | del (timer : Nat)
  | process (timer : Nat) (now : timespec)
  | timer_fd
  | write (mem : timer_mem)

/-- One operation: the state it leaves, and the timers on whose behalf it calls
`fev_waiter_wake`. -/
def timers_op_step (op : timers_op) (s : timers_state) : timers_state × List Nat :=
  match op with
  | .add timer realloc_ok => ((fev_timers_add s timer realloc_ok).1, [])
  | .del timer => (fev_timers_del s timer, [])
  | .process timer now =>
    ((fev_timers_process s timer now).state,
      (fev_timers_process s timer now).calls.map Prod.fst)
  | .timer_fd => ((fev_process_timer_fd s).1, (fev_process_timer_fd s).2.2)
  | .write mem => ({ s with mem := mem }, [])

/-- The operations in order: the final state and the timers on whose behalf
`fev_waiter_wake` was called. -/
def timers_run : List timers_op → timers_state → timers_state × List Nat
  | [], s => (s, [])
  | op :: ops, s =>
    ((timers_run ops (timers_op_step op s).1).1,
      (timers_op_step op s).2 ++ (timers_run ops (timers_op_step op s).1).2)

/-- The operation respects the contracts of the functions in the state `s`, and
does not add the timer `removed` again: a timer is added when it is valid and not
in the bucket, and the length fits a `size_t`; `fev_timers_del` and
`fev_timers_process` are called by the owner of a timer that is in the bucket or
expired, `fev_timers_process` with a valid time; memory is only written outside
of the bucket. -/
def timers_op_legal (removed : Nat) (op : timers_op) (s : timers_state) : Prop :=
  match op with
  | .add timer _ =>
    timer ≠ removed ∧ ¬ in_bucket s.bucket timer ∧ fev_timespec_valid (s.mem timer).abs_time ∧
      s.bucket.len < SIZE_MAX
  | .del timer => in_bucket s.bucket timer ∨ fev_timer_is_expired s.mem timer = true
  | .process timer now =>
    (in_bucket s.bucket timer ∨ fev_timer_is_expired s.mem timer = true) ∧
      fev_timespec_valid now
  | .timer_fd => True
  | .write mem => ∀ p, in_bucket s.bucket p → mem p = s.mem p

/-- Every operation of the list is legal in the state in which it runs. -/
def timers_run_legal (removed : Nat) : List timers_op → timers_state → Prop
  | [], _ => True
  | op :: ops, s =>
    timers_op_legal removed op s ∧ timers_run_legal removed ops (timers_op_step op s).1

/-! ## Fiber attributes (`fev_fiber_attr.c`)

`FEV_PAGE_SIZE`, `FEV_DEFAULT_STACK_SIZE` and `FEV_DEFAULT_GUARD_SIZE` come from the
build configuration and are parameters here.  Addresses are numbers, NULL is 0. -/

/-- The constant `EINVAL` (Linux). -/
def EINVAL : Int := 22

/-- The record `struct fev_fiber_attr`. -/
structure fev_fiber_attr where
  stack_addr : Nat
  stack_size : Nat
  guard_size : Nat
  detached : Bool
  deriving DecidableEq, Repr

/-- The constant `fev_fiber_create_default_attr`. -/
def fev_fiber_create_default_attr (FEV_DEFAULT_STACK_SIZE FEV_DEFAULT_GUARD_SIZE : Nat) :
    fev_fiber_attr :=
  { stack_addr := 0, stack_size := FEV_DEFAULT_STACK_SIZE,
    guard_size := FEV_DEFAULT_GUARD_SIZE, detached := false }

/-- The function `fev_fiber_attr_set_stack`: the attribute and the return value. -/
def fev_fiber_attr_set_stack (FEV_PAGE_SIZE : Nat) (attr : fev_fiber_attr)
    (stack_addr stack_size : Nat) : fev_fiber_attr × Int :=
  if stack_addr % FEV_PAGE_SIZE ≠ 0 then (attr, -EINVAL)
  else if stack_size % FEV_PAGE_SIZE ≠ 0 then (attr, -EINVAL)
  else ({ attr with stack_addr := stack_addr, stack_size := stack_size }, 0)

/-- The function `fev_fiber_attr_get_stack`: the address and the size. -/
def fev_fiber_attr_get_stack (attr : fev_fiber_attr) : Nat × Nat :=
  (attr.stack_addr, attr.stack_size)

/-- The function `fev_fiber_attr_get_stack_size`. -/
def fev_fiber_attr_get_stack_size (attr : fev_fiber_attr) : Nat := attr.stack_size

/-- The function `fev_fiber_attr_set_stack_size`: the attribute and the return value. -/
def fev_fiber_attr_set_stack_size (FEV_PAGE_SIZE : Nat) (attr : fev_fiber_attr)
    (stack_size : Nat) : fev_fiber_attr × Int :=
  if stack_size % FEV_PAGE_SIZE ≠ 0 then (attr, -EINVAL)
  else ({ attr with stack_size := stack_size }, 0)

/-- The function `fev_fiber_attr_get_guard_size`. -/
def fev_fiber_attr_get_guard_size (attr : fev_fiber_attr) : Nat := attr.guard_size

/-- The function `fev_fiber_attr_set_guard_size`: the attribute and the return value. -/
def fev_fiber_attr_set_guard_size (FEV_PAGE_SIZE : Nat) (attr : fev_fiber_attr)
    (guard_size : Nat) : fev_fiber_attr × Int :=
  if guard_size % FEV_PAGE_SIZE ≠ 0 then (attr, -EINVAL)
  else ({ attr with guard_size := guard_size }, 0)

/-! ## Fibers (`fev_fiber.c`) with the simple-MPMC work-sharing scheduler
(`fev_sched_shr_simple_mpmc.c`) -/

/-- The bits of `fev_fiber.flags`: `FEV_FIBER_DEAD`, `FEV_FIBER_JOINABLE`,
`FEV_FIBER_JOINING`. -/
structure fev_fiber_flags where
  dead : Bool
  joinable : Bool
  joining : Bool
  deriving DecidableEq, Repr

/-- The record `struct fev_fiber` (stack, return value, flags, reference count);
`freed` tells that `fev_free(fiber)` has been called. -/
structure fev_fiber where
  stack_addr : Nat
  total_stack_size : Nat
  user_stack : Bool
  return_value : Nat
  flags : fev_fiber_flags
  ref_count : Nat
  freed : Bool
  deriving DecidableEq, Repr

/-- The record `struct fev_sched`: the counters (32 bits), the fibers in the run
queue, oldest first, and whether the scheduler is running
(`start_sem != NULL`). -/
structure fev_sched where
  num_run_fibers : Nat
  num_fibers : Nat
  run_queue : List Nat
  running : Bool
  deriving DecidableEq, Repr

/-- The function `fev_sched_is_running`. -/
def fev_sched_is_running (sched : fev_sched) : Bool := sched.running

/-- The function `fev_sched_put(sched, fiber)`; `node_ok` tells whether
`fev_simple_mpmc_pool_alloc_global` returns a node.  Returns the scheduler and
the return value. -/
def fev_sched_put (sched : fev_sched) (fiber : Nat) (node_ok : Bool) : fev_sched × Int :=
  if node_ok = false then (sched, -ENOMEM)
  else
    ({ sched with run_queue := sched.run_queue ++ [fiber],
                  num_run_fibers := (sched.num_run_fibers + 1) % 4294967296 }, 0)

/-- The function `fev_push_one(worker, fiber)` on the run queue of the scheduler of
the worker; `node_ok` tells whether `fev_simple_mpmc_pool_alloc_local` returns a
node.  Without a node the process is aborted by `fev_sched_oom` (`none`). -/
def fev_push_one (sched : fev_sched) (fiber : Nat) (node_ok : Bool) : Option fev_sched :=
  if node_ok = false then none
  else some { sched with run_queue := sched.run_queue ++ [fiber] }

/-- The function `fev_wake_one(worker, fiber)`: `fev_push_one`, then
`fev_wake_up_waiting_workers(worker, 1)`, which adds 1 to `num_run_fibers`. -/
def fev_wake_one (sched : fev_sched) (fiber : Nat) (node_ok : Bool) : Option fev_sched :=
  match fev_push_one sched fiber node_ok with
  | none => none
  | some s => some { s with num_run_fibers := (s.num_run_fibers + 1) % 4294967296 }

/-- What the allocators answer during a call of `fev_fiber_create`: the pointer
returned by `fev_malloc` (0 is NULL), the return value of `fev_stack_alloc` and the
address it stores, the return values of `fev_cond_init` and `fev_mutex_init`, and
whether the pool returns a run-queue node. -/
structure create_env where
  malloc_ret : Nat
  stack_alloc_ret : Int
  stack_alloc_addr : Nat
  cond_init_ret : Int
  mutex_init_ret : Int
  node_ok : Bool
  deriving DecidableEq, Repr

/-- A call to an allocator or to a constructor. -/
inductive alloc_call where
  | fev_malloc
  | fev_free
  | fev_stack_alloc
  | fev_stack_free
  | fev_cond_init
  | fev_cond_fini
  | fev_mutex_init
  | node_alloc
  deriving DecidableEq, Repr

/-- Outcome of `fev_fiber_create`: the return value, the schedulers in memory, the
pointer stored in `*fiber_ptr` with the fiber it points to, and the calls made to
the allocators, in order. -/
structure create_result where
  ret : Int
  scheds : Nat → fev_sched
  fiber : Option (Nat × fev_fiber)
  calls : List alloc_call

/-- The store of `sched` at the address `p`. -/
def set_sched (scheds : Nat → fev_sched) (p : Nat) (sched : fev_sched) : Nat → fev_sched :=
  fun q => if q = p then sched else scheds q

/-- The fields that `fev_fiber_create` gives the new fiber, for the attributes
`attr` (not NULL) and the stack address stored by `fev_stack_alloc`. -/
def fev_fiber_create_init (attr : fev_fiber_attr) (stack_alloc_addr : Nat) : fev_fiber :=
  let user_stack := decide (attr.stack_addr ≠ 0)
  { stack_addr := if user_stack then attr.stack_addr else stack_alloc_addr,
    total_stack_size :=
      if user_stack then attr.stack_size else attr.stack_size + attr.guard_size,
    user_stack := user_stack, return_value := 0,
    flags := { dead := false, joinable := !attr.detached, joining := false },
    ref_count := if attr.detached then 1 else 2, freed := false }

/-- The function `fev_fiber_create` from `if (attr == NULL)` on: `sched` is the
scheduler chosen and `schedule_in_cur_worker` the flag computed by the first
part.  `none` stands for the abort in `fev_sched_oom`. -/
def fev_fiber_create_body (FEV_DEFAULT_STACK_SIZE FEV_DEFAULT_GUARD_SIZE : Nat)
    (scheds : Nat → fev_sched) (sched : Nat) (schedule_in_cur_worker : Bool)
    (attr : Option fev_fiber_attr) (env : create_env) : Option create_result :=
  let attr :=
    attr.getD (fev_fiber_create_default_attr FEV_DEFAULT_STACK_SIZE FEV_DEFAULT_GUARD_SIZE)
  if schedule_in_cur_worker = false ∧ attr.detached = false then
    some { ret := -EINVAL, scheds := scheds, fiber := none, calls := [] }
  else if env.malloc_ret = 0 then
    some { ret := -ENOMEM, scheds := scheds, fiber := none, calls := [.fev_malloc] }
  else if attr.stack_addr = 0 ∧ env.stack_alloc_ret ≠ 0 then
    some { ret := env.stack_alloc_ret, scheds := scheds, fiber := none,
           calls := [.fev_malloc, .fev_stack_alloc, .fev_free] }
  else
    let user_stack := decide (attr.stack_addr ≠ 0)
    let calls1 : List alloc_call :=
      if user_stack then [.fev_malloc] else [.fev_malloc, .fev_stack_alloc]
    let free_stack : List alloc_call := if user_stack then [] else [.fev_stack_free]
    if env.cond_init_ret ≠ 0 then
      some { ret := env.cond_init_ret, scheds := scheds, fiber := none,
             calls := calls1 ++ [.fev_cond_init] ++ free_stack ++ [.fev_free] }
    else if env.mutex_init_ret ≠ 0 then
      some { ret := env.mutex_init_ret, scheds := scheds, fiber := none,
             calls := calls1 ++ [.fev_cond_init, .fev_mutex_init, .fev_cond_fini] ++ free_stack ++
               [.fev_free] }
    else
      let fiber := fev_fiber_create_init attr env.stack_alloc_addr
      let s1 := { scheds sched with num_fibers := ((scheds sched).num_fibers + 1) % 4294967296 }
      let calls2 := calls1 ++ [.fev_cond_init, .fev_mutex_init, .node_alloc]
      if schedule_in_cur_worker then
        match fev_wake_one s1 env.malloc_ret env.node_ok with
        | none => none
        | some s2 =>
          some { ret := 0, scheds := set_sched scheds sched s2,
                 fiber := some (env.malloc_ret, fiber), calls := calls2 }
      else
        some { ret := 0, scheds := set_sched scheds sched (fev_sched_put s1 env.malloc_ret
                 env.node_ok).1,
               fiber := some (env.malloc_ret, fiber), calls := calls2 }

/-- The function `fev_fiber_create(fiber_ptr, sched, start_routine, arg, attr)`.
`sched` is the argument (NULL is `none`); `cur_worker` is `none` when
`fev_cur_sched_worker` is NULL and else the scheduler `cur_worker->sched`. -/
def fev_fiber_create (FEV_DEFAULT_STACK_SIZE FEV_DEFAULT_GUARD_SIZE : Nat)
    (scheds : Nat → fev_sched) (sched : Option Nat) (cur_worker : Option Nat)
    (attr : Option fev_fiber_attr) (env : create_env) : Option create_result :=
  match sched, cur_worker with
  | none, none => some { ret := -EINVAL, scheds := scheds, fiber := none, calls := [] }
  | none, some w =>
    fev_fiber_create_body FEV_DEFAULT_STACK_SIZE FEV_DEFAULT_GUARD_SIZE scheds w true attr env
  | some p, none =>
    if fev_sched_is_running (scheds p) then
      some { ret := -EINVAL, scheds := scheds, fiber := none, calls := [] }
    else
      fev_fiber_create_body FEV_DEFAULT_STACK_SIZE FEV_DEFAULT_GUARD_SIZE scheds p false attr env
  | some p, some w =>
    if p = w then
      fev_fiber_create_body FEV_DEFAULT_STACK_SIZE FEV_DEFAULT_GUARD_SIZE scheds w true attr env
    else if fev_sched_is_running (scheds p) then
      some { ret := -EINVAL, scheds := scheds, fiber := none, calls := [] }
    else
      fev_fiber_create_body FEV_DEFAULT_STACK_SIZE FEV_DEFAULT_GUARD_SIZE scheds p false attr env

/-- The function `fev_fiber_release`: `ref_count` is decremented (32 bits), and the
fiber is freed when the value read was 1. -/
def fev_fiber_release (fiber : fev_fiber) : fev_fiber :=
  let ref_count := fiber.ref_count
  let fiber1 := { fiber with ref_count := (fiber.ref_count + 4294967295) % 4294967296 }
  if ref_count = 1 then { fiber1 with freed := true } else fiber1

/-- The function `fev_fiber_exit_post`: the fiber, the scheduler, and whether
`fev_stack_free` was called. -/
def fev_fiber_exit_post (fiber : fev_fiber) (sched : fev_sched) : fev_fiber × fev_sched × Bool :=
  (fev_fiber_release fiber,
    { sched with num_fibers := (sched.num_fibers + 4294967295) % 4294967296,
                 num_run_fibers := (sched.num_run_fibers + 4294967295) % 4294967296 },
    !fiber.user_stack)

/-- The critical section of `fev_fiber_exit` on the current fiber. -/
def fev_fiber_exit_mark (fiber : fev_fiber) (return_value : Nat) : fev_fiber :=
  { fiber with return_value := return_value, flags := { fiber.flags with dead := true } }

/-- The function `fev_fiber_detach`; `in_worker` tells whether `fev_cur_sched_worker`
is not NULL.  Returns the fiber and the return value. -/
def fev_fiber_detach (in_worker : Bool) (fiber : fev_fiber) : fev_fiber × Int :=
  if in_worker = false then (fiber, -EINVAL)
  else if fiber.flags.joinable = false then (fiber, -EINVAL)
  else
    (fev_fiber_release { fiber with flags := { fiber.flags with joinable := false } }, 0)

/-- The function `fev_fiber_join` up to its `for` loop: the fiber and, when the
function returns there, the return value. -/
def fev_fiber_join_enter (in_worker : Bool) (fiber : fev_fiber) : fev_fiber × Option Int :=
  if in_worker = false then (fiber, some (-EINVAL))
  else if fiber.flags.joining then (fiber, some (-EINVAL))
  else ({ fiber with flags := { fiber.flags with joining := true } }, none)

/-- One pass of the `for` loop of `fev_fiber_join`, with what follows the loop when
the pass leaves it: the fiber, and the return value when the function returns
(`none` when the caller waits in `fev_cond_wait`). -/
def fev_fiber_join_loop (fiber : fev_fiber) : fev_fiber × Option Int :=
  if fiber.flags.joinable = false then (fiber, some (-EINVAL))
  else if fiber.flags.dead then (fev_fiber_release fiber, some 0)
  else (fiber, none)

/-- The life of one fiber: the fiber, its scheduler, and what has happened so
far: `fev_fiber_exit` was called, its post-action `fev_fiber_exit_post` has run, a
caller of `fev_fiber_join` is inside the loop, and how many calls of
`fev_fiber_join` and of `fev_fiber_detach` have returned 0. -/
structure fiber_life where
  fiber : fev_fiber
  sched : fev_sched
  exit_called : Bool
  post_done : Bool
  joiner_in_loop : Bool
  joins : Nat
  detaches : Nat
  deriving DecidableEq, Repr

/-- A step in the life of a fiber: the fiber calls `fev_fiber_exit` (its critical
section), the post-action `fev_fiber_exit_post` runs, another fiber calls
`fev_fiber_join` (up to the loop), the caller inside the loop of `fev_fiber_join`
makes one pass, or another fiber calls `fev_fiber_detach`. -/
inductive fiber_op where
  | exit (return_value : Nat)
  | exit_post
  | join_enter
  | join_loop
  | detach
  deriving DecidableEq, Repr

/-- One step in the life of a fiber.  A fiber exits once and its post-action runs
once, after the exit; a pass of the loop of `fev_fiber_join` needs a caller inside
the loop; a step that cannot happen leaves everything as it is. -/
def fiber_op_step (op : fiber_op) (l : fiber_life) : fiber_life :=
  match op with
  | .exit return_value =>
    if l.exit_called then l
    else { l with fiber := fev_fiber_exit_mark l.fiber return_value, exit_called := true }
  | .exit_post =>
    if l.exit_called ∧ l.post_done = false then
      { l with fiber := (fev_fiber_exit_post l.fiber l.sched).1,
               sched := (fev_fiber_exit_post l.fiber l.sched).2.1, post_done := true }
    else l
  | .join_enter =>
    { l with fiber := (fev_fiber_join_enter true l.fiber).1,
             joiner_in_loop :=
               l.joiner_in_loop || (fev_fiber_join_enter true l.fiber).2.isNone }
  | .join_loop =>
    if l.joiner_in_loop then
      { l with fiber := (fev_fiber_join_loop l.fiber).1,
               joiner_in_loop := (fev_fiber_join_loop l.fiber).2.isNone,
               joins := if (fev_fiber_join_loop l.fiber).2 = some 0 then l.joins + 1
                        else l.joins }
    else l
  | .detach =>
    { l with fiber := (fev_fiber_detach true l.fiber).1,
             detaches := if (fev_fiber_detach true l.fiber).2 = 0 then l.detaches + 1
                         else l.detaches }

/-- The steps of a list, in order. -/
def fiber_run : List fiber_op → fiber_life → fiber_life
  | [], l => l
  | op :: ops, l => fiber_run ops (fiber_op_step op l)

/-- The life of a fiber that `fev_fiber_create` has just returned. -/
def fiber_life_init (fiber : fev_fiber) (sched : fev_sched) : fiber_life :=
  { fiber := fiber, sched := sched, exit_called := false, post_done := false,
    joiner_in_loop := false, joins := 0, detaches := 0 }

/-- Number of references released so far: one by the post-action of the exit, one
by every successful join or detach. -/
def fiber_life.released (l : fiber_life) : Nat :=
  (if l.post_done then 1 else 0) + l.joins + l.detaches

/-- Invariant of the life of a fiber created joinable: at most one join and one
detach have succeeded; the fiber is joinable until a detach succeeds; a successful
join has seen the fiber dead and left `FEV_FIBER_JOINING` set; the fiber is dead
once it has called `fev_fiber_exit`; the reference count is 2 minus the number of
references released (32 bits), and the fiber is freed once two are released. -/
def fiber_life_inv (l : fiber_life) : Prop :=
  l.joins ≤ 1 ∧ l.detaches ≤ 1 ∧
  l.fiber.flags.joinable = decide (l.detaches = 0) ∧
  (l.joins = 1 →
    (l.fiber.flags.joining = true ∧ l.fiber.flags.dead = true ∧ l.joiner_in_loop = false)) ∧
  (l.joiner_in_loop = true → l.fiber.flags.joining = true) ∧
  l.fiber.flags.dead = l.exit_called ∧
  (l.post_done = true → l.exit_called = true) ∧
  l.fiber.ref_count = (2 + 4294967296 - l.released) % 4294967296 ∧
  l.fiber.freed = decide (2 ≤ l.released)

/-- Invariant of the life of a fiber created detached: no join and no detach
succeeds, and the only reference is released by the post-action of the exit. -/
def fiber_life_inv_detached (l : fiber_life) : Prop :=
  l.joins = 0 ∧ l.detaches = 0 ∧ l.fiber.flags.joinable = false ∧
  l.fiber.ref_count = (if l.post_done then 0 else 1) ∧
  l.fiber.freed = l.post_done

/-! ## QSBR (`fev_qsbr.h`) and the sockets freed through it (`fev_poller_reactor.c`)

Every operation is taken as one atomic step.  A list of entries stands for the
chain of `next` pointers from its first entry; threads are numbered from 0. -/

/-- The value of `x` as a `uint32_t`.  A decrement is written
`uint32_wrap (4294967295 + x)`, that is `x - 1` modulo `2^32`. -/
def uint32_wrap (x : Nat) : Nat := x % 4294967296

/-- The record `struct fev_qsbr_global` (`epoch` and `num_remaining` have 32 bits). -/
structure fev_qsbr_global where
  epoch : Nat
  num_remaining : Nat
  to_free1 : List Nat
  to_free2 : List Nat
  num_threads : Nat
  deriving DecidableEq, Repr

/-- The global record and the records `struct fev_qsbr_local` of the threads:
`locals t` is `local->epoch` of the thread `t`. -/
structure qsbr_state where
  global : fev_qsbr_global
  locals : Nat → Nat

/-- The state left by `fev_qsbr_init_global(global, num_threads)` and
`fev_qsbr_init_local` for every thread. -/
def fev_qsbr_init (num_threads : Nat) : qsbr_state :=
  { global := { epoch := 0, num_remaining := 0, to_free1 := [], to_free2 := [],
                num_threads := num_threads },
    locals := fun _ => 0 }

/-- The store `local->epoch = epoch` of the thread `t`. -/
def set_local (locals : Nat → Nat) (t : Nat) (epoch : Nat) : Nat → Nat :=
  fun u => if u = t then epoch else locals u

/-- The function `fev_qsbr_free(global, local, entry)` called by the thread `t`. -/
def fev_qsbr_free (s : qsbr_state) (t : Nat) (entry : Nat) : qsbr_state :=
  if s.global.to_free1 = [] then
    let epoch := s.global.epoch
    { global := { s.global with
                  to_free1 := [entry],
                  num_remaining := uint32_wrap (4294967295 + s.global.num_threads),
                  epoch := uint32_wrap (epoch + 1) },
      locals := set_local s.locals t (uint32_wrap (epoch + 1)) }
  else
    { s with global := { s.global with to_free2 := entry :: s.global.to_free2 } }

/-- The function `fev_qsbr_quiescent(global, local)` called by the thread `t`: the
state and the list returned (NULL is the empty list). -/
def fev_qsbr_quiescent (s : qsbr_state) (t : Nat) : qsbr_state × List Nat :=
  let epoch := s.global.epoch
  if epoch = s.locals t then (s, [])
  else
    let num_remaining := s.global.num_remaining
    let g1 := { s.global with num_remaining := uint32_wrap (4294967295 + num_remaining) }
    if num_remaining = 1 then
      let to_free : List Nat := g1.to_free1
      let new_to_free1 : List Nat := g1.to_free2
      if new_to_free1 ≠ [] then
        ({ global := { g1 with
                       to_free2 := [],
                       to_free1 := new_to_free1,
                       num_remaining := uint32_wrap (4294967295 + g1.num_threads),
                       epoch := uint32_wrap (epoch + 1) },
           locals := set_local s.locals t (uint32_wrap (epoch + 1)) }, to_free)
      else
        ({ global := { g1 with to_free1 := [] }, locals := set_local s.locals t epoch },
          to_free)
    else ({ global := g1, locals := set_local s.locals t epoch }, [])

/-- The function `fev_qsbr_fini_global`: the lists `to_free1` and `to_free2`. -/
def fev_qsbr_fini_global (s : qsbr_state) : List Nat × List Nat :=
  (s.global.to_free1, s.global.to_free2)

/-- A call of a QSBR operation by a thread. -/
inductive qsbr_op where
  | free (thread : Nat) (entry : Nat)
  | quiescent (thread : Nat)
  deriving DecidableEq, Repr

/-- The thread that makes the call. -/
def qsbr_op.thread : qsbr_op → Nat
  | .free t _ => t
  | .quiescent t => t

/-- The state after the call. -/
def qsbr_op_step (op : qsbr_op) (s : qsbr_state) : qsbr_state :=
  match op with
  | .free t entry => fev_qsbr_free s t entry
  | .quiescent t => (fev_qsbr_quiescent s t).1

/-- The state after the calls of a list, in order. -/
def qsbr_run : List qsbr_op → qsbr_state → qsbr_state
  | [], s => s
  | op :: ops, s => qsbr_run ops (qsbr_op_step op s)

/-- Number of threads whose local epoch differs from the global one. -/
def qsbr_stale (s : qsbr_state) : Nat :=
  (List.range s.global.num_threads).countP (fun t => decide (s.locals t ≠ s.global.epoch))

/-- Invariant of QSBR between operations: there are at least two threads; while
`to_free1` is empty, so is `to_free2` and every thread is at the global epoch;
while it is not, `num_remaining` counts the threads that are not at the global
epoch. -/
def qsbr_inv (s : qsbr_state) : Prop :=
  2 ≤ s.global.num_threads ∧ s.global.num_threads < 4294967296 ∧
  s.global.epoch < 4294967296 ∧
  (s.global.to_free1 = [] →
    (s.global.to_free2 = [] ∧ ∀ t, t < s.global.num_threads → s.locals t = s.global.epoch)) ∧
  (s.global.to_free1 ≠ [] → s.global.num_remaining = qsbr_stale s)

/-- The constant `FEV_POLLER_WAKE_ALL_THRESHOLD`. -/
def FEV_POLLER_WAKE_ALL_THRESHOLD : Nat := 64

/-- The constant `FEV_POLLER_WAKE_ALL_STEP`. -/
def FEV_POLLER_WAKE_ALL_STEP : Nat := 32

/-- What `fev_poller_free_socket` and `fev_poller_quiescent` use of the scheduler and
its poller: the number of workers, the QSBR state of the sockets (one thread per
worker), the counter `num_sockets_to_free` (32 bits), the sockets handed to
`fev_free` so far, latest first, and the number of calls of
`fev_sched_wake_all_workers`. -/
structure poller_sockets where
  num_workers : Nat
  qsbr : qsbr_state
  num_sockets_to_free : Nat
  freed : List Nat
  num_wake_all : Nat

/-- The function `fev_poller_free_socket(worker, socket)`. -/
def fev_poller_free_socket (s : poller_sockets) (worker : Nat) (socket : Nat) :
    poller_sockets :=
  if s.num_workers = 1 then { s with freed := socket :: s.freed }
  else
    let num_sockets_to_free := s.num_sockets_to_free
    { s with
      qsbr := fev_qsbr_free s.qsbr worker socket,
      num_sockets_to_free := uint32_wrap (s.num_sockets_to_free + 1),
      num_wake_all :=
        if num_sockets_to_free ≥ FEV_POLLER_WAKE_ALL_THRESHOLD ∧
            num_sockets_to_free % FEV_POLLER_WAKE_ALL_STEP = 0 then s.num_wake_all + 1
        else s.num_wake_all }

/-- The function `fev_poller_quiescent(worker)`, with `fev_poller_free_socket_list`
on the list returned by `fev_qsbr_quiescent`. -/
def fev_poller_quiescent (s : poller_sockets) (worker : Nat) : poller_sockets :=
  let r := fev_qsbr_quiescent s.qsbr worker
  let num_freed := uint32_wrap r.2.length
  { s with
    qsbr := r.1,
    freed := r.2.reverse ++ s.freed,
    num_sockets_to_free :=
      if num_freed > 0 then uint32_wrap (4294967296 + s.num_sockets_to_free - num_freed)
      else s.num_sockets_to_free }

/-- The threads of `seen` cover the entry `entry` freed by the thread `freer`: while
the entry is in `to_free1`, every other thread that is at the global epoch is in
`seen`. -/
def qsbr_covered (s : qsbr_state) (freer entry : Nat) (seen : Nat → Prop) : Prop :=
  entry ∈ s.global.to_free1 →
    ∀ t, t < s.global.num_threads → t ≠ freer → s.locals t = s.global.epoch → seen t

/-- The shadow minimum mirrors the bucket: it is NULL when `fev_timers_bucket_empty`
holds, and otherwise the timer returned by `fev_timers_bucket_min`. -/
def shadow_mirrors (bucket : fev_timers_bucket) : Prop :=
  bucket.min =
    if fev_timers_bucket_empty bucket then none else some (fev_timers_bucket_min bucket)

/-- The calls of a list in order, from the state `s`: the state they leave, and the
entries of the lists returned by the calls of `fev_qsbr_quiescent`, in the order
in which they were returned. -/
def qsbr_run_returned : List qsbr_op → qsbr_state → qsbr_state × List Nat
  | [], s => (s, [])
  | .free t entry :: ops, s => qsbr_run_returned ops (fev_qsbr_free s t entry)
  | .quiescent t :: ops, s =>
    ((qsbr_run_returned ops (fev_qsbr_quiescent s t).1).1,
      (fev_qsbr_quiescent s t).2 ++ (qsbr_run_returned ops (fev_qsbr_quiescent s t).1).2)

/-- The entries passed to `fev_qsbr_free` by the calls of a list, in order. -/
def qsbr_freed_entries : List qsbr_op → List Nat
  | [] => []
  | .free _ entry :: ops => entry :: qsbr_freed_entries ops
  | .quiescent _ :: ops => qsbr_freed_entries ops

/-! ## Work-sharing scheduler with the locked run queue (`fev_sched_shr_locking.c`,
`fev_sched_shr_locking_impl.h`)

The run queue is a `STAILQ` of fibers; a list stands for it, first fiber first.
The critical sections under `run_queue_lock` are one step each. -/

/-- What the run-queue functions use of `struct fev_sched` in this scheduler: the
run queue and the counter `num_run_fibers` (32 bits). -/
structure fev_sched_shr_locking where
  run_queue : List Nat
  num_run_fibers : Nat
  deriving DecidableEq, Repr

/-- The function `fev_sched_put(sched, fiber)` of `fev_sched_shr_locking.c`:
`STAILQ_INSERT_HEAD`, then one more runnable fiber; returns 0. -/
def fev_sched_shr_locking.fev_sched_put (sched : fev_sched_shr_locking) (fiber : Nat) :
    fev_sched_shr_locking × Int :=
  ({ run_queue := fiber :: sched.run_queue,
     num_run_fibers := uint32_wrap (sched.num_run_fibers + 1) }, 0)

/-- The function `fev_push_one(worker, fiber)` of `fev_sched_shr_locking_impl.h`:
`STAILQ_INSERT_TAIL` under the lock. -/
def fev_sched_shr_locking.fev_push_one (sched : fev_sched_shr_locking) (fiber : Nat) :
    fev_sched_shr_locking :=
  { sched with run_queue := sched.run_queue ++ [fiber] }

/-- The function `fev_push_stq(worker, fibers, num_fibers)` of
`fev_sched_shr_locking_impl.h`: the list `fibers` (not empty, by the assertion) is
linked after the last fiber of the run queue, under the lock. -/
def fev_sched_shr_locking.fev_push_stq (sched : fev_sched_shr_locking) (fibers : List Nat) :
    fev_sched_shr_locking :=
  { sched with run_queue := sched.run_queue ++ fibers }

/-- The critical section at `get_fiber` in `fev_sched_work`: `STAILQ_FIRST`, and
`STAILQ_REMOVE_HEAD` when there is a fiber.  Returns the scheduler and
`cur_fiber` (NULL is `none`). -/
def fev_sched_shr_locking.fev_sched_work_get_fiber (sched : fev_sched_shr_locking) :
    fev_sched_shr_locking × Option Nat :=
  match sched.run_queue with
  | [] => (sched, none)
  | fiber :: rest => ({ sched with run_queue := rest }, some fiber)

/-- An operation on the run queue: an insertion by `fev_sched_put`, `fev_push_one` or
`fev_push_stq`, or a pass of a worker through `get_fiber`. -/
inductive run_queue_op where
  | put (fiber : Nat)
  | push_one (fiber : Nat)
  | push_stq (fibers : List Nat)
  | get_fiber
  deriving DecidableEq, Repr

/-- One operation: the scheduler, and the fiber removed by the worker, if any. -/
def run_queue_op_step (op : run_queue_op) (sched : fev_sched_shr_locking) :
    fev_sched_shr_locking × List Nat :=
  match op with
  | .put fiber => ((sched.fev_sched_put fiber).1, [])
  | .push_one fiber => (sched.fev_push_one fiber, [])
  | .push_stq fibers => (sched.fev_push_stq fibers, [])
  | .get_fiber => (sched.fev_sched_work_get_fiber.1, sched.fev_sched_work_get_fiber.2.toList)

/-- The operations in order: the scheduler at the end, and the fibers removed by
the workers, in the order of their removal. -/
def run_queue_run : List run_queue_op → fev_sched_shr_locking →
    fev_sched_shr_locking × List Nat
  | [], sched => (sched, [])
  | op :: ops, sched =>
    ((run_queue_run ops (run_queue_op_step op sched).1).1,
      (run_queue_op_step op sched).2 ++ (run_queue_run ops (run_queue_op_step op sched).1).2)

/-- The fibers inserted by the operations of a list, in the order of their
insertion. -/
def run_queue_inserted : List run_queue_op → List Nat
  | [] => []
  | .put fiber :: ops => fiber :: run_queue_inserted ops
  | .push_one fiber :: ops => fiber :: run_queue_inserted ops
  | .push_stq fibers :: ops => fibers ++ run_queue_inserted ops
  | .get_fiber :: ops => run_queue_inserted ops

/-- The operation is a pass of a worker or an insertion at the tail:
`fev_push_one`, or `fev_push_stq` of a list that is not empty. -/
def run_queue_op.at_tail : run_queue_op → Bool
  | .put _ => false
  | .push_one _ => true
  | .push_stq fibers => !fibers.isEmpty
  | .get_fiber => true

/-! ## Internal lock (`fev_ilock_intf.h`, `fev_ilock_impl.h`, `fev_ilock.c`)

The fast paths are one atomic operation on `state`; the slow paths run under the
inner lock `ilock->lock` and are one step each (in `fev_ilock_lock_slow` the inner
lock is released by `fev_ilock_lock_post`, after the context switch).  A list
stands for the `STAILQ` of waiting fibers, first fiber first. -/

/-- The record `struct fev_ilock`: `state` and the queue `waiters`. -/
structure fev_ilock where
  state : Nat
  waiters : List Nat
  deriving DecidableEq, Repr

/-- The state left by `fev_ilock_init`. -/
def fev_ilock_init : fev_ilock := { state := 0, waiters := [] }

/-- The function `fev_ilock_lock_slow(ilock)` called by the fiber `cur_fiber`, up to
the context switch: the exchange of `state` with 2, then either the store of 1
(the function returns false, the caller owns the lock) or the insertion of the
fiber at the tail of `waiters` (`true`: the fiber is switched out, and the
function returns true once the fiber is resumed). -/
def fev_ilock_lock_slow (ilock : fev_ilock) (cur_fiber : Nat) : fev_ilock × Bool :=
  let state := ilock.state
  let ilock1 := { ilock with state := 2 }
  if state = 0 then ({ ilock1 with state := 1 }, false)
  else ({ ilock1 with waiters := ilock1.waiters ++ [cur_fiber] }, true)

/-- The function `fev_ilock_lock(ilock)` called by the fiber `cur_fiber`; `cas_ok`
tells that the weak compare-and-swap does not fail spuriously.  The Boolean is
the return value (`true`: the fiber was switched out). -/
def fev_ilock_lock (ilock : fev_ilock) (cur_fiber : Nat) (cas_ok : Bool) : fev_ilock × Bool :=
  if ilock.state = 0 ∧ cas_ok = true then ({ ilock with state := 1 }, false)
  else fev_ilock_lock_slow ilock cur_fiber

/-- The function `fev_ilock_unlock_slow(ilock)`: the ilock and the fiber returned;
`none` when one of its assertions fails (`state == 2`, `fiber != NULL`). -/
def fev_ilock_unlock_slow (ilock : fev_ilock) : Option (fev_ilock × Nat) :=
  if ilock.state ≠ 2 then none
  else
    match ilock.waiters with
    | [] => none
    | fiber :: rest =>
      if rest = [] then some ({ state := 1, waiters := rest }, fiber)
      else some ({ ilock with waiters := rest }, fiber)

/-- The function `fev_ilock_unlock(ilock)`: the ilock and the fiber returned (NULL is
`none`); `none` when an assertion of `fev_ilock_unlock_slow` fails. -/
def fev_ilock_unlock (ilock : fev_ilock) : Option (fev_ilock × Option Nat) :=
  if ilock.state = 1 then some ({ ilock with state := 0 }, none)
  else
    match fev_ilock_unlock_slow ilock with
    | none => none
    | some r => some (r.1, some r.2)

/-- An ilock together with the fiber that owns it (nobody is `none`). -/
structure ilock_owned where
  ilock : fev_ilock
  owner : Option Nat
  deriving DecidableEq, Repr

/-- A call on the ilock: `fev_ilock_lock` by a fiber, or `fev_ilock_unlock` by the
owner. -/
inductive ilock_op where
  | lock (fiber : Nat) (cas_ok : Bool)
  | unlock
  deriving DecidableEq, Repr

/-- One call, between two points where the inner lock is not held.  A fiber that
`fev_ilock_lock` does not switch out owns the lock; the fiber returned by
`fev_ilock_unlock` owns the lock from then on, and nobody when it returns NULL.
`fev_ilock_unlock` is called by the owner: without an owner the step does not
happen.  The result is `none` when an assertion fails. -/
def ilock_op_step (op : ilock_op) (s : ilock_owned) : Option ilock_owned :=
  match op with
  | .lock fiber cas_ok =>
    some { ilock := (fev_ilock_lock s.ilock fiber cas_ok).1,
           owner := if (fev_ilock_lock s.ilock fiber cas_ok).2 then s.owner else some fiber }
  | .unlock =>
    match s.owner with
    | none => some s
    | some _ =>
      match fev_ilock_unlock s.ilock with
      | none => none
      | some r => some { ilock := r.1, owner := r.2 }

/-- The calls of a list, in order. -/
def ilock_run : List ilock_op → ilock_owned → Option ilock_owned
  | [], s => some s
  | op :: ops, s =>
    match ilock_op_step op s with
    | none => none
    | some s1 => ilock_run ops s1

/-- The state encodes the lock: 0 exactly when nobody owns it, 1 exactly when it is
owned and no fiber waits, 2 exactly when it is owned and some fiber waits; and
no fiber waits while nobody owns the lock. -/
def ilock_inv (s : ilock_owned) : Prop :=
  (s.ilock.state = 0 ↔ s.owner = none) ∧
  (s.ilock.state = 1 ↔ (s.owner ≠ none ∧ s.ilock.waiters = [])) ∧
  (s.ilock.state = 2 ↔ (s.owner ≠ none ∧ s.ilock.waiters ≠ [])) ∧
  (s.owner = none → s.ilock.waiters = [])

/-! ## The counters of the scheduler (`fev_fiber.c`, `fev_sched_impl.h`,
`fev_waiter_impl.h`, `fev_ilock.c`, `fev_sched_shr_bounded_mpmc.c`)

Every complete operation that changes `num_fibers` or `num_run_fibers` is one
step.  Besides the two counters (32 bits) the state counts the fibers themselves:
those that are runnable (running or in a run queue) and those that are parked. -/

/-- The counters `sched->num_run_fibers` and `sched->num_fibers`, with the number of
runnable fibers and the number of parked fibers. -/
structure sched_counters where
  num_run_fibers : Nat
  num_fibers : Nat
  runnable : Nat
  parked : Nat
  deriving DecidableEq, Repr

/-- The counters after `fev_sched_init`: no fiber. -/
def sched_counters_init : sched_counters :=
  { num_run_fibers := 0, num_fibers := 0, runnable := 0, parked := 0 }

/-- A successful `fev_fiber_create`: `num_fibers + 1`, then `num_run_fibers + 1` in
`fev_sched_put` or in `fev_wake_up_waiting_workers(worker, 1)`; there is one more
runnable fiber. -/
def sched_counters.fev_fiber_create (s : sched_counters) : sched_counters :=
  { num_fibers := uint32_wrap (s.num_fibers + 1),
    num_run_fibers := uint32_wrap (s.num_run_fibers + 1),
    runnable := s.runnable + 1, parked := s.parked }

/-- A running fiber parks in `fev_waiter_wait`, in `fev_ilock_lock_slow` (through
`fev_ilock_lock_post`) or in `fev_yield`: `num_run_fibers - 1`. -/
def sched_counters.park (s : sched_counters) : sched_counters :=
  { s with num_run_fibers := uint32_wrap (4294967295 + s.num_run_fibers),
           runnable := s.runnable - 1, parked := s.parked + 1 }

/-- The function `fev_wake_up_waiting_workers(worker, num_fibers)` after the push of
`num_fibers` parked fibers on a run queue: `num_run_fibers + num_fibers`. -/
def sched_counters.fev_wake_up_waiting_workers (s : sched_counters) (num_fibers : Nat) :
    sched_counters :=
  { s with num_run_fibers := uint32_wrap (s.num_run_fibers + num_fibers),
           runnable := s.runnable + num_fibers, parked := s.parked - num_fibers }

/-- The function `fev_fiber_exit_post` for the fiber that has exited: `num_fibers - 1`
and `num_run_fibers - 1`. -/
def sched_counters.fev_fiber_exit_post (s : sched_counters) : sched_counters :=
  { num_fibers := uint32_wrap (4294967295 + s.num_fibers),
    num_run_fibers := uint32_wrap (4294967295 + s.num_run_fibers),
    runnable := s.runnable - 1, parked := s.parked }

/-- A complete operation on the counters. -/
inductive counters_op where
  | create
  | park
  | wake (k : Nat)
  | exit
  deriving DecidableEq, Repr

/-- One operation.  A fiber is created while fewer than `2^32 - 1` exist; a fiber
parks or exits while it runs, so there is a runnable fiber; `k` parked fibers
are woken when that many are parked; a step that cannot happen leaves
everything as it is. -/
def counters_op_step (op : counters_op) (s : sched_counters) : sched_counters :=
  match op with
  | .create => if s.runnable + s.parked < 4294967295 then s.fev_fiber_create else s
  | .park => if 0 < s.runnable then s.park else s
  | .wake k => if k ≤ s.parked then s.fev_wake_up_waiting_workers k else s
  | .exit => if 0 < s.runnable then s.fev_fiber_exit_post else s

/-- The operations of a list, in order. -/
def counters_run : List counters_op → sched_counters → sched_counters
  | [], s => s
  | op :: ops, s => counters_run ops (counters_op_step op s)

/-- The counters agree with the fibers: `num_run_fibers` is the number of runnable
fibers and `num_fibers` the number of all fibers, below `2^32`. -/
def sched_counters_inv (s : sched_counters) : Prop :=
  s.num_run_fibers = s.runnable ∧ s.num_fibers = s.runnable + s.parked ∧
  s.runnable + s.parked < 4294967296

/-- The labels of `fev_sched_work`; `wait` is the part after the test of
`num_fibers`, `out` the label before the return. -/
inductive work_label where
  | switch_to_fiber
  | get_fiber
  | check_poller
  | wait
  | out
  deriving DecidableEq, Repr

/-- What a worker reads on its way from one label of `fev_sched_work` to the next:
whether `fev_bounded_mpmc_queue_pop` returned a fiber, the value of
`poller_backoff` read by the `atomic_fetch_sub`, and the values of `num_run_fibers`
and `num_fibers` read by the two loads. -/
structure work_reads where
  popped : Bool
  backoff : Nat
  num_run_fibers : Nat
  num_fibers : Nat
  deriving DecidableEq, Repr

/-- The control flow of `fev_sched_work`: the label reached from `label`. -/
def fev_sched_work_next (label : work_label) (r : work_reads) : work_label :=
  match label with
  | .switch_to_fiber => if r.backoff = 1 then .check_poller else .get_fiber
  | .get_fiber => if r.popped then .switch_to_fiber else .check_poller
  | .check_poller =>
    if r.num_run_fibers > 0 then .get_fiber
    else if r.num_fibers = 0 then .out
    else .wait
  | .wait => .get_fiber
  | .out => .out

/-- The labels passed by a worker, for the reads of a list. -/
def fev_sched_work_labels : List work_reads → work_label → work_label
  | [], label => label
  | r :: rs, label => fev_sched_work_labels rs (fev_sched_work_next label r)

/-! ## Bounded MPMC queue (`fev_bounded_mpmc_queue.h`)

The functions are run without interleaving.  A compare-and-swap succeeds when the
value is the expected one (a spurious failure of the weak compare-and-swap only
repeats the pass).  The loops take a number of passes `fuel`; `none` stands for a
loop that has not ended within it. -/

/-- The record `struct fev_bounded_mpmc_queue_cell`. -/
structure fev_bounded_mpmc_queue_cell where
  sequence : Nat
  data : Nat
  deriving DecidableEq, Repr

/-- The record `struct fev_bounded_mpmc_queue`; `buffer i` is the cell `buffer[i]`;
`head` and `tail` have 32 bits. -/
structure fev_bounded_mpmc_queue where
  buffer : Nat → fev_bounded_mpmc_queue_cell
  buffer_mask : Nat
  head : Nat
  tail : Nat

/-- The store of the cell `c` at `buffer[i]`. -/
def cell_set (buffer : Nat → fev_bounded_mpmc_queue_cell) (i : Nat)
    (c : fev_bounded_mpmc_queue_cell) : Nat → fev_bounded_mpmc_queue_cell :=
  fun j => if j = i then c else buffer j

/-- The function `fev_bounded_mpmc_queue_init(queue, capacity)` when the allocation
succeeds; `buffer0` is the memory returned by `fev_aligned_alloc`. -/
def fev_bounded_mpmc_queue_init (buffer0 : Nat → fev_bounded_mpmc_queue_cell)
    (capacity : Nat) : fev_bounded_mpmc_queue :=
  { buffer := fun i => if i < capacity then { buffer0 i with sequence := i } else buffer0 i,
    buffer_mask := capacity - 1, head := 0, tail := 0 }

/-- The function `fev_bounded_mpmc_queue_size`: `tail - head` (32 bits). -/
def fev_bounded_mpmc_queue_size (queue : fev_bounded_mpmc_queue) : Nat :=
  uint32_wrap (4294967296 + queue.tail - queue.head)

/-- The loop of `fev_bounded_mpmc_queue_pop`, with the local variable `head`; then
the read of the data and the store of the sequence.  Returns the queue and the
data (`none` when the function returns false). -/
def fev_bounded_mpmc_queue_pop_loop (queue : fev_bounded_mpmc_queue) :
    Nat → Nat → Option (fev_bounded_mpmc_queue × Option Nat)
  | 0, _ => none
  | fuel + 1, head =>
    let index := head &&& queue.buffer_mask
    let seq := (queue.buffer index).sequence
    let diff := int32_wrap (uint32_wrap (4294967296 + seq - uint32_wrap (head + 1)) : Nat)
    if diff = 0 then
      if queue.head = head then
        let data := (queue.buffer index).data
        some ({ queue with
                head := uint32_wrap (head + 1),
                buffer := cell_set queue.buffer index
                  { sequence := uint32_wrap (head + queue.buffer_mask + 1), data := data } },
              some data)
      else fev_bounded_mpmc_queue_pop_loop queue fuel queue.head
    else if diff < 0 then some (queue, none)
    else fev_bounded_mpmc_queue_pop_loop queue fuel queue.head

/-- The function `fev_bounded_mpmc_queue_pop(queue, data_ptr)`. -/
def fev_bounded_mpmc_queue_pop (fuel : Nat) (queue : fev_bounded_mpmc_queue) :
    Option (fev_bounded_mpmc_queue × Option Nat) :=
  fev_bounded_mpmc_queue_pop_loop queue fuel queue.head

/-- The loop of `fev_bounded_mpmc_queue_push`, with the local variable `tail`; then
the stores of the data and of the sequence.  Returns the queue and the return
value. -/
def fev_bounded_mpmc_queue_push_loop (queue : fev_bounded_mpmc_queue) (data : Nat) :
    Nat → Nat → Option (fev_bounded_mpmc_queue × Bool)
  | 0, _ => none
  | fuel + 1, tail =>
    let index := tail &&& queue.buffer_mask
    let seq := (queue.buffer index).sequence
    let diff := int32_wrap (uint32_wrap (4294967296 + seq - tail) : Nat)
    if diff = 0 then
      if queue.tail = tail then
        some ({ queue with
                tail := uint32_wrap (tail + 1),
                buffer := cell_set queue.buffer index
                  { sequence := uint32_wrap (tail + 1), data := data } },
              true)
      else fev_bounded_mpmc_queue_push_loop queue data fuel queue.tail
    else if diff < 0 then some (queue, false)
    else fev_bounded_mpmc_queue_push_loop queue data fuel queue.tail

/-- The function `fev_bounded_mpmc_queue_push(queue, data)`. -/
def fev_bounded_mpmc_queue_push (fuel : Nat) (queue : fev_bounded_mpmc_queue) (data : Nat) :
    Option (fev_bounded_mpmc_queue × Bool) :=
  fev_bounded_mpmc_queue_push_loop queue data fuel queue.tail

/-- The elements stored in the queue, oldest first: the data of the cells from
`head` up to `tail`. -/
def fev_bounded_mpmc_queue_contents (queue : fev_bounded_mpmc_queue) : List Nat :=
  (List.range (fev_bounded_mpmc_queue_size queue)).map
    (fun i => (queue.buffer ((queue.head + i) % (queue.buffer_mask + 1))).data)

/-- State of a queue of capacity `2^k` between two operations: at most `2^k`
elements are stored; the cell of the `i`-th stored element has the sequence
`head + i + 1`, and the other cells, in the order in which they will be filled,
have the sequences `head + i` (32 bits). -/
def mpmc_inv (k : Nat) (queue : fev_bounded_mpmc_queue) : Prop :=
  queue.buffer_mask = 2 ^ k - 1 ∧ queue.head < 4294967296 ∧ queue.tail < 4294967296 ∧
  fev_bounded_mpmc_queue_size queue ≤ 2 ^ k ∧
  (∀ i, i < fev_bounded_mpmc_queue_size queue →
    (queue.buffer ((queue.head + i) % 2 ^ k)).sequence = uint32_wrap (queue.head + i + 1)) ∧
  (∀ i, fev_bounded_mpmc_queue_size queue ≤ i → i < 2 ^ k →
    (queue.buffer ((queue.head + i) % 2 ^ k)).sequence = uint32_wrap (queue.head + i))

/-- An operation on the queue. -/
inductive mpmc_op where
  | push (data : Nat)
  | pop
  deriving DecidableEq, Repr

/-- What an operation returns: the return value of a push, or the data stored by a
pop (`none` when it returns false). -/
inductive mpmc_result where
  | pushed (ok : Bool)
  | popped (data : Option Nat)
  deriving DecidableEq, Repr

/-- The operations of a list on the queue, in order, each loop with `fuel` passes:
the queue and what the operations return. -/
def mpmc_run (fuel : Nat) : List mpmc_op → fev_bounded_mpmc_queue →
    Option (fev_bounded_mpmc_queue × List mpmc_result)
  | [], queue => some (queue, [])
  | .push data :: ops, queue =>
    match fev_bounded_mpmc_queue_push fuel queue data with
    | none => none
    | some r =>
      match mpmc_run fuel ops r.1 with
      | none => none
      | some r2 => some (r2.1, .pushed r.2 :: r2.2)
  | .pop :: ops, queue =>
    match fev_bounded_mpmc_queue_pop fuel queue with
    | none => none
    | some r =>
      match mpmc_run fuel ops r.1 with
      | none => none
      | some r2 => some (r2.1, .popped r.2 :: r2.2)

/-- A FIFO bounded by `capacity`, as the specification has it: a push succeeds
exactly when fewer than `capacity` elements are stored, and stores the element
last. -/
def fifo_push (capacity : Nat) (stored : List Nat) (data : Nat) : List Nat × Bool :=
  if stored.length < capacity then (stored ++ [data], true) else (stored, false)

/-- A FIFO as the specification has it: a pop succeeds exactly when an element is
stored, and returns the oldest one. -/
def fifo_pop (stored : List Nat) : List Nat × Option Nat :=
  match stored with
  | [] => ([], none)
  | data :: rest => (rest, some data)

/-- The operations of a list on the FIFO bounded by `capacity`. -/
def fifo_run (capacity : Nat) : List mpmc_op → List Nat → List Nat × List mpmc_result
  | [], stored => (stored, [])
  | .push data :: ops, stored =>
    ((fifo_run capacity ops (fifo_push capacity stored data).1).1,
      .pushed (fifo_push capacity stored data).2 ::
        (fifo_run capacity ops (fifo_push capacity stored data).1).2)
  | .pop :: ops, stored =>
    ((fifo_run capacity ops (fifo_pop stored).1).1,
      .popped (fifo_pop stored).2 :: (fifo_run capacity ops (fifo_pop stored).1).2)

/-- The function `fev_bounded_mpmc_queue_push_stq(queue, stqh, num_fibers)`: its loop on
the list from `cur` on, with the counter `n` (32 bits).  Returns the queue, the
fibers from `cur` on when the loop ends, and `n`. -/
def fev_bounded_mpmc_queue_push_stq_loop (fuel : Nat) :
    fev_bounded_mpmc_queue → List Nat → Nat → Option (fev_bounded_mpmc_queue × List Nat × Nat)
  | queue, [], n => some (queue, [], n)
  | queue, cur :: next, n =>
    match fev_bounded_mpmc_queue_push fuel queue cur with
    | none => none
    | some r =>
      if r.2 = false then some (r.1, cur :: next, n)
      else fev_bounded_mpmc_queue_push_stq_loop fuel r.1 next (uint32_wrap (n + 1))

/-- The function `fev_bounded_mpmc_queue_push_stq(queue, stqh, num_fibers)`: the queue,
the list left in `stqh` and the value left in `*num_fibers`. -/
def fev_bounded_mpmc_queue_push_stq (fuel : Nat) (queue : fev_bounded_mpmc_queue)
    (stqh : List Nat) (_num_fibers : Nat) : Option (fev_bounded_mpmc_queue × List Nat × Nat) :=
  fev_bounded_mpmc_queue_push_stq_loop fuel queue stqh 0

/-! ## Bounded SPMC queue (`fev_bounded_spmc_queue.h`) and the run queue of the
work-stealing scheduler built on it (`fev_sched_steal_bounded_spmc_impl.h`,
`fev_sched_steal_bounded_spmc.c`) -/

/-- The record `struct fev_bounded_spmc_queue`; `head` and `tail` have 32 bits. -/
structure fev_bounded_spmc_queue where
  buffer : Nat → Nat
  buffer_mask : Nat
  head : Nat
  tail : Nat

/-- The function `fev_bounded_spmc_queue_size`: `tail - head` (32 bits). -/
def fev_bounded_spmc_queue_size (queue : fev_bounded_spmc_queue) : Nat :=
  uint32_wrap (4294967296 + queue.tail - queue.head)

/-- The loop `for (i = 0; i < n; i++)` of `fev_bounded_spmc_queue_push_stq`, for the
passes that are left: the buffer, the local variable `tail` and the fibers from
`cur` on.  `none` stands for the dereference of `cur == NULL`. -/
def fev_bounded_spmc_queue_push_stq_loop (buffer_mask : Nat) :
    Nat → (Nat → Nat) → Nat → List Nat → Option ((Nat → Nat) × Nat × List Nat)
  | 0, buffer, tail, cur => some (buffer, tail, cur)
  | _ + 1, _, _, [] => none
  | n + 1, buffer, tail, cur :: next =>
    fev_bounded_spmc_queue_push_stq_loop buffer_mask n
      (heap_set buffer (tail &&& buffer_mask) cur) (uint32_wrap (tail + 1)) next

/-- The function `fev_bounded_spmc_queue_push_stq(queue, stqh, num_fibers)`: the queue,
the list left in `stqh` and the value left in `*num_fibers`. -/
def fev_bounded_spmc_queue_push_stq (queue : fev_bounded_spmc_queue) (stqh : List Nat)
    (num_fibers : Nat) : Option (fev_bounded_spmc_queue × List Nat × Nat) :=
  let size := uint32_wrap (queue.buffer_mask + 1)
  let free := uint32_wrap (4294967296 + size - uint32_wrap (4294967296 + queue.tail - queue.head))
  let n := if free < num_fibers then free else num_fibers
  match fev_bounded_spmc_queue_push_stq_loop queue.buffer_mask n queue.buffer queue.tail stqh with
  | none => none
  | some r => some ({ queue with buffer := r.1, tail := r.2.1 }, r.2.2, n)

/-- The fibers stored in the queue, oldest first. -/
def fev_bounded_spmc_queue_contents (queue : fev_bounded_spmc_queue) : List Nat :=
  (List.range (fev_bounded_spmc_queue_size queue)).map
    (fun i => queue.buffer ((queue.head + i) % (queue.buffer_mask + 1)))

/-- State of a queue of size `2^k` between two operations: at most `2^k` fibers are
stored. -/
def spmc_inv (k : Nat) (queue : fev_bounded_spmc_queue) : Prop :=
  queue.buffer_mask = 2 ^ k - 1 ∧ queue.head < 4294967296 ∧ queue.tail < 4294967296 ∧
  fev_bounded_spmc_queue_size queue ≤ 2 ^ k

/-- What `fev_push_stq` uses of the worker and of its scheduler: the run queue of the
worker, the fallback queue of the scheduler (a `STAILQ`, first fiber first) and
its length `fallback_queue_len` (32 bits). -/
structure fev_sched_steal_bounded_spmc where
  run_queue : fev_bounded_spmc_queue
  fallback_queue : List Nat
  fallback_queue_len : Nat

/-- The function `fev_push_stq_fallback(worker, fibers, num_fibers)`: the list is
linked after the last fiber of the fallback queue, under the lock. -/
def fev_sched_steal_bounded_spmc.fev_push_stq_fallback (s : fev_sched_steal_bounded_spmc)
    (fibers : List Nat) (num_fibers : Nat) : fev_sched_steal_bounded_spmc :=
  { s with fallback_queue := s.fallback_queue ++ fibers,
           fallback_queue_len := uint32_wrap (s.fallback_queue_len + num_fibers) }

/-- The function `fev_push_stq(worker, fibers, num_fibers)` of
`fev_sched_steal_bounded_spmc_impl.h`. -/
def fev_sched_steal_bounded_spmc.fev_push_stq (s : fev_sched_steal_bounded_spmc)
    (fibers : List Nat) (num_fibers : Nat) : Option fev_sched_steal_bounded_spmc :=
  match fev_bounded_spmc_queue_push_stq s.run_queue fibers num_fibers with
  | none => none
  | some r =>
    if r.2.2 ≠ num_fibers then
      some (fev_sched_steal_bounded_spmc.fev_push_stq_fallback { s with run_queue := r.1 } r.2.1
        (uint32_wrap (4294967296 + num_fibers - r.2.2)))
    else some { s with run_queue := r.1 }

/-! ## `fev_cond_wait_until` (`fev_cond.c`) as a step relation

The call is followed through `fev_waiters_queue_wait` with a deadline
(`fev_waiters_queue_impl.h`) and `fev_mutex_try_lock_until` (`fev_mutex.c`), together
with what the other fibers, the timers and the notifiers do in between.  Every
critical section under a queue lock is one step.  The state records which fiber
holds the mutex: a fiber acquires it when its `fev_mutex_try_lock` succeeds, when
`fev_mutex_lock_recheck` tells it not to wait, or when `fev_mutex_unlock` wakes its
waiter (the mutex stays locked on its behalf); `fev_mutex_unlock` releases it.
Between the moment the node of the caller is queued and the return of
`fev_timers_add` inside `fev_timed_wait` the queue lock is not held, so the other
fibers take steps there too. -/

/-- The return value of `fev_timed_wait`, from what its callees return: whether
`fev_timers_add` succeeded (it fails with `-ENOMEM` only), the wake reason returned
by `fev_waiter_wait`, and the value returned by `fev_timers_process`. -/
def fev_timed_wait_ret (add_ok : Bool) (reason : Nat) (expired : Bool) : Int :=
  if add_ok = false then -ENOMEM
  else if reason = FEV_WAITER_READY then 0
  else if reason = FEV_WAITER_TIMED_OUT_NO_CHECK then -ETIMEDOUT
  else if expired then -ETIMEDOUT
  else -EAGAIN

/-- Where the caller of `fev_cond_wait_until` is: before the call; with its node in
the queue of the condition, inside `fev_timers_add`; in `fev_waiter_wait` on the
condition; with its node in the queue of the mutex, inside `fev_timers_add`; in
`fev_waiter_wait` on the mutex; or returned with a value. -/
inductive wait_until_pc where
  | start
  | cond_add
  | cond_wait
  | mutex_add
  | mutex_wait
  | returned (ret : Int)
  deriving DecidableEq, Repr

/-- The condition, the mutex, the fiber that holds the mutex (nobody is `none`),
the nodes of the caller (on its stack) as they are once `fev_waiters_queue_wake` has
taken them off the queue of the condition and off the queue of the mutex
(`none` while the node is still queued), and where the caller is. -/
structure wait_until_world where
  cond : fev_cond
  mutex : fev_mutex
  owner : Option Nat
  cond_node : Option fev_waiters_queue_node
  mutex_node : Option fev_waiters_queue_node
  pc : wait_until_pc
  deriving DecidableEq, Repr

/-- The first node of the fiber in a queue. -/
def node_of (nodes : List fev_waiters_queue_node) (fiber : Nat) :
    Option fev_waiters_queue_node :=
  nodes.find? (fun n => decide (n.waiter.fiber = fiber))

/-- The node of the fiber among the nodes taken off a queue by
`fev_waiters_queue_wake`. -/
def removed_node_of (removed : List (fev_waiters_queue_node × fev_waiter_wake_result))
    (fiber : Nat) : Option fev_waiters_queue_node :=
  (removed.find? (fun x => decide (x.1.waiter.fiber = fiber))).map Prod.fst

/-- A call of `fev_waiter_wake(waiter, reason)` on the waiter of the fiber, whose node
is queued. -/
def nodes_wake (nodes : List fev_waiters_queue_node) (fiber : Nat) (reason : Nat) :
    List fev_waiters_queue_node :=
  nodes.map (fun n =>
    if n.waiter.fiber = fiber then { n with waiter := (fev_waiter_wake n.waiter reason).1 }
    else n)

/-- The queue after `TAILQ_REMOVE` of the node of the fiber (a fiber has at most one
node in a queue). -/
def nodes_remove (nodes : List fev_waiters_queue_node) (fiber : Nat) :
    List fev_waiters_queue_node :=
  nodes.filter (fun n => decide (n.waiter.fiber ≠ fiber))

/-- The function `fev_waiter_wait` up to the end of its post-action
`fev_waiter_enable_wake_ups`, run without interleaving: the store of 1 to
`wait_for_post`, the store of 1 to `do_wake`, the load of `reason` and, when it is not
`FEV_WAITER_NONE`, the exchange of `do_wake` with 0 and the store to `wake_reason` (the
fiber is taken for rescheduling), then the store of 0 to `wait_for_post`.  The
interleavings of the post-action with `fev_waiter_wake` are those of
`enable_thread_step`; it writes `reason` in none of them. -/
def fev_waiter_wait_enter (waiter : fev_waiter) : fev_waiter :=
  let w1 := { waiter with wait_for_post := 1 }
  let w2 := { w1 with do_wake := 1 }
  let reason := w2.reason
  let w3 :=
    if reason ≠ 0 then
      let do_wake := w2.do_wake
      let w4 := { w2 with do_wake := 0 }
      if do_wake ≠ 0 then { w4 with wake_reason := reason } else w4
    else w2
  { w3 with wait_for_post := 0 }

/-- The fiber reaches `fev_waiter_wait` with the waiter of its node, here for a node
that is in the queue. -/
def nodes_wait_enter (nodes : List fev_waiters_queue_node) (fiber : Nat) :
    List fev_waiters_queue_node :=
  nodes.map (fun n =>
    if n.waiter.fiber = fiber then { n with waiter := fev_waiter_wait_enter n.waiter }
    else n)

/-- The wake reason that the fiber finds in its waiter: in its node on the stack
when the node was taken off the queue, in the queue otherwise; `FEV_WAITER_NONE`
while nobody has woken the waiter.  The function `fev_waiter_wait` returns
`wake_reason`, which is written once, with the value that the compare-and-swap of
`fev_waiter_wake` stored in `reason`; the model reads `reason`. -/
def wait_reason (stack_node : Option fev_waiters_queue_node)
    (nodes : List fev_waiters_queue_node) (fiber : Nat) : Nat :=
  match stack_node with
  | some n => n.waiter.reason
  | none =>
    match node_of nodes fiber with
    | some n => n.waiter.reason
    | none => FEV_WAITER_NONE

/-- One pass of the loop of `fev_mutex_try_lock_until_slow` for the fiber `caller`, up
to the return or to the call of `fev_timed_wait`: `fev_waiters_queue_wait` with
`fev_mutex_lock_recheck` returns 0 when the recheck says not to wait (the caller
holds the mutex); otherwise the node is queued, the queue lock is released and
`fev_timed_wait` is called, which begins with `fev_timers_add`. -/
def wait_until_lock_pass (caller : Nat) (w : wait_until_world) : wait_until_world :=
  let r := fev_waiters_queue_wait_enter fev_mutex_wq caller (some fev_mutex_lock_recheck)
    w.mutex 0 0
  if r.parked = false then
    { w with mutex := r.state, owner := some caller, pc := .returned 0 }
  else { w with mutex := r.state, mutex_node := none, pc := .mutex_add }

/-- A step of the caller of `fev_cond_wait_until`, of another fiber, of the timers or
of a notifier. -/
inductive wait_until_step where
  /-- The caller calls `fev_cond_wait_until`, up to the call of `fev_timed_wait`. -/
  | call
  /-- In the wait on the condition, `fev_timers_add` returns to the caller. -/
  | timers_add_cond (add_ok : Bool)
  /-- The caller resumes from the wait on the condition. -/
  | resume_cond (expired : Bool)
  /-- In the wait on the mutex, `fev_timers_add` returns to the caller. -/
  | timers_add_mutex (add_ok : Bool)
  /-- The caller resumes from the wait on the mutex. -/
  | resume_mutex (expired : Bool)
  /-- Another fiber calls `fev_mutex_lock`. -/
  | lock (fiber : Nat)
  /-- The holder of the mutex, another fiber, calls `fev_mutex_unlock`. -/
  | unlock
  /-- Somebody calls `fev_cond_notify_one` or `fev_cond_notify_all`. -/
  | notify (max_waiters : Nat)
  /-- The timers call `fev_waiter_wake` on the waiter of a fiber. -/
  | timeout (on_cond : Bool) (fiber : Nat) (check : Bool)
  /-- Another fiber, whose timed wait has failed, removes its node. -/
  | leave (on_cond : Bool) (fiber : Nat)
  deriving DecidableEq, Repr

/-- One step.  The state is followed up to the return of the caller: once it has
returned, nothing changes any more.  A step that cannot happen leaves everything
as it is: the caller resumes once its waiter has a wake reason; only the
holder of the mutex unlocks it, and the caller does not while it is inside
`fev_cond_wait_until`.  When `fev_timers_add` fails, `fev_timed_wait` returns `-ENOMEM` and
`fev_waiters_queue_wait` removes the node if it is still queued and returns that
value, which `fev_cond_wait_until` and `fev_mutex_try_lock_until_slow` return as it is.
When `fev_timers_add` succeeds, the caller goes on to `fev_waiter_wait`
(`fev_waiter_wait_enter` on its waiter). -/
def wait_until_op_step (caller : Nat) (step : wait_until_step) (w : wait_until_world) :
    wait_until_world :=
  match w.pc, step with
  | .returned _, _ => w
  | .start, .call =>
    let r := fev_cond_wait_enter { cond := w.cond, mutex := w.mutex, woken := [] } caller 0 0
    { w with cond := r.state.cond, mutex := r.state.mutex,
             owner := (fev_mutex_unlock w.mutex).woken.head?,
             cond_node := none, pc := .cond_add }
  | .cond_add, .timers_add_cond add_ok =>
    if add_ok then
      { w with
        cond := { wq := { nodes := nodes_wait_enter w.cond.wq.nodes caller } },
        cond_node :=
          w.cond_node.map (fun n => { n with waiter := fev_waiter_wait_enter n.waiter }),
        pc := .cond_wait }
    else
      { w with
        cond :=
          if w.cond_node = none then
            { wq := { nodes := nodes_remove w.cond.wq.nodes caller } }
          else w.cond,
        pc := .returned (-ENOMEM) }
  | .cond_wait, .resume_cond expired =>
    let reason := wait_reason w.cond_node w.cond.wq.nodes caller
    if reason = FEV_WAITER_NONE then w
    else
      let res := fev_timed_wait_ret true reason expired
      let cond1 : fev_cond :=
        if res ≠ 0 ∧ w.cond_node = none then
          { wq := { nodes := nodes_remove w.cond.wq.nodes caller } }
        else w.cond
      let w1 := { w with cond := cond1 }
      if res = -ENOMEM ∨ res = -ETIMEDOUT then { w1 with pc := .returned res }
      else
        let t := fev_mutex_try_lock w1.mutex
        if t.2 then { w1 with mutex := t.1, owner := some caller, pc := .returned 0 }
        else wait_until_lock_pass caller w1
  | .mutex_add, .timers_add_mutex add_ok =>
    if add_ok then
      { w with
        mutex := { w.mutex with wq := { nodes := nodes_wait_enter w.mutex.wq.nodes caller } },
        mutex_node :=
          w.mutex_node.map (fun n => { n with waiter := fev_waiter_wait_enter n.waiter }),
        pc := .mutex_wait }
    else
      { w with
        mutex :=
          if w.mutex_node = none then
            { w.mutex with wq := { nodes := nodes_remove w.mutex.wq.nodes caller } }
          else w.mutex,
        pc := .returned (-ENOMEM) }
  | .mutex_wait, .resume_mutex expired =>
    let reason := wait_reason w.mutex_node w.mutex.wq.nodes caller
    if reason = FEV_WAITER_NONE then w
    else
      let res := fev_timed_wait_ret true reason expired
      if res = 0 then { w with pc := .returned 0 }
      else
        let mutex1 : fev_mutex :=
          if w.mutex_node = none then
            { w.mutex with wq := { nodes := nodes_remove w.mutex.wq.nodes caller } }
          else w.mutex
        let w1 := { w with mutex := mutex1 }
        if res = -EAGAIN then wait_until_lock_pass caller w1
        else { w1 with pc := .returned res }
  | _, .lock fiber =>
    if fiber = caller then w
    else
      let r := fev_mutex_lock w.mutex fiber 0 0
      { w with mutex := r.mutex, owner := if r.parked then w.owner else some fiber }
  | _, .unlock =>
    if w.owner = none ∨ w.owner = some caller then w
    else
      let r := fev_mutex_unlock w.mutex
      { w with mutex := r.mutex, owner := r.woken.head?,
               mutex_node :=
                 match removed_node_of r.removed caller with
                 | some n => some n
                 | none => w.mutex_node }
  | _, .notify max_waiters =>
    let r := fev_waiters_queue_wake fev_cond_wq max_waiters none
      { cond := w.cond, mutex := w.mutex, woken := [] }
    { w with cond := r.1.cond,
             cond_node :=
               match removed_node_of r.2.removed caller with
               | some n => some n
               | none => w.cond_node }
  | _, .timeout on_cond fiber check =>
    let reason := if check then FEV_WAITER_TIMED_OUT_CHECK else FEV_WAITER_TIMED_OUT_NO_CHECK
    if on_cond then
      { w with cond := { wq := { nodes := nodes_wake w.cond.wq.nodes fiber reason } },
               cond_node :=
                 if fiber = caller then
                   w.cond_node.map
                     (fun n => { n with waiter := (fev_waiter_wake n.waiter reason).1 })
                 else w.cond_node }
    else
      { w with
        mutex := { w.mutex with wq := { nodes := nodes_wake w.mutex.wq.nodes fiber reason } },
        mutex_node :=
          if fiber = caller then
            w.mutex_node.map
              (fun n => { n with waiter := (fev_waiter_wake n.waiter reason).1 })
          else w.mutex_node }
  | _, .leave on_cond fiber =>
    if fiber = caller then w
    else if on_cond then
      { w with cond := { wq := { nodes := nodes_remove w.cond.wq.nodes fiber } } }
    else
      { w with
        mutex := { w.mutex with wq := { nodes := nodes_remove w.mutex.wq.nodes fiber } } }
  | _, _ => w

/-- The steps of a list, in order. -/
def wait_until_run (caller : Nat) : List wait_until_step → wait_until_world → wait_until_world
  | [], w => w
  | step :: steps, w => wait_until_run caller steps (wait_until_op_step caller step w)

/-- Number of nodes of the fiber in a queue. -/
def node_count (nodes : List fev_waiters_queue_node) (fiber : Nat) : Nat :=
  nodes.countP (fun n => decide (n.waiter.fiber = fiber))

/-- While the caller is in the wait on the condition: it does not hold the mutex and
has no node in the queue of the mutex. -/
def wait_until_released (caller : Nat) (w : wait_until_world) : Prop :=
  w.owner ≠ some caller ∧ node_count w.mutex.wq.nodes caller = 0

/-- While the caller is in the wait on the mutex: either its node is queued, without
the reason `FEV_WAITER_READY`, and it does not hold the mutex, or its node was taken
off the queue with a wake reason, which is `FEV_WAITER_READY` exactly when the caller
holds the mutex. -/
def wait_until_queued (caller : Nat) (w : wait_until_world) : Prop :=
  match w.mutex_node with
  | none =>
    w.owner ≠ some caller ∧ node_count w.mutex.wq.nodes caller ≤ 1 ∧
      ∀ n ∈ w.mutex.wq.nodes, n.waiter.fiber = caller → n.waiter.reason ≠ FEV_WAITER_READY
  | some n =>
    node_count w.mutex.wq.nodes caller = 0 ∧ n.waiter.reason ≠ FEV_WAITER_NONE ∧
      (n.waiter.reason = FEV_WAITER_READY ↔ w.owner = some caller)

/-- Invariant of the steps: while somebody holds the mutex its state is not 0;
before the call the caller holds the mutex; then `wait_until_released` and
`wait_until_queued`; after the return, the value is 0, `-ETIMEDOUT` or `-ENOMEM`, the
caller holds the mutex when it is 0, and when the caller holds the mutex the
value is 0 or, in the runs in which `fev_timers_add` may fail in the wait on the
mutex (`strict = false`), `-ENOMEM`. -/
def wait_until_inv (strict : Bool) (caller : Nat) (w : wait_until_world) : Prop :=
  (w.owner ≠ none → w.mutex.state ≠ 0) ∧
  match w.pc with
  | .start => w.owner = some caller ∧ node_count w.mutex.wq.nodes caller = 0
  | .cond_add => wait_until_released caller w
  | .cond_wait => wait_until_released caller w
  | .mutex_add => wait_until_queued caller w
  | .mutex_wait => wait_until_queued caller w
  | .returned ret =>
    (ret = 0 → w.owner = some caller) ∧
    (w.owner = some caller → ret = 0 ∨ (strict = false ∧ ret = -ENOMEM)) ∧
    (ret = 0 ∨ ret = -ETIMEDOUT ∨ ret = -ENOMEM)

/-! # Theorems -/

/-! ## `fev_waiter_wake` -/

/-- C6: `fev_waiter_wake(waiter, r)` with `r != FEV_WAITER_NONE`, run atomically on
a waiter with `do_wake <= 1`: when `reason` is already set it returns
`FEV_WAITER_FAILED` and changes no field; otherwise it sets `reason := r`,
`do_wake := 0`, `wait_for_wake := 0` and returns `FEV_WAITER_SET_AND_WAKE_UP` with
`wake_reason := r` when `do_wake` was 1, or `FEV_WAITER_SET_ONLY` with
`wake_reason` unchanged when `do_wake` was 0. -/
theorem fev_waiter_wake_spec (w : fev_waiter) (r : Nat) (hr : r ≠ FEV_WAITER_NONE)
    (hd : w.do_wake ≤ 1) :
    (w.reason ≠ FEV_WAITER_NONE → fev_waiter_wake w r = (w, FEV_WAITER_FAILED)) ∧
    (w.reason = FEV_WAITER_NONE → w.do_wake = 1 →
      fev_waiter_wake w r =
        ({ w with reason := r, do_wake := 0, wake_reason := r, wait_for_wake := 0 },
          FEV_WAITER_SET_AND_WAKE_UP)) ∧
    (w.reason = FEV_WAITER_NONE → w.do_wake = 0 →
      fev_waiter_wake w r =
        ({ w with reason := r, do_wake := 0, wait_for_wake := 0 }, FEV_WAITER_SET_ONLY)) ∧
    (w.reason = FEV_WAITER_NONE →
      (fev_waiter_wake w r).1.reason ≠ FEV_WAITER_NONE ∧
      (fev_waiter_wake w r).2 ≠ FEV_WAITER_FAILED ∧
      (w.do_wake = 1 ∨ w.do_wake = 0)) := by
  refine ⟨?_, ?_, ?_, ?_⟩
  · intro h
    simp [fev_waiter_wake, h]
  · intro h h1
    simp [fev_waiter_wake, h, h1]
  · intro h h0
    simp [fev_waiter_wake, h, h0]
  · intro h
    refine ⟨?_, ?_, by omega⟩
    · by_cases h0 : w.do_wake = 0 <;> simp [fev_waiter_wake, h, h0, hr]
    · by_cases h0 : w.do_wake = 0 <;> simp [fev_waiter_wake, h, h0]

/-- Witness for C6: a parked waiter (`do_wake = 1`) woken with `FEV_WAITER_READY`. -/
theorem fev_waiter_wake_spec_witness :
    fev_waiter_wake
        { reason := 0, do_wake := 1, wake_reason := 0, wait_for_post := 0,
          wait_for_wake := 1, fiber := 7 } FEV_WAITER_READY =
      ({ reason := 1, do_wake := 0, wake_reason := 1, wait_for_post := 0,
         wait_for_wake := 0, fiber := 7 }, FEV_WAITER_SET_AND_WAKE_UP) :=
  (fev_waiter_wake_spec
    { reason := 0, do_wake := 1, wake_reason := 0, wait_for_post := 0,
      wait_for_wake := 1, fiber := 7 } FEV_WAITER_READY (by decide) (by decide)).2.1 rfl rfl

/-! ## Mutex -/

/-- C3: `fev_mutex_try_lock` returns true exactly when the state was 0, and then
the state is 1 and the queue untouched; for every other state it returns false
and leaves the mutex (state and waiters queue) unchanged. -/
theorem fev_mutex_try_lock_spec (m : fev_mutex) :
    ((fev_mutex_try_lock m).2 = true ↔ m.state = 0) ∧
    (m.state = 0 → fev_mutex_try_lock m = ({ state := 1, wq := m.wq }, true)) ∧
    (m.state ≠ 0 → fev_mutex_try_lock m = (m, false)) := by
  by_cases h : m.state = 0 <;> simp [fev_mutex_try_lock, h]

/-- C2: on a mutex in state 0, `fev_mutex_lock` followed by `fev_mutex_unlock`
with nothing in between brings the state back to 0; both calls take their fast
path: the caller is not parked, `fev_waiters_queue_wait` and
`fev_waiters_queue_wake` are not called, and the waiters queue is unchanged. -/
theorem fev_mutex_lock_unlock_uncontended (m : fev_mutex) (cur_fiber a b : Nat)
    (h : m.state = 0) :
    (fev_mutex_lock m cur_fiber a b).slow_path = false ∧
    (fev_mutex_lock m cur_fiber a b).parked = false ∧
    (fev_mutex_lock m cur_fiber a b).mutex = { state := 1, wq := m.wq } ∧
    (fev_mutex_unlock (fev_mutex_lock m cur_fiber a b).mutex).slow_path = false ∧
    (fev_mutex_unlock (fev_mutex_lock m cur_fiber a b).mutex).removed = [] ∧
    (fev_mutex_unlock (fev_mutex_lock m cur_fiber a b).mutex).fibers = [] ∧
    (fev_mutex_unlock (fev_mutex_lock m cur_fiber a b).mutex).mutex.state = 0 ∧
    (fev_mutex_unlock (fev_mutex_lock m cur_fiber a b).mutex).mutex = m := by
  have hl : fev_mutex_lock m cur_fiber a b =
      { mutex := { state := 1, wq := m.wq }, slow_path := false, parked := false } := by
    simp [fev_mutex_lock, fev_mutex_try_lock, h]
  have hm : ({ state := 0, wq := m.wq } : fev_mutex) = m := by
    cases m; simp_all
  simp [hl, fev_mutex_unlock, hm, h]

/-- Witness for C2: an unlocked mutex whose queue is empty. -/
theorem fev_mutex_lock_unlock_uncontended_witness :
    (fev_mutex_unlock (fev_mutex_lock { state := 0, wq := { nodes := [] } } 1 0 0).mutex).mutex.state
      = 0 :=
  (fev_mutex_lock_unlock_uncontended { state := 0, wq := { nodes := [] } } 1 0 0 rfl).2.2.2.2.2.2.1

/-- Once `num_woken` has reached `max_waiters` the loop of `fev_waiters_queue_wake`
stops and leaves the queue as it is. -/
theorem fev_waiters_queue_wake_loop_full (max_waiters : Nat)
    (l : List fev_waiters_queue_node) (st : wake_loop_state)
    (h : max_waiters ≤ st.num_woken) :
    fev_waiters_queue_wake_loop max_waiters l st = { st with nodes := l } := by
  cases l with
  | nil => simp [fev_waiters_queue_wake_loop]
  | cons n rest =>
    have : ¬ st.num_woken < max_waiters := by omega
    simp [fev_waiters_queue_wake_loop, this]

/-- The loop of `fev_waiters_queue_wake` with `max_waiters = 1`, started with
`num_woken = 0`: it takes off the queue every node up to and including the first
pending one, wakes that one, and fails on the ones before it. -/
theorem fev_waiters_queue_wake_loop_one (l : List fev_waiters_queue_node)
    (st : wake_loop_state) (h : st.num_woken = 0) :
    (fev_waiters_queue_wake_loop 1 l st).nodes = (l.dropWhile (fun n => !n.pending)).tail ∧
    (fev_waiters_queue_wake_loop 1 l st).num_woken =
      ((l.dropWhile (fun n => !n.pending)).take 1).length ∧
    (fev_waiters_queue_wake_loop 1 l st).removed =
      st.removed ++
        (l.takeWhile (fun n => !n.pending)).map
          (fun n => ({ waiter := n.waiter, deleted := true }, FEV_WAITER_FAILED)) ++
        ((l.dropWhile (fun n => !n.pending)).take 1).map
          (fun n => ({ waiter := (fev_waiter_wake n.waiter FEV_WAITER_READY).1, deleted := true },
            (fev_waiter_wake n.waiter FEV_WAITER_READY).2)) := by
  induction l generalizing st with
  | nil => simp [fev_waiters_queue_wake_loop, h]
  | cons n rest ih =>
    by_cases hp : n.waiter.reason = FEV_WAITER_NONE
    · have hpend : n.pending = true := by simp [fev_waiters_queue_node.pending, hp]
      have hne : (fev_waiter_wake n.waiter FEV_WAITER_READY).2 ≠ FEV_WAITER_FAILED := by
        by_cases h0 : n.waiter.do_wake = 0 <;> simp [fev_waiter_wake, hp, h0]
      have hbody : 1 ≤ (fev_waiters_queue_wake_body n rest st).num_woken := by
        unfold fev_waiters_queue_wake_body
        simp only [hne, ne_eq, not_false_eq_true, if_true]
        split <;> simp
      have hrem : (fev_waiters_queue_wake_body n rest st).removed =
          st.removed ++ [(⟨(fev_waiter_wake n.waiter FEV_WAITER_READY).1, true⟩,
            (fev_waiter_wake n.waiter FEV_WAITER_READY).2)] := by
        unfold fev_waiters_queue_wake_body
        simp only [hne, ne_eq, not_false_eq_true, if_true]
        split <;> simp
      have hnw : (fev_waiters_queue_wake_body n rest st).num_woken = 1 := by
        unfold fev_waiters_queue_wake_body
        simp only [hne, ne_eq, not_false_eq_true, if_true]
        split <;> simp [h]
      simp [fev_waiters_queue_wake_loop, h, hpend,
        fev_waiters_queue_wake_loop_full 1 rest _ hbody, hrem, hnw]
    · have hpend : n.pending = false := by simp [fev_waiters_queue_node.pending, hp]
      have hw : fev_waiter_wake n.waiter FEV_WAITER_READY = (n.waiter, FEV_WAITER_FAILED) := by
        simp [fev_waiter_wake, hp]
      have hbody : fev_waiters_queue_wake_body n rest st =
          { st with nodes := rest,
                    removed := st.removed ++ [(⟨n.waiter, true⟩, FEV_WAITER_FAILED)] } := by
        simp [fev_waiters_queue_wake_body, hw]
      have := ih (fev_waiters_queue_wake_body n rest st) (by rw [hbody]; exact h)
      simp only [fev_waiters_queue_wake_loop, h, Nat.lt_one_iff, if_true]
      rw [this.1, this.2.1, this.2.2, hbody]
      simp [hpend]

/-- The function `fev_waiter_wake` never changes the `fiber` field. -/
theorem fev_waiter_wake_fiber (w : fev_waiter) (r : Nat) :
    (fev_waiter_wake w r).1.fiber = w.fiber := by
  by_cases h : w.reason = FEV_WAITER_NONE
  · by_cases h0 : w.do_wake = 0 <;> simp [fev_waiter_wake, h, h0]
  · simp [fev_waiter_wake, h]

/-- The slow path of `fev_mutex_unlock` (state other than 1): what is removed,
what is woken, and the mutex left behind. -/
theorem fev_mutex_unlock_slow (m : fev_mutex) (h : m.state ≠ 1) :
    (fev_mutex_unlock m).slow_path = true ∧
    (fev_mutex_unlock m).woken =
      ((m.wq.nodes.dropWhile (fun n => !n.pending)).take 1).map (fun n => n.waiter.fiber) ∧
    (fev_mutex_unlock m).num_woken = ((m.wq.nodes.dropWhile (fun n => !n.pending)).take 1).length ∧
    (fev_mutex_unlock m).removed.map (fun x => (x.1.waiter.fiber, x.1.deleted)) =
      ((m.wq.nodes.takeWhile (fun n => !n.pending)) ++
        (m.wq.nodes.dropWhile (fun n => !n.pending)).take 1).map
          (fun n => (n.waiter.fiber, true)) ∧
    (fev_mutex_unlock m).mutex.wq.nodes = (m.wq.nodes.dropWhile (fun n => !n.pending)).tail ∧
    (fev_mutex_unlock m).mutex.state =
      (if m.wq.nodes.dropWhile (fun n => !n.pending) = [] then 0
       else if (m.wq.nodes.dropWhile (fun n => !n.pending)).tail = [] then 1
       else m.state) := by
  obtain ⟨h1, h2, h3⟩ := fev_waiters_queue_wake_loop_one m.wq.nodes
    { nodes := m.wq.nodes, removed := [], fibers := [], num_fibers := 0, num_woken := 0 } rfl
  have hfib : ∀ n : fev_waiters_queue_node,
      (fev_waiter_wake n.waiter FEV_WAITER_READY).1.fiber = n.waiter.fiber :=
    fun n => fev_waiter_wake_fiber n.waiter FEV_WAITER_READY
  have hpend : ∀ n : fev_waiters_queue_node, n.pending = true →
      (fev_waiter_wake n.waiter FEV_WAITER_READY).2 ≠ FEV_WAITER_FAILED := by
    intro n hn
    have hp : n.waiter.reason = FEV_WAITER_NONE := by
      simpa [fev_waiters_queue_node.pending] using hn
    by_cases h0 : n.waiter.do_wake = 0 <;> simp [fev_waiter_wake, hp, h0]
  have hhead : ∀ n ∈ (m.wq.nodes.dropWhile (fun n => !n.pending)).take 1, n.pending = true := by
    intro n hn
    cases hd : m.wq.nodes.dropWhile (fun n => !n.pending) with
    | nil => simp [hd] at hn
    | cons a t =>
      have := List.head_dropWhile_not (fun n : fev_waiters_queue_node => !n.pending) m.wq.nodes
        (by simp [hd])
      simp [hd] at hn this
      rw [hn]; exact this
  refine ⟨?_, ?_, ?_, ?_, ?_, ?_⟩
  · simp [fev_mutex_unlock, h]
  · simp only [mutex_unlock_result.woken, fev_mutex_unlock, h, if_false,
      fev_waiters_queue_wake, fev_mutex_wq, h3]
    simp only [List.nil_append, List.filter_append, List.map_append, List.filter_map,
      List.map_map]
    have e1 : List.filter ((fun x : fev_waiters_queue_node × fev_waiter_wake_result =>
          decide (x.2 ≠ FEV_WAITER_FAILED)) ∘
          fun n => ((⟨n.waiter, true⟩ : fev_waiters_queue_node), FEV_WAITER_FAILED))
        (List.takeWhile (fun n => !n.pending) m.wq.nodes) = [] := by
      simp
    have e2 : List.filter ((fun x : fev_waiters_queue_node × fev_waiter_wake_result =>
          decide (x.2 ≠ FEV_WAITER_FAILED)) ∘
          fun n => ((⟨(fev_waiter_wake n.waiter FEV_WAITER_READY).1, true⟩ :
            fev_waiters_queue_node), (fev_waiter_wake n.waiter FEV_WAITER_READY).2))
        (List.take 1 (List.dropWhile (fun n => !n.pending) m.wq.nodes)) =
        List.take 1 (List.dropWhile (fun n => !n.pending) m.wq.nodes) := by
      apply List.filter_eq_self.2
      intro n hn
      simpa using hpend n (hhead n hn)
    rw [e1, e2]
    simp [Function.comp_def, hfib]
  · simp [fev_mutex_unlock, h, fev_waiters_queue_wake, fev_mutex_wq, h2]
  · simp only [fev_mutex_unlock, h, if_false, fev_waiters_queue_wake, fev_mutex_wq, h3]
    simp [Function.comp_def, hfib]
  · simp only [fev_mutex_unlock, h, if_false, fev_waiters_queue_wake, fev_mutex_wq, h1]
    simp only [fev_mutex_unlock_callback]
    split
    · rfl
    · split <;> rfl
  · simp only [fev_mutex_unlock, h, if_false, fev_waiters_queue_wake, fev_mutex_wq, h1, h2]
    simp only [fev_mutex_unlock_callback]
    cases hd : m.wq.nodes.dropWhile (fun n => !n.pending) with
    | nil => simp
    | cons a t =>
      cases t with
      | nil => simp
      | cons b t2 => simp

/-- Filtering the pending nodes ignores the non-pending nodes at the head. -/
theorem filter_pending_dropWhile (l : List fev_waiters_queue_node) :
    l.filter (fun n => n.pending) =
      (l.dropWhile (fun n => !n.pending)).filter (fun n => n.pending) := by
  induction l with
  | nil => rfl
  | cons a t ih =>
    by_cases h : a.pending = true
    · simp [List.dropWhile, h]
    · simp only [Bool.not_eq_true] at h
      simp [List.dropWhile, h, ih]

/-- Successive `fev_mutex_unlock` calls wake the pending nodes in queue order. -/
theorem fev_mutex_unlock_times_order (k : Nat) (m : fev_mutex)
    (h : m.state = 2 ∨ m.wq.nodes = []) :
    (fev_mutex_unlock_times k m).1 =
      ((m.wq.nodes.filter (fun n => n.pending)).map (fun n => n.waiter.fiber)).take k := by
  induction k generalizing m with
  | zero => simp [fev_mutex_unlock_times]
  | succ k ih =>
    by_cases h1 : m.state = 1
    · have hn : m.wq.nodes = [] := by
        rcases h with h | h
        · omega
        · exact h
      have hw : (fev_mutex_unlock m).woken = [] := by
        simp [fev_mutex_unlock, h1, mutex_unlock_result.woken]
      have hq : (fev_mutex_unlock m).mutex.wq.nodes = [] := by
        simp [fev_mutex_unlock, h1, hn]
      simp [fev_mutex_unlock_times, hw, ih _ (Or.inr hq), hq, hn]
    · obtain ⟨-, hw, -, -, hq, hs⟩ := fev_mutex_unlock_slow m h1
      rw [filter_pending_dropWhile]
      cases hd : m.wq.nodes.dropWhile (fun n => !n.pending) with
      | nil =>
        rw [hd] at hw hq
        simp [fev_mutex_unlock_times, hw, ih _ (Or.inr hq), hq]
      | cons a t =>
        have ha : a.pending = true := by
          have := List.head_dropWhile_not (fun n : fev_waiters_queue_node => !n.pending)
            m.wq.nodes (by simp [hd])
          simpa [hd] using this
        have hne : m.wq.nodes ≠ [] := by
          intro he
          simp [he] at hd
        have hm2 : m.state = 2 := by
          rcases h with h | h
          · exact h
          · exact absurd h hne
        rw [hd] at hw hq hs
        have hinv : (fev_mutex_unlock m).mutex.state = 2 ∨
            (fev_mutex_unlock m).mutex.wq.nodes = [] := by
          cases t with
          | nil => right; simpa using hq
          | cons b t2 => left; simpa [hm2] using hs
        simp only [fev_mutex_unlock_times, hw, ih _ hinv, hq]
        simp [List.filter, ha]

/-- C1: `fev_mutex_unlock` on a mutex with parked waiters (state 2) takes the slow
path and hands the mutex off in FIFO order.  With `waiting` the queue from its
first pending node on (the nodes before it are those on which `fev_waiter_wake`
fails): it wakes exactly the first node of `waiting`, so at most one; it removes
the skipped nodes and the woken one, marking them deleted; the queue left is the
rest of `waiting`; the state is 2 if nodes remain, 1 if the woken node was the
last one, and 0 only if nothing was woken.  Hence `k` successive unlocks wake the
pending fibers in the order of their nodes in the queue, and `fev_mutex_lock` on
a locked mutex appends the caller's pending node at the tail, so a fiber enqueued
earlier is handed the mutex earlier. -/
theorem fev_mutex_unlock_fifo (m : fev_mutex) (h : m.state = 2) :
    (fev_mutex_unlock m).slow_path = true ∧
    (fev_mutex_unlock m).woken =
      ((m.wq.nodes.dropWhile (fun n => !n.pending)).take 1).map (fun n => n.waiter.fiber) ∧
    (fev_mutex_unlock m).num_woken = (fev_mutex_unlock m).woken.length ∧
    (fev_mutex_unlock m).num_woken ≤ 1 ∧
    (fev_mutex_unlock m).removed.map (fun x => (x.1.waiter.fiber, x.1.deleted)) =
      ((m.wq.nodes.takeWhile (fun n => !n.pending)) ++
        (m.wq.nodes.dropWhile (fun n => !n.pending)).take 1).map
          (fun n => (n.waiter.fiber, true)) ∧
    (fev_mutex_unlock m).mutex.wq.nodes = (m.wq.nodes.dropWhile (fun n => !n.pending)).tail ∧
    (fev_mutex_unlock m).mutex.state =
      (if (fev_mutex_unlock m).num_woken = 0 then 0
       else if (fev_mutex_unlock m).mutex.wq.nodes = [] then 1
       else 2) ∧
    (∀ k, (fev_mutex_unlock_times k m).1 =
      ((m.wq.nodes.filter (fun n => n.pending)).map (fun n => n.waiter.fiber)).take k) ∧
    (∀ cur_fiber a b,
      (fev_mutex_lock m cur_fiber a b).parked = true ∧
      (fev_mutex_lock m cur_fiber a b).mutex.state = 2 ∧
      ∃ node : fev_waiters_queue_node, node.pending = true ∧ node.waiter.fiber = cur_fiber ∧
        (fev_mutex_lock m cur_fiber a b).mutex.wq.nodes = m.wq.nodes ++ [node]) := by
  obtain ⟨h1, h2, h3, h4, h5, h6⟩ := fev_mutex_unlock_slow m (by omega)
  refine ⟨h1, h2, ?_, ?_, h4, h5, ?_, ?_, ?_⟩
  · rw [h3, h2]; simp
  · rw [h3]
    exact le_trans (List.length_take_le _ _) (le_refl 1)
  · rw [h6, h3, h5]
    cases hd : m.wq.nodes.dropWhile (fun n => !n.pending) with
    | nil => simp
    | cons a t =>
      cases t with
      | nil => simp
      | cons b t2 => simp [h]
  · intro k
    exact fev_mutex_unlock_times_order k m (Or.inl h)
  · intro cur_fiber a b
    refine ⟨?_, ?_, ⟨⟨FEV_WAITER_NONE, 0, a, b, 1, cur_fiber⟩, false⟩, ?_, rfl, ?_⟩
    · simp [fev_mutex_lock, fev_mutex_try_lock, h, fev_waiters_queue_wait_enter,
        fev_mutex_lock_recheck]
    · simp [fev_mutex_lock, fev_mutex_try_lock, h, fev_waiters_queue_wait_enter,
        fev_mutex_lock_recheck, fev_mutex_wq]
    · simp [fev_waiters_queue_node.pending]
    · simp [fev_mutex_lock, fev_mutex_try_lock, h, fev_waiters_queue_wait_enter,
        fev_mutex_lock_recheck, fev_mutex_wq]

/-- Witness for C1: state 2, queue = a timed-out node (fiber 10), then the pending
nodes of fibers 11 and 12; one unlock wakes fiber 11, two unlocks wake 11 then 12. -/
theorem fev_mutex_unlock_fifo_witness :
    (⟨2, ⟨[⟨⟨3, 0, 3, 0, 0, 10⟩, false⟩, ⟨⟨0, 1, 0, 0, 1, 11⟩, false⟩,
        ⟨⟨0, 1, 0, 0, 1, 12⟩, false⟩]⟩⟩ : fev_mutex).state = 2 ∧
    (fev_mutex_unlock ⟨2, ⟨[⟨⟨3, 0, 3, 0, 0, 10⟩, false⟩, ⟨⟨0, 1, 0, 0, 1, 11⟩, false⟩,
        ⟨⟨0, 1, 0, 0, 1, 12⟩, false⟩]⟩⟩).woken = [11] ∧
    (fev_mutex_unlock_times 2 ⟨2, ⟨[⟨⟨3, 0, 3, 0, 0, 10⟩, false⟩, ⟨⟨0, 1, 0, 0, 1, 11⟩, false⟩,
        ⟨⟨0, 1, 0, 0, 1, 12⟩, false⟩]⟩⟩).1 = [11, 12] :=
  ⟨rfl,
   (fev_mutex_unlock_fifo ⟨2, ⟨[⟨⟨3, 0, 3, 0, 0, 10⟩, false⟩, ⟨⟨0, 1, 0, 0, 1, 11⟩, false⟩,
        ⟨⟨0, 1, 0, 0, 1, 12⟩, false⟩]⟩⟩ rfl).2.1,
   (fev_mutex_unlock_fifo ⟨2, ⟨[⟨⟨3, 0, 3, 0, 0, 10⟩, false⟩, ⟨⟨0, 1, 0, 0, 1, 11⟩, false⟩,
        ⟨⟨0, 1, 0, 0, 1, 12⟩, false⟩]⟩⟩ rfl).2.2.2.2.2.2.2.1 2⟩

/-! ## Semaphore -/

/-- A `fev_sem_post` on a semaphore without waiters wakes nobody and increments
`value`. -/
theorem fev_sem_post_no_waiter (sem : fev_sem) (hq : sem.wq.nodes = [])
    (hlo : -2147483648 ≤ sem.value + 1) (hhi : sem.value + 1 ≤ 2147483647) :
    (fev_sem_post sem).1 = { sem with value := sem.value + 1 } ∧
    (fev_sem_post sem).2.num_woken = 0 := by
  have hw : int32_wrap (sem.value + 1) = sem.value + 1 := by
    unfold int32_wrap; omega
  have hsem : ({ value := sem.value, wq := { nodes := [] } } : fev_sem) = sem := by
    cases sem with
    | mk v q => cases q; simp_all
  constructor
  · simp [fev_sem_post, fev_waiters_queue_wake, fev_sem_wq, hq, fev_waiters_queue_wake_loop,
      fev_sem_post_callback, hw]
    have : sem.wq = { nodes := [] } := by
      cases sem with
      | mk v q => cases q; simp_all
    exact this.symm
  · simp [fev_sem_post, fev_waiters_queue_wake, fev_sem_wq, hq, fev_waiters_queue_wake_loop]

/-- A `fev_sem_wait` on a semaphore with `value > 0` decrements `value` and
returns without parking, the queue untouched. -/
theorem fev_sem_wait_positive (sem : fev_sem) (f a b : Nat) (hv : 0 < sem.value) :
    (fev_sem_wait sem f a b).parked = false ∧
    (fev_sem_wait sem f a b).state = { sem with value := sem.value - 1 } := by
  simp [fev_sem_wait, fev_waiters_queue_wait_enter, fev_sem_wait_recheck, hv]

/-- `n` posts on a semaphore without waiters add `n` to `value`. -/
theorem fev_sem_post_times_no_waiter (n : Nat) (sem : fev_sem) (hq : sem.wq.nodes = [])
    (hv : 0 ≤ sem.value) (hhi : sem.value + n ≤ 2147483647) :
    (fev_sem_post_times n sem).1 = { sem with value := sem.value + n } ∧
    (fev_sem_post_times n sem).2 = List.replicate n 0 := by
  induction n generalizing sem with
  | zero => simp [fev_sem_post_times]
  | succ n ih =>
    obtain ⟨h1, h2⟩ := fev_sem_post_no_waiter sem hq (by omega) (by push_cast at hhi; omega)
    have := ih { sem with value := sem.value + 1 } hq (by show 0 ≤ sem.value + 1; omega)
      (by show sem.value + 1 + (n : Int) ≤ 2147483647; push_cast at hhi; omega)
    simp only [fev_sem_post_times, h1, h2, this.1, this.2, List.replicate_succ]
    refine ⟨?_, trivial⟩
    have e : sem.value + 1 + (n : Int) = sem.value + ((n + 1 : Nat) : Int) := by
      push_cast; omega
    rw [e]

/-- `n` waits on a semaphore with `value >= n` subtract `n` from `value`; no one parks. -/
theorem fev_sem_wait_times_positive (n : Nat) (sem : fev_sem) (f a b : Nat)
    (hv : (n : Int) ≤ sem.value) :
    (fev_sem_wait_times f a b n sem).1 = { sem with value := sem.value - n } ∧
    (fev_sem_wait_times f a b n sem).2 = List.replicate n false := by
  induction n generalizing sem with
  | zero => simp [fev_sem_wait_times]
  | succ n ih =>
    obtain ⟨h1, h2⟩ := fev_sem_wait_positive sem f a b (by push_cast at hv; omega)
    have := ih { sem with value := sem.value - 1 }
      (by show (n : Int) ≤ sem.value - 1; push_cast at hv; omega)
    simp only [fev_sem_wait_times, h1, Bool.false_eq_true, if_false, h2, this.1, this.2,
      List.replicate_succ]
    refine ⟨?_, trivial⟩
    have e : sem.value - 1 - (n : Int) = sem.value - ((n + 1 : Nat) : Int) := by
      push_cast; omega
    rw [e]

/-- C5: for a semaphore with value `v >= 0`, no waiter queued and `v + N` within
`int32_t`, `N` calls of `fev_sem_post` followed by `N` calls of `fev_sem_wait`
leave the semaphore as it was (`value == v`); every post wakes nobody and
increments `value` (it is `v + N` after the posts), and no wait parks. -/
theorem fev_sem_post_wait_roundtrip (sem : fev_sem) (n : Nat) (f a b : Nat)
    (hq : sem.wq.nodes = []) (hv : 0 ≤ sem.value) (hhi : sem.value + n ≤ 2147483647) :
    (fev_sem_post_times n sem).1.value = sem.value + n ∧
    (fev_sem_post_times n sem).1.wq = sem.wq ∧
    (fev_sem_post_times n sem).2 = List.replicate n 0 ∧
    (fev_sem_wait_times f a b n (fev_sem_post_times n sem).1).2 = List.replicate n false ∧
    (fev_sem_wait_times f a b n (fev_sem_post_times n sem).1).1.value = sem.value ∧
    (fev_sem_wait_times f a b n (fev_sem_post_times n sem).1).1 = sem := by
  obtain ⟨h1, h2⟩ := fev_sem_post_times_no_waiter n sem hq hv hhi
  obtain ⟨h3, h4⟩ := fev_sem_wait_times_positive n (fev_sem_post_times n sem).1 f a b
    (by rw [h1]; simp; omega)
  have hfin : (fev_sem_wait_times f a b n (fev_sem_post_times n sem).1).1 = sem := by
    rw [h3, h1]
    cases sem
    simp
  refine ⟨by rw [h1], by rw [h1], h2, h4, by rw [hfin], hfin⟩

/-- Witness for C5: value 1, three posts then three waits. -/
theorem fev_sem_post_wait_roundtrip_witness :
    (⟨1, ⟨[]⟩⟩ : fev_sem).wq.nodes = [] ∧ (0 : Int) ≤ (⟨1, ⟨[]⟩⟩ : fev_sem).value ∧
    (fev_sem_post_times 3 ⟨1, ⟨[]⟩⟩).1.value = 1 + (3 : Nat) ∧
    (fev_sem_wait_times 5 0 0 3 (fev_sem_post_times 3 ⟨1, ⟨[]⟩⟩).1).1 = ⟨1, ⟨[]⟩⟩ :=
  ⟨rfl, by decide,
   (fev_sem_post_wait_roundtrip ⟨1, ⟨[]⟩⟩ 3 5 0 0 rfl (by decide) (by decide)).1,
   (fev_sem_post_wait_roundtrip ⟨1, ⟨[]⟩⟩ 3 5 0 0 rfl (by decide) (by decide)).2.2.2.2.2⟩

/-! ## Condition -/

/-- A `fev_mutex_unlock` that wakes somebody leaves the mutex locked (state 1 or
2) on behalf of the woken fiber, provided a non-empty queue goes with state 2. -/
theorem fev_mutex_unlock_handoff (m : fev_mutex) (f : Nat)
    (hinv : m.wq.nodes ≠ [] → m.state = 2) (hf : f ∈ (fev_mutex_unlock m).woken) :
    (fev_mutex_unlock m).mutex.state = 1 ∨ (fev_mutex_unlock m).mutex.state = 2 := by
  by_cases h1 : m.state = 1
  · simp [fev_mutex_unlock, h1, mutex_unlock_result.woken] at hf
  · obtain ⟨-, hw, -, -, -, hs⟩ := fev_mutex_unlock_slow m h1
    rw [hw] at hf
    cases hd : m.wq.nodes.dropWhile (fun n => !n.pending) with
    | nil => simp [hd] at hf
    | cons x t =>
      have hne : m.wq.nodes ≠ [] := by
        intro he
        simp [he] at hd
      rw [hs, hd]
      cases t with
      | nil => simp
      | cons y t2 => simp [hinv hne]

/-- C4: `fev_cond_wait(cond, mutex)` called with the mutex held.  Before parking:
the recheck, run under the queue lock, unlocks the mutex (state 0 when it was 1)
while the condition's queue is still as it was; only then the caller's pending
node is appended at the tail of the condition's queue, the mutex staying
unlocked, and the caller parks.  After the wake-up the function calls
`fev_mutex_lock`, which returns either at once with the state set to 1 by the
caller, or after parking on the mutex's queue (state 2), from which only a
`fev_mutex_unlock` wakes it, and that unlock leaves the mutex locked (state 1 or
2) for the woken fiber: the caller holds the mutex when `fev_cond_wait` returns. -/
theorem fev_cond_wait_spec (w : cond_wait_world) (f a b : Nat) :
    (fev_cond_wait_enter w f a b).rechecked.mutex = (fev_mutex_unlock w.mutex).mutex ∧
    (fev_cond_wait_enter w f a b).rechecked.cond = w.cond ∧
    (w.mutex.state = 1 → (fev_cond_wait_enter w f a b).rechecked.mutex.state = 0) ∧
    (fev_cond_wait_enter w f a b).parked = true ∧
    (fev_cond_wait_enter w f a b).state.cond.wq.nodes =
      w.cond.wq.nodes ++ [(fev_cond_wait_enter w f a b).node] ∧
    (fev_cond_wait_enter w f a b).state.mutex = (fev_mutex_unlock w.mutex).mutex ∧
    (fev_cond_wait_enter w f a b).node.waiter.fiber = f ∧
    (fev_cond_wait_enter w f a b).node.pending = true ∧
    (∀ w2 : cond_wait_world,
      (fev_cond_wait_resume w2 f a b).2 = fev_mutex_lock w2.mutex f a b ∧
      (fev_cond_wait_resume w2 f a b).1.cond = w2.cond ∧
      ((fev_cond_wait_resume w2 f a b).2.parked = false →
        (fev_cond_wait_resume w2 f a b).1.mutex.state = 1) ∧
      ((fev_cond_wait_resume w2 f a b).2.parked = true →
        (fev_cond_wait_resume w2 f a b).1.mutex.state = 2 ∧
        ∃ node : fev_waiters_queue_node, node.waiter.fiber = f ∧ node.pending = true ∧
          (fev_cond_wait_resume w2 f a b).1.mutex.wq.nodes = w2.mutex.wq.nodes ++ [node])) ∧
    (∀ m : fev_mutex, (m.wq.nodes ≠ [] → m.state = 2) → f ∈ (fev_mutex_unlock m).woken →
      (fev_mutex_unlock m).mutex.state = 1 ∨ (fev_mutex_unlock m).mutex.state = 2) := by
  refine ⟨rfl, rfl, ?_, rfl, rfl, rfl, rfl, ?_, ?_, ?_⟩
  · intro h1
    simp [fev_cond_wait_enter, fev_waiters_queue_wait_enter, fev_cond_wait_recheck,
      fev_mutex_unlock, h1]
  · simp [fev_cond_wait_enter, fev_waiters_queue_wait_enter, fev_waiters_queue_node.pending,
      fev_cond_wait_recheck]
  · intro w2
    refine ⟨rfl, rfl, ?_, ?_⟩
    · intro hp
      by_cases h0 : w2.mutex.state = 0
      · simp [fev_cond_wait_resume, fev_mutex_lock, fev_mutex_try_lock, h0]
      · simp [fev_cond_wait_resume, fev_mutex_lock, fev_mutex_try_lock, h0,
          fev_waiters_queue_wait_enter, fev_mutex_lock_recheck] at hp
    · intro hp
      by_cases h0 : w2.mutex.state = 0
      · simp [fev_cond_wait_resume, fev_mutex_lock, fev_mutex_try_lock, h0] at hp
      · refine ⟨?_, ⟨⟨FEV_WAITER_NONE, 0, a, b, 1, f⟩, false⟩, rfl, ?_, ?_⟩
        · simp [fev_cond_wait_resume, fev_mutex_lock, fev_mutex_try_lock, h0,
            fev_waiters_queue_wait_enter, fev_mutex_lock_recheck, fev_mutex_wq]
        · simp [fev_waiters_queue_node.pending]
        · simp [fev_cond_wait_resume, fev_mutex_lock, fev_mutex_try_lock, h0,
            fev_waiters_queue_wait_enter, fev_mutex_lock_recheck, fev_mutex_wq]
  · intro m hinv hf
    exact fev_mutex_unlock_handoff m f hinv hf

/-- Witness for C4: the caller (fiber 4) holds the mutex (state 1), nobody waits
on the condition; at the park the mutex is unlocked and the node queued. -/
theorem fev_cond_wait_spec_witness :
    (⟨⟨⟨[]⟩⟩, ⟨1, ⟨[]⟩⟩, []⟩ : cond_wait_world).mutex.state = 1 ∧
    (fev_cond_wait_enter ⟨⟨⟨[]⟩⟩, ⟨1, ⟨[]⟩⟩, []⟩ 4 0 0).rechecked.mutex.state = 0 ∧
    (fev_cond_wait_enter ⟨⟨⟨[]⟩⟩, ⟨1, ⟨[]⟩⟩, []⟩ 4 0 0).parked = true :=
  ⟨rfl,
   (fev_cond_wait_spec ⟨⟨⟨[]⟩⟩, ⟨1, ⟨[]⟩⟩, []⟩ 4 0 0).2.2.1 rfl,
   (fev_cond_wait_spec ⟨⟨⟨[]⟩⟩, ⟨1, ⟨[]⟩⟩, []⟩ 4 0 0).2.2.2.1⟩

/-! ## Waiter handshake -/

/-- Replacing one element of a list changes a count by the difference of the
predicate on the old and on the new element. -/
theorem countP_set_add {α : Type} (p : α → Bool) (l : List α) (i : Nat) (a b : α)
    (h : l[i]? = some a) :
    (l.set i b).countP p + (if p a then 1 else 0) = l.countP p + (if p b then 1 else 0) := by
  induction l generalizing i with
  | nil => simp at h
  | cons x xs ih =>
    cases i with
    | zero =>
      simp at h
      subst h
      simp only [List.set_cons_zero, List.countP_cons]
      omega
    | succ j =>
      simp at h
      have := ih j h
      simp only [List.set_cons_succ, List.countP_cons]
      omega

/-- The invariant holds at the start. -/
theorem handshake_inv_init (w : fev_waiter) (reasons : List Nat)
    (hr : w.reason = FEV_WAITER_NONE) (hd : w.do_wake = 0)
    (hrs : ∀ r ∈ reasons, r ≠ FEV_WAITER_NONE) : handshake_inv (handshake_init w reasons) := by
  have hc : ∀ p : wake_thread → Bool, (∀ r, p ⟨.cas_reason, r, 0, none⟩ = false) →
      List.countP p (reasons.map (fun r => (⟨.cas_reason, r, 0, none⟩ : wake_thread))) = 0 := by
    intro p hp
    rw [List.countP_eq_zero]
    intro t ht
    obtain ⟨r, -, rfl⟩ := List.mem_map.1 ht
    simp [hp r]
  refine ⟨?_, ?_, ?_, ?_, ?_, ?_, ?_⟩
  · simp only [handshake_init, handshake_state.num_got]
    rw [hc _ (fun r => by simp [wake_thread.got])]
    simp [enable_thread.got, hd]
  · simp only [handshake_init, hr, ne_eq, not_true_eq_false, if_false]
    exact hc _ (fun r => by simp [wake_thread.set_reason])
  · intro h
    simp [handshake_init, hd] at h
  · intro h
    simp only [handshake_init, handshake_state.num_took, enable_thread.took] at h
    rw [hc _ (fun r => by simp [wake_thread.took])] at h
    simp at h
  · intro t ht h
    simp only [handshake_init] at ht
    obtain ⟨r, -, rfl⟩ := List.mem_map.1 ht
    simp at h
  · simp [handshake_init, enable_thread.wf]
  · intro t ht
    simp only [handshake_init] at ht
    obtain ⟨r, hr2, rfl⟩ := List.mem_map.1 ht
    exact ⟨hrs r hr2, rfl⟩

/-- A step of `fev_waiter_enable_wake_ups` preserves the invariant. -/
theorem handshake_inv_enable (s s2 : handshake_state) (h : handshake_inv s)
    (hs : handshake_step .enable s = some s2) : handshake_inv s2 := by
  obtain ⟨w, ⟨pc, er, ed, ef⟩, ws⟩ := s
  obtain ⟨h1, h2, h3, h4, h5, h6, h7⟩ := h
  simp only [handshake_state.num_got, handshake_state.num_took, enable_thread.got,
    enable_thread.took, enable_thread.wf] at h1 h3 h4 h6
  cases pc with
  | store_do_wake =>
    simp only [handshake_step, enable_thread_step, Option.some.injEq] at hs
    subst hs
    simp only at h6
    subst h6
    refine ⟨?_, h2, ?_, ?_, h5, ?_, h7⟩
    · simp only [handshake_state.num_got, enable_thread.got]
      simp only [reduceCtorEq, decide_False, decide_True, Bool.or_false, Bool.false_or, Bool.or_true, Bool.true_or, Option.isSome_none, Option.isSome_some, if_true, if_false, Bool.false_eq_true, ne_eq, not_true_eq_false, not_false_eq_true, one_ne_zero] at h1 ⊢
      split_ifs at h1 <;> omega
    · intro _; left; rfl
    · simpa only [handshake_state.num_took, enable_thread.took] using h4
    · simp [enable_thread.wf]
  | load_reason =>
    simp only at h6
    subst h6
    by_cases hr : w.reason = 0
    · simp only [handshake_step, enable_thread_step, hr, ne_eq, not_true_eq_false, if_false,
        Option.some.injEq] at hs
      subst hs
      refine ⟨?_, h2, ?_, ?_, h5, ?_, h7⟩
      · simp only [handshake_state.num_got, enable_thread.got]
        simp only [reduceCtorEq, decide_False, decide_True, Bool.or_false, Bool.false_or, Bool.or_true, Bool.true_or, Option.isSome_none, Option.isSome_some, if_true, if_false, Bool.false_eq_true, ne_eq, not_true_eq_false, not_false_eq_true, one_ne_zero] at h1 ⊢
        exact h1
      · intro _; right; right; left; exact hr
      · simpa only [handshake_state.num_took, enable_thread.took] using h4
      · simp [enable_thread.wf]
    · simp only [handshake_step, enable_thread_step, hr, ne_eq, not_false_eq_true, if_true,
        Option.some.injEq] at hs
      subst hs
      refine ⟨?_, h2, ?_, ?_, h5, ?_, h7⟩
      · simp only [handshake_state.num_got, enable_thread.got]
        simp only [reduceCtorEq, decide_False, decide_True, Bool.or_false, Bool.false_or, Bool.or_true, Bool.true_or, Option.isSome_none, Option.isSome_some, if_true, if_false, Bool.false_eq_true, ne_eq, not_true_eq_false, not_false_eq_true, one_ne_zero] at h1 ⊢
        exact h1
      · intro _; right; left; rfl
      · simpa only [handshake_state.num_took, enable_thread.took] using h4
      · simp [enable_thread.wf, hr]
  | xchg_do_wake =>
    simp only at h6
    obtain ⟨h6a, h6b⟩ := h6
    subst h6a
    by_cases hd : w.do_wake = 0
    · simp only [handshake_step, enable_thread_step, hd, ne_eq, not_true_eq_false, if_false,
        Option.some.injEq] at hs
      subst hs
      refine ⟨?_, h2, ?_, ?_, h5, ?_, h7⟩
      · simp only [handshake_state.num_got, enable_thread.got]
        simp only [hd, reduceCtorEq, decide_False, decide_True, Bool.or_false, Bool.false_or, Bool.or_true, Bool.true_or, Option.isSome_none, Option.isSome_some, if_true, if_false, Bool.false_eq_true, ne_eq, not_true_eq_false, not_false_eq_true, one_ne_zero] at h1 ⊢
        exact h1
      · intro hc; exact absurd rfl hc
      · simpa only [handshake_state.num_took, enable_thread.took] using h4
      · simp [enable_thread.wf]
    · simp only [handshake_step, enable_thread_step, hd, ne_eq, not_false_eq_true, if_true,
        Option.some.injEq] at hs
      subst hs
      refine ⟨?_, h2, ?_, ?_, h5, ?_, h7⟩
      · simp only [handshake_state.num_got, enable_thread.got]
        simp only [hd, reduceCtorEq, decide_False, decide_True, Bool.or_false, Bool.false_or, Bool.or_true, Bool.true_or, Option.isSome_none, Option.isSome_some, if_true, if_false, Bool.false_eq_true, ne_eq, not_true_eq_false, not_false_eq_true, one_ne_zero] at h1 ⊢
        omega
      · intro hc; exact absurd rfl hc
      · simpa only [handshake_state.num_took, enable_thread.took] using h4
      · simp [enable_thread.wf, h6b]
  | store_wake_reason =>
    simp only at h6
    obtain ⟨h6a, h6b⟩ := h6
    subst h6a
    simp only [handshake_step, enable_thread_step, Option.some.injEq] at hs
    subst hs
    have hdw : w.do_wake = 0 := by
      by_contra hc
      simp only [hc, reduceCtorEq, decide_False, decide_True, Bool.or_false, Bool.false_or, Bool.or_true, Bool.true_or, Option.isSome_none, Option.isSome_some, if_true, if_false, Bool.false_eq_true, ne_eq, not_true_eq_false, not_false_eq_true, one_ne_zero] at h1
      omega
    refine ⟨?_, h2, ?_, ?_, h5, ?_, h7⟩
    · simp only [handshake_state.num_got, enable_thread.got]
      simp only [reduceCtorEq, decide_False, decide_True, Bool.or_false, Bool.false_or, Bool.or_true, Bool.true_or, Option.isSome_none, Option.isSome_some, if_true, if_false, Bool.false_eq_true, ne_eq, not_true_eq_false, not_false_eq_true, one_ne_zero] at h1 ⊢
      exact h1
    · intro hc; exact absurd hdw hc
    · intro _; exact h6b
    · simp [enable_thread.wf]
  | store_wait_for_post =>
    simp only [handshake_step, enable_thread_step, Option.some.injEq] at hs
    subst hs
    refine ⟨?_, h2, ?_, ?_, h5, ?_, h7⟩
    · simp only [handshake_state.num_got, enable_thread.got]
      simp only [reduceCtorEq, decide_False, decide_True, Bool.or_false, Bool.false_or, Bool.or_true, Bool.true_or, Option.isSome_none, Option.isSome_some, if_true, if_false, Bool.false_eq_true, ne_eq, not_true_eq_false, not_false_eq_true, one_ne_zero] at h1 ⊢
      exact h1
    · intro hc
      rcases h3 hc with h | h | h | h
      · exact absurd h (by decide)
      · exact absurd h (by decide)
      · right; right; left; exact h
      · right; right; right; exact h
    · simpa only [handshake_state.num_took, enable_thread.took] using h4
    · simp [enable_thread.wf]
  | done =>
    simp [handshake_step, enable_thread_step] at hs

/-- A step of a call of `fev_waiter_wake` preserves the invariant. -/
theorem handshake_inv_wake (i : Nat) (s s2 : handshake_state) (h : handshake_inv s)
    (hs : handshake_step (.wake i) s = some s2) : handshake_inv s2 := by
  obtain ⟨w, en, ws⟩ := s
  obtain ⟨h1, h2, h3, h4, h5, h6, h7⟩ := h
  simp only [handshake_state.num_got, handshake_state.num_took] at h1 h2 h3 h4 h5 h7
  cases hget : ws[i]? with
  | none => simp [handshake_step, hget] at hs
  | some t =>
    have hmem : t ∈ ws := List.getElem?_mem hget
    have hwf := h7 t hmem
    have cg := fun b => countP_set_add wake_thread.got ws i t b hget
    have ct := fun b => countP_set_add wake_thread.took ws i t b hget
    have cs := fun b => countP_set_add wake_thread.set_reason ws i t b hget
    have cx := fun b => countP_set_add wake_thread.at_xchg ws i t b hget
    have hset : ∀ (b : wake_thread) (P : wake_thread → Prop), P b → (∀ x ∈ ws, P x) →
        ∀ x ∈ ws.set i b, P x := by
      intro b P hb hall x hx
      rcases List.mem_or_eq_of_mem_set hx with hx | hx
      · exact hall x hx
      · rw [hx]; exact hb
    obtain ⟨pc, r, d, res⟩ := t
    obtain ⟨hr, hres⟩ := hwf
    simp only at hr
    cases pc with
    | cas_reason =>
      simp only at hres
      subst hres
      by_cases hn : w.reason = FEV_WAITER_NONE
      · simp only [handshake_step, hget, wake_thread_step, hn, if_true, Option.some.injEq] at hs
        subst hs
        have cg := cg ⟨.xchg_do_wake, r, d, none⟩
        have ct := ct ⟨.xchg_do_wake, r, d, none⟩
        have cs := cs ⟨.xchg_do_wake, r, d, none⟩
        have cx := cx ⟨.xchg_do_wake, r, d, none⟩
        simp only [wake_thread.got, wake_thread.took, wake_thread.set_reason, wake_thread.at_xchg, reduceCtorEq, decide_False, decide_True, Bool.or_false, Bool.false_or, Bool.or_true, Bool.true_or, Bool.and_true, Bool.and_false, Option.isSome_none, Option.isSome_some, if_true, if_false, Bool.false_eq_true, ne_eq, not_true_eq_false, not_false_eq_true, one_ne_zero, Option.some.injEq] at cg ct cs cx
        simp only [hn, reduceCtorEq, decide_False, decide_True, Bool.or_false, Bool.false_or, Bool.or_true, Bool.true_or, Bool.and_true, Bool.and_false, Option.isSome_none, Option.isSome_some, if_true, if_false, Bool.false_eq_true, ne_eq, not_true_eq_false, not_false_eq_true, one_ne_zero, Option.some.injEq] at h2
        refine ⟨?_, ?_, ?_, ?_, ?_, h6, ?_⟩
        · simp only [handshake_state.num_got]; omega
        · simp only [hr, reduceCtorEq, decide_False, decide_True, Bool.or_false, Bool.false_or, Bool.or_true, Bool.true_or, Bool.and_true, Bool.and_false, Option.isSome_none, Option.isSome_some, if_true, if_false, Bool.false_eq_true, ne_eq, not_true_eq_false, not_false_eq_true, one_ne_zero, Option.some.injEq]; omega
        · intro _; right; right; right; dsimp only; omega
        · simp only [handshake_state.num_took]
          intro hc; exact h4 (by omega)
        · intro x _ _; exact hr
        · exact hset _ _ ⟨hr, rfl⟩ h7
      · simp only [handshake_step, hget, wake_thread_step, hn, if_false, Option.some.injEq] at hs
        subst hs
        have cg := cg ⟨.done, r, d, some FEV_WAITER_FAILED⟩
        have ct := ct ⟨.done, r, d, some FEV_WAITER_FAILED⟩
        have cs := cs ⟨.done, r, d, some FEV_WAITER_FAILED⟩
        have cx := cx ⟨.done, r, d, some FEV_WAITER_FAILED⟩
        simp only [wake_thread.got, wake_thread.took, wake_thread.set_reason, wake_thread.at_xchg, reduceCtorEq, decide_False, decide_True, Bool.or_false, Bool.false_or, Bool.or_true, Bool.true_or, Bool.and_true, Bool.and_false, Option.isSome_none, Option.isSome_some, if_true, if_false, Bool.false_eq_true, ne_eq, not_true_eq_false, not_false_eq_true, one_ne_zero, Option.some.injEq] at cg ct cs cx
        refine ⟨?_, ?_, ?_, ?_, ?_, h6, ?_⟩
        · simp only [handshake_state.num_got]; omega
        · simp only; omega
        · intro hc
          rcases h3 hc with h | h | h | h
          · left; exact h
          · right; left; exact h
          · right; right; left; exact h
          · right; right; right; dsimp only; omega
        · simp only [handshake_state.num_took]
          intro hc; exact h4 (by omega)
        · intro x _ _; exact hn
        · exact hset _ _ ⟨hr, by simp⟩ h7
    | xchg_do_wake =>
      simp only at hres
      subst hres
      by_cases hd : w.do_wake = 0
      · simp only [handshake_step, hget, wake_thread_step, hd, reduceCtorEq, decide_False, decide_True, Bool.or_false, Bool.false_or, Bool.or_true, Bool.true_or, Bool.and_true, Bool.and_false, Option.isSome_none, Option.isSome_some, if_true, if_false, Bool.false_eq_true, ne_eq, not_true_eq_false, not_false_eq_true, one_ne_zero, Option.some.injEq] at hs
        subst hs
        have cg := cg ⟨.store_wait_for_wake, r, 0, some FEV_WAITER_SET_ONLY⟩
        have ct := ct ⟨.store_wait_for_wake, r, 0, some FEV_WAITER_SET_ONLY⟩
        have cs := cs ⟨.store_wait_for_wake, r, 0, some FEV_WAITER_SET_ONLY⟩
        simp only [wake_thread.got, wake_thread.took, wake_thread.set_reason, wake_thread.at_xchg, reduceCtorEq, decide_False, decide_True, Bool.or_false, Bool.false_or, Bool.or_true, Bool.true_or, Bool.and_true, Bool.and_false, Option.isSome_none, Option.isSome_some, if_true, if_false, Bool.false_eq_true, ne_eq, not_true_eq_false, not_false_eq_true, one_ne_zero, Option.some.injEq] at cg ct cs
        simp only [hd, reduceCtorEq, decide_False, decide_True, Bool.or_false, Bool.false_or, Bool.or_true, Bool.true_or, Bool.and_true, Bool.and_false, Option.isSome_none, Option.isSome_some, if_true, if_false, Bool.false_eq_true, ne_eq, not_true_eq_false, not_false_eq_true, one_ne_zero, Option.some.injEq] at h1
        refine ⟨?_, ?_, ?_, ?_,
          hset _ (fun x => x.result = some FEV_WAITER_FAILED → w.reason ≠ FEV_WAITER_NONE)
            (by simp) h5, h6, ?_⟩
        · simp only [handshake_state.num_got, reduceCtorEq, decide_False, decide_True, Bool.or_false, Bool.false_or, Bool.or_true, Bool.true_or, Bool.and_true, Bool.and_false, Option.isSome_none, Option.isSome_some, if_true, if_false, Bool.false_eq_true, ne_eq, not_true_eq_false, not_false_eq_true, one_ne_zero, Option.some.injEq]; omega
        · simp only; omega
        · intro hc; exact absurd rfl hc
        · simp only [handshake_state.num_took]
          intro hc; exact h4 (by omega)
        · exact hset _ _ ⟨hr, Or.inl rfl⟩ h7
      · simp only [handshake_step, hget, wake_thread_step, hd, reduceCtorEq, decide_False, decide_True, Bool.or_false, Bool.false_or, Bool.or_true, Bool.true_or, Bool.and_true, Bool.and_false, Option.isSome_none, Option.isSome_some, if_true, if_false, Bool.false_eq_true, ne_eq, not_true_eq_false, not_false_eq_true, one_ne_zero, Option.some.injEq] at hs
        subst hs
        have cg := cg ⟨.store_wake_reason, r, w.do_wake, none⟩
        have ct := ct ⟨.store_wake_reason, r, w.do_wake, none⟩
        have cs := cs ⟨.store_wake_reason, r, w.do_wake, none⟩
        simp only [wake_thread.got, wake_thread.took, wake_thread.set_reason, wake_thread.at_xchg, reduceCtorEq, decide_False, decide_True, Bool.or_false, Bool.false_or, Bool.or_true, Bool.true_or, Bool.and_true, Bool.and_false, Option.isSome_none, Option.isSome_some, if_true, if_false, Bool.false_eq_true, ne_eq, not_true_eq_false, not_false_eq_true, one_ne_zero, Option.some.injEq] at cg ct cs
        simp only [hd, reduceCtorEq, decide_False, decide_True, Bool.or_false, Bool.false_or, Bool.or_true, Bool.true_or, Bool.and_true, Bool.and_false, Option.isSome_none, Option.isSome_some, if_true, if_false, Bool.false_eq_true, ne_eq, not_true_eq_false, not_false_eq_true, one_ne_zero, Option.some.injEq] at h1
        refine ⟨?_, ?_, ?_, ?_,
          hset _ (fun x => x.result = some FEV_WAITER_FAILED → w.reason ≠ FEV_WAITER_NONE)
            (by simp) h5, h6, ?_⟩
        · simp only [handshake_state.num_got, reduceCtorEq, decide_False, decide_True, Bool.or_false, Bool.false_or, Bool.or_true, Bool.true_or, Bool.and_true, Bool.and_false, Option.isSome_none, Option.isSome_some, if_true, if_false, Bool.false_eq_true, ne_eq, not_true_eq_false, not_false_eq_true, one_ne_zero, Option.some.injEq]; omega
        · simp only; omega
        · intro hc; exact absurd rfl hc
        · simp only [handshake_state.num_took]
          intro hc; exact h4 (by omega)
        · exact hset _ _ ⟨hr, rfl⟩ h7
    | store_wake_reason =>
      simp only at hres
      subst hres
      simp only [handshake_step, hget, wake_thread_step, reduceCtorEq, decide_False, decide_True, Bool.or_false, Bool.false_or, Bool.or_true, Bool.true_or, Bool.and_true, Bool.and_false, Option.isSome_none, Option.isSome_some, if_true, if_false, Bool.false_eq_true, ne_eq, not_true_eq_false, not_false_eq_true, one_ne_zero, Option.some.injEq] at hs
      subst hs
      have cg := cg ⟨.store_wait_for_wake, r, d, some FEV_WAITER_SET_AND_WAKE_UP⟩
      have cs := cs ⟨.store_wait_for_wake, r, d, some FEV_WAITER_SET_AND_WAKE_UP⟩
      have cx := cx ⟨.store_wait_for_wake, r, d, some FEV_WAITER_SET_AND_WAKE_UP⟩
      simp only [wake_thread.got, wake_thread.took, wake_thread.set_reason, wake_thread.at_xchg, reduceCtorEq, decide_False, decide_True, Bool.or_false, Bool.false_or, Bool.or_true, Bool.true_or, Bool.and_true, Bool.and_false, Option.isSome_none, Option.isSome_some, if_true, if_false, Bool.false_eq_true, ne_eq, not_true_eq_false, not_false_eq_true, one_ne_zero, Option.some.injEq] at cg cs cx
      refine ⟨?_, ?_, ?_, ?_,
          hset _ (fun x => x.result = some FEV_WAITER_FAILED → w.reason ≠ FEV_WAITER_NONE)
            (by simp) h5, h6, ?_⟩
      · simp only [handshake_state.num_got]; omega
      · simp only; omega
      · intro hc
        rcases h3 hc with h | h | h | h
        · left; exact h
        · right; left; exact h
        · right; right; left; exact h
        · right; right; right; dsimp only; omega
      · intro _; exact hr
      · exact hset _ _ ⟨hr, Or.inr rfl⟩ h7
    | store_wait_for_wake =>
      simp only at hres
      simp only [handshake_step, hget, wake_thread_step, reduceCtorEq, decide_False, decide_True, Bool.or_false, Bool.false_or, Bool.or_true, Bool.true_or, Bool.and_true, Bool.and_false, Option.isSome_none, Option.isSome_some, if_true, if_false, Bool.false_eq_true, ne_eq, not_true_eq_false, not_false_eq_true, one_ne_zero, Option.some.injEq] at hs
      subst hs
      have cg := cg ⟨.done, r, d, res⟩
      have ct := ct ⟨.done, r, d, res⟩
      have cs := cs ⟨.done, r, d, res⟩
      have cx := cx ⟨.done, r, d, res⟩
      have hne : res ≠ none := by
        rcases hres with h | h <;> simp [h]
      rcases hres with hres | hres <;> subst hres <;>
        simp only [wake_thread.got, wake_thread.took, wake_thread.set_reason, wake_thread.at_xchg, reduceCtorEq, decide_False, decide_True, Bool.or_false, Bool.false_or, Bool.or_true, Bool.true_or, Bool.and_true, Bool.and_false, Option.isSome_none, Option.isSome_some, if_true, if_false, Bool.false_eq_true, ne_eq, not_true_eq_false, not_false_eq_true, one_ne_zero, Option.some.injEq] at cg ct cs cx
      · refine ⟨?_, ?_, ?_, ?_,
          hset _ (fun x => x.result = some FEV_WAITER_FAILED → w.reason ≠ FEV_WAITER_NONE)
            (by simp) h5, h6, ?_⟩
        · simp only [handshake_state.num_got]; omega
        · simp only; omega
        · intro hc
          rcases h3 hc with h | h | h | h
          · left; exact h
          · right; left; exact h
          · right; right; left; exact h
          · right; right; right; dsimp only; omega
        · simp only [handshake_state.num_took]
          intro hc; exact h4 (by omega)
        · exact hset _ _ ⟨hr, hne⟩ h7
      · refine ⟨?_, ?_, ?_, ?_,
          hset _ (fun x => x.result = some FEV_WAITER_FAILED → w.reason ≠ FEV_WAITER_NONE)
            (by simp) h5, h6, ?_⟩
        · simp only [handshake_state.num_got]; omega
        · simp only; omega
        · intro hc
          rcases h3 hc with h | h | h | h
          · left; exact h
          · right; left; exact h
          · right; right; left; exact h
          · right; right; right; dsimp only; omega
        · simp only [handshake_state.num_took]
          intro hc; exact h4 (by omega)
        · exact hset _ _ ⟨hr, hne⟩ h7
    | done =>
      simp [handshake_step, hget, wake_thread_step] at hs

/-- Every state reached by a run from a state satisfying the invariant satisfies it. -/
theorem handshake_inv_run (sched : List handshake_label) (s s2 : handshake_state)
    (h : handshake_inv s) (hrun : handshake_run sched s = some s2) : handshake_inv s2 := by
  induction sched generalizing s with
  | nil =>
    simp only [handshake_run, Option.some.injEq] at hrun
    rw [← hrun]; exact h
  | cons l ls ih =>
    simp only [handshake_run] at hrun
    cases hstep : handshake_step l s with
    | none => simp [hstep] at hrun
    | some s1 =>
      rw [hstep] at hrun
      cases l with
      | enable => exact ih s1 (handshake_inv_enable s s1 h hstep) hrun
      | wake i => exact ih s1 (handshake_inv_wake i s s1 h hstep) hrun

/-- Under the invariant: at most one party took the token; once the enabler and a
call of `fev_waiter_wake` that set the reason have returned, exactly one party
took the fiber and `wake_reason` is set. -/
theorem handshake_inv_exactly_one (s : handshake_state) (h : handshake_inv s) :
    s.num_got ≤ 1 ∧ s.num_took ≤ s.num_got ∧
    (s.enabler.pc = .done → (∃ t ∈ s.wakers, t.returned_set = true) →
      s.num_took = 1 ∧ s.waiter.wake_reason ≠ FEV_WAITER_NONE) := by
  obtain ⟨h1, h2, h3, h4, h5, h6, h7⟩ := h
  have hle : s.wakers.countP wake_thread.took ≤ s.wakers.countP wake_thread.got := by
    apply List.countP_mono_left
    intro t _ ht
    simp only [wake_thread.took, wake_thread.got] at ht ⊢
    simp [ht]
  have hen : (if s.enabler.took then 1 else 0) ≤ (if s.enabler.got then 1 else 0) := by
    simp only [enable_thread.took, enable_thread.got]
    by_cases hf : s.enabler.fiber.isSome = true
    · simp [hf]
    · simp [hf]
  refine ⟨by omega, ?_, ?_⟩
  · simp only [handshake_state.num_took, handshake_state.num_got]; omega
  · intro hdone ⟨t, ht, hret⟩
    -- the returned call is the only one that set the reason
    have hwf := h7 t ht
    have hset : t.set_reason = true := by
      simp only [wake_thread.returned_set, Bool.and_eq_true, Bool.or_eq_true,
        decide_eq_true_eq] at hret
      simp only [wake_thread.set_reason, Bool.or_eq_true, decide_eq_true_eq]
      rcases hret.2 with h | h
      · left; right; exact h
      · right; exact h
    have hpos : 0 < s.wakers.countP wake_thread.set_reason :=
      List.countP_pos_iff.2 ⟨t, ht, hset⟩
    have hreason : s.waiter.reason ≠ FEV_WAITER_NONE := by
      intro hc
      rw [hc] at h2
      simp at h2
      exact absurd hset (by simpa using h2 t ht)
    have hcount : s.wakers.countP wake_thread.set_reason = 1 := by
      rw [h2]; simp [hreason]
    -- nobody else set the reason: every thread that set it is `t`, which has returned
    have honly : ∀ x ∈ s.wakers, x.set_reason = true → x.pc = .done := by
      intro x hx hxs
      by_contra hnd
      have hxt : x ≠ t := by
        intro he
        rw [he] at hnd
        simp only [wake_thread.returned_set, Bool.and_eq_true, decide_eq_true_eq] at hret
        exact hnd hret.1
      have h2le : 2 ≤ s.wakers.countP wake_thread.set_reason := by
        have hsub : [x, t].Sublist s.wakers ∨ [t, x].Sublist s.wakers := by
          obtain ⟨i, hi, hxi⟩ := List.getElem_of_mem hx
          obtain ⟨j, hj, htj⟩ := List.getElem_of_mem ht
          have hij : i ≠ j := by
            intro he
            subst he
            exact hxt (hxi.symm.trans htj)
          rcases Nat.lt_or_gt_of_ne hij with hlt | hgt
          · left
            have := @List.map_getElem_sublist _ s.wakers [⟨i, hi⟩, ⟨j, hj⟩] (by simp [hlt])
            simpa [hxi, htj] using this
          · right
            have := @List.map_getElem_sublist _ s.wakers [⟨j, hj⟩, ⟨i, hi⟩] (by simp [hgt])
            simpa [hxi, htj] using this
        rcases hsub with hs | hs
        · have := hs.countP_le wake_thread.set_reason
          simpa [hxs, hset] using this
        · have := hs.countP_le wake_thread.set_reason
          simpa [hxs, hset] using this
      omega
    have hnox : s.wakers.countP wake_thread.at_xchg = 0 := by
      rw [List.countP_eq_zero]
      intro x hx hxx
      simp only [wake_thread.at_xchg, decide_eq_true_eq] at hxx
      have := honly x hx (by simp [wake_thread.set_reason, hxx])
      rw [hxx] at this
      exact absurd this (by decide)
    have hdw : s.waiter.do_wake = 0 := by
      by_contra hc
      rcases h3 hc with h | h | h | h
      · rw [hdone] at h; exact absurd h (by decide)
      · rw [hdone] at h; exact absurd h (by decide)
      · exact hreason h
      · omega
    have hgot : s.num_got = 1 := by
      simp only [hdw, hdone, ne_eq, not_true_eq_false, if_false, reduceCtorEq] at h1
      omega
    -- everybody who read `do_wake = 1` has stored `wake_reason`
    have hwk : s.wakers.countP wake_thread.took = s.wakers.countP wake_thread.got := by
      apply List.countP_congr
      intro x hx
      constructor
      · intro hxt
        simp only [wake_thread.took, wake_thread.got] at hxt ⊢
        simp [hxt]
      · intro hxg
        simp only [wake_thread.got, Bool.or_eq_true, decide_eq_true_eq] at hxg
        rcases hxg with hpc | hres
        · have := honly x hx (by simp [wake_thread.set_reason, hpc])
          rw [hpc] at this
          exact absurd this (by decide)
        · simp [wake_thread.took, hres]
    have hent : (if s.enabler.took then 1 else 0) = (if s.enabler.got then 1 else 0) := by
      simp only [enable_thread.took, enable_thread.got, hdone]
      simp
    have htook : s.num_took = 1 := by
      simp only [handshake_state.num_took, handshake_state.num_got] at hgot ⊢
      omega
    exact ⟨htook, h4 (by omega)⟩

/-- C7 (amended): on a waiter initialised with `reason = FEV_WAITER_NONE` and
`do_wake = 0`, in every interleaving of the atomic operations of one
`fev_waiter_enable_wake_ups` call with any number of `fev_waiter_wake` calls
(reasons other than `FEV_WAITER_NONE`), in every reachable state: at most one
party has read `do_wake = 1` in its exchange, hence at most one has stored
`wake_reason` and taken the fiber; and once `fev_waiter_enable_wake_ups` and a
`fev_waiter_wake` call that did not fail have returned, or once
`fev_waiter_enable_wake_ups` and all of the (at least one) `fev_waiter_wake`
calls have returned, exactly one party has done so and `wake_reason` is not
`FEV_WAITER_NONE`. -/
theorem handshake_exactly_one (w : fev_waiter) (reasons : List Nat)
    (sched : List handshake_label) (s : handshake_state)
    (hr : w.reason = FEV_WAITER_NONE) (hd : w.do_wake = 0)
    (hrs : ∀ r ∈ reasons, r ≠ FEV_WAITER_NONE)
    (hrun : handshake_run sched (handshake_init w reasons) = some s) :
    s.num_got ≤ 1 ∧ s.num_took ≤ s.num_got ∧
    (s.enabler.pc = .done → (∃ t ∈ s.wakers, t.returned_set = true) →
      s.num_took = 1 ∧ s.waiter.wake_reason ≠ FEV_WAITER_NONE) ∧
    (s.enabler.pc = .done → s.wakers ≠ [] → (∀ t ∈ s.wakers, t.pc = .done) →
      s.num_took = 1 ∧ s.waiter.wake_reason ≠ FEV_WAITER_NONE) := by
  have hinv := handshake_inv_run sched _ s (handshake_inv_init w reasons hr hd hrs) hrun
  obtain ⟨ha, hb, hc⟩ := handshake_inv_exactly_one s hinv
  refine ⟨ha, hb, hc, ?_⟩
  intro hdone hne hall
  apply hc hdone
  obtain ⟨-, h2, -, -, h5, -, h7⟩ := hinv
  -- some call that set the reason exists, and it has returned
  have hex : ∃ x ∈ s.wakers, x.set_reason = true := by
    obtain ⟨t0, ht0⟩ := List.exists_mem_of_ne_nil _ hne
    by_cases hf : t0.result = some FEV_WAITER_FAILED
    · have hreason := h5 t0 ht0 hf
      have : 0 < s.wakers.countP wake_thread.set_reason := by
        rw [h2]; simp [hreason]
      exact List.countP_pos_iff.1 this
    · refine ⟨t0, ht0, ?_⟩
      have hwf := (h7 t0 ht0).2
      rw [hall t0 ht0] at hwf
      simp only at hwf
      simp only [wake_thread.set_reason, Bool.or_eq_true, decide_eq_true_eq]
      cases hres : t0.result with
      | none => exact absurd hres hwf
      | some res =>
        cases res with
        | FEV_WAITER_FAILED => exact absurd hres hf
        | FEV_WAITER_SET_ONLY => left; right; rfl
        | FEV_WAITER_SET_AND_WAKE_UP => right; rfl
  obtain ⟨x, hx, hxs⟩ := hex
  refine ⟨x, hx, ?_⟩
  have hpc := hall x hx
  simp only [wake_thread.set_reason, Bool.or_eq_true, decide_eq_true_eq, hpc, reduceCtorEq,
    false_or] at hxs
  simp only [wake_thread.returned_set, hpc, decide_True, Bool.true_and, Bool.or_eq_true,
    decide_eq_true_eq]
  exact hxs

/-- Witness for C7: the enabler stores `do_wake`, a waker sets the reason and takes
the fiber, a second waker fails, the enabler finds the token gone. -/
theorem handshake_exactly_one_witness :
    (⟨0, 0, 0, 1, 1, 9⟩ : fev_waiter).reason = FEV_WAITER_NONE ∧
    (⟨0, 0, 0, 1, 1, 9⟩ : fev_waiter).do_wake = 0 ∧
    (⟨⟨1, 0, 1, 0, 0, 9⟩, ⟨.done, 1, 0, none⟩,
      [⟨.done, 1, 1, some FEV_WAITER_SET_AND_WAKE_UP⟩,
       ⟨.done, 2, 0, some FEV_WAITER_FAILED⟩]⟩ : handshake_state).num_took = 1 :=
  ⟨rfl, rfl,
   ((handshake_exactly_one ⟨0, 0, 0, 1, 1, 9⟩ [1, 2]
      [.enable, .wake 0, .wake 0, .wake 0, .wake 1, .wake 0, .enable, .enable, .enable]
      ⟨⟨1, 0, 1, 0, 0, 9⟩, ⟨.done, 1, 0, none⟩,
        [⟨.done, 1, 1, some FEV_WAITER_SET_AND_WAKE_UP⟩,
         ⟨.done, 2, 0, some FEV_WAITER_FAILED⟩]⟩
      rfl rfl (by decide) (by decide)).2.2.2 rfl (by decide) (by decide)).1⟩

/-- Counterexample to C7 as stated: the enabler stores `do_wake` and loads
`reason` while it is still `FEV_WAITER_NONE`; waker 0 then wins the
compare-and-swap; waker 1 fails and returns; the enabler returns.  Now
`fev_waiter_enable_wake_ups` and one `fev_waiter_wake` call have completed, yet
no party has taken the fiber (waker 0 has still to exchange `do_wake`). -/
theorem handshake_completed_not_taken :
    handshake_run [.enable, .enable, .wake 0, .wake 1, .enable]
        (handshake_init ⟨0, 0, 0, 1, 1, 9⟩ [1, 2]) =
      some ⟨⟨1, 1, 0, 0, 1, 9⟩, ⟨.done, 0, 0, none⟩,
        [⟨.xchg_do_wake, 1, 0, none⟩, ⟨.done, 2, 0, some FEV_WAITER_FAILED⟩]⟩ ∧
    (⟨⟨1, 1, 0, 0, 1, 9⟩, ⟨.done, 0, 0, none⟩,
        [⟨.xchg_do_wake, 1, 0, none⟩, ⟨.done, 2, 0, some FEV_WAITER_FAILED⟩]⟩ :
      handshake_state).num_took = 0 := by
  constructor
  · rfl
  · decide

/-! ## Time comparison -/

/-- On differences of valid values `long` arithmetic does not wrap. -/
theorem long_wrap_id (x : Int) (h1 : -9223372036854775808 ≤ x) (h2 : x < 9223372036854775808) :
    long_wrap x = x := by
  unfold long_wrap; omega

/-- On valid times `fev_timespec_cmp(a, b) <= 0` says that `a` is not later than `b`. -/
theorem fev_timespec_cmp_le_iff (a b : timespec) (ha : fev_timespec_valid a)
    (hb : fev_timespec_valid b) :
    fev_timespec_cmp a b ≤ 0 ↔ timespec_ns a ≤ timespec_ns b := by
  obtain ⟨a1, a2, a3, a4⟩ := ha
  obtain ⟨b1, b2, b3, b4⟩ := hb
  simp only [FEV_NSECS_PER_SEC] at a4 b4
  unfold fev_timespec_cmp timespec_ns
  rw [long_wrap_id (a.tv_sec - b.tv_sec) (by omega) (by omega),
    long_wrap_id (a.tv_nsec - b.tv_nsec) (by omega) (by omega)]
  simp only []
  split <;> omega

/-- On valid times `fev_timespec_cmp(a, b) < 0` says that `a` is earlier than `b`. -/
theorem fev_timespec_cmp_lt_iff (a b : timespec) (ha : fev_timespec_valid a)
    (hb : fev_timespec_valid b) :
    fev_timespec_cmp a b < 0 ↔ timespec_ns a < timespec_ns b := by
  obtain ⟨a1, a2, a3, a4⟩ := ha
  obtain ⟨b1, b2, b3, b4⟩ := hb
  simp only [FEV_NSECS_PER_SEC] at a4 b4
  unfold fev_timespec_cmp timespec_ns
  rw [long_wrap_id (a.tv_sec - b.tv_sec) (by omega) (by omega),
    long_wrap_id (a.tv_nsec - b.tv_nsec) (by omega) (by omega)]
  simp only []
  split <;> omega

/-- On valid times the order of the pairs (seconds, nanoseconds) is the order of
the nanosecond counts. -/
theorem timespec_le_iff_ns (a b : timespec) (ha : fev_timespec_valid a)
    (hb : fev_timespec_valid b) : timespec_le a b ↔ timespec_ns a ≤ timespec_ns b := by
  obtain ⟨a1, a2, a3, a4⟩ := ha
  obtain ⟨b1, b2, b3, b4⟩ := hb
  simp only [FEV_NSECS_PER_SEC] at a4 b4
  unfold timespec_le timespec_ns
  omega

/-- Strict version of `timespec_le_iff_ns`. -/
theorem timespec_lt_iff_ns (a b : timespec) (ha : fev_timespec_valid a)
    (hb : fev_timespec_valid b) : timespec_lt a b ↔ timespec_ns a < timespec_ns b := by
  obtain ⟨a1, a2, a3, a4⟩ := ha
  obtain ⟨b1, b2, b3, b4⟩ := hb
  simp only [FEV_NSECS_PER_SEC] at a4 b4
  unfold timespec_lt timespec_ns
  omega

/-- The comparison `fev_timers_cmp(lhs, rhs) <= 0` of two valid timers. -/
theorem fev_timers_cmp_le_iff (mem : timer_mem) (p q : Nat) (hp : tvalid mem p)
    (hq : tvalid mem q) : fev_timers_cmp mem p q ≤ 0 ↔ tkey mem p ≤ tkey mem q :=
  fev_timespec_cmp_le_iff _ _ hp hq

/-- The comparison `fev_timers_cmp(lhs, rhs) < 0` of two valid timers. -/
theorem fev_timers_cmp_lt_iff (mem : timer_mem) (p q : Nat) (hp : tvalid mem p)
    (hq : tvalid mem q) : fev_timers_cmp mem p q < 0 ↔ tkey mem p < tkey mem q :=
  fev_timespec_cmp_lt_iff _ _ hp hq

/-! ## Stores -/

/-- The store `p->index = i` leaves the expiry times alone. -/
theorem tkey_set_index (mem : timer_mem) (p i q : Nat) :
    tkey (set_index mem p i) q = tkey mem q := by
  unfold tkey set_index
  split <;> rfl

/-- The store `p->index = i` leaves validity alone. -/
theorem tvalid_set_index (mem : timer_mem) (p i q : Nat) :
    tvalid (set_index mem p i) q ↔ tvalid mem q := by
  unfold tvalid set_index
  split <;> rfl

/-- The store `p->index = i` leaves the comparisons alone. -/
theorem fev_timers_cmp_set_index (mem : timer_mem) (p i a b : Nat) :
    fev_timers_cmp (set_index mem p i) a b = fev_timers_cmp mem a b := by
  unfold fev_timers_cmp set_index
  split <;> split <;> rfl

/-- The `index` field after the store `p->index = i`. -/
theorem index_set_index (mem : timer_mem) (p i q : Nat) :
    (set_index mem p i q).index = if q = p then i else (mem q).index := by
  unfold set_index
  split <;> rfl

/-- The fields other than `index` after the store `p->index = i`. -/
theorem fields_set_index (mem : timer_mem) (p i q : Nat) :
    (set_index mem p i q).abs_time = (mem q).abs_time ∧
    (set_index mem p i q).waiter = (mem q).waiter := by
  unfold set_index
  split <;> exact ⟨rfl, rfl⟩

/-- The parent of a non-root position lies strictly above it. -/
theorem parent_lt (i : Nat) (h : 0 < i) : (i - 1) / 2 < i := by omega

/-! ## `fev_timers_sift_up` -/

/-- Reading the heap after the store `heap[i] = p`. -/
theorem heap_set_apply (heap : Nat → Nat) (i p j : Nat) :
    heap_set heap i p j = if j = i then p else heap j := rfl

/-- One pass of the loop of `fev_timers_sift_up` that moves the parent down
preserves the invariant, with the hole at the parent. -/
theorem sift_up_step (n timer : Nat) (heap : Nat → Nat) (mem : timer_mem) (idx : Nat)
    (h : sift_up_inv n timer heap mem idx) (hpos : 0 < idx)
    (hc : ¬ fev_timers_cmp mem (heap ((idx - 1) / 2)) timer ≤ 0) :
    sift_up_inv n timer (heap_set heap idx (heap ((idx - 1) / 2)))
      (set_index mem (heap ((idx - 1) / 2)) idx) ((idx - 1) / 2) ∧
    sift_rel n heap mem idx (heap_set heap idx (heap ((idx - 1) / 2)))
      (set_index mem (heap ((idx - 1) / 2)) idx) ((idx - 1) / 2) ∧
    tkey mem timer < tkey mem (heap ((idx - 1) / 2)) := by
  obtain ⟨hn, hvt, hv, hi, ht, h1, h2, h3⟩ := h
  have hp : (idx - 1) / 2 < idx := parent_lt idx hpos
  have hpn : (idx - 1) / 2 < n := by omega
  have hpne : (idx - 1) / 2 ≠ idx := by omega
  have hvP := hv _ hpn hpne
  have hiP := hi _ hpn hpne
  have hlt : tkey mem timer < tkey mem (heap ((idx - 1) / 2)) := by
    have := (fev_timers_cmp_le_iff mem _ timer hvP hvt).not.1 hc
    omega
  have hne : ∀ i, i < n → i ≠ idx → i ≠ (idx - 1) / 2 → heap i ≠ heap ((idx - 1) / 2) := by
    intro i hin hii hip he
    have := hi i hin hii
    rw [he, hiP] at this
    exact hip this.symm
  refine ⟨⟨hpn, ?_, ?_, ?_, ?_, ?_, ?_, ?_⟩, ⟨?_, ?_, ?_, ?_⟩, hlt⟩
  · exact (tvalid_set_index _ _ _ _).2 hvt
  · intro i hin hip
    rw [tvalid_set_index, heap_set_apply]
    split
    · exact hvP
    · exact hv i hin (by assumption)
  · intro i hin hip
    rw [index_set_index, heap_set_apply]
    by_cases hii : i = idx
    · simp [hii]
    · simp only [hii, if_false]
      rw [if_neg (hne i hin hii hip)]
      exact hi i hin hii
  · intro i hin hip
    rw [heap_set_apply]
    split
    · exact ht _ hpn hpne
    · exact ht i hin (by assumption)
  · intro i hi0 hin hip hpp
    have hii : i ≠ idx := by
      intro he
      rw [he] at hpp
      exact hpp rfl
    simp only [tkey_set_index, heap_set_apply, hii, if_false]
    by_cases hpi : (i - 1) / 2 = idx
    · simp only [hpi, if_true]
      exact h3 i hi0 hin hpi hpos
    · simp only [hpi, if_false]
      exact h1 i hi0 hin hii hpi
  · intro c hc0 hcn hcp
    simp only [tkey_set_index, heap_set_apply]
    by_cases hci : c = idx
    · simp only [hci, if_true]
      omega
    · simp only [hci, if_false]
      have := h1 c hc0 hcn hci (by rw [hcp]; exact hpne)
      rw [hcp] at this
      omega
  · intro c hc0 hcn hcp hp0
    have hpp : ((idx - 1) / 2 - 1) / 2 ≠ idx := by omega
    have hedge := h1 _ hp0 hpn hpne hpp
    simp only [tkey_set_index, heap_set_apply, hpp, if_false]
    by_cases hci : c = idx
    · simp only [hci, if_true]
      exact hedge
    · simp only [hci, if_false]
      have := h1 c hc0 hcn hci (by rw [hcp]; exact hpne)
      rw [hcp] at this
      omega
  · intro q
    constructor
    · rintro ⟨i, hin, hip, hq⟩
      rw [heap_set_apply] at hq
      by_cases hii : i = idx
      · rw [if_pos hii] at hq
        exact ⟨_, hpn, hpne, hq⟩
      · rw [if_neg hii] at hq
        exact ⟨i, hin, hii, hq⟩
    · rintro ⟨i, hin, hii, hq⟩
      by_cases hip : i = (idx - 1) / 2
      · refine ⟨idx, hn, fun he => hpne he.symm, ?_⟩
        rw [heap_set_apply, if_pos rfl, ← hq, hip]
      · refine ⟨i, hin, hip, ?_⟩
        rw [heap_set_apply, if_neg hii, hq]
  · intro q
    exact fields_set_index _ _ _ _
  · intro q hq
    have : q ≠ heap ((idx - 1) / 2) := fun he => hq _ hpn hpne he.symm
    simp [set_index, this]
  · intro j hj
    rw [heap_set_apply, if_neg (by omega)]

/-- A loop that does nothing relates a state to itself. -/
theorem sift_rel_refl (n : Nat) (heap : Nat → Nat) (mem : timer_mem) (idx : Nat) :
    sift_rel n heap mem idx heap mem idx :=
  ⟨fun _ => Iff.rfl, fun _ => ⟨rfl, rfl⟩, fun _ _ => rfl, fun _ _ => rfl⟩

/-- The relation between the states of a sift loop composes. -/
theorem sift_rel_trans (n : Nat) (heap heap1 heap2 : Nat → Nat) (mem mem1 mem2 : timer_mem)
    (idx idx1 idx2 : Nat) (a : sift_rel n heap mem idx heap1 mem1 idx1)
    (b : sift_rel n heap1 mem1 idx1 heap2 mem2 idx2) :
    sift_rel n heap mem idx heap2 mem2 idx2 := by
  obtain ⟨a1, a2, a3, a4⟩ := a
  obtain ⟨b1, b2, b3, b4⟩ := b
  refine ⟨fun q => (b1 q).trans (a1 q), ?_, ?_, ?_⟩
  · intro q
    exact ⟨(b2 q).1.trans (a2 q).1, (b2 q).2.trans (a2 q).2⟩
  · intro q hq
    have hq1 : ∀ i, i < n → i ≠ idx1 → heap1 i ≠ q := by
      intro i hin hii he
      obtain ⟨j, hjn, hji, hj⟩ := (a1 q).1 ⟨i, hin, hii, he⟩
      exact hq j hjn hji hj
    rw [b3 q hq1, a3 q hq]
  · intro j hj
    rw [b4 j hj, a4 j hj]

/-- The loop of `fev_timers_sift_up`, given enough fuel: the invariant holds at
the exit, where the hole is at the root or below a parent that is not later than
`timer`; the entries up to the final hole and beyond the initial one are
untouched; when the hole has moved, `timer` is earlier than the entry that was
at the final hole. -/
theorem sift_up_loop_spec (n timer : Nat) (fuel : Nat) :
    ∀ (heap : Nat → Nat) (mem : timer_mem) (idx : Nat), idx ≤ fuel → 0 < idx →
      sift_up_inv n timer heap mem idx →
      sift_up_inv n timer (fev_timers_sift_up_loop timer fuel heap mem idx).1
        (fev_timers_sift_up_loop timer fuel heap mem idx).2.1
        (fev_timers_sift_up_loop timer fuel heap mem idx).2.2 ∧
      sift_rel n heap mem idx (fev_timers_sift_up_loop timer fuel heap mem idx).1
        (fev_timers_sift_up_loop timer fuel heap mem idx).2.1
        (fev_timers_sift_up_loop timer fuel heap mem idx).2.2 ∧
      (fev_timers_sift_up_loop timer fuel heap mem idx).2.2 ≤ idx ∧
      ((fev_timers_sift_up_loop timer fuel heap mem idx).2.2 = 0 ∨
        tkey mem (heap (((fev_timers_sift_up_loop timer fuel heap mem idx).2.2 - 1) / 2)) ≤
          tkey mem timer) ∧
      ((fev_timers_sift_up_loop timer fuel heap mem idx).2.2 ≠ idx →
        tkey mem timer <
          tkey mem (heap (fev_timers_sift_up_loop timer fuel heap mem idx).2.2)) ∧
      (∀ j, j ≤ (fev_timers_sift_up_loop timer fuel heap mem idx).2.2 ∨ idx < j →
        (fev_timers_sift_up_loop timer fuel heap mem idx).1 j = heap j) := by
  induction fuel with
  | zero =>
    intro heap mem idx hf hpos
    omega
  | succ fuel ih =>
    intro heap mem idx hf hpos hinv
    have hp : (idx - 1) / 2 < idx := parent_lt idx hpos
    have hpne : (idx - 1) / 2 ≠ idx := by omega
    by_cases hc : fev_timers_cmp mem (heap ((idx - 1) / 2)) timer ≤ 0
    · -- the parent is not later than the timer: stop here
      have hloop : fev_timers_sift_up_loop timer (fuel + 1) heap mem idx = (heap, mem, idx) := by
        simp [fev_timers_sift_up_loop, hc]
      rw [hloop]
      refine ⟨hinv, sift_rel_refl _ _ _ _, le_refl _, Or.inr ?_, fun h => absurd rfl h,
        fun _ _ => rfl⟩
      obtain ⟨hn, hvt, hv, -⟩ := hinv
      exact (fev_timers_cmp_le_iff mem _ timer (hv _ (by omega) hpne) hvt).1 hc
    · obtain ⟨hinv1, hrel1, hlt⟩ := sift_up_step n timer heap mem idx hinv hpos hc
      by_cases h0 : (idx - 1) / 2 = 0
      · have hloop : fev_timers_sift_up_loop timer (fuel + 1) heap mem idx =
            (heap_set heap idx (heap ((idx - 1) / 2)),
              set_index mem (heap ((idx - 1) / 2)) idx, (idx - 1) / 2) := by
          rw [fev_timers_sift_up_loop]
          dsimp only
          rw [if_neg hc, if_pos h0]
        rw [hloop]
        refine ⟨hinv1, hrel1, le_of_lt hp, Or.inl h0, fun _ => hlt, ?_⟩
        intro j hj
        show heap_set heap idx (heap ((idx - 1) / 2)) j = heap j
        rw [heap_set_apply, if_neg]
        rcases hj with hj | hj
        · have : j ≤ (idx - 1) / 2 := hj
          omega
        · omega
      · have hloop : fev_timers_sift_up_loop timer (fuel + 1) heap mem idx =
            fev_timers_sift_up_loop timer fuel (heap_set heap idx (heap ((idx - 1) / 2)))
              (set_index mem (heap ((idx - 1) / 2)) idx) ((idx - 1) / 2) := by
          rw [fev_timers_sift_up_loop]
          dsimp only
          rw [if_neg hc, if_neg h0]
        rw [hloop]
        obtain ⟨r1, r2, r3, r4, r5, r6⟩ := ih (heap_set heap idx (heap ((idx - 1) / 2)))
          (set_index mem (heap ((idx - 1) / 2)) idx) ((idx - 1) / 2) (by omega) (by omega) hinv1
        refine ⟨r1, sift_rel_trans _ _ _ _ _ _ _ _ _ _ hrel1 r2, by omega, ?_, ?_, ?_⟩
        · rcases r4 with r4 | r4
          · exact Or.inl r4
          · right
            simp only [tkey_set_index, heap_set_apply] at r4
            rw [if_neg (by omega)] at r4
            exact r4
        · intro _
          by_cases hmoved : (fev_timers_sift_up_loop timer fuel
              (heap_set heap idx (heap ((idx - 1) / 2)))
              (set_index mem (heap ((idx - 1) / 2)) idx) ((idx - 1) / 2)).2.2 = (idx - 1) / 2
          · rw [hmoved]; exact hlt
          · have := r5 hmoved
            simp only [tkey_set_index, heap_set_apply] at this
            rw [if_neg (by omega)] at this
            exact this
        · intro j hj
          rw [r6 j (by omega), heap_set_apply, if_neg (by omega)]

/-- Filling the hole with `timer` at the exit of the loop of `fev_timers_sift_up`
gives a heap: valid entries that know their position, in heap order. -/
theorem sift_up_finish (n timer : Nat) (heap : Nat → Nat) (mem : timer_mem) (k : Nat)
    (h : sift_up_inv n timer heap mem k)
    (hk : k = 0 ∨ tkey mem (heap ((k - 1) / 2)) ≤ tkey mem timer) :
    (∀ i, i < n → tvalid (set_index mem timer k) (heap_set heap k timer i)) ∧
    (∀ i, i < n → (set_index mem timer k (heap_set heap k timer i)).index = i) ∧
    (∀ i, 0 < i → i < n →
      tkey (set_index mem timer k) (heap_set heap k timer ((i - 1) / 2)) ≤
        tkey (set_index mem timer k) (heap_set heap k timer i)) := by
  obtain ⟨hn, hvt, hv, hi, ht, h1, h2, h3⟩ := h
  refine ⟨?_, ?_, ?_⟩
  · intro i hin
    rw [tvalid_set_index, heap_set_apply]
    split
    · exact hvt
    · exact hv i hin (by assumption)
  · intro i hin
    rw [index_set_index, heap_set_apply]
    by_cases hik : i = k
    · simp [hik]
    · rw [if_neg hik, if_neg (ht i hin hik)]
      exact hi i hin hik
  · intro i hi0 hin
    simp only [tkey_set_index, heap_set_apply]
    by_cases hik : i = k
    · have hpk : (i - 1) / 2 ≠ k := by omega
      rw [if_neg hpk, if_pos hik]
      rcases hk with hk | hk
      · omega
      · rw [hik]; exact hk
    · rw [if_neg hik]
      by_cases hpk : (i - 1) / 2 = k
      · rw [if_pos hpk]
        exact h2 i hi0 hin hpk
      · rw [if_neg hpk]
        exact h1 i hi0 hin hik hpk

/-- The function `fev_timers_sift_up(heap, idx, timer)` started from a state that
satisfies the loop invariant on `heap[0..n)` with the hole at `idx`: the result
is a heap on `[0..n)` that holds `timer` and the entries that were outside the
hole; only `index` fields of those timers are written; `timer` ends at its
`index`, which is the root only if it is earlier than the old root, and otherwise
lies below a parent that is not later and leaves the root alone. -/
theorem fev_timers_sift_up_spec (n timer : Nat) (heap : Nat → Nat) (mem : timer_mem)
    (idx : Nat) (h : sift_up_inv n timer heap mem idx) :
    (∀ i, i < n → tvalid (fev_timers_sift_up heap mem idx timer).2
      ((fev_timers_sift_up heap mem idx timer).1 i)) ∧
    (∀ i, i < n → ((fev_timers_sift_up heap mem idx timer).2
      ((fev_timers_sift_up heap mem idx timer).1 i)).index = i) ∧
    (∀ i, 0 < i → i < n →
      tkey (fev_timers_sift_up heap mem idx timer).2
          ((fev_timers_sift_up heap mem idx timer).1 ((i - 1) / 2)) ≤
        tkey (fev_timers_sift_up heap mem idx timer).2
          ((fev_timers_sift_up heap mem idx timer).1 i)) ∧
    (∀ q, (∃ i, i < n ∧ (fev_timers_sift_up heap mem idx timer).1 i = q) ↔
      (q = timer ∨ ∃ i, i < n ∧ i ≠ idx ∧ heap i = q)) ∧
    (∀ q, ((fev_timers_sift_up heap mem idx timer).2 q).abs_time = (mem q).abs_time ∧
      ((fev_timers_sift_up heap mem idx timer).2 q).waiter = (mem q).waiter) ∧
    (∀ q, q ≠ timer → (∀ i, i < n → i ≠ idx → heap i ≠ q) →
      (fev_timers_sift_up heap mem idx timer).2 q = mem q) ∧
    (∀ j, n ≤ j → (fev_timers_sift_up heap mem idx timer).1 j = heap j) ∧
    ((fev_timers_sift_up heap mem idx timer).2 timer).index ≤ idx ∧
    (fev_timers_sift_up heap mem idx timer).1
      ((fev_timers_sift_up heap mem idx timer).2 timer).index = timer ∧
    (((fev_timers_sift_up heap mem idx timer).2 timer).index = 0 →
      idx = 0 ∨ tkey mem timer < tkey mem (heap 0)) ∧
    (((fev_timers_sift_up heap mem idx timer).2 timer).index ≠ 0 →
      tkey mem (heap ((((fev_timers_sift_up heap mem idx timer).2 timer).index - 1) / 2)) ≤
        tkey mem timer ∧
      (fev_timers_sift_up heap mem idx timer).1 0 = heap 0) := by
  -- the state at the exit of the loop
  have hex : ∃ (heap1 : Nat → Nat) (mem1 : timer_mem) (k : Nat),
      fev_timers_sift_up heap mem idx timer =
        (heap_set heap1 k timer, set_index mem1 timer k) ∧
      sift_up_inv n timer heap1 mem1 k ∧ sift_rel n heap mem idx heap1 mem1 k ∧ k ≤ idx ∧
      (k = 0 ∨ tkey mem (heap ((k - 1) / 2)) ≤ tkey mem timer) ∧
      (k ≠ idx → tkey mem timer < tkey mem (heap k)) ∧
      (∀ j, j ≤ k ∨ idx < j → heap1 j = heap j) := by
    by_cases h0 : idx = 0
    · refine ⟨heap, mem, idx, ?_, h, sift_rel_refl _ _ _ _, le_refl _, Or.inl h0,
        fun hc => absurd rfl hc, fun _ _ => rfl⟩
      simp [fev_timers_sift_up, h0]
    · have hpos : 0 < idx := Nat.pos_of_ne_zero h0
      obtain ⟨r1, r2, r3, r4, r5, r6⟩ :=
        sift_up_loop_spec n timer idx heap mem idx (le_refl _) hpos h
      refine ⟨_, _, _, ?_, r1, r2, r3, r4, r5, r6⟩
      simp [fev_timers_sift_up, hpos]
  obtain ⟨heap1, mem1, k, heq, hinv, hrel, hk, hexit, hmoved, hsame⟩ := hex
  rw [heq]
  dsimp only
  have hexit1 : k = 0 ∨ tkey mem1 (heap1 ((k - 1) / 2)) ≤ tkey mem1 timer := by
    rcases hexit with h0 | hle
    · exact Or.inl h0
    · right
      rw [hsame _ (Or.inl (by omega))]
      unfold tkey at hle ⊢
      rw [(hrel.2.1 _).1, (hrel.2.1 _).1]
      exact hle
  obtain ⟨f1, f2, f3⟩ := sift_up_finish n timer heap1 mem1 k hinv hexit1
  obtain ⟨hn, hvt, hv, hi, ht, -⟩ := hinv
  obtain ⟨g1, g2, g3, g4⟩ := hrel
  have hidx : (set_index mem1 timer k timer).index = k := by
    rw [index_set_index, if_pos rfl]
  refine ⟨f1, f2, f3, ?_, ?_, ?_, ?_, ?_, ?_, ?_, ?_⟩
  · intro q
    constructor
    · rintro ⟨i, hin, hq⟩
      rw [heap_set_apply] at hq
      by_cases hik : i = k
      · rw [if_pos hik] at hq
        exact Or.inl hq.symm
      · rw [if_neg hik] at hq
        exact Or.inr ((g1 q).1 ⟨i, hin, hik, hq⟩)
    · rintro (hq | hq)
      · exact ⟨k, hn, by rw [heap_set_apply, if_pos rfl, hq]⟩
      · obtain ⟨i, hin, hik, hq⟩ := (g1 q).2 hq
        exact ⟨i, hin, by rw [heap_set_apply, if_neg hik, hq]⟩
  · intro q
    have := fields_set_index mem1 timer k q
    exact ⟨this.1.trans (g2 q).1, this.2.trans (g2 q).2⟩
  · intro q hqt hq
    have : set_index mem1 timer k q = mem1 q := by
      simp [set_index, hqt]
    rw [this, g3 q hq]
  · intro j hj
    rw [heap_set_apply, if_neg (by omega), g4 j hj]
  · show (set_index mem1 timer k timer).index ≤ idx
    rw [hidx]; exact hk
  · show heap_set heap1 k timer (set_index mem1 timer k timer).index = timer
    rw [hidx, heap_set_apply, if_pos rfl]
  · intro hz
    have hz : (set_index mem1 timer k timer).index = 0 := hz
    rw [hidx] at hz
    by_cases hki : k = idx
    · left; omega
    · right
      have := hmoved hki
      rw [hz] at this
      exact this
  · intro hz
    have hz : (set_index mem1 timer k timer).index ≠ 0 := hz
    show tkey mem (heap (((set_index mem1 timer k timer).index - 1) / 2)) ≤ tkey mem timer ∧
      heap_set heap1 k timer 0 = heap 0
    rw [hidx] at hz ⊢
    constructor
    · rcases hexit with h0 | hle
      · exact absurd h0 hz
      · exact hle
    · rw [heap_set_apply, if_neg (fun he => hz he.symm), hsame 0 (Or.inl (by omega))]

/-! ## `fev_timers_sift_down` -/

/-- The child picked by the loop of `fev_timers_sift_down` is a child of `start`
inside the heap, and not later than either child. -/
theorem sift_down_child_spec (n last start0 : Nat) (heap : Nat → Nat) (mem : timer_mem)
    (hole : Nat) (h : sift_down_inv n last start0 heap mem hole) (hn : 2 ≤ n)
    (hc : ¬ (n - 2) / 2 < hole) :
    hole < sift_down_child n heap mem hole ∧ sift_down_child n heap mem hole < n ∧
    (sift_down_child n heap mem hole - 1) / 2 = hole ∧
    (∀ c, 0 < c → c < n → (c - 1) / 2 = hole →
      tkey mem (heap (sift_down_child n heap mem hole)) ≤ tkey mem (heap c)) := by
  obtain ⟨hs, hh, hvl, hv, hi, ht, -⟩ := h
  have hl : hole * 2 + 1 < n := by omega
  unfold sift_down_child
  by_cases hr : hole * 2 + 1 + 1 < n
  · have hvL := hv (hole * 2 + 1) hl (by omega)
    have hvR := hv (hole * 2 + 1 + 1) hr (by omega)
    by_cases hcmp : fev_timers_cmp mem (heap (hole * 2 + 1 + 1)) (heap (hole * 2 + 1)) < 0
    · rw [if_pos ⟨hr, hcmp⟩]
      have hlt := (fev_timers_cmp_lt_iff mem _ _ hvR hvL).1 hcmp
      refine ⟨by omega, hr, by omega, ?_⟩
      intro c hc0 hcn hcp
      have : c = hole * 2 + 1 ∨ c = hole * 2 + 1 + 1 := by omega
      rcases this with hc1 | hc1 <;> (subst hc1; omega)
    · rw [if_neg (fun hx => hcmp hx.2)]
      have hge := (fev_timers_cmp_lt_iff mem _ _ hvR hvL).not.1 hcmp
      refine ⟨by omega, hl, by omega, ?_⟩
      intro c hc0 hcn hcp
      have : c = hole * 2 + 1 ∨ c = hole * 2 + 1 + 1 := by omega
      rcases this with hc1 | hc1 <;> (subst hc1; omega)
  · rw [if_neg (fun hx => hr hx.1)]
    refine ⟨by omega, hl, by omega, ?_⟩
    intro c hc0 hcn hcp
    have : c = hole * 2 + 1 := by omega
    rw [this]

/-- One pass of the loop of `fev_timers_sift_down` that moves the picked child up
preserves the invariant, with the hole at that child. -/
theorem sift_down_step (n last start0 : Nat) (heap : Nat → Nat) (mem : timer_mem) (hole : Nat)
    (h : sift_down_inv n last start0 heap mem hole) (hn : 2 ≤ n)
    (hc : ¬ (n - 2) / 2 < hole)
    (hcmp : ¬ fev_timers_cmp mem last (heap (sift_down_child n heap mem hole)) ≤ 0) :
    sift_down_inv n last start0
      (heap_set heap hole (heap (sift_down_child n heap mem hole)))
      (set_index mem (heap (sift_down_child n heap mem hole)) hole)
      (sift_down_child n heap mem hole) ∧
    sift_rel n heap mem hole
      (heap_set heap hole (heap (sift_down_child n heap mem hole)))
      (set_index mem (heap (sift_down_child n heap mem hole)) hole)
      (sift_down_child n heap mem hole) := by
  obtain ⟨c1, c2, c3, c4⟩ := sift_down_child_spec n last start0 heap mem hole h hn hc
  obtain ⟨hs, hh, hvl, hv, hi, ht, d1, d2, d3, d4⟩ := h
  generalize sift_down_child n heap mem hole = child at *
  have hch : child ≠ hole := by omega
  have hvC := hv child c2 hch
  have hiC := hi child c2 hch
  have hlt : tkey mem (heap child) < tkey mem last := by
    have := (fev_timers_cmp_le_iff mem last _ hvl hvC).not.1 hcmp
    omega
  have hne : ∀ i, i < n → i ≠ hole → i ≠ child → heap i ≠ heap child := by
    intro i hin hih hic he
    have := hi i hin hih
    rw [he, hiC] at this
    exact hic this.symm
  refine ⟨⟨by omega, c2, ?_, ?_, ?_, ?_, ?_, ?_, ?_, ?_⟩, ⟨?_, ?_, ?_, ?_⟩⟩
  · exact (tvalid_set_index _ _ _ _).2 hvl
  · intro i hin hic
    rw [tvalid_set_index, heap_set_apply]
    split
    · exact hvC
    · exact hv i hin (by assumption)
  · intro i hin hic
    rw [index_set_index, heap_set_apply]
    by_cases hih : i = hole
    · simp [hih]
    · simp only [hih, if_false]
      rw [if_neg (hne i hin hih hic)]
      exact hi i hin hih
  · intro i hin hic
    rw [heap_set_apply]
    split
    · exact ht child c2 hch
    · exact ht i hin (by assumption)
  · intro i hi0 hin hic hpc his
    simp only [tkey_set_index, heap_set_apply]
    by_cases hih : i = hole
    · have hph : (i - 1) / 2 ≠ hole := by omega
      rw [if_neg hph, if_pos hih]
      have := d2 child (by omega) c2 c3 (by omega)
      rw [hih]; exact this
    · rw [if_neg hih]
      by_cases hph : (i - 1) / 2 = hole
      · rw [if_pos hph]
        exact c4 i hi0 hin hph
      · rw [if_neg hph]
        exact d1 i hi0 hin hih hph his
  · intro c hc0 hcn hcp hc0'
    have hcc : c ≠ hole := by omega
    simp only [tkey_set_index, heap_set_apply]
    rw [c3, if_pos rfl, if_neg hcc]
    have := d1 c hc0 hcn hcc (by rw [hcp]; exact hch) (by omega)
    rw [hcp] at this
    exact this
  · intro _
    simp only [tkey_set_index, heap_set_apply]
    rw [c3, if_pos rfl]
    omega
  · intro _ hs0
    simp only [tkey_set_index, heap_set_apply]
    have hps : (start0 - 1) / 2 ≠ hole := by omega
    rw [if_neg hps]
    by_cases hhs : hole = start0
    · rw [if_pos hhs.symm]
      have := d2 child (by omega) c2 c3 (by omega)
      rw [hhs] at this
      exact this
    · rw [if_neg (fun he => hhs he.symm)]
      exact d4 hhs hs0
  · intro q
    constructor
    · rintro ⟨i, hin, hic, hq⟩
      rw [heap_set_apply] at hq
      by_cases hih : i = hole
      · rw [if_pos hih] at hq
        exact ⟨child, c2, hch, hq⟩
      · rw [if_neg hih] at hq
        exact ⟨i, hin, hih, hq⟩
    · rintro ⟨i, hin, hih, hq⟩
      by_cases hic : i = child
      · refine ⟨hole, hh, fun he => hch he.symm, ?_⟩
        rw [heap_set_apply, if_pos rfl, ← hq, hic]
      · refine ⟨i, hin, hic, ?_⟩
        rw [heap_set_apply, if_neg hih, hq]
  · intro q
    exact fields_set_index _ _ _ _
  · intro q hq
    have : q ≠ heap child := fun he => hq child c2 hch he.symm
    simp [set_index, this]
  · intro j hj
    rw [heap_set_apply, if_neg (by omega)]

/-- Unfolding of one pass of the loop of `fev_timers_sift_down`. -/
theorem fev_timers_sift_down_loop_succ (n last fuel : Nat) (heap : Nat → Nat) (mem : timer_mem)
    (start : Nat) :
    fev_timers_sift_down_loop n last (fuel + 1) heap mem start =
      if (n - 2) / 2 < start then (heap, mem, start)
      else if fev_timers_cmp mem last (heap (sift_down_child n heap mem start)) ≤ 0 then
        (heap, mem, start)
      else
        fev_timers_sift_down_loop n last fuel
          (heap_set heap start (heap (sift_down_child n heap mem start)))
          (set_index mem (heap (sift_down_child n heap mem start)) start)
          (sift_down_child n heap mem start) := by
  rw [fev_timers_sift_down_loop]
  rfl

/-- The loop of `fev_timers_sift_down`, given enough fuel: the invariant holds at
the exit, where `last` is not later than the children of the hole; the entries
above the initial hole are untouched. -/
theorem sift_down_loop_spec (n last start0 : Nat) (fuel : Nat) :
    ∀ (heap : Nat → Nat) (mem : timer_mem) (hole : Nat), n ≤ hole + fuel → 2 ≤ n →
      sift_down_inv n last start0 heap mem hole →
      sift_down_inv n last start0 (fev_timers_sift_down_loop n last fuel heap mem hole).1
        (fev_timers_sift_down_loop n last fuel heap mem hole).2.1
        (fev_timers_sift_down_loop n last fuel heap mem hole).2.2 ∧
      sift_rel n heap mem hole (fev_timers_sift_down_loop n last fuel heap mem hole).1
        (fev_timers_sift_down_loop n last fuel heap mem hole).2.1
        (fev_timers_sift_down_loop n last fuel heap mem hole).2.2 ∧
      (∀ c, 0 < c → c < n →
        (c - 1) / 2 = (fev_timers_sift_down_loop n last fuel heap mem hole).2.2 →
        tkey (fev_timers_sift_down_loop n last fuel heap mem hole).2.1 last ≤
          tkey (fev_timers_sift_down_loop n last fuel heap mem hole).2.1
            ((fev_timers_sift_down_loop n last fuel heap mem hole).1 c)) ∧
      (∀ j, j < hole → (fev_timers_sift_down_loop n last fuel heap mem hole).1 j = heap j) := by
  induction fuel with
  | zero =>
    intro heap mem hole hf hn hinv
    have := hinv.2.1
    omega
  | succ fuel ih =>
    intro heap mem hole hf hn hinv
    rw [fev_timers_sift_down_loop_succ]
    by_cases hc : (n - 2) / 2 < hole
    · rw [if_pos hc]
      refine ⟨hinv, sift_rel_refl _ _ _ _, ?_, fun _ _ => rfl⟩
      intro c hc0 hcn hcp
      have hcp : (c - 1) / 2 = hole := hcp
      omega
    · rw [if_neg hc]
      obtain ⟨c1, c2, c3, c4⟩ := sift_down_child_spec n last start0 heap mem hole hinv hn hc
      by_cases hcmp : fev_timers_cmp mem last (heap (sift_down_child n heap mem hole)) ≤ 0
      · rw [if_pos hcmp]
        refine ⟨hinv, sift_rel_refl _ _ _ _, ?_, fun _ _ => rfl⟩
        intro c hc0 hcn hcp
        have hcp : (c - 1) / 2 = hole := hcp
        obtain ⟨-, -, hvl, hv, -⟩ := hinv
        have := (fev_timers_cmp_le_iff mem last _ hvl (hv _ c2 (by omega))).1 hcmp
        have := c4 c hc0 hcn hcp
        show tkey mem last ≤ tkey mem (heap c)
        omega
      · rw [if_neg hcmp]
        obtain ⟨hinv1, hrel1⟩ := sift_down_step n last start0 heap mem hole hinv hn hc hcmp
        obtain ⟨r1, r2, r3, r4⟩ := ih _ _ _ (by omega) hn hinv1
        refine ⟨r1, sift_rel_trans _ _ _ _ _ _ _ _ _ _ hrel1 r2, r3, ?_⟩
        intro j hj
        rw [r4 j (by omega), heap_set_apply, if_neg (by omega)]

/-- Filling the hole with `last` at the exit of the loop of `fev_timers_sift_down`:
valid entries that know their position; heap order on every edge except the one
into `start0`; the parent of `start0` is not later than the children of `start0`. -/
theorem sift_down_finish (n last start0 : Nat) (heap : Nat → Nat) (mem : timer_mem) (k : Nat)
    (h : sift_down_inv n last start0 heap mem k)
    (hk : ∀ c, 0 < c → c < n → (c - 1) / 2 = k → tkey mem last ≤ tkey mem (heap c)) :
    (∀ i, i < n → tvalid (set_index mem last k) (heap_set heap k last i)) ∧
    (∀ i, i < n → (set_index mem last k (heap_set heap k last i)).index = i) ∧
    (∀ i, 0 < i → i < n → i ≠ start0 →
      tkey (set_index mem last k) (heap_set heap k last ((i - 1) / 2)) ≤
        tkey (set_index mem last k) (heap_set heap k last i)) ∧
    (0 < start0 → ∀ c, 0 < c → c < n → (c - 1) / 2 = start0 →
      tkey (set_index mem last k) (heap_set heap k last ((start0 - 1) / 2)) ≤
        tkey (set_index mem last k) (heap_set heap k last c)) := by
  obtain ⟨hs, hh, hvl, hv, hi, ht, d1, d2, d3, d4⟩ := h
  have hedge : ∀ i, 0 < i → i < n → i ≠ start0 →
      tkey (set_index mem last k) (heap_set heap k last ((i - 1) / 2)) ≤
        tkey (set_index mem last k) (heap_set heap k last i) := by
    intro i hi0 hin his
    simp only [tkey_set_index, heap_set_apply]
    by_cases hik : i = k
    · have hpk : (i - 1) / 2 ≠ k := by omega
      rw [if_neg hpk, if_pos hik, hik]
      exact d3 (by omega)
    · rw [if_neg hik]
      by_cases hpk : (i - 1) / 2 = k
      · rw [if_pos hpk]
        exact hk i hi0 hin hpk
      · rw [if_neg hpk]
        exact d1 i hi0 hin hik hpk his
  refine ⟨?_, ?_, hedge, ?_⟩
  · intro i hin
    rw [tvalid_set_index, heap_set_apply]
    split
    · exact hvl
    · exact hv i hin (by assumption)
  · intro i hin
    rw [index_set_index, heap_set_apply]
    by_cases hik : i = k
    · simp [hik]
    · rw [if_neg hik, if_neg (ht i hin hik)]
      exact hi i hin hik
  · intro hs0 c hc0 hcn hcp
    by_cases hks : k = start0
    · simp only [tkey_set_index, heap_set_apply]
      have h1 : (start0 - 1) / 2 ≠ k := by omega
      have h2 : c ≠ k := by omega
      rw [if_neg h1, if_neg h2]
      have := d2 c hc0 hcn (by rw [hcp, hks]) (by omega)
      rw [hks] at this
      exact this
    · have e1 := hedge c hc0 hcn (by omega)
      rw [hcp] at e1
      have e2 : tkey (set_index mem last k) (heap_set heap k last ((start0 - 1) / 2)) ≤
          tkey (set_index mem last k) (heap_set heap k last start0) := by
        simp only [tkey_set_index, heap_set_apply]
        have h1 : (start0 - 1) / 2 ≠ k := by omega
        have h2 : start0 ≠ k := fun he => hks he.symm
        rw [if_neg h1, if_neg h2]
        exact d4 hks hs0
      omega

/-- The function `fev_timers_sift_down(heap, len, start)` on a heap `heap[0..len)`:
`heap[0..len-1)` then holds the former entries except the one at `start`, valid
and knowing their position; the heap order holds on every edge except the one
into `start`, and the parent of `start` is not later than the children of
`start`; only `index` fields of the remaining timers are written; the entries
above `start` and from `len - 1` on are untouched. -/
theorem fev_timers_sift_down_spec (heap : Nat → Nat) (mem : timer_mem) (len start : Nat)
    (hok : heap_ok heap mem len) (hs : start < len) :
    (∀ i, i < len - 1 → tvalid (fev_timers_sift_down heap mem len start).2
      ((fev_timers_sift_down heap mem len start).1 i)) ∧
    (∀ i, i < len - 1 → ((fev_timers_sift_down heap mem len start).2
      ((fev_timers_sift_down heap mem len start).1 i)).index = i) ∧
    (∀ i, 0 < i → i < len - 1 → i ≠ start →
      tkey (fev_timers_sift_down heap mem len start).2
          ((fev_timers_sift_down heap mem len start).1 ((i - 1) / 2)) ≤
        tkey (fev_timers_sift_down heap mem len start).2
          ((fev_timers_sift_down heap mem len start).1 i)) ∧
    (0 < start → ∀ c, 0 < c → c < len - 1 → (c - 1) / 2 = start →
      tkey (fev_timers_sift_down heap mem len start).2
          ((fev_timers_sift_down heap mem len start).1 ((start - 1) / 2)) ≤
        tkey (fev_timers_sift_down heap mem len start).2
          ((fev_timers_sift_down heap mem len start).1 c)) ∧
    (∀ q, (∃ i, i < len - 1 ∧ (fev_timers_sift_down heap mem len start).1 i = q) ↔
      (∃ i, i < len ∧ i ≠ start ∧ heap i = q)) ∧
    (∀ q, ((fev_timers_sift_down heap mem len start).2 q).abs_time = (mem q).abs_time ∧
      ((fev_timers_sift_down heap mem len start).2 q).waiter = (mem q).waiter) ∧
    (∀ q, (∀ i, i < len → i ≠ start → heap i ≠ q) →
      (fev_timers_sift_down heap mem len start).2 q = mem q) ∧
    (∀ j, j < start ∨ len - 1 ≤ j → (fev_timers_sift_down heap mem len start).1 j = heap j) := by
  obtain ⟨hv, hi, ho⟩ := hok
  by_cases hlast : start = len - 1
  · have heq : fev_timers_sift_down heap mem len start = (heap, mem) := by
      simp [fev_timers_sift_down, hlast]
    rw [heq]
    dsimp only
    refine ⟨fun i hin => hv i (by omega), fun i hin => hi i (by omega),
      fun i hi0 hin _ => ho i hi0 (by omega), ?_, ?_, fun _ => ⟨rfl, rfl⟩, fun _ _ => rfl,
      fun _ _ => rfl⟩
    · intro hs0 c hc0 hcn hcp
      omega
    · intro q
      constructor
      · rintro ⟨i, hin, hq⟩
        exact ⟨i, by omega, by omega, hq⟩
      · rintro ⟨i, hin, his, hq⟩
        exact ⟨i, by omega, hq⟩
  · have hsn : start < len - 1 := by omega
    have hnl : len - 1 < len := by omega
    -- the invariant holds at the start
    have hinv : sift_down_inv (len - 1) (heap (len - 1)) start heap mem start := by
      refine ⟨le_refl _, hsn, hv _ hnl, fun i hin _ => hv i (by omega),
        fun i hin _ => hi i (by omega), ?_, fun i hi0 hin _ _ _ => ho i hi0 (by omega), ?_,
        fun hc => absurd rfl hc, fun hc => absurd rfl hc⟩
      · intro i hin _ he
        have h1 := hi i (by omega)
        rw [he, hi _ hnl] at h1
        omega
      · intro c hc0 hcn hcp hs0
        have e1 := ho c hc0 (by omega)
        have e2 := ho start hs0 hs
        rw [hcp] at e1
        omega
    -- the state at the exit of the loop
    have hex : ∃ (heap1 : Nat → Nat) (mem1 : timer_mem) (k : Nat),
        fev_timers_sift_down heap mem len start =
          (heap_set heap1 k (heap (len - 1)), set_index mem1 (heap (len - 1)) k) ∧
        sift_down_inv (len - 1) (heap (len - 1)) start heap1 mem1 k ∧
        sift_rel (len - 1) heap mem start heap1 mem1 k ∧
        (∀ c, 0 < c → c < len - 1 → (c - 1) / 2 = k →
          tkey mem1 (heap (len - 1)) ≤ tkey mem1 (heap1 c)) ∧
        (∀ j, j < start → heap1 j = heap j) := by
      by_cases h2 : 2 ≤ len - 1
      · obtain ⟨r1, r2, r3, r4⟩ := sift_down_loop_spec (len - 1) (heap (len - 1)) start
          (len - 1) heap mem start (by omega) h2 hinv
        refine ⟨_, _, _, ?_, r1, r2, r3, r4⟩
        simp [fev_timers_sift_down, hlast, h2]
      · refine ⟨heap, mem, start, ?_, hinv, sift_rel_refl _ _ _ _, ?_, fun _ _ => rfl⟩
        · simp [fev_timers_sift_down, hlast, h2]
        · intro c hc0 hcn hcp
          omega
    obtain ⟨heap1, mem1, k, heq, hinv1, hrel, hexit, hsame⟩ := hex
    rw [heq]
    dsimp only
    obtain ⟨f1, f2, f3, f4⟩ :=
      sift_down_finish (len - 1) (heap (len - 1)) start heap1 mem1 k hinv1 hexit
    obtain ⟨hsk, hkn, -⟩ := hinv1
    obtain ⟨g1, g2, g3, g4⟩ := hrel
    refine ⟨f1, f2, f3, f4, ?_, ?_, ?_, ?_⟩
    · intro q
      constructor
      · rintro ⟨i, hin, hq⟩
        rw [heap_set_apply] at hq
        by_cases hik : i = k
        · rw [if_pos hik] at hq
          exact ⟨len - 1, hnl, by omega, hq⟩
        · rw [if_neg hik] at hq
          obtain ⟨j, hjn, hjs, hj⟩ := (g1 q).1 ⟨i, hin, hik, hq⟩
          exact ⟨j, by omega, hjs, hj⟩
      · rintro ⟨i, hin, his, hq⟩
        by_cases hil : i = len - 1
        · refine ⟨k, hkn, ?_⟩
          rw [heap_set_apply, if_pos rfl, ← hq, hil]
        · obtain ⟨j, hjn, hjk, hj⟩ := (g1 q).2 ⟨i, by omega, his, hq⟩
          exact ⟨j, hjn, by rw [heap_set_apply, if_neg hjk, hj]⟩
    · intro q
      have := fields_set_index mem1 (heap (len - 1)) k q
      exact ⟨this.1.trans (g2 q).1, this.2.trans (g2 q).2⟩
    · intro q hq
      have hql : q ≠ heap (len - 1) := fun he => hq (len - 1) hnl (by omega) he.symm
      have : set_index mem1 (heap (len - 1)) k q = mem1 q := by
        simp [set_index, hql]
      rw [this, g3 q (fun i hin his => hq i (by omega) his)]
    · intro j hj
      rw [heap_set_apply]
      rcases hj with hj | hj
      · rw [if_neg (by omega), hsame j hj]
      · rw [if_neg (by omega), g4 j hj]

/-! ## Bucket operations -/

/-- A bucket is well formed exactly when `len <= capacity` and `heap[0..len)` is a
binary heap. -/
theorem bucket_wf_iff (b : fev_timers_bucket) (mem : timer_mem) :
    bucket_wf b mem ↔ b.len ≤ b.capacity ∧ heap_ok b.heap mem b.len := by
  constructor
  · rintro ⟨h1, h2, h3, h4⟩
    refine ⟨h1, h4, h2, ?_⟩
    intro i hi0 hin
    exact (timespec_le_iff_ns _ _ (h4 _ (by omega)) (h4 i hin)).1 (h3 i hi0 hin)
  · rintro ⟨h1, h4, h2, h3⟩
    refine ⟨h1, h2, ?_, h4⟩
    intro i hi0 hin
    exact (timespec_le_iff_ns _ _ (h4 _ (by omega)) (h4 i hin)).2 (h3 i hi0 hin)

/-- In a binary heap the root is not later than any entry. -/
theorem heap_ok_root_le (heap : Nat → Nat) (mem : timer_mem) (n : Nat)
    (hok : heap_ok heap mem n) : ∀ i, i < n → tkey mem (heap 0) ≤ tkey mem (heap i) := by
  intro i
  induction i using Nat.strong_induction_on with
  | _ i ih =>
    intro hin
    by_cases hi0 : i = 0
    · rw [hi0]
    · have hp : (i - 1) / 2 < i := by omega
      have e1 := ih _ hp (by omega)
      have e2 := hok.2.2 i (by omega) hin
      omega

/-- In a binary heap the timers are pairwise distinct. -/
theorem heap_ok_injective (heap : Nat → Nat) (mem : timer_mem) (n : Nat)
    (hok : heap_ok heap mem n) (i j : Nat) (hi : i < n) (hj : j < n) (h : heap i = heap j) :
    i = j := by
  have e1 := hok.2.1 i hi
  have e2 := hok.2.1 j hj
  rw [h] at e1
  omega

/-- The function `fev_timers_bucket_add` without allocation failure, on a well-formed
bucket and a valid timer that is not in it: the bucket stays well formed and
holds the timer besides the former ones; only `index` fields are written, and
only of the timer and of timers in the bucket; the shadow minimum and the timeout
are not touched; the return value is 1 when the bucket was empty or the timer
compares earlier than the former minimum, and then the minimum is the timer;
otherwise it is 0 and the minimum is the same timer as before. -/
theorem fev_timers_bucket_add_spec (b : fev_timers_bucket) (mem : timer_mem) (timer : Nat)
    (hwf : bucket_wf b mem) (hnew : ¬ in_bucket b timer) (hvt : tvalid mem timer) :
    bucket_wf (fev_timers_bucket_add b mem timer true).1
      (fev_timers_bucket_add b mem timer true).2.1 ∧
    (fev_timers_bucket_add b mem timer true).1.len = b.len + 1 ∧
    (∀ q, in_bucket (fev_timers_bucket_add b mem timer true).1 q ↔ (q = timer ∨ in_bucket b q)) ∧
    (∀ q, ((fev_timers_bucket_add b mem timer true).2.1 q).abs_time = (mem q).abs_time ∧
      ((fev_timers_bucket_add b mem timer true).2.1 q).waiter = (mem q).waiter) ∧
    (∀ q, q ≠ timer → ¬ in_bucket b q → (fev_timers_bucket_add b mem timer true).2.1 q = mem q) ∧
    (fev_timers_bucket_add b mem timer true).1.min = b.min ∧
    (fev_timers_bucket_add b mem timer true).1.timeout = b.timeout ∧
    ((fev_timers_bucket_add b mem timer true).2.2 = 1 ∨
      (fev_timers_bucket_add b mem timer true).2.2 = 0) ∧
    ((fev_timers_bucket_add b mem timer true).2.2 = 1 ↔
      (b.len = 0 ∨ fev_timers_cmp mem timer (fev_timers_bucket_min b) < 0)) ∧
    ((fev_timers_bucket_add b mem timer true).2.2 = 1 →
      fev_timers_bucket_min (fev_timers_bucket_add b mem timer true).1 = timer) ∧
    ((fev_timers_bucket_add b mem timer true).2.2 = 0 →
      fev_timers_bucket_min (fev_timers_bucket_add b mem timer true).1 =
        fev_timers_bucket_min b) := by
  obtain ⟨hcap, hv, hi, ho⟩ := (bucket_wf_iff b mem).1 hwf
  -- the invariant of `fev_timers_sift_up` holds with the hole at `len`
  have hinv : sift_up_inv (b.len + 1) timer b.heap mem b.len := by
    refine ⟨by omega, hvt, fun i hin hne => hv i (by omega), fun i hin hne => hi i (by omega),
      ?_, fun i hi0 hin hne _ => ho i hi0 (by omega), ?_, ?_⟩
    · intro i hin hne he
      exact hnew ⟨i, by omega, he⟩
    · intro c hc0 hcn hcp
      omega
    · intro c hc0 hcn hcp
      omega
  obtain ⟨s1, s2, s3, s4, s5, s6, s7, s8, s9, s10, s11⟩ :=
    fev_timers_sift_up_spec (b.len + 1) timer b.heap mem b.len hinv
  -- unfold the function
  have hheap : (fev_timers_bucket_add b mem timer true).1.heap =
      (fev_timers_sift_up b.heap mem b.len timer).1 := by
    unfold fev_timers_bucket_add fev_timers_bucket_grow
    simp only [Bool.true_eq_false, and_false, if_false]
    split <;> rfl
  have hmem : (fev_timers_bucket_add b mem timer true).2.1 =
      (fev_timers_sift_up b.heap mem b.len timer).2 := by
    unfold fev_timers_bucket_add fev_timers_bucket_grow
    simp only [Bool.true_eq_false, and_false, if_false]
    split <;> rfl
  have hlen : (fev_timers_bucket_add b mem timer true).1.len = b.len + 1 := by
    unfold fev_timers_bucket_add fev_timers_bucket_grow
    simp only [Bool.true_eq_false, and_false, if_false]
    split <;> rfl
  have hcap2 : b.len + 1 ≤ (fev_timers_bucket_add b mem timer true).1.capacity := by
    unfold fev_timers_bucket_add fev_timers_bucket_grow
    simp only [Bool.true_eq_false, and_false, if_false]
    split
    · dsimp only
      split <;> omega
    · omega
  have hmin : (fev_timers_bucket_add b mem timer true).1.min = b.min := by
    unfold fev_timers_bucket_add fev_timers_bucket_grow
    simp only [Bool.true_eq_false, and_false, if_false]
    split <;> rfl
  have htmo : (fev_timers_bucket_add b mem timer true).1.timeout = b.timeout := by
    unfold fev_timers_bucket_add fev_timers_bucket_grow
    simp only [Bool.true_eq_false, and_false, if_false]
    split <;> rfl
  have hret : (fev_timers_bucket_add b mem timer true).2.2 =
      if ((fev_timers_sift_up b.heap mem b.len timer).2 timer).index = 0 then 1 else 0 := by
    unfold fev_timers_bucket_add fev_timers_bucket_grow
    simp only [Bool.true_eq_false, and_false, if_false]
    split <;> rfl
  have hin : ∀ q, in_bucket (fev_timers_bucket_add b mem timer true).1 q ↔
      (q = timer ∨ in_bucket b q) := by
    intro q
    unfold in_bucket
    rw [hheap, hlen, s4 q]
    constructor
    · rintro (h | ⟨i, hin, hne, hq⟩)
      · exact Or.inl h
      · exact Or.inr ⟨i, by omega, hq⟩
    · rintro (h | ⟨i, hin, hq⟩)
      · exact Or.inl h
      · exact Or.inr ⟨i, by omega, by omega, hq⟩
  -- the timer reaches the root exactly when it is earlier than the old minimum
  have hroot : ((fev_timers_sift_up b.heap mem b.len timer).2 timer).index = 0 ↔
      (b.len = 0 ∨ fev_timers_cmp mem timer (fev_timers_bucket_min b) < 0) := by
    constructor
    · intro hz
      rcases s10 hz with h0 | hlt
      · exact Or.inl h0
      · by_cases hl0 : b.len = 0
        · exact Or.inl hl0
        · right
          exact (fev_timers_cmp_lt_iff mem timer _ hvt (hv 0 (by omega))).2 hlt
    · rintro (h0 | hlt)
      · omega
      · by_contra hnz
        by_cases hl0 : b.len = 0
        · omega
        · have hlt2 := (fev_timers_cmp_lt_iff mem timer _ hvt (hv 0 (by omega))).1 hlt
          have e1 := (s11 hnz).1
          have e2 := heap_ok_root_le b.heap mem b.len ⟨hv, hi, ho⟩
            ((((fev_timers_sift_up b.heap mem b.len timer).2 timer).index - 1) / 2) (by omega)
          unfold fev_timers_bucket_min at hlt2
          omega
  refine ⟨?_, hlen, hin, ?_, ?_, hmin, htmo, ?_, ?_, ?_, ?_⟩
  · rw [bucket_wf_iff, hlen, hheap, hmem]
    exact ⟨hcap2, s1, s2, s3⟩
  · rw [hmem]; exact s5
  · intro q hqt hq
    rw [hmem]
    exact s6 q hqt (fun i hin _ he => hq ⟨i, by omega, he⟩)
  · rw [hret]
    split
    · exact Or.inl rfl
    · exact Or.inr rfl
  · rw [hret, ← hroot]
    split <;> simp_all
  · intro h1
    rw [hret] at h1
    have hz : ((fev_timers_sift_up b.heap mem b.len timer).2 timer).index = 0 := by
      by_contra hc
      rw [if_neg hc] at h1
      exact absurd h1 (by decide)
    unfold fev_timers_bucket_min
    rw [hheap]
    rw [hz] at s9
    exact s9
  · intro h0
    rw [hret] at h0
    have hnz : ((fev_timers_sift_up b.heap mem b.len timer).2 timer).index ≠ 0 := by
      intro hc
      rw [if_pos hc] at h0
      exact absurd h0 (by decide)
    unfold fev_timers_bucket_min
    rw [hheap]
    exact (s11 hnz).2

/-- Expiry times only depend on the `abs_time` fields. -/
theorem tkey_congr (mem mem2 : timer_mem) (q : Nat) (h : (mem2 q).abs_time = (mem q).abs_time) :
    tkey mem2 q = tkey mem q := by
  unfold tkey
  rw [h]

/-- The function `fev_timers_bucket_del_min` on a well-formed non-empty bucket: the
bucket stays well formed and holds the former timers except the former minimum;
only `index` fields of the remaining timers are written; the shadow minimum and
the timeout are not touched. -/
theorem fev_timers_bucket_del_min_spec (b : fev_timers_bucket) (mem : timer_mem)
    (hwf : bucket_wf b mem) (hne : b.len ≠ 0) :
    bucket_wf (fev_timers_bucket_del_min b mem).1 (fev_timers_bucket_del_min b mem).2 ∧
    (fev_timers_bucket_del_min b mem).1.len = b.len - 1 ∧
    (∀ q, in_bucket (fev_timers_bucket_del_min b mem).1 q ↔
      (in_bucket b q ∧ q ≠ fev_timers_bucket_min b)) ∧
    (∀ q, ((fev_timers_bucket_del_min b mem).2 q).abs_time = (mem q).abs_time ∧
      ((fev_timers_bucket_del_min b mem).2 q).waiter = (mem q).waiter) ∧
    (∀ q, (¬ in_bucket b q ∨ q = fev_timers_bucket_min b) →
      (fev_timers_bucket_del_min b mem).2 q = mem q) ∧
    (fev_timers_bucket_del_min b mem).1.min = b.min ∧
    (fev_timers_bucket_del_min b mem).1.timeout = b.timeout := by
  obtain ⟨hcap, hok⟩ := (bucket_wf_iff b mem).1 hwf
  have hpos : 0 < b.len := Nat.pos_of_ne_zero hne
  obtain ⟨s1, s2, s3, -, s5, s6, s7, -⟩ :=
    fev_timers_sift_down_spec b.heap mem b.len 0 hok hpos
  have hinj := heap_ok_injective b.heap mem b.len hok
  refine ⟨?_, rfl, ?_, s6, ?_, rfl, rfl⟩
  · rw [bucket_wf_iff]
    refine ⟨?_, s1, s2, fun i hi0 hin => s3 i hi0 hin (by omega)⟩
    show b.len - 1 ≤ b.capacity
    omega
  · intro q
    unfold in_bucket fev_timers_bucket_min
    show (∃ i, i < b.len - 1 ∧ (fev_timers_sift_down b.heap mem b.len 0).1 i = q) ↔ _
    rw [s5 q]
    constructor
    · rintro ⟨i, hin, hi0, hq⟩
      refine ⟨⟨i, hin, hq⟩, ?_⟩
      intro he
      rw [← hq] at he
      exact hi0 (hinj i 0 hin hpos he)
    · rintro ⟨⟨i, hin, hq⟩, hne0⟩
      refine ⟨i, hin, ?_, hq⟩
      intro he
      rw [he] at hq
      exact hne0 hq.symm
  · intro q hq
    apply s7
    intro i hin hi0 he
    rcases hq with hq | hq
    · exact hq ⟨i, hin, he⟩
    · unfold fev_timers_bucket_min at hq
      rw [hq] at he
      exact hi0 (hinj i 0 hin hpos he)

/-- The function `fev_timers_bucket_del` on a well-formed bucket and a timer in it:
the bucket stays well formed and holds the former timers except that one; only
`index` fields of the remaining timers are written; the shadow minimum and the
timeout are not touched; the return value is 1 when the timer was the minimum
and 0 otherwise, and then the minimum is the same timer as before. -/
theorem fev_timers_bucket_del_spec (b : fev_timers_bucket) (mem : timer_mem) (timer : Nat)
    (hwf : bucket_wf b mem) (hin : in_bucket b timer) :
    bucket_wf (fev_timers_bucket_del b mem timer).1 (fev_timers_bucket_del b mem timer).2.1 ∧
    (fev_timers_bucket_del b mem timer).1.len = b.len - 1 ∧
    (∀ q, in_bucket (fev_timers_bucket_del b mem timer).1 q ↔ (in_bucket b q ∧ q ≠ timer)) ∧
    (∀ q, ((fev_timers_bucket_del b mem timer).2.1 q).abs_time = (mem q).abs_time ∧
      ((fev_timers_bucket_del b mem timer).2.1 q).waiter = (mem q).waiter) ∧
    (∀ q, (¬ in_bucket b q ∨ q = timer) → (fev_timers_bucket_del b mem timer).2.1 q = mem q) ∧
    (fev_timers_bucket_del b mem timer).1.min = b.min ∧
    (fev_timers_bucket_del b mem timer).1.timeout = b.timeout ∧
    ((fev_timers_bucket_del b mem timer).2.2 = 1 ∨ (fev_timers_bucket_del b mem timer).2.2 = 0) ∧
    ((fev_timers_bucket_del b mem timer).2.2 = 1 ↔ timer = fev_timers_bucket_min b) ∧
    ((fev_timers_bucket_del b mem timer).2.2 = 0 →
      fev_timers_bucket_min (fev_timers_bucket_del b mem timer).1 = fev_timers_bucket_min b) := by
  obtain ⟨hcap, hok⟩ := (bucket_wf_iff b mem).1 hwf
  obtain ⟨hv, hi, ho⟩ := hok
  have hinj := heap_ok_injective b.heap mem b.len ⟨hv, hi, ho⟩
  obtain ⟨i0, hi0n, hi0⟩ := hin
  have hidx : (mem timer).index = i0 := by rw [← hi0]; exact hi i0 hi0n
  have hpos : 0 < b.len := by omega
  obtain ⟨s1, s2, s3, s4, s5, s6, s7, s8⟩ :=
    fev_timers_sift_down_spec b.heap mem b.len i0 ⟨hv, hi, ho⟩ hi0n
  -- membership after the sift down, in terms of the bucket
  have hmemb : ∀ q, (∃ i, i < b.len ∧ i ≠ i0 ∧ b.heap i = q) ↔ (in_bucket b q ∧ q ≠ timer) := by
    intro q
    constructor
    · rintro ⟨i, hin, hne, hq⟩
      refine ⟨⟨i, hin, hq⟩, ?_⟩
      intro he
      rw [← hq, ← hi0] at he
      exact hne (hinj i i0 hin hi0n he)
    · rintro ⟨⟨i, hin, hq⟩, hne⟩
      refine ⟨i, hin, ?_, hq⟩
      intro he
      rw [he, hi0] at hq
      exact hne hq.symm
  have hframe : ∀ q, (¬ in_bucket b q ∨ q = timer) →
      ∀ i, i < b.len → i ≠ i0 → b.heap i ≠ q := by
    intro q hq i hin hne he
    exact ((hmemb q).1 ⟨i, hin, hne, he⟩).elim (fun h1 h2 => hq.elim (fun h => h h1) h2)
  by_cases hz : i0 = 0
  · -- the timer is the minimum
    have heq : fev_timers_bucket_del b mem timer =
        ({ b with heap := (fev_timers_sift_down b.heap mem b.len i0).1, len := b.len - 1 },
          (fev_timers_sift_down b.heap mem b.len i0).2, 1) := by
      simp [fev_timers_bucket_del, hidx, hz]
    rw [heq]
    dsimp only
    refine ⟨?_, rfl, ?_, s6, ?_, rfl, rfl, Or.inl rfl, ?_, ?_⟩
    · rw [bucket_wf_iff]
      refine ⟨?_, s1, s2, fun i hi0' hin => s3 i hi0' hin (by omega)⟩
      show b.len - 1 ≤ b.capacity
      omega
    · intro q
      rw [← hmemb q, ← s5 q]
      rfl
    · intro q hq
      exact s7 q (hframe q hq)
    · simp only [true_iff]
      unfold fev_timers_bucket_min
      rw [← hi0, hz]
    · intro h
      exact absurd h (by decide)
  · have hp0 : 0 < i0 := Nat.pos_of_ne_zero hz
    have hne1 : timer ≠ fev_timers_bucket_min b := by
      intro he
      unfold fev_timers_bucket_min at he
      rw [← hi0] at he
      exact hz (hinj i0 0 hi0n hpos he)
    by_cases hlt : i0 < b.len - 1
    · -- the last timer was moved into the subtree of `i0`: sift it up from there
      have heq : fev_timers_bucket_del b mem timer =
          ({ b with heap := (fev_timers_sift_up (fev_timers_sift_down b.heap mem b.len i0).1
                (fev_timers_sift_down b.heap mem b.len i0).2 i0
                ((fev_timers_sift_down b.heap mem b.len i0).1 i0)).1, len := b.len - 1 },
            (fev_timers_sift_up (fev_timers_sift_down b.heap mem b.len i0).1
                (fev_timers_sift_down b.heap mem b.len i0).2 i0
                ((fev_timers_sift_down b.heap mem b.len i0).1 i0)).2, 0) := by
        simp [fev_timers_bucket_del, hidx, hp0, hlt]
      rw [heq]
      dsimp only
      generalize hh1 : (fev_timers_sift_down b.heap mem b.len i0).1 = heap1 at *
      generalize hm1 : (fev_timers_sift_down b.heap mem b.len i0).2 = mem1 at *
      have hinv : sift_up_inv (b.len - 1) (heap1 i0) heap1 mem1 i0 := by
        refine ⟨hlt, s1 i0 hlt, fun i hin _ => s1 i hin, fun i hin _ => s2 i hin, ?_,
          fun i hi0' hin hne _ => s3 i hi0' hin hne, ?_, ?_⟩
        · intro i hin hne he
          have e1 := s2 i hin
          rw [he, s2 i0 hlt] at e1
          exact hne e1.symm
        · intro c hc0 hcn hcp
          have := s3 c hc0 hcn (by omega)
          rw [hcp] at this
          exact this
        · intro c hc0 hcn hcp _
          exact s4 hp0 c hc0 hcn hcp
      obtain ⟨u1, u2, u3, u4, u5, u6, u7, u8, u9, u10, u11⟩ :=
        fev_timers_sift_up_spec (b.len - 1) (heap1 i0) heap1 mem1 i0 hinv
      have hroot1 : heap1 0 = b.heap 0 := s8 0 (Or.inl hp0)
      refine ⟨?_, rfl, ?_, ?_, ?_, rfl, rfl, Or.inr rfl, ?_, ?_⟩
      · rw [bucket_wf_iff]
        refine ⟨?_, u1, u2, u3⟩
        show b.len - 1 ≤ b.capacity
        omega
      · intro q
        rw [← hmemb q, ← s5 q]
        show (∃ i, i < b.len - 1 ∧ _ = q) ↔ _
        rw [u4 q]
        constructor
        · rintro (h | ⟨i, hin, _, hq⟩)
          · exact ⟨i0, hlt, h.symm⟩
          · exact ⟨i, hin, hq⟩
        · rintro ⟨i, hin, hq⟩
          by_cases hii : i = i0
          · left; rw [← hq, hii]
          · right; exact ⟨i, hin, hii, hq⟩
      · intro q
        exact ⟨(u5 q).1.trans (s6 q).1, (u5 q).2.trans (s6 q).2⟩
      · intro q hq
        have hq1 : ∀ i, i < b.len - 1 → heap1 i ≠ q := by
          intro i hin he
          obtain ⟨j, hjn, hjne, hj⟩ := (s5 q).1 ⟨i, hin, he⟩
          exact hframe q hq j hjn hjne hj
        rw [u6 q (fun he => hq1 i0 hlt he.symm) (fun i hin _ => hq1 i hin), s7 q (hframe q hq)]
      · constructor
        · intro h; exact absurd h (by decide)
        · intro h; exact absurd h hne1
      · intro _
        unfold fev_timers_bucket_min
        dsimp only
        by_cases hfin : ((fev_timers_sift_up heap1 mem1 i0 (heap1 i0)).2 (heap1 i0)).index = 0
        · -- impossible: the moved timer is not earlier than the root
          exfalso
          rcases u10 hfin with h0 | hlt0
          · omega
          · obtain ⟨j, hjn, -, hj⟩ := (s5 (heap1 i0)).1 ⟨i0, hlt, rfl⟩
            have e1 := heap_ok_root_le b.heap mem b.len ⟨hv, hi, ho⟩ j hjn
            rw [hj] at e1
            rw [tkey_congr mem mem1 _ (s6 _).1, tkey_congr mem mem1 _ (s6 _).1, hroot1] at hlt0
            omega
        · rw [(u11 hfin).2, hroot1]
    · -- the timer is the last entry
      have hlast : i0 = b.len - 1 := by omega
      have heq : fev_timers_bucket_del b mem timer =
          ({ b with heap := (fev_timers_sift_down b.heap mem b.len i0).1, len := b.len - 1 },
            (fev_timers_sift_down b.heap mem b.len i0).2, 0) := by
        simp [fev_timers_bucket_del, hidx, hp0, hlt]
      rw [heq]
      dsimp only
      refine ⟨?_, rfl, ?_, s6, ?_, rfl, rfl, Or.inr rfl, ?_, ?_⟩
      · rw [bucket_wf_iff]
        refine ⟨?_, s1, s2, fun i hi0' hin => s3 i hi0' hin ?_⟩
        · show b.len - 1 ≤ b.capacity
          omega
        · have : i < b.len - 1 := hin
          omega
      · intro q
        rw [← hmemb q, ← s5 q]
        rfl
      · intro q hq
        exact s7 q (hframe q hq)
      · constructor
        · intro h; exact absurd h (by decide)
        · intro h; exact absurd h hne1
      · intro _
        unfold fev_timers_bucket_min
        exact s8 0 (Or.inl hp0)

/-- Every reachable bucket is well formed. -/
theorem bucket_reachable_wf (b : fev_timers_bucket) (mem : timer_mem)
    (h : bucket_reachable b mem) : bucket_wf b mem := by
  induction h with
  | init mem =>
    refine ⟨le_refl _, ?_, ?_, ?_⟩
    · intro i hi
      exact absurd hi (Nat.not_lt_zero i)
    · intro i _ hi
      exact absurd hi (Nat.not_lt_zero i)
    · intro i hi
      exact absurd hi (Nat.not_lt_zero i)
  | add b mem timer _ hnew hvt ih => exact (fev_timers_bucket_add_spec b mem timer ih hnew hvt).1
  | del b mem timer _ hin ih => exact (fev_timers_bucket_del_spec b mem timer ih hin).1
  | del_min b mem _ hne ih => exact (fev_timers_bucket_del_min_spec b mem ih hne).1
  | write b mem mem2 _ hsame ih =>
    obtain ⟨h1, h2, h3, h4⟩ := ih
    have e : ∀ i, i < b.len → mem2 (b.heap i) = mem (b.heap i) :=
      fun i hi => hsame _ ⟨i, hi, rfl⟩
    refine ⟨h1, ?_, ?_, ?_⟩
    · intro i hi
      rw [e i hi]; exact h2 i hi
    · intro i hi0 hi
      rw [e i hi, e _ (by omega)]; exact h3 i hi0 hi
    · intro i hi
      rw [e i hi]; exact h4 i hi

/-- In a well-formed bucket the timer returned by `fev_timers_bucket_min` is not
later than any timer in the bucket. -/
theorem bucket_wf_min_le (b : fev_timers_bucket) (mem : timer_mem) (hwf : bucket_wf b mem)
    (p : Nat) (hp : in_bucket b p) :
    timespec_le (mem (fev_timers_bucket_min b)).abs_time (mem p).abs_time := by
  obtain ⟨-, hok⟩ := (bucket_wf_iff b mem).1 hwf
  obtain ⟨i, hi, rfl⟩ := hp
  have := heap_ok_root_le b.heap mem b.len hok i hi
  exact (timespec_le_iff_ns _ _ (hok.1 0 (by omega)) (hok.1 i hi)).2 this

/-- C9: after every sequence of `fev_timers_bucket_add`, `fev_timers_bucket_del` and
`fev_timers_bucket_del_min` applied to an initially empty binary-heap bucket
(`del` only on timers in the bucket, `del_min` only on a non-empty bucket, `add`
of valid timers not in the bucket, no allocation failure), the bucket is empty or
`fev_timers_bucket_min` returns a timer of the bucket whose `abs_time` is not
later than the `abs_time` of every timer in the bucket. -/
theorem fev_timers_bucket_min_is_min (b : fev_timers_bucket) (mem : timer_mem)
    (h : bucket_reachable b mem) :
    fev_timers_bucket_empty b = true ∨
    (in_bucket b (fev_timers_bucket_min b) ∧
      ∀ p, in_bucket b p →
        timespec_le (mem (fev_timers_bucket_min b)).abs_time (mem p).abs_time) := by
  have hwf := bucket_reachable_wf b mem h
  by_cases h0 : b.len = 0
  · left
    simp [fev_timers_bucket_empty, h0]
  · right
    exact ⟨⟨0, by omega, rfl⟩, fun p hp => bucket_wf_min_le b mem hwf p hp⟩

/-- Witness for C9: the timers at addresses 1 and 2, expiring at 5 s and 3 s, are
added to the empty bucket; the minimum is then timer 2. -/
theorem fev_timers_bucket_min_is_min_witness :
    fev_timers_bucket_min
      (fev_timers_bucket_add
        (fev_timers_bucket_add fev_timers_bucket_init
          (fun p => ⟨⟨if p = 1 then 5 else if p = 2 then 3 else 8, 0⟩, 0, 0⟩) 1 true).1
        (fev_timers_bucket_add fev_timers_bucket_init
          (fun p => ⟨⟨if p = 1 then 5 else if p = 2 then 3 else 8, 0⟩, 0, 0⟩) 1 true).2.1
        2 true).1 = 2 ∧
    (fev_timers_bucket_empty
      (fev_timers_bucket_add
        (fev_timers_bucket_add fev_timers_bucket_init
          (fun p => ⟨⟨if p = 1 then 5 else if p = 2 then 3 else 8, 0⟩, 0, 0⟩) 1 true).1
        (fev_timers_bucket_add fev_timers_bucket_init
          (fun p => ⟨⟨if p = 1 then 5 else if p = 2 then 3 else 8, 0⟩, 0, 0⟩) 1 true).2.1
        2 true).1 = true ∨
     (in_bucket
      (fev_timers_bucket_add
        (fev_timers_bucket_add fev_timers_bucket_init
          (fun p => ⟨⟨if p = 1 then 5 else if p = 2 then 3 else 8, 0⟩, 0, 0⟩) 1 true).1
        (fev_timers_bucket_add fev_timers_bucket_init
          (fun p => ⟨⟨if p = 1 then 5 else if p = 2 then 3 else 8, 0⟩, 0, 0⟩) 1 true).2.1
        2 true).1
      (fev_timers_bucket_min
      (fev_timers_bucket_add
        (fev_timers_bucket_add fev_timers_bucket_init
          (fun p => ⟨⟨if p = 1 then 5 else if p = 2 then 3 else 8, 0⟩, 0, 0⟩) 1 true).1
        (fev_timers_bucket_add fev_timers_bucket_init
          (fun p => ⟨⟨if p = 1 then 5 else if p = 2 then 3 else 8, 0⟩, 0, 0⟩) 1 true).2.1
        2 true).1) ∧
      ∀ p, in_bucket
      (fev_timers_bucket_add
        (fev_timers_bucket_add fev_timers_bucket_init
          (fun p => ⟨⟨if p = 1 then 5 else if p = 2 then 3 else 8, 0⟩, 0, 0⟩) 1 true).1
        (fev_timers_bucket_add fev_timers_bucket_init
          (fun p => ⟨⟨if p = 1 then 5 else if p = 2 then 3 else 8, 0⟩, 0, 0⟩) 1 true).2.1
        2 true).1 p →
        timespec_le
          ((fev_timers_bucket_add
        (fev_timers_bucket_add fev_timers_bucket_init
          (fun p => ⟨⟨if p = 1 then 5 else if p = 2 then 3 else 8, 0⟩, 0, 0⟩) 1 true).1
        (fev_timers_bucket_add fev_timers_bucket_init
          (fun p => ⟨⟨if p = 1 then 5 else if p = 2 then 3 else 8, 0⟩, 0, 0⟩) 1 true).2.1
        2 true).2.1 (fev_timers_bucket_min
      (fev_timers_bucket_add
        (fev_timers_bucket_add fev_timers_bucket_init
          (fun p => ⟨⟨if p = 1 then 5 else if p = 2 then 3 else 8, 0⟩, 0, 0⟩) 1 true).1
        (fev_timers_bucket_add fev_timers_bucket_init
          (fun p => ⟨⟨if p = 1 then 5 else if p = 2 then 3 else 8, 0⟩, 0, 0⟩) 1 true).2.1
        2 true).1)).abs_time
          ((fev_timers_bucket_add
        (fev_timers_bucket_add fev_timers_bucket_init
          (fun p => ⟨⟨if p = 1 then 5 else if p = 2 then 3 else 8, 0⟩, 0, 0⟩) 1 true).1
        (fev_timers_bucket_add fev_timers_bucket_init
          (fun p => ⟨⟨if p = 1 then 5 else if p = 2 then 3 else 8, 0⟩, 0, 0⟩) 1 true).2.1
        2 true).2.1 p).abs_time)) :=
  ⟨by decide,
   fev_timers_bucket_min_is_min _ _
    (bucket_reachable.add _ _ 2
      (bucket_reachable.add _ _ 1 (bucket_reachable.init _)
        (by rintro ⟨i, hi, -⟩; exact absurd hi (Nat.not_lt_zero i)) (by decide))
      (by
        rintro ⟨i, hi, he⟩
        have hi1 : i < 1 := hi
        have : i = 0 := by omega
        subst this
        revert he
        decide)
      (by decide))⟩

/-- C10: `fev_timers_bucket_add` without allocation failure, on a well-formed bucket
and a valid timer that is not in it, returns non-zero exactly when the bucket was
empty or the added timer compares strictly earlier than the previous minimum
(`fev_timers_cmp(timer, min) < 0`, that is, its `abs_time` is strictly earlier);
when it returns non-zero `fev_timers_bucket_min` is the added timer, and when it
returns zero `fev_timers_bucket_min` is the same timer as before the call. -/
theorem fev_timers_bucket_add_min_changed (b : fev_timers_bucket) (mem : timer_mem)
    (timer : Nat) (hwf : bucket_wf b mem) (hnew : ¬ in_bucket b timer)
    (hvt : fev_timespec_valid (mem timer).abs_time) :
    ((fev_timers_bucket_add b mem timer true).2.2 ≠ 0 ↔
      (fev_timers_bucket_empty b = true ∨
        fev_timers_cmp mem timer (fev_timers_bucket_min b) < 0)) ∧
    (fev_timers_bucket_empty b = false →
      (fev_timers_cmp mem timer (fev_timers_bucket_min b) < 0 ↔
        timespec_lt (mem timer).abs_time (mem (fev_timers_bucket_min b)).abs_time)) ∧
    ((fev_timers_bucket_add b mem timer true).2.2 ≠ 0 →
      fev_timers_bucket_min (fev_timers_bucket_add b mem timer true).1 = timer) ∧
    ((fev_timers_bucket_add b mem timer true).2.2 = 0 →
      fev_timers_bucket_min (fev_timers_bucket_add b mem timer true).1 =
        fev_timers_bucket_min b) := by
  obtain ⟨-, -, -, -, -, -, -, h01, hiff, hone, hzero⟩ :=
    fev_timers_bucket_add_spec b mem timer hwf hnew hvt
  have hne : (fev_timers_bucket_add b mem timer true).2.2 ≠ 0 ↔
      (fev_timers_bucket_add b mem timer true).2.2 = 1 := by
    rcases h01 with h | h <;> rw [h] <;> decide
  have hemp : fev_timers_bucket_empty b = true ↔ b.len = 0 := by
    simp [fev_timers_bucket_empty]
  refine ⟨?_, ?_, fun h => hone (hne.1 h), hzero⟩
  · rw [hne, hiff, hemp]
  · intro hnonempty
    have hlen : b.len ≠ 0 := by
      intro hc
      rw [hemp.2 hc] at hnonempty
      exact absurd hnonempty (by decide)
    have hvm : fev_timespec_valid (mem (fev_timers_bucket_min b)).abs_time :=
      hwf.2.2.2 0 (by omega)
    unfold fev_timers_cmp
    rw [fev_timespec_cmp_lt_iff _ _ hvt hvm, timespec_lt_iff_ns _ _ hvt hvm]

/-- Witness for C10: on the bucket holding timer 1 (5 s), adding timer 2 (3 s)
returns non-zero and makes timer 2 the minimum. -/
theorem fev_timers_bucket_add_min_changed_witness :
    ¬ in_bucket
      (fev_timers_bucket_add fev_timers_bucket_init
        (fun p => ⟨⟨if p = 1 then 5 else if p = 2 then 3 else 8, 0⟩, 0, 0⟩) 1 true).1 2 ∧
    fev_timers_bucket_min
      (fev_timers_bucket_add
        (fev_timers_bucket_add fev_timers_bucket_init
          (fun p => ⟨⟨if p = 1 then 5 else if p = 2 then 3 else 8, 0⟩, 0, 0⟩) 1 true).1
        (fev_timers_bucket_add fev_timers_bucket_init
          (fun p => ⟨⟨if p = 1 then 5 else if p = 2 then 3 else 8, 0⟩, 0, 0⟩) 1 true).2.1
        2 true).1 = 2 :=
  have hnew : ¬ in_bucket
      (fev_timers_bucket_add fev_timers_bucket_init
        (fun p => ⟨⟨if p = 1 then 5 else if p = 2 then 3 else 8, 0⟩, 0, 0⟩) 1 true).1 2 := by
    rintro ⟨i, hi, he⟩
    have hi1 : i < 1 := hi
    have : i = 0 := by omega
    subst this
    revert he
    decide
  ⟨hnew,
   (fev_timers_bucket_add_min_changed _ _ 2
      (bucket_reachable_wf _ _
        (bucket_reachable.add _ _ 1 (bucket_reachable.init _)
          (by rintro ⟨i, hi, -⟩; exact absurd hi (Nat.not_lt_zero i)) (by decide)))
      hnew (by decide)).2.2.1 (by decide)⟩

/-- C11: for a timer in a well-formed bucket, `fev_timers_bucket_del` removes exactly
that timer (a timer is in the bucket afterwards exactly when it was before and
is not the deleted one; the length drops by one) and returns non-zero exactly
when the timer was the one returned by `fev_timers_bucket_min` before the call;
when it returns zero, `fev_timers_bucket_min` returns the same timer as before. -/
theorem fev_timers_bucket_del_removes (b : fev_timers_bucket) (mem : timer_mem) (timer : Nat)
    (hwf : bucket_wf b mem) (hin : in_bucket b timer) :
    (∀ q, in_bucket (fev_timers_bucket_del b mem timer).1 q ↔ (in_bucket b q ∧ q ≠ timer)) ∧
    (fev_timers_bucket_del b mem timer).1.len + 1 = b.len ∧
    bucket_wf (fev_timers_bucket_del b mem timer).1 (fev_timers_bucket_del b mem timer).2.1 ∧
    ((fev_timers_bucket_del b mem timer).2.2 ≠ 0 ↔ timer = fev_timers_bucket_min b) ∧
    ((fev_timers_bucket_del b mem timer).2.2 = 0 →
      fev_timers_bucket_min (fev_timers_bucket_del b mem timer).1 = fev_timers_bucket_min b) := by
  obtain ⟨h1, h2, h3, -, -, -, -, h8, h9, h10⟩ := fev_timers_bucket_del_spec b mem timer hwf hin
  have hpos : 0 < b.len := by
    obtain ⟨i, hi, -⟩ := hin
    omega
  refine ⟨h3, by rw [h2]; omega, h1, ?_, h10⟩
  rw [← h9]
  rcases h8 with h | h <;> rw [h] <;> decide

/-- Witness for C11: timers 1 (5 s) and 2 (3 s) are in the bucket; deleting timer 1
returns zero and leaves timer 2 the minimum. -/
theorem fev_timers_bucket_del_removes_witness :
    in_bucket
      (fev_timers_bucket_add
        (fev_timers_bucket_add fev_timers_bucket_init
          (fun p => ⟨⟨if p = 1 then 5 else if p = 2 then 3 else 8, 0⟩, 0, 0⟩) 1 true).1
        (fev_timers_bucket_add fev_timers_bucket_init
          (fun p => ⟨⟨if p = 1 then 5 else if p = 2 then 3 else 8, 0⟩, 0, 0⟩) 1 true).2.1
        2 true).1 1 ∧
    fev_timers_bucket_min
      (fev_timers_bucket_del
        (fev_timers_bucket_add
          (fev_timers_bucket_add fev_timers_bucket_init
            (fun p => ⟨⟨if p = 1 then 5 else if p = 2 then 3 else 8, 0⟩, 0, 0⟩) 1 true).1
          (fev_timers_bucket_add fev_timers_bucket_init
            (fun p => ⟨⟨if p = 1 then 5 else if p = 2 then 3 else 8, 0⟩, 0, 0⟩) 1 true).2.1
          2 true).1
        (fev_timers_bucket_add
          (fev_timers_bucket_add fev_timers_bucket_init
            (fun p => ⟨⟨if p = 1 then 5 else if p = 2 then 3 else 8, 0⟩, 0, 0⟩) 1 true).1
          (fev_timers_bucket_add fev_timers_bucket_init
            (fun p => ⟨⟨if p = 1 then 5 else if p = 2 then 3 else 8, 0⟩, 0, 0⟩) 1 true).2.1
          2 true).2.1 1).1 = 2 :=
  have hnew : ¬ in_bucket
      (fev_timers_bucket_add fev_timers_bucket_init
        (fun p => ⟨⟨if p = 1 then 5 else if p = 2 then 3 else 8, 0⟩, 0, 0⟩) 1 true).1 2 := by
    rintro ⟨i, hi, he⟩
    have hi1 : i < 1 := hi
    have : i = 0 := by omega
    subst this
    revert he
    decide
  have hin : in_bucket
      (fev_timers_bucket_add
        (fev_timers_bucket_add fev_timers_bucket_init
          (fun p => ⟨⟨if p = 1 then 5 else if p = 2 then 3 else 8, 0⟩, 0, 0⟩) 1 true).1
        (fev_timers_bucket_add fev_timers_bucket_init
          (fun p => ⟨⟨if p = 1 then 5 else if p = 2 then 3 else 8, 0⟩, 0, 0⟩) 1 true).2.1
        2 true).1 1 := ⟨1, by decide, by decide⟩
  ⟨hin,
   ((fev_timers_bucket_del_removes _ _ 1
      (bucket_reachable_wf _ _
        (bucket_reachable.add _ _ 2
          (bucket_reachable.add _ _ 1 (bucket_reachable.init _)
            (by rintro ⟨i, hi, -⟩; exact absurd hi (Nat.not_lt_zero i)) (by decide))
          hnew (by decide)))
      hin).2.2.2.2 (by decide)).trans (by decide)⟩

/-- Adding the timers of a list without duplicates, none of them in the bucket,
to a well-formed bucket: the bucket stays well formed and holds them besides the
former timers; the expiry times are not changed. -/
theorem bucket_add_all_spec (ts : List Nat) :
    ∀ (b : fev_timers_bucket) (mem : timer_mem), bucket_wf b mem → ts.Nodup →
      (∀ t ∈ ts, ¬ in_bucket b t) → (∀ t ∈ ts, tvalid mem t) →
      bucket_wf (bucket_add_all ts (b, mem)).1 (bucket_add_all ts (b, mem)).2 ∧
      (bucket_add_all ts (b, mem)).1.len = b.len + ts.length ∧
      (∀ q, in_bucket (bucket_add_all ts (b, mem)).1 q ↔ (q ∈ ts ∨ in_bucket b q)) ∧
      (∀ q, ((bucket_add_all ts (b, mem)).2 q).abs_time = (mem q).abs_time) := by
  induction ts with
  | nil =>
    intro b mem hwf _ _ _
    simp [bucket_add_all, hwf]
  | cons t ts ih =>
    intro b mem hwf hnd hnew hv
    obtain ⟨a1, a2, a3, a4, -⟩ :=
      fev_timers_bucket_add_spec b mem t hwf (hnew t (List.mem_cons_self _ _))
        (hv t (List.mem_cons_self _ _))
    have hnd' := List.nodup_cons.1 hnd
    obtain ⟨r1, r2, r3, r4⟩ := ih (fev_timers_bucket_add b mem t true).1
      (fev_timers_bucket_add b mem t true).2.1 a1 hnd'.2
      (by
        intro x hx hin
        rcases (a3 x).1 hin with h | h
        · rw [h] at hx; exact hnd'.1 hx
        · exact hnew x (List.mem_cons_of_mem _ hx) h)
      (by
        intro x hx
        unfold tvalid
        rw [(a4 x).1]
        exact hv x (List.mem_cons_of_mem _ hx))
    refine ⟨r1, ?_, ?_, ?_⟩
    · show (bucket_add_all ts _).1.len = _
      rw [r2, a2, List.length_cons]; omega
    · intro q
      show in_bucket (bucket_add_all ts _).1 q ↔ _
      rw [r3 q, a3 q, List.mem_cons]
      tauto
    · intro q
      show ((bucket_add_all ts _).2 q).abs_time = _
      rw [r4 q, (a4 q).1]

/-- Draining a well-formed bucket returns its timers, each once, in non-decreasing
order of expiry time, and leaves it empty. -/
theorem bucket_drain_spec (n : Nat) :
    ∀ (b : fev_timers_bucket) (mem : timer_mem), bucket_wf b mem → b.len ≤ n →
      (bucket_drain n (b, mem)).1.Nodup ∧
      (∀ q, q ∈ (bucket_drain n (b, mem)).1 ↔ in_bucket b q) ∧
      List.Pairwise (fun x y => timespec_le (mem x).abs_time (mem y).abs_time)
        (bucket_drain n (b, mem)).1 ∧
      (bucket_drain n (b, mem)).2.1.len = 0 := by
  induction n with
  | zero =>
    intro b mem _ hlen
    refine ⟨List.nodup_nil, ?_, List.Pairwise.nil, ?_⟩
    · intro q
      constructor
      · intro h; exact absurd h (List.not_mem_nil q)
      · rintro ⟨i, hi, -⟩; omega
    · show b.len = 0
      omega
  | succ n ih =>
    intro b mem hwf hlen
    by_cases h0 : b.len = 0
    · have he : bucket_drain (n + 1) (b, mem) = ([], (b, mem)) := by
        simp [bucket_drain, fev_timers_bucket_empty, h0]
      rw [he]
      refine ⟨List.nodup_nil, ?_, List.Pairwise.nil, h0⟩
      intro q
      constructor
      · intro h; exact absurd h (List.not_mem_nil q)
      · rintro ⟨i, hi, -⟩; omega
    · have he : bucket_drain (n + 1) (b, mem) =
          (fev_timers_bucket_min b :: (bucket_drain n (fev_timers_bucket_del_min b mem)).1,
            (bucket_drain n (fev_timers_bucket_del_min b mem)).2) := by
        simp [bucket_drain, fev_timers_bucket_empty, h0]
      rw [he]
      obtain ⟨d1, d2, d3, d4, -⟩ := fev_timers_bucket_del_min_spec b mem hwf h0
      obtain ⟨r1, r2, r3, r4⟩ := ih (fev_timers_bucket_del_min b mem).1
        (fev_timers_bucket_del_min b mem).2 d1 (by rw [d2]; omega)
      refine ⟨?_, ?_, ?_, r4⟩
      · refine List.nodup_cons.2 ⟨?_, r1⟩
        intro hmem
        exact ((d3 _).1 ((r2 _).1 hmem)).2 rfl
      · intro q
        rw [List.mem_cons, r2 q, d3 q]
        constructor
        · rintro (h | h)
          · rw [h]; exact ⟨0, by omega, rfl⟩
          · exact h.1
        · intro h
          by_cases hq : q = fev_timers_bucket_min b
          · exact Or.inl hq
          · exact Or.inr ⟨h, hq⟩
      · refine List.pairwise_cons.2 ⟨?_, ?_⟩
        · intro q hq
          exact bucket_wf_min_le b mem hwf q ((d3 q).1 ((r2 q).1 hq)).1
        · refine r3.imp ?_
          intro x y hxy
          rw [(d4 x).1, (d4 y).1] at hxy
          exact hxy

/-- C12: the timers of a list without repeated timers (equal expiry times allowed),
valid, are added in the order of the list to the empty bucket; then reading
`fev_timers_bucket_min` and calling `fev_timers_bucket_del_min` until the bucket
is empty returns each added timer exactly once (a permutation of the list), in
non-decreasing order of `abs_time`, and leaves the bucket empty. -/
theorem fev_timers_bucket_drain_sorted (ts : List Nat) (mem : timer_mem) (hnd : ts.Nodup)
    (hv : ∀ t ∈ ts, fev_timespec_valid (mem t).abs_time) :
    (bucket_drain (bucket_add_all ts (fev_timers_bucket_init, mem)).1.len
      (bucket_add_all ts (fev_timers_bucket_init, mem))).1.Perm ts ∧
    List.Pairwise (fun x y => timespec_le (mem x).abs_time (mem y).abs_time)
      (bucket_drain (bucket_add_all ts (fev_timers_bucket_init, mem)).1.len
        (bucket_add_all ts (fev_timers_bucket_init, mem))).1 ∧
    fev_timers_bucket_empty
      (bucket_drain (bucket_add_all ts (fev_timers_bucket_init, mem)).1.len
        (bucket_add_all ts (fev_timers_bucket_init, mem))).2.1 = true := by
  have hinit : ∀ q, ¬ in_bucket fev_timers_bucket_init q := by
    rintro q ⟨i, hi, -⟩
    exact absurd hi (Nat.not_lt_zero i)
  obtain ⟨a1, -, a3, a4⟩ := bucket_add_all_spec ts fev_timers_bucket_init mem
    (bucket_reachable_wf _ _ (bucket_reachable.init mem)) hnd (fun t _ => hinit t) hv
  obtain ⟨r1, r2, r3, r4⟩ := bucket_drain_spec
    (bucket_add_all ts (fev_timers_bucket_init, mem)).1.len
    (bucket_add_all ts (fev_timers_bucket_init, mem)).1
    (bucket_add_all ts (fev_timers_bucket_init, mem)).2 a1 (le_refl _)
  refine ⟨?_, ?_, ?_⟩
  · refine (List.perm_ext_iff_of_nodup r1 hnd).2 ?_
    intro q
    rw [r2 q, a3 q]
    constructor
    · rintro (h | h)
      · exact h
      · exact absurd h (hinit q)
    · intro h; exact Or.inl h
  · refine r3.imp ?_
    intro x y hxy
    rw [a4 x, a4 y] at hxy
    exact hxy
  · simp [fev_timers_bucket_empty, r4]

/-- Witness for C12: timers 1, 2, 3 expiring at 5 s, 3 s and 5 s come out as 2, 1, 3
or 2, 3, 1. -/
theorem fev_timers_bucket_drain_sorted_witness :
    [1, 2, 3].Nodup ∧
    (bucket_drain
      (bucket_add_all [1, 2, 3] (fev_timers_bucket_init,
        fun p => ⟨⟨if p = 2 then 3 else 5, 0⟩, 0, 0⟩)).1.len
      (bucket_add_all [1, 2, 3] (fev_timers_bucket_init,
        fun p => ⟨⟨if p = 2 then 3 else 5, 0⟩, 0, 0⟩))).1.Perm [1, 2, 3] :=
  ⟨by decide,
   (fev_timers_bucket_drain_sorted [1, 2, 3] (fun p => ⟨⟨if p = 2 then 3 else 5, 0⟩, 0, 0⟩)
      (by decide) (by intro t _; unfold fev_timespec_valid FEV_NSECS_PER_SEC; dsimp only
                      split <;> omega)).1⟩

/-! ## Timers -/

/-- Well-formedness only reads the timers that are in the bucket. -/
theorem bucket_wf_congr (b : fev_timers_bucket) (mem mem2 : timer_mem) (hwf : bucket_wf b mem)
    (hsame : ∀ p, in_bucket b p → mem2 p = mem p) : bucket_wf b mem2 := by
  obtain ⟨h1, h2, h3, h4⟩ := hwf
  have e : ∀ i, i < b.len → mem2 (b.heap i) = mem (b.heap i) :=
    fun i hi => hsame _ ⟨i, hi, rfl⟩
  refine ⟨h1, ?_, ?_, ?_⟩
  · intro i hi
    rw [e i hi]; exact h2 i hi
  · intro i hi0 hi
    rw [e i hi, e _ (by omega)]; exact h3 i hi0 hi
  · intro i hi
    rw [e i hi]; exact h4 i hi

/-- A timer in a well-formed bucket whose length is a `size_t` is not expired: its
`index` is its position, below `SIZE_MAX`. -/
theorem bucket_wf_not_expired (b : fev_timers_bucket) (mem : timer_mem) (hwf : bucket_wf b mem)
    (hlen : b.len ≤ SIZE_MAX) (q : Nat) (hq : in_bucket b q) :
    fev_timer_is_expired mem q = false := by
  obtain ⟨i, hi, rfl⟩ := hq
  have h := hwf.2.1 i hi
  unfold fev_timer_is_expired
  rw [h]
  exact decide_eq_false (by omega)

/-- The timer just marked by `fev_timer_set_expired` is expired. -/
theorem fev_timer_is_expired_set (mem : timer_mem) (p : Nat) :
    fev_timer_is_expired (fev_timer_set_expired mem p) p = true := by
  simp [fev_timer_is_expired, fev_timer_set_expired, set_index]

/-- The loop of `fev_timers_wake_expired` with enough fuel, on a well-formed bucket:
the bucket stays well formed, the shadow minimum and the timeout are not touched;
timers only leave the bucket; every call of `fev_waiter_wake` is made for a timer
that left the bucket and that `fev_timer_is_expired` reports expired at the call,
and every timer that left has such a call; those timers are still expired at the
end and their time is not later than `now`; the memory of the other timers outside
the bucket is not written; at the end the bucket is empty or its minimum is later
than `now`. -/
theorem fev_timers_wake_expired_loop_spec (now : timespec) (fuel : Nat) :
    ∀ w : wake_expired_state, bucket_wf w.state.bucket w.state.mem →
      w.state.bucket.len ≤ fuel →
      bucket_wf (fev_timers_wake_expired_loop now fuel w).state.bucket
        (fev_timers_wake_expired_loop now fuel w).state.mem ∧
      (fev_timers_wake_expired_loop now fuel w).state.bucket.len ≤ w.state.bucket.len ∧
      (fev_timers_wake_expired_loop now fuel w).state.bucket.min = w.state.bucket.min ∧
      (fev_timers_wake_expired_loop now fuel w).state.bucket.timeout = w.state.bucket.timeout ∧
      (∀ q, in_bucket (fev_timers_wake_expired_loop now fuel w).state.bucket q →
        in_bucket w.state.bucket q) ∧
      (∀ q, ((fev_timers_wake_expired_loop now fuel w).state.mem q).abs_time =
          (w.state.mem q).abs_time ∧
        ((fev_timers_wake_expired_loop now fuel w).state.mem q).waiter =
          (w.state.mem q).waiter) ∧
      (∀ q, ¬ in_bucket w.state.bucket q →
        (fev_timers_wake_expired_loop now fuel w).state.mem q = w.state.mem q) ∧
      (∃ popped : List Nat,
        (fev_timers_wake_expired_loop now fuel w).calls =
          w.calls ++ popped.map (fun q => (q, true)) ∧
        ∀ q, q ∈ popped ↔ (in_bucket w.state.bucket q ∧
          ¬ in_bucket (fev_timers_wake_expired_loop now fuel w).state.bucket q)) ∧
      (∀ q, in_bucket w.state.bucket q →
        ¬ in_bucket (fev_timers_wake_expired_loop now fuel w).state.bucket q →
        fev_timer_is_expired (fev_timers_wake_expired_loop now fuel w).state.mem q = true ∧
        fev_timespec_cmp (w.state.mem q).abs_time now ≤ 0) ∧
      ((fev_timers_wake_expired_loop now fuel w).state.bucket.len = 0 ∨
        fev_timespec_cmp ((fev_timers_wake_expired_loop now fuel w).state.mem
          (fev_timers_bucket_min (fev_timers_wake_expired_loop now fuel w).state.bucket)).abs_time
          now > 0) := by
  have hstop : ∀ w : wake_expired_state, bucket_wf w.state.bucket w.state.mem →
      (w.state.bucket.len = 0 ∨
        fev_timespec_cmp (w.state.mem (fev_timers_bucket_min w.state.bucket)).abs_time now > 0) →
      bucket_wf w.state.bucket w.state.mem ∧
      w.state.bucket.len ≤ w.state.bucket.len ∧
      w.state.bucket.min = w.state.bucket.min ∧
      w.state.bucket.timeout = w.state.bucket.timeout ∧
      (∀ q, in_bucket w.state.bucket q → in_bucket w.state.bucket q) ∧
      (∀ q, (w.state.mem q).abs_time = (w.state.mem q).abs_time ∧
        (w.state.mem q).waiter = (w.state.mem q).waiter) ∧
      (∀ q, ¬ in_bucket w.state.bucket q → w.state.mem q = w.state.mem q) ∧
      (∃ popped : List Nat, w.calls = w.calls ++ popped.map (fun q => (q, true)) ∧
        ∀ q, q ∈ popped ↔ (in_bucket w.state.bucket q ∧ ¬ in_bucket w.state.bucket q)) ∧
      (∀ q, in_bucket w.state.bucket q → ¬ in_bucket w.state.bucket q →
        fev_timer_is_expired w.state.mem q = true ∧
        fev_timespec_cmp (w.state.mem q).abs_time now ≤ 0) ∧
      (w.state.bucket.len = 0 ∨
        fev_timespec_cmp (w.state.mem (fev_timers_bucket_min w.state.bucket)).abs_time now > 0) := by
    intro w hwf hex
    refine ⟨hwf, le_refl _, rfl, rfl, fun _ h => h, fun _ => ⟨rfl, rfl⟩, fun _ _ => rfl,
      ⟨[], by simp, ?_⟩, fun q h1 h2 => absurd h1 h2, hex⟩
    intro q
    constructor
    · intro h; exact absurd h (List.not_mem_nil q)
    · rintro ⟨h1, h2⟩; exact absurd h1 h2
  induction fuel with
  | zero =>
    intro w hwf hlen
    exact hstop w hwf (Or.inl (by omega))
  | succ n ih =>
    intro w hwf hlen
    by_cases h0 : w.state.bucket.len = 0
    · have he : fev_timers_wake_expired_loop now (n + 1) w = w := by
        simp [fev_timers_wake_expired_loop, fev_timers_bucket_empty, h0]
      rw [he]
      exact hstop w hwf (Or.inl h0)
    by_cases hc : fev_timespec_cmp (w.state.mem (fev_timers_bucket_min w.state.bucket)).abs_time
        now > 0
    · have he : fev_timers_wake_expired_loop now (n + 1) w = w := by
        simp [fev_timers_wake_expired_loop, fev_timers_bucket_empty, h0, hc]
      rw [he]
      exact hstop w hwf (Or.inr hc)
    obtain ⟨d1, d2, d3, d4, d5, d6, d7⟩ :=
      fev_timers_bucket_del_min_spec w.state.bucket w.state.mem hwf h0
    have hminin : in_bucket w.state.bucket (fev_timers_bucket_min w.state.bucket) :=
      ⟨0, by omega, rfl⟩
    have hminout : ¬ in_bucket (fev_timers_bucket_del_min w.state.bucket w.state.mem).1
        (fev_timers_bucket_min w.state.bucket) := fun h => ((d3 _).1 h).2 rfl
    have hmem1 : ∀ q, q ≠ fev_timers_bucket_min w.state.bucket →
        fev_timer_set_expired (fev_timers_bucket_del_min w.state.bucket w.state.mem).2
          (fev_timers_bucket_min w.state.bucket) q =
        (fev_timers_bucket_del_min w.state.bucket w.state.mem).2 q := by
      intro q hq
      simp [fev_timer_set_expired, set_index, hq]
    have hwf1 : bucket_wf (fev_timers_bucket_del_min w.state.bucket w.state.mem).1
        (fev_timer_set_expired (fev_timers_bucket_del_min w.state.bucket w.state.mem).2
          (fev_timers_bucket_min w.state.bucket)) := by
      refine bucket_wf_congr _ _ _ d1 ?_
      intro p hp
      exact hmem1 p (fun h => hminout (h ▸ hp))
    have he : fev_timers_wake_expired_loop now (n + 1) w =
        fev_timers_wake_expired_loop now n
          { state :=
              { bucket := (fev_timers_bucket_del_min w.state.bucket w.state.mem).1,
                mem := fev_timer_set_expired
                  (fev_timers_bucket_del_min w.state.bucket w.state.mem).2
                  (fev_timers_bucket_min w.state.bucket),
                waiters := set_waiter w.state.waiters
                  ((fev_timer_set_expired
                    (fev_timers_bucket_del_min w.state.bucket w.state.mem).2
                    (fev_timers_bucket_min w.state.bucket)
                    (fev_timers_bucket_min w.state.bucket)).waiter)
                  (fev_waiter_wake (w.state.waiters
                    ((fev_timer_set_expired
                      (fev_timers_bucket_del_min w.state.bucket w.state.mem).2
                      (fev_timers_bucket_min w.state.bucket)
                      (fev_timers_bucket_min w.state.bucket)).waiter))
                    FEV_WAITER_TIMED_OUT_NO_CHECK).1 },
            fibers :=
              if decide ((fev_waiter_wake (w.state.waiters
                    ((fev_timer_set_expired
                      (fev_timers_bucket_del_min w.state.bucket w.state.mem).2
                      (fev_timers_bucket_min w.state.bucket)
                      (fev_timers_bucket_min w.state.bucket)).waiter))
                    FEV_WAITER_TIMED_OUT_NO_CHECK).2 = FEV_WAITER_SET_AND_WAKE_UP) = true then
                w.fibers ++ [(fev_waiter_wake (w.state.waiters
                    ((fev_timer_set_expired
                      (fev_timers_bucket_del_min w.state.bucket w.state.mem).2
                      (fev_timers_bucket_min w.state.bucket)
                      (fev_timers_bucket_min w.state.bucket)).waiter))
                    FEV_WAITER_TIMED_OUT_NO_CHECK).1.fiber]
              else w.fibers,
            num :=
              if decide ((fev_waiter_wake (w.state.waiters
                    ((fev_timer_set_expired
                      (fev_timers_bucket_del_min w.state.bucket w.state.mem).2
                      (fev_timers_bucket_min w.state.bucket)
                      (fev_timers_bucket_min w.state.bucket)).waiter))
                    FEV_WAITER_TIMED_OUT_NO_CHECK).2 = FEV_WAITER_SET_AND_WAKE_UP) = true then
                (w.num + 1) % 4294967296
              else w.num,
            calls := w.calls ++ [(fev_timers_bucket_min w.state.bucket, true)],
            mins := w.mins ++ [w.state.bucket.min,
              (fev_timers_bucket_del_min w.state.bucket w.state.mem).1.min] } := by
      rw [fev_timers_wake_expired_loop]
      have hne : fev_timers_bucket_empty w.state.bucket = false := by
        simp [fev_timers_bucket_empty, h0]
      simp only [hne, Bool.false_eq_true, if_false, if_neg hc, fev_timer_is_expired_set]
    rw [he]
    generalize hw1 : ({ state := _, fibers := _, num := _, calls := _, mins := _ } :
      wake_expired_state) = w1
    have hs1 : w1.state.bucket = (fev_timers_bucket_del_min w.state.bucket w.state.mem).1 := by
      rw [← hw1]
    have hs2 : w1.state.mem =
        fev_timer_set_expired (fev_timers_bucket_del_min w.state.bucket w.state.mem).2
          (fev_timers_bucket_min w.state.bucket) := by
      rw [← hw1]
    have hs3 : w1.calls = w.calls ++ [(fev_timers_bucket_min w.state.bucket, true)] := by
      rw [← hw1]
    obtain ⟨r1, r2, r3, r4, r5, r6, r7, ⟨popped, r8, r9⟩, r10, r11⟩ :=
      ih w1 (by rw [hs1, hs2]; exact hwf1) (by rw [hs1, d2]; omega)
    rw [hs1] at r2 r3 r4 r5 r7 r9 r10
    rw [hs2] at r6 r7 r10
    have hf := fun q => fields_set_index (fev_timers_bucket_del_min w.state.bucket w.state.mem).2
      (fev_timers_bucket_min w.state.bucket) SIZE_MAX q
    refine ⟨r1, ?_, ?_, ?_, ?_, ?_, ?_, ⟨fev_timers_bucket_min w.state.bucket :: popped, ?_, ?_⟩,
      ?_, r11⟩
    · rw [d2] at r2; omega
    · rw [r3, d6]
    · rw [r4, d7]
    · intro q hq
      exact ((d3 q).1 (r5 q hq)).1
    · intro q
      have h := r6 q
      unfold fev_timer_set_expired at h
      rw [(hf q).1, (hf q).2, (d4 q).1, (d4 q).2] at h
      exact h
    · intro q hq
      have hqm : q ≠ fev_timers_bucket_min w.state.bucket := fun h => hq (h ▸ hminin)
      rw [r7 q (fun h => hq ((d3 q).1 h).1), hmem1 q hqm, d5 q (Or.inl hq)]
    · rw [r8, hs3]
      simp
    · intro q
      rw [List.mem_cons, r9 q, d3 q]
      constructor
      · rintro (h | h)
        · rw [h]
          exact ⟨hminin, fun hin => hminout (r5 _ hin)⟩
        · exact ⟨h.1.1, h.2⟩
      · rintro ⟨h1, h2⟩
        by_cases hq : q = fev_timers_bucket_min w.state.bucket
        · exact Or.inl hq
        · exact Or.inr ⟨⟨h1, hq⟩, h2⟩
    · intro q h1 h2
      by_cases hq : q = fev_timers_bucket_min w.state.bucket
      · rw [hq]
        refine ⟨?_, not_lt.1 hc⟩
        unfold fev_timer_is_expired
        rw [r7 _ hminout]
        exact fev_timer_is_expired_set _ _
      · have h := r10 q ((d3 q).2 ⟨h1, hq⟩) h2
        refine ⟨h.1, ?_⟩
        have h3 := h.2
        unfold fev_timer_set_expired at h3
        rw [(hf q).1, (d4 q).1] at h3
        exact h3
/-- C13: `fev_timers_wake_expired` on a well-formed bucket whose length is a `size_t`:
every call of `fev_waiter_wake` it makes is made when `fev_timer_is_expired`
already returns true for the timer of the woken waiter; every timer it has
removed from the bucket has such a call and is still reported expired when the
function returns; and `fev_timer_is_expired` returns false for every timer in the
bucket, before and after the function, and for a timer just added by
`fev_timers_bucket_add`. -/
theorem fev_timers_wake_expired_sets_expired (s : timers_state) (now : timespec)
    (hwf : bucket_wf s.bucket s.mem) (hlen : s.bucket.len ≤ SIZE_MAX) :
    (∀ c ∈ (fev_timers_wake_expired s now).calls, c.2 = true) ∧
    (∀ q, in_bucket s.bucket q → ¬ in_bucket (fev_timers_wake_expired s now).state.bucket q →
      (q, true) ∈ (fev_timers_wake_expired s now).calls ∧
      fev_timer_is_expired (fev_timers_wake_expired s now).state.mem q = true) ∧
    (∀ q, in_bucket s.bucket q → fev_timer_is_expired s.mem q = false) ∧
    (∀ q, in_bucket (fev_timers_wake_expired s now).state.bucket q →
      fev_timer_is_expired (fev_timers_wake_expired s now).state.mem q = false) ∧
    (∀ t, ¬ in_bucket s.bucket t → fev_timespec_valid (s.mem t).abs_time →
      s.bucket.len < SIZE_MAX →
      in_bucket (fev_timers_bucket_add s.bucket s.mem t true).1 t ∧
      fev_timer_is_expired (fev_timers_bucket_add s.bucket s.mem t true).2.1 t = false) := by
  obtain ⟨r1, r2, -, -, -, -, -, ⟨popped, r8, r9⟩, r10, -⟩ :=
    fev_timers_wake_expired_loop_spec now s.bucket.len
      { state := s, fibers := [], num := 0, calls := [], mins := [] } hwf (le_refl _)
  refine ⟨?_, ?_, ?_, ?_, ?_⟩
  · intro c hc
    unfold fev_timers_wake_expired at hc
    rw [r8] at hc
    simp only [List.nil_append, List.mem_map] at hc
    obtain ⟨q, -, rfl⟩ := hc
    rfl
  · intro q h1 h2
    refine ⟨?_, (r10 q h1 h2).1⟩
    unfold fev_timers_wake_expired
    rw [r8]
    simp only [List.nil_append, List.mem_map]
    exact ⟨q, (r9 q).2 ⟨h1, h2⟩, rfl⟩
  · exact bucket_wf_not_expired s.bucket s.mem hwf hlen
  · exact bucket_wf_not_expired _ _ r1 (le_trans r2 hlen)
  · intro t hnew hvt hlt
    obtain ⟨a1, a2, a3, -⟩ := fev_timers_bucket_add_spec s.bucket s.mem t hwf hnew hvt
    have hin := (a3 t).2 (Or.inl rfl)
    exact ⟨hin, bucket_wf_not_expired _ _ a1 (by rw [a2]; omega) t hin⟩

/-- Witness for C13: a bucket that holds the timer 1, expiring at 5 s, processed at
9 s: the timer is removed, and the call of `fev_waiter_wake` for it is made with
the timer marked expired. -/
theorem fev_timers_wake_expired_sets_expired_witness :
    (1, true) ∈ (fev_timers_wake_expired
      ⟨⟨fun _ => 1, 1, 1, some 1, none⟩, fun _ => ⟨⟨5, 0⟩, 0, 7⟩, fun _ => ⟨0, 1, 0, 0, 0, 4⟩⟩
      ⟨9, 0⟩).calls :=
  ((fev_timers_wake_expired_sets_expired
    ⟨⟨fun _ => 1, 1, 1, some 1, none⟩, fun _ => ⟨⟨5, 0⟩, 0, 7⟩, fun _ => ⟨0, 1, 0, 0, 0, 4⟩⟩
    ⟨9, 0⟩
    ⟨le_refl _,
      fun i hi => by
        have h : i = 0 := Nat.lt_one_iff.1 hi
        rw [h],
      fun i h0 hi => by
        have h : i = 0 := Nat.lt_one_iff.1 hi
        omega,
      fun i _ => by
        show fev_timespec_valid ⟨5, 0⟩
        decide⟩
    (by decide)).2.1 1 ⟨0, by decide, rfl⟩
    (by
      rintro ⟨i, hi, -⟩
      exact Nat.not_lt_zero i hi)).1

/-- Membership in a bucket only depends on `heap` and `len`. -/
theorem in_bucket_congr (b b2 : fev_timers_bucket) (hh : b2.heap = b.heap) (hl : b2.len = b.len)
    (q : Nat) : in_bucket b2 q ↔ in_bucket b q := by
  unfold in_bucket
  rw [hh, hl]

/-- Well-formedness only depends on `heap`, `len` and `capacity`. -/
theorem bucket_wf_congr_bucket (b b2 : fev_timers_bucket) (mem : timer_mem)
    (hh : b2.heap = b.heap) (hl : b2.len = b.len) (hc : b2.capacity = b.capacity) :
    bucket_wf b2 mem ↔ bucket_wf b mem := by
  unfold bucket_wf
  rw [hh, hl, hc]

/-- The fields of the state left by `fev_timers_del` on a timer that is not
expired. -/
theorem fev_timers_del_eq (s : timers_state) (timer : Nat)
    (hne : fev_timer_is_expired s.mem timer = false) :
    (fev_timers_del s timer).mem = (fev_timers_bucket_del s.bucket s.mem timer).2.1 ∧
    (fev_timers_del s timer).waiters = s.waiters ∧
    (fev_timers_del s timer).bucket.heap = (fev_timers_bucket_del s.bucket s.mem timer).1.heap ∧
    (fev_timers_del s timer).bucket.len = (fev_timers_bucket_del s.bucket s.mem timer).1.len ∧
    (fev_timers_del s timer).bucket.capacity =
      (fev_timers_bucket_del s.bucket s.mem timer).1.capacity ∧
    (fev_timers_del s timer).bucket.min =
      (if (fev_timers_bucket_del s.bucket s.mem timer).2.2 = 0 then
        (fev_timers_bucket_del s.bucket s.mem timer).1.min
      else if fev_timers_bucket_empty (fev_timers_bucket_del s.bucket s.mem timer).1 = true then
        none
      else some (fev_timers_bucket_min (fev_timers_bucket_del s.bucket s.mem timer).1)) := by
  unfold fev_timers_del
  rw [hne]
  simp only [Bool.false_eq_true, if_false]
  by_cases h0 : (fev_timers_bucket_del s.bucket s.mem timer).2.2 = 0
  · simp only [h0, if_true, and_self]
  · simp only [h0, if_false]
    by_cases he : fev_timers_bucket_empty (fev_timers_bucket_del s.bucket s.mem timer).1 = true
    · simp only [he, if_true, and_self]
    · have he2 : fev_timers_bucket_empty (fev_timers_bucket_del s.bucket s.mem timer).1 = false :=
        Bool.eq_false_iff.2 he
      simp only [he2, Bool.false_eq_true, if_false, fev_poller_set_timeout, and_self]

/-- The function `fev_timers_del` on a timer of a well-formed bucket that is not
expired: the bucket stays well formed and loses exactly that timer; the shadow
minimum stays NULL or the root of the heap, and is not the timer. -/
theorem fev_timers_del_spec (s : timers_state) (timer : Nat) (hwf : bucket_wf s.bucket s.mem)
    (hsh : shadow_ok s.bucket) (hin : in_bucket s.bucket timer)
    (hne : fev_timer_is_expired s.mem timer = false) :
    bucket_wf (fev_timers_del s timer).bucket (fev_timers_del s timer).mem ∧
    shadow_ok (fev_timers_del s timer).bucket ∧
    (∀ q, in_bucket (fev_timers_del s timer).bucket q ↔ (in_bucket s.bucket q ∧ q ≠ timer)) ∧
    (fev_timers_del s timer).bucket.min ≠ some timer ∧
    (fev_timers_del s timer).bucket.len = s.bucket.len - 1 ∧
    (∀ q, (fev_timers_del s timer).bucket.min = some q → in_bucket s.bucket q) := by
  obtain ⟨e1, -, e3, e4, e5, e6⟩ := fev_timers_del_eq s timer hne
  obtain ⟨d1, d2, d3, -, -, d6, -, d8, d9, d10⟩ :=
    fev_timers_bucket_del_spec s.bucket s.mem timer hwf hin
  have hin' : ∀ q, in_bucket (fev_timers_del s timer).bucket q ↔
      (in_bucket s.bucket q ∧ q ≠ timer) := by
    intro q
    rw [in_bucket_congr _ _ e3 e4 q, d3 q]
  have hroot : (fev_timers_del s timer).bucket.len ≠ 0 →
      in_bucket (fev_timers_del s timer).bucket
        (fev_timers_bucket_min (fev_timers_bucket_del s.bucket s.mem timer).1) := by
    intro h
    refine ⟨0, by omega, ?_⟩
    rw [e3]
    rfl
  have hmin : fev_timers_bucket_min (fev_timers_del s timer).bucket =
      fev_timers_bucket_min (fev_timers_bucket_del s.bucket s.mem timer).1 := by
    unfold fev_timers_bucket_min
    rw [e3]
  have key : shadow_ok (fev_timers_del s timer).bucket ∧
      (∀ q, (fev_timers_del s timer).bucket.min = some q →
        in_bucket s.bucket q ∧ q ≠ timer) := by
    by_cases h0 : (fev_timers_bucket_del s.bucket s.mem timer).2.2 = 0
    · rw [if_pos h0, d6] at e6
      have hnt : timer ≠ fev_timers_bucket_min s.bucket := by
        intro h
        have := d9.2 h
        omega
      rcases hsh with h | ⟨hl, h⟩
      · refine ⟨Or.inl (by rw [e6, h]), ?_⟩
        intro q hq
        rw [e6, h] at hq
        exact absurd hq (by simp)
      · have hroot0 : in_bucket s.bucket (fev_timers_bucket_min s.bucket) := ⟨0, by omega, rfl⟩
        have hstill := (hin' _).2 ⟨hroot0, fun h => hnt h.symm⟩
        refine ⟨Or.inr ⟨?_, ?_⟩, ?_⟩
        · obtain ⟨i, hi, -⟩ := hstill
          omega
        · rw [e6, h, hmin, d10 h0]
        · intro q hq
          rw [e6, h] at hq
          have hq2 : fev_timers_bucket_min s.bucket = q := Option.some.inj hq
          rw [← hq2]
          exact ⟨hroot0, fun h => hnt h.symm⟩
    · rw [if_neg h0] at e6
      by_cases he : fev_timers_bucket_empty (fev_timers_bucket_del s.bucket s.mem timer).1 = true
      · rw [if_pos he] at e6
        refine ⟨Or.inl e6, ?_⟩
        intro q hq
        rw [e6] at hq
        exact absurd hq (by simp)
      · rw [if_neg he] at e6
        have hl : (fev_timers_del s timer).bucket.len ≠ 0 := by
          rw [e4]
          intro h
          apply he
          simp [fev_timers_bucket_empty, h]
        refine ⟨Or.inr ⟨hl, by rw [e6, hmin]⟩, ?_⟩
        intro q hq
        rw [e6] at hq
        have hq2 := Option.some.inj hq
        rw [← hq2]
        exact (hin' _).1 (hroot hl)
  refine ⟨?_, key.1, hin', ?_, by rw [e4, d2], fun q hq => (key.2 q hq).1⟩
  · rw [e1, bucket_wf_congr_bucket _ _ _ e3 e4 e5]
    exact d1
  · intro h
    exact (key.2 timer h).2 rfl

/-- The flag `realloc_ok` only matters when the bucket has to grow. -/
theorem fev_timers_bucket_add_ok (b : fev_timers_bucket) (mem : timer_mem) (t : Nat)
    (ok : Bool) :
    fev_timers_bucket_add b mem t ok =
      if b.len = b.capacity ∧ ok = false then (b, mem, -ENOMEM)
      else fev_timers_bucket_add b mem t true := by
  by_cases h : b.len = b.capacity ∧ ok = false
  · rw [if_pos h]
    unfold fev_timers_bucket_add
    rw [if_pos h]
  · rw [if_neg h]
    unfold fev_timers_bucket_add
    simp [h]

/-- The function `fev_timers_add` on a well-formed bucket and a valid timer that is
not in it: either the allocation fails, then nothing changes and `-ENOMEM` is
returned, or the timer joins the bucket and 0 is returned; the bucket stays well
formed, the shadow minimum stays NULL or the root of the heap, and when it
changes it becomes the added timer. -/
theorem fev_timers_add_spec (s : timers_state) (t : Nat) (ok : Bool)
    (hwf : bucket_wf s.bucket s.mem) (hsh : shadow_ok s.bucket) (hnew : ¬ in_bucket s.bucket t)
    (hvt : tvalid s.mem t) :
    bucket_wf (fev_timers_add s t ok).1.bucket (fev_timers_add s t ok).1.mem ∧
    shadow_ok (fev_timers_add s t ok).1.bucket ∧
    (∀ q, in_bucket (fev_timers_add s t ok).1.bucket q → (q = t ∨ in_bucket s.bucket q)) ∧
    (∀ q, (fev_timers_add s t ok).1.bucket.min = some q → (q = t ∨ s.bucket.min = some q)) ∧
    (fev_timers_add s t ok).1.bucket.len ≤ s.bucket.len + 1 ∧
    ((fev_timers_add s t ok).2 = 0 ∨ (fev_timers_add s t ok).2 = -ENOMEM) ∧
    ((fev_timers_add s t ok).2 = -ENOMEM ↔ (s.bucket.len = s.bucket.capacity ∧ ok = false)) ∧
    ((fev_timers_add s t ok).2 = -ENOMEM → (fev_timers_add s t ok).1 = s) ∧
    ((fev_timers_add s t ok).2 = 0 →
      ∀ q, in_bucket (fev_timers_add s t ok).1.bucket q ↔ (q = t ∨ in_bucket s.bucket q)) := by
  by_cases hfail : s.bucket.len = s.bucket.capacity ∧ ok = false
  · have he : fev_timers_add s t ok = (s, -ENOMEM) := by
      unfold fev_timers_add
      rw [fev_timers_bucket_add_ok, if_pos hfail]
      simp [ENOMEM]
    rw [he]
    refine ⟨hwf, hsh, fun q h => Or.inr h, fun q h => Or.inr h, Nat.le_succ _, Or.inr rfl,
      ⟨fun _ => hfail, fun _ => rfl⟩, fun _ => rfl, ?_⟩
    intro h
    exact absurd h (by simp [ENOMEM])
  · obtain ⟨a1, a2, a3, -, -, a6, -, a8, -, a10, a11⟩ :=
      fev_timers_bucket_add_spec s.bucket s.mem t hwf hnew hvt
    have hlen1 : (fev_timers_bucket_add s.bucket s.mem t true).1.len ≠ 0 := by
      rw [a2]; omega
    rcases a8 with h1 | h0
    · have he : fev_timers_add s t ok =
          ({ s with
              bucket := fev_poller_set_timeout
                { (fev_timers_bucket_add s.bucket s.mem t true).1 with min := some t }
                ((fev_timers_bucket_add s.bucket s.mem t true).2.1 t).abs_time,
              mem := (fev_timers_bucket_add s.bucket s.mem t true).2.1 }, 0) := by
        unfold fev_timers_add
        rw [fev_timers_bucket_add_ok, if_neg hfail]
        simp [h1]
      rw [he]
      refine ⟨?_, ?_, ?_, ?_, ?_, Or.inl rfl, ⟨?_, fun h => absurd h hfail⟩, ?_, ?_⟩
      · exact (bucket_wf_congr_bucket _ _ _ rfl rfl rfl).2 a1
      · exact Or.inr ⟨hlen1, congrArg some (a10 h1).symm⟩
      · intro q hq
        exact (a3 q).1 ((in_bucket_congr _ _ rfl rfl q).1 hq)
      · intro q hq
        exact Or.inl (Option.some.inj hq).symm
      · show (fev_timers_bucket_add s.bucket s.mem t true).1.len ≤ _
        omega
      · intro h
        exact absurd h (by simp [ENOMEM])
      · intro h
        exact absurd h (by simp [ENOMEM])
      · intro _ q
        exact (in_bucket_congr _ _ rfl rfl q).trans (a3 q)
    · have he : fev_timers_add s t ok =
          ({ s with
              bucket := (fev_timers_bucket_add s.bucket s.mem t true).1,
              mem := (fev_timers_bucket_add s.bucket s.mem t true).2.1 }, 0) := by
        unfold fev_timers_add
        rw [fev_timers_bucket_add_ok, if_neg hfail]
        simp [h0]
      rw [he]
      refine ⟨a1, ?_, ?_, ?_, ?_, Or.inl rfl, ⟨?_, fun h => absurd h hfail⟩, ?_, ?_⟩
      · rcases hsh with h | ⟨hl, h⟩
        · exact Or.inl (a6.trans h)
        · exact Or.inr ⟨hlen1, by rw [a6, h, a11 h0]⟩
      · intro q hq
        exact (a3 q).1 hq
      · intro q hq
        exact Or.inr (a6 ▸ hq)
      · show (fev_timers_bucket_add s.bucket s.mem t true).1.len ≤ _
        omega
      · intro h
        exact absurd h (by simp [ENOMEM])
      · intro h
        exact absurd h (by simp [ENOMEM])
      · intro _ q
        exact a3 q

/-- The function `fev_process_timer_fd`: the bucket and the timers are not written,
and `fev_waiter_wake` is only called on behalf of the shadow minimum. -/
theorem fev_process_timer_fd_spec (s : timers_state) :
    (fev_process_timer_fd s).1.bucket = s.bucket ∧
    (fev_process_timer_fd s).1.mem = s.mem ∧
    (∀ q, q ∈ (fev_process_timer_fd s).2.2 → s.bucket.min = some q) := by
  unfold fev_process_timer_fd
  cases h : s.bucket.min with
  | none => simp
  | some m => simp

/-- The end of `fev_timers_process`, which publishes the root of a non-empty heap
as the shadow minimum: `heap`, `len` and `capacity` are not touched, and the
shadow minimum, NULL before, is NULL or the root of the heap afterwards. -/
theorem fev_timers_process_rearm (b : fev_timers_bucket) (m : timer_mem) (hmin : b.min = none) :
    (if fev_timers_bucket_empty b = true then b
      else fev_poller_set_timeout { b with min := some (fev_timers_bucket_min b) }
        (m (fev_timers_bucket_min b)).abs_time).heap = b.heap ∧
    (if fev_timers_bucket_empty b = true then b
      else fev_poller_set_timeout { b with min := some (fev_timers_bucket_min b) }
        (m (fev_timers_bucket_min b)).abs_time).len = b.len ∧
    (if fev_timers_bucket_empty b = true then b
      else fev_poller_set_timeout { b with min := some (fev_timers_bucket_min b) }
        (m (fev_timers_bucket_min b)).abs_time).capacity = b.capacity ∧
    shadow_ok (if fev_timers_bucket_empty b = true then b
      else fev_poller_set_timeout { b with min := some (fev_timers_bucket_min b) }
        (m (fev_timers_bucket_min b)).abs_time) ∧
    (∀ q, (if fev_timers_bucket_empty b = true then b
      else fev_poller_set_timeout { b with min := some (fev_timers_bucket_min b) }
        (m (fev_timers_bucket_min b)).abs_time).min = some q → in_bucket b q) := by
  by_cases he : fev_timers_bucket_empty b = true
  · rw [if_pos he]
    refine ⟨rfl, rfl, rfl, Or.inl hmin, ?_⟩
    intro q hq
    rw [hmin] at hq
    exact absurd hq (by simp)
  · rw [if_neg he]
    have hl : b.len ≠ 0 := by
      intro h
      apply he
      simp [fev_timers_bucket_empty, h]
    refine ⟨rfl, rfl, rfl, Or.inr ⟨hl, rfl⟩, ?_⟩
    intro q hq
    have hq2 : fev_timers_bucket_min b = q := Option.some.inj hq
    rw [← hq2]
    exact ⟨0, by omega, rfl⟩

/-- The function `fev_timers_process` in terms of the state `W` left by its call of
`fev_timers_wake_expired`. -/
theorem fev_timers_process_unfold (s : timers_state) (timer : Nat) (now : timespec)
    (W : wake_expired_state)
    (hW : W = fev_timers_wake_expired
      { bucket := { s.bucket with min := none }, mem := s.mem, waiters := s.waiters } now) :
    (fev_timers_process s timer now).expired = fev_timer_is_expired W.state.mem timer ∧
    (fev_timers_process s timer now).calls = W.calls ∧
    (fev_timer_is_expired W.state.mem timer = true →
      (fev_timers_process s timer now).state.mem = W.state.mem ∧
      (fev_timers_process s timer now).state.bucket =
        (if fev_timers_bucket_empty W.state.bucket = true then W.state.bucket
          else fev_poller_set_timeout
            { W.state.bucket with min := some (fev_timers_bucket_min W.state.bucket) }
            (W.state.mem (fev_timers_bucket_min W.state.bucket)).abs_time)) ∧
    (fev_timer_is_expired W.state.mem timer = false →
      (fev_timers_process s timer now).state.mem =
        (fev_timers_bucket_del W.state.bucket W.state.mem timer).2.1 ∧
      (fev_timers_process s timer now).state.bucket =
        (if fev_timers_bucket_empty
            (fev_timers_bucket_del W.state.bucket W.state.mem timer).1 = true then
          (fev_timers_bucket_del W.state.bucket W.state.mem timer).1
        else fev_poller_set_timeout
          { (fev_timers_bucket_del W.state.bucket W.state.mem timer).1 with
            min := some (fev_timers_bucket_min
              (fev_timers_bucket_del W.state.bucket W.state.mem timer).1) }
          ((fev_timers_bucket_del W.state.bucket W.state.mem timer).2.1
            (fev_timers_bucket_min
              (fev_timers_bucket_del W.state.bucket W.state.mem timer).1)).abs_time)) := by
  subst hW
  refine ⟨rfl, rfl, ?_, ?_⟩
  · intro h
    unfold fev_timers_process
    simp only [h, if_true]
    exact ⟨trivial, trivial⟩
  · intro h
    unfold fev_timers_process
    simp only [h, Bool.false_eq_true, if_false]
    exact ⟨trivial, trivial⟩
/-- The function `fev_timers_process` on a well-formed bucket, for a timer that is
in the bucket or expired, at a valid time `now`: the bucket stays well formed and
does not hold the timer afterwards; the shadow minimum is NULL or the root of
the heap; `fev_waiter_wake` is only called for timers of the bucket, marked
expired; for a timer in the bucket the return value is true exactly when its
time is not later than `now`, which is when the function has removed it and
called `fev_waiter_wake` for it; for a timer that was already expired the return
value is true and no call is made for it. -/
theorem fev_timers_process_spec (s : timers_state) (timer : Nat) (now : timespec)
    (hwf : bucket_wf s.bucket s.mem) (hlen : s.bucket.len ≤ SIZE_MAX)
    (hnow : fev_timespec_valid now)
    (hown : in_bucket s.bucket timer ∨ fev_timer_is_expired s.mem timer = true) :
    bucket_wf (fev_timers_process s timer now).state.bucket
      (fev_timers_process s timer now).state.mem ∧
    shadow_ok (fev_timers_process s timer now).state.bucket ∧
    ¬ in_bucket (fev_timers_process s timer now).state.bucket timer ∧
    (∀ q, in_bucket (fev_timers_process s timer now).state.bucket q → in_bucket s.bucket q) ∧
    (fev_timers_process s timer now).state.bucket.len ≤ s.bucket.len ∧
    (∀ q, (fev_timers_process s timer now).state.bucket.min = some q →
      in_bucket (fev_timers_process s timer now).state.bucket q) ∧
    (∀ c ∈ (fev_timers_process s timer now).calls, in_bucket s.bucket c.1 ∧ c.2 = true) ∧
    (in_bucket s.bucket timer →
      (((fev_timers_process s timer now).expired = true ↔
          fev_timespec_cmp (s.mem timer).abs_time now ≤ 0) ∧
        ((fev_timers_process s timer now).expired = true ↔
          (timer, true) ∈ (fev_timers_process s timer now).calls))) ∧
    (¬ in_bucket s.bucket timer →
      ((fev_timers_process s timer now).expired = true ∧
        ∀ c ∈ (fev_timers_process s timer now).calls, c.1 ≠ timer)) := by
  have hwf1 : bucket_wf ({ s.bucket with min := none } : fev_timers_bucket) s.mem :=
    (bucket_wf_congr_bucket s.bucket _ s.mem rfl rfl rfl).2 hwf
  have hspec := fev_timers_wake_expired_loop_spec now s.bucket.len
    { state := { bucket := { s.bucket with min := none }, mem := s.mem, waiters := s.waiters },
      fibers := [], num := 0, calls := [], mins := [] } hwf1 (le_refl _)
  obtain ⟨W, hW⟩ : ∃ W, W = fev_timers_wake_expired
      { bucket := { s.bucket with min := none }, mem := s.mem, waiters := s.waiters } now :=
    ⟨_, rfl⟩
  have hWdef : W = fev_timers_wake_expired_loop now s.bucket.len
      { state := { bucket := { s.bucket with min := none }, mem := s.mem,
                   waiters := s.waiters },
        fibers := [], num := 0, calls := [], mins := [] } := hW
  rw [← hWdef] at hspec
  obtain ⟨u1, u2, u3, u4⟩ := fev_timers_process_unfold s timer now W hW
  obtain ⟨r1, r2, r3, -, r5, r6, r7, ⟨popped, r8, r9⟩, r10, r11⟩ := hspec
  have r2' : W.state.bucket.len ≤ s.bucket.len := r2
  have r3' : W.state.bucket.min = none := r3
  have r5' : ∀ q, in_bucket W.state.bucket q → in_bucket s.bucket q := fun q h =>
    (in_bucket_congr s.bucket _ rfl rfl q).1 (r5 q h)
  have r6' : ∀ q, (W.state.mem q).abs_time = (s.mem q).abs_time := fun q => (r6 q).1
  have r7' : ∀ q, ¬ in_bucket s.bucket q → W.state.mem q = s.mem q := fun q h =>
    r7 q (fun h2 => h ((in_bucket_congr s.bucket _ rfl rfl q).1 h2))
  have r8' : W.calls = popped.map (fun q => (q, true)) := by
    rw [r8]; rfl
  have r9' : ∀ q, q ∈ popped ↔ (in_bucket s.bucket q ∧ ¬ in_bucket W.state.bucket q) :=
    fun q => (r9 q).trans (and_congr_left (fun _ => in_bucket_congr s.bucket _ rfl rfl q))
  have r10' : ∀ q, in_bucket s.bucket q → ¬ in_bucket W.state.bucket q →
      fev_timer_is_expired W.state.mem q = true ∧
      fev_timespec_cmp (s.mem q).abs_time now ≤ 0 := fun q h1 h2 =>
    r10 q ((in_bucket_congr s.bucket _ rfl rfl q).2 h1) h2
  have hWne : ∀ q, in_bucket W.state.bucket q → fev_timer_is_expired W.state.mem q = false :=
    bucket_wf_not_expired _ _ r1 (le_trans r2' hlen)
  have hcalls : ∀ c ∈ W.calls, in_bucket s.bucket c.1 ∧ c.2 = true := by
    intro c hc
    rw [r8'] at hc
    obtain ⟨q, hq, rfl⟩ := List.mem_map.1 hc
    exact ⟨((r9' q).1 hq).1, rfl⟩
  have hmemcalls : ∀ q, (q, true) ∈ W.calls ↔ q ∈ popped := by
    intro q
    rw [r8']
    constructor
    · intro h
      obtain ⟨q2, hq2, he⟩ := List.mem_map.1 h
      have : q2 = q := congrArg Prod.fst he
      rw [← this]; exact hq2
    · intro h
      exact List.mem_map.2 ⟨q, h, rfl⟩
  have hlate : ∀ q, in_bucket W.state.bucket q →
      ¬ fev_timespec_cmp (s.mem q).abs_time now ≤ 0 := by
    intro q hq hle
    have hl : W.state.bucket.len ≠ 0 := by
      obtain ⟨i, hi, -⟩ := hq
      omega
    rcases r11 with h | h
    · exact hl h
    · have hroot : in_bucket W.state.bucket (fev_timers_bucket_min W.state.bucket) :=
        ⟨0, by omega, rfl⟩
      have hvq : fev_timespec_valid (W.state.mem q).abs_time := by
        obtain ⟨i, hi, rfl⟩ := hq
        exact r1.2.2.2 i hi
      have hvr : fev_timespec_valid
          (W.state.mem (fev_timers_bucket_min W.state.bucket)).abs_time := r1.2.2.2 0 (by omega)
      have h1 := (timespec_le_iff_ns _ _ hvr hvq).1 (bucket_wf_min_le _ _ r1 q hq)
      rw [← r6' q] at hle
      have h2 := (fev_timespec_cmp_le_iff _ _ hvq hnow).1 hle
      have h3 : ¬ fev_timespec_cmp
          (W.state.mem (fev_timers_bucket_min W.state.bucket)).abs_time now ≤ 0 := not_le.2 h
      exact h3 ((fev_timespec_cmp_le_iff _ _ hvr hnow).2 (le_trans h1 h2))
  have hexp_in : in_bucket s.bucket timer →
      ((fev_timer_is_expired W.state.mem timer = true ↔
          fev_timespec_cmp (s.mem timer).abs_time now ≤ 0) ∧
        (fev_timer_is_expired W.state.mem timer = true ↔ timer ∈ popped)) := by
    intro hin
    by_cases hst : in_bucket W.state.bucket timer
    · have h1 := hWne timer hst
      refine ⟨⟨fun h => ?_, fun h => absurd h (hlate timer hst)⟩,
        ⟨fun h => ?_, fun h => absurd hst ((r9' timer).1 h).2⟩⟩
      · rw [h1] at h; exact absurd h (by simp)
      · rw [h1] at h; exact absurd h (by simp)
    · have h1 := r10' timer hin hst
      exact ⟨⟨fun _ => h1.2, fun _ => h1.1⟩, ⟨fun _ => (r9' timer).2 ⟨hin, hst⟩, fun _ => h1.1⟩⟩
  have hexp_out : ¬ in_bucket s.bucket timer →
      fev_timer_is_expired W.state.mem timer = true := by
    intro hout
    rcases hown with h | h
    · exact absurd h hout
    · unfold fev_timer_is_expired
      rw [r7' timer hout]
      exact h
  have hlast : (in_bucket s.bucket timer →
      (((fev_timers_process s timer now).expired = true ↔
          fev_timespec_cmp (s.mem timer).abs_time now ≤ 0) ∧
        ((fev_timers_process s timer now).expired = true ↔
          (timer, true) ∈ (fev_timers_process s timer now).calls))) ∧
    (¬ in_bucket s.bucket timer →
      ((fev_timers_process s timer now).expired = true ∧
        ∀ c ∈ (fev_timers_process s timer now).calls, c.1 ≠ timer)) := by
    rw [u1, u2]
    refine ⟨fun hin => ⟨(hexp_in hin).1, ?_⟩, fun hout => ⟨hexp_out hout, ?_⟩⟩
    · rw [hmemcalls]
      exact (hexp_in hin).2
    · intro c hc he
      exact hout (he ▸ (hcalls c hc).1)
  by_cases hexp : fev_timer_is_expired W.state.mem timer = true
  · obtain ⟨m1, m2⟩ := u3 hexp
    obtain ⟨p1, p2, p3, p4, p5⟩ := fev_timers_process_rearm W.state.bucket W.state.mem r3'
    rw [← m2] at p1 p2 p3 p4 p5
    have hinP : ∀ q, in_bucket (fev_timers_process s timer now).state.bucket q ↔
        in_bucket W.state.bucket q := in_bucket_congr _ _ p1 p2
    refine ⟨?_, p4, ?_, ?_, ?_, ?_, ?_, hlast⟩
    · rw [m1, bucket_wf_congr_bucket _ _ _ p1 p2 p3]
      exact r1
    · intro h
      have := hWne timer ((hinP timer).1 h)
      rw [this] at hexp
      exact absurd hexp (by simp)
    · intro q hq
      exact r5' q ((hinP q).1 hq)
    · rw [p2]; exact r2'
    · intro q hq
      exact (hinP q).2 (p5 q hq)
    · rw [u2]; exact hcalls
  · have hexp2 : fev_timer_is_expired W.state.mem timer = false := Bool.eq_false_iff.2 hexp
    obtain ⟨m1, m2⟩ := u4 hexp2
    have hinW : in_bucket W.state.bucket timer := by
      by_contra hst
      by_cases hin : in_bucket s.bucket timer
      · exact hexp (r10' timer hin hst).1
      · exact hexp (hexp_out hin)
    obtain ⟨d1, d2, d3, -, -, d6, -⟩ :=
      fev_timers_bucket_del_spec W.state.bucket W.state.mem timer r1 hinW
    obtain ⟨p1, p2, p3, p4, p5⟩ := fev_timers_process_rearm
      (fev_timers_bucket_del W.state.bucket W.state.mem timer).1
      (fev_timers_bucket_del W.state.bucket W.state.mem timer).2.1 (d6.trans r3')
    rw [← m2] at p1 p2 p3 p4 p5
    have hinP : ∀ q, in_bucket (fev_timers_process s timer now).state.bucket q ↔
        (in_bucket W.state.bucket q ∧ q ≠ timer) := fun q =>
      (in_bucket_congr _ _ p1 p2 q).trans (d3 q)
    refine ⟨?_, p4, ?_, ?_, ?_, ?_, ?_, hlast⟩
    · rw [m1, bucket_wf_congr_bucket _ _ _ p1 p2 p3]
      exact d1
    · intro h
      exact ((hinP timer).1 h).2 rfl
    · intro q hq
      exact r5' q ((hinP q).1 hq).1
    · rw [p2, d2]; omega
    · intro q hq
      exact (in_bucket_congr _ _ p1 p2 q).2 (p5 q hq)
    · rw [u2]; exact hcalls

/-- While a timer is neither in the well-formed bucket nor its shadow minimum, a
legal operation keeps it so and calls `fev_waiter_wake` for other timers only. -/
theorem timers_op_step_keeps_out (T : Nat) (op : timers_op) (s : timers_state)
    (hwf : bucket_wf s.bucket s.mem) (hsh : shadow_ok s.bucket) (hlen : s.bucket.len ≤ SIZE_MAX)
    (hout : ¬ in_bucket s.bucket T) (hmin : s.bucket.min ≠ some T)
    (hlegal : timers_op_legal T op s) :
    bucket_wf (timers_op_step op s).1.bucket (timers_op_step op s).1.mem ∧
    shadow_ok (timers_op_step op s).1.bucket ∧
    (timers_op_step op s).1.bucket.len ≤ SIZE_MAX ∧
    ¬ in_bucket (timers_op_step op s).1.bucket T ∧
    (timers_op_step op s).1.bucket.min ≠ some T ∧
    T ∉ (timers_op_step op s).2 := by
  cases op with
  | add timer ok =>
    obtain ⟨h1, h2, h3, h4⟩ := hlegal
    obtain ⟨a1, a2, a3, a4, a5, -⟩ := fev_timers_add_spec s timer ok hwf hsh h2 h3
    refine ⟨a1, a2, ?_, ?_, ?_, List.not_mem_nil T⟩
    · show (fev_timers_add s timer ok).1.bucket.len ≤ SIZE_MAX
      omega
    · intro h
      rcases a3 T h with h5 | h5
      · exact h1 h5.symm
      · exact hout h5
    · intro h
      rcases a4 T h with h5 | h5
      · exact h1 h5.symm
      · exact hmin h5
  | del timer =>
    show bucket_wf (fev_timers_del s timer).bucket (fev_timers_del s timer).mem ∧
      shadow_ok (fev_timers_del s timer).bucket ∧
      (fev_timers_del s timer).bucket.len ≤ SIZE_MAX ∧
      ¬ in_bucket (fev_timers_del s timer).bucket T ∧
      (fev_timers_del s timer).bucket.min ≠ some T ∧ T ∉ []
    by_cases hexp : fev_timer_is_expired s.mem timer = true
    · have he : fev_timers_del s timer = s := by
        unfold fev_timers_del
        rw [if_pos hexp]
      rw [he]
      exact ⟨hwf, hsh, hlen, hout, hmin, List.not_mem_nil T⟩
    · have hin : in_bucket s.bucket timer := by
        rcases hlegal with h | h
        · exact h
        · exact absurd h hexp
      obtain ⟨d1, d2, d3, -, d5, d6⟩ :=
        fev_timers_del_spec s timer hwf hsh hin (Bool.eq_false_iff.2 hexp)
      refine ⟨d1, d2, by rw [d5]; omega, fun h => hout ((d3 T).1 h).1, ?_, List.not_mem_nil T⟩
      intro h
      exact hout (d6 T h)
  | process timer now =>
    obtain ⟨p1, p2, -, p4, p5, p6, p7, -⟩ :=
      fev_timers_process_spec s timer now hwf hlen hlegal.2 hlegal.1
    refine ⟨p1, p2, le_trans p5 hlen, fun h => hout (p4 T h), ?_, ?_⟩
    · intro h
      exact hout (p4 T (p6 T h))
    · intro h
      obtain ⟨c, hc, he⟩ := List.mem_map.1 h
      have := (p7 c hc).1
      rw [he] at this
      exact hout this
  | timer_fd =>
    obtain ⟨f1, f2, f3⟩ := fev_process_timer_fd_spec s
    show bucket_wf (fev_process_timer_fd s).1.bucket (fev_process_timer_fd s).1.mem ∧
      shadow_ok (fev_process_timer_fd s).1.bucket ∧
      (fev_process_timer_fd s).1.bucket.len ≤ SIZE_MAX ∧
      ¬ in_bucket (fev_process_timer_fd s).1.bucket T ∧
      (fev_process_timer_fd s).1.bucket.min ≠ some T ∧ T ∉ (fev_process_timer_fd s).2.2
    rw [f1, f2]
    exact ⟨hwf, hsh, hlen, hout, hmin, fun h => hmin (f3 T h)⟩
  | write mem =>
    exact ⟨bucket_wf_congr s.bucket s.mem mem hwf hlegal, hsh, hlen, hout, hmin,
      List.not_mem_nil T⟩

/-- While a timer is neither in the well-formed bucket nor its shadow minimum,
legal operations keep it so and call `fev_waiter_wake` for other timers only. -/
theorem timers_run_keeps_out (T : Nat) (ops : List timers_op) :
    ∀ s : timers_state, bucket_wf s.bucket s.mem → shadow_ok s.bucket →
      s.bucket.len ≤ SIZE_MAX → ¬ in_bucket s.bucket T → s.bucket.min ≠ some T →
      timers_run_legal T ops s →
      T ∉ (timers_run ops s).2 ∧ ¬ in_bucket (timers_run ops s).1.bucket T ∧
        (timers_run ops s).1.bucket.min ≠ some T := by
  induction ops with
  | nil =>
    intro s _ _ _ hout hmin _
    exact ⟨List.not_mem_nil T, hout, hmin⟩
  | cons op ops ih =>
    intro s hwf hsh hlen hout hmin hlegal
    obtain ⟨k1, k2, k3, k4, k5, k6⟩ :=
      timers_op_step_keeps_out T op s hwf hsh hlen hout hmin hlegal.1
    obtain ⟨i1, i2, i3⟩ := ih (timers_op_step op s).1 k1 k2 k3 k4 k5 hlegal.2
    refine ⟨?_, i2, i3⟩
    intro h
    rcases List.mem_append.1 h with h | h
    · exact k6 h
    · exact i1 h

/-- C14: a timer that is in a well-formed bucket (hence not expired), whose shadow
minimum is NULL or the root of the heap, is removed by `fev_timers_del`: it is
then neither in the bucket nor the shadow minimum, and this stays so through
every later sequence of legal operations that does not add it again
(`fev_timers_add`, `fev_timers_del`, `fev_timers_process` with its
`fev_timers_wake_expired`, timer events of the poller, writes to timers outside
of the bucket); none of them calls `fev_waiter_wake` on behalf of the timer. -/
theorem fev_timers_del_never_wakes (s : timers_state) (T : Nat)
    (hwf : bucket_wf s.bucket s.mem) (hsh : shadow_ok s.bucket) (hlen : s.bucket.len ≤ SIZE_MAX)
    (hin : in_bucket s.bucket T) :
    fev_timer_is_expired s.mem T = false ∧
    ¬ in_bucket (fev_timers_del s T).bucket T ∧
    (fev_timers_del s T).bucket.min ≠ some T ∧
    ∀ ops, timers_run_legal T ops (fev_timers_del s T) →
      T ∉ (timers_run ops (fev_timers_del s T)).2 ∧
      ¬ in_bucket (timers_run ops (fev_timers_del s T)).1.bucket T ∧
      (timers_run ops (fev_timers_del s T)).1.bucket.min ≠ some T := by
  have hne := bucket_wf_not_expired s.bucket s.mem hwf hlen T hin
  obtain ⟨d1, d2, d3, d4, d5, -⟩ := fev_timers_del_spec s T hwf hsh hin hne
  have hout : ¬ in_bucket (fev_timers_del s T).bucket T := fun h => ((d3 T).1 h).2 rfl
  refine ⟨hne, hout, d4, ?_⟩
  intro ops hlegal
  exact timers_run_keeps_out T ops _ d1 d2 (by rw [d5]; omega) hout d4 hlegal
/-- Witness for C14: the bucket holds the timer 1 only, which is also the shadow
minimum; after `fev_timers_del` a timer event of the poller makes no call of
`fev_waiter_wake` on behalf of the timer. -/
theorem fev_timers_del_never_wakes_witness :
    1 ∉ (timers_run [timers_op.timer_fd]
      (fev_timers_del
        ⟨⟨fun _ => 1, 1, 1, some 1, none⟩, fun _ => ⟨⟨5, 0⟩, 0, 7⟩, fun _ => ⟨0, 1, 0, 0, 0, 4⟩⟩
        1)).2 :=
  ((fev_timers_del_never_wakes
    ⟨⟨fun _ => 1, 1, 1, some 1, none⟩, fun _ => ⟨⟨5, 0⟩, 0, 7⟩, fun _ => ⟨0, 1, 0, 0, 0, 4⟩⟩ 1
    ⟨le_refl _,
      fun i hi => by
        have h : i = 0 := Nat.lt_one_iff.1 hi
        rw [h],
      fun i h0 hi => by
        have h : i = 0 := Nat.lt_one_iff.1 hi
        omega,
      fun i _ => by
        show fev_timespec_valid ⟨5, 0⟩
        decide⟩
    (Or.inr ⟨by decide, rfl⟩)
    (by decide)
    ⟨0, by decide, rfl⟩).2.2.2 [timers_op.timer_fd] ⟨trivial, trivial⟩).1

/-- Counterexample for C8: the timers 1 (5 s, waiter 7) and 2 (3 s, waiter 8) are
added, each followed by a timer event of the poller that wakes its waiter with
`FEV_WAITER_TIMED_OUT_CHECK`; the fiber of timer 2 runs first and its
`fev_timers_process`, at 9 s, removes and expires both timers.  When the fiber of
timer 1 then resumes with `FEV_WAITER_TIMED_OUT_CHECK`, its own processing expires
no timer at all, and `fev_timed_wait` returns `-ETIMEDOUT`, not `-EAGAIN`. -/
theorem fev_timed_wait_expired_earlier :
    (timers_run
      [timers_op.add 1 true, timers_op.timer_fd, timers_op.add 2 true, timers_op.timer_fd,
        timers_op.process 2 ⟨9, 0⟩]
      ⟨fev_timers_bucket_init, fun p => if p = 1 then ⟨⟨5, 0⟩, 0, 7⟩ else ⟨⟨3, 0⟩, 0, 8⟩,
        fun p => ⟨0, 1, 0, 0, 0, p⟩⟩).2 = [1, 2, 2, 1] ∧
    ((timers_run
      [timers_op.add 1 true, timers_op.timer_fd, timers_op.add 2 true, timers_op.timer_fd,
        timers_op.process 2 ⟨9, 0⟩]
      ⟨fev_timers_bucket_init, fun p => if p = 1 then ⟨⟨5, 0⟩, 0, 7⟩ else ⟨⟨3, 0⟩, 0, 8⟩,
        fun p => ⟨0, 1, 0, 0, 0, p⟩⟩).1.waiters 7).reason = FEV_WAITER_TIMED_OUT_CHECK ∧
    (fev_timers_process
      (timers_run
        [timers_op.add 1 true, timers_op.timer_fd, timers_op.add 2 true, timers_op.timer_fd,
          timers_op.process 2 ⟨9, 0⟩]
        ⟨fev_timers_bucket_init, fun p => if p = 1 then ⟨⟨5, 0⟩, 0, 7⟩ else ⟨⟨3, 0⟩, 0, 8⟩,
          fun p => ⟨0, 1, 0, 0, 0, p⟩⟩).1 1 ⟨9, 0⟩).calls = [] ∧
    (fev_timed_wait_resume
      (timers_run
        [timers_op.add 1 true, timers_op.timer_fd, timers_op.add 2 true, timers_op.timer_fd,
          timers_op.process 2 ⟨9, 0⟩]
        ⟨fev_timers_bucket_init, fun p => if p = 1 then ⟨⟨5, 0⟩, 0, 7⟩ else ⟨⟨3, 0⟩, 0, 8⟩,
          fun p => ⟨0, 1, 0, 0, 0, p⟩⟩).1 1 FEV_WAITER_TIMED_OUT_CHECK ⟨9, 0⟩).2 =
      -ETIMEDOUT := by
  refine ⟨?_, ?_, ?_, ?_⟩ <;> decide
/-- C8 (amended): `fev_timed_wait` for a timer that is in the well-formed bucket or
expired, resumed at a valid time `now`.  Woken with `FEV_WAITER_READY` it runs
`fev_timers_del`, which leaves the state alone when the timer is expired and
removes the timer otherwise, and returns 0.  Woken with
`FEV_WAITER_TIMED_OUT_NO_CHECK` it returns `-ETIMEDOUT` and leaves the state
alone.  Woken with `FEV_WAITER_TIMED_OUT_CHECK` it runs `fev_timers_process` and
returns `-ETIMEDOUT` or `-EAGAIN`: for a timer still in the bucket it returns
`-ETIMEDOUT` exactly when the time of the timer is not later than `now`, which
is when that processing expires the timer; for a timer already expired by an
earlier processing it returns `-ETIMEDOUT` as well; in every case the timer is
not in the bucket afterwards.  When `fev_timers_add` fails, the function returns
`-ENOMEM` before waiting and the bucket is unchanged; otherwise it goes on to
wait with the timer in the bucket. -/
theorem fev_timed_wait_spec (s : timers_state) (timer : Nat) (now : timespec)
    (hwf : bucket_wf s.bucket s.mem) (hsh : shadow_ok s.bucket) (hlen : s.bucket.len ≤ SIZE_MAX)
    (hnow : fev_timespec_valid now)
    (hown : in_bucket s.bucket timer ∨ fev_timer_is_expired s.mem timer = true) :
    (fev_timed_wait_resume s timer FEV_WAITER_READY now = (fev_timers_del s timer, 0) ∧
      (fev_timer_is_expired s.mem timer = true → fev_timers_del s timer = s) ∧
      ¬ in_bucket (fev_timers_del s timer).bucket timer) ∧
    fev_timed_wait_resume s timer FEV_WAITER_TIMED_OUT_NO_CHECK now = (s, -ETIMEDOUT) ∧
    ((fev_timed_wait_resume s timer FEV_WAITER_TIMED_OUT_CHECK now).1 =
        (fev_timers_process s timer now).state ∧
      ((fev_timed_wait_resume s timer FEV_WAITER_TIMED_OUT_CHECK now).2 = -ETIMEDOUT ∨
        (fev_timed_wait_resume s timer FEV_WAITER_TIMED_OUT_CHECK now).2 = -EAGAIN) ∧
      (in_bucket s.bucket timer →
        (((fev_timed_wait_resume s timer FEV_WAITER_TIMED_OUT_CHECK now).2 = -ETIMEDOUT ↔
            fev_timespec_cmp (s.mem timer).abs_time now ≤ 0) ∧
          ((fev_timed_wait_resume s timer FEV_WAITER_TIMED_OUT_CHECK now).2 = -ETIMEDOUT ↔
            (timer, true) ∈ (fev_timers_process s timer now).calls))) ∧
      (¬ in_bucket s.bucket timer →
        ((fev_timed_wait_resume s timer FEV_WAITER_TIMED_OUT_CHECK now).2 = -ETIMEDOUT ∧
          ∀ c ∈ (fev_timers_process s timer now).calls, c.1 ≠ timer)) ∧
      ¬ in_bucket (fev_timed_wait_resume s timer FEV_WAITER_TIMED_OUT_CHECK now).1.bucket
        timer) ∧
    (∀ (t waiter : Nat) (abs_time : timespec) (ok : Bool), ¬ in_bucket s.bucket t →
      fev_timespec_valid abs_time →
      (((fev_timed_wait_enter s t waiter abs_time ok).2 = some (-ENOMEM) ↔
          (s.bucket.len = s.bucket.capacity ∧ ok = false)) ∧
        ((fev_timed_wait_enter s t waiter abs_time ok).2 = some (-ENOMEM) →
          (fev_timed_wait_enter s t waiter abs_time ok).1.bucket = s.bucket) ∧
        ((fev_timed_wait_enter s t waiter abs_time ok).2 ≠ some (-ENOMEM) →
          ((fev_timed_wait_enter s t waiter abs_time ok).2 = none ∧
            in_bucket (fev_timed_wait_enter s t waiter abs_time ok).1.bucket t)))) := by
  have hret : (fev_timed_wait_resume s timer FEV_WAITER_TIMED_OUT_CHECK now).2 =
      if (fev_timers_process s timer now).expired = true then -ETIMEDOUT else -EAGAIN := by
    simp [fev_timed_wait_resume, FEV_WAITER_TIMED_OUT_CHECK, FEV_WAITER_READY,
      FEV_WAITER_TIMED_OUT_NO_CHECK]
  have hiff : (fev_timed_wait_resume s timer FEV_WAITER_TIMED_OUT_CHECK now).2 = -ETIMEDOUT ↔
      (fev_timers_process s timer now).expired = true := by
    rw [hret]
    by_cases h : (fev_timers_process s timer now).expired = true
    · simp [h]
    · simp [h, ETIMEDOUT, EAGAIN]
  obtain ⟨p1, p2, p3, -, -, -, -, p8, p9⟩ :=
    fev_timers_process_spec s timer now hwf hlen hnow hown
  refine ⟨⟨?_, ?_, ?_⟩, ?_, ⟨?_, ?_, ?_, ?_, ?_⟩, ?_⟩
  · simp [fev_timed_wait_resume]
  · intro h
    unfold fev_timers_del
    rw [if_pos h]
  · by_cases hexp : fev_timer_is_expired s.mem timer = true
    · have he : fev_timers_del s timer = s := by
        unfold fev_timers_del
        rw [if_pos hexp]
      rw [he]
      intro hin
      rw [bucket_wf_not_expired s.bucket s.mem hwf hlen timer hin] at hexp
      exact absurd hexp (by simp)
    · have hin : in_bucket s.bucket timer := by
        rcases hown with h | h
        · exact h
        · exact absurd h hexp
      intro h
      exact (((fev_timers_del_spec s timer hwf hsh hin (Bool.eq_false_iff.2 hexp)).2.2.1
        timer).1 h).2 rfl
  · simp [fev_timed_wait_resume, FEV_WAITER_READY, FEV_WAITER_TIMED_OUT_NO_CHECK]
  · simp [fev_timed_wait_resume, FEV_WAITER_TIMED_OUT_CHECK, FEV_WAITER_READY,
      FEV_WAITER_TIMED_OUT_NO_CHECK]
  · rw [hret]
    by_cases h : (fev_timers_process s timer now).expired = true
    · exact Or.inl (if_pos h)
    · exact Or.inr (if_neg h)
  · intro hin
    rw [hiff]
    exact p8 hin
  · intro hout
    rw [hiff]
    exact p9 hout
  · have he : (fev_timed_wait_resume s timer FEV_WAITER_TIMED_OUT_CHECK now).1 =
        (fev_timers_process s timer now).state := by
      simp [fev_timed_wait_resume, FEV_WAITER_TIMED_OUT_CHECK, FEV_WAITER_READY,
        FEV_WAITER_TIMED_OUT_NO_CHECK]
    rw [he]
    exact p3
  · intro t waiter abs_time ok hnew hvt
    have hwf1 : bucket_wf s.bucket
        (fun q => if q = t then (⟨abs_time, 0, waiter⟩ : fev_timer) else s.mem q) := by
      refine bucket_wf_congr s.bucket s.mem _ hwf ?_
      intro p hp
      have : p ≠ t := fun h => hnew (h ▸ hp)
      simp [this]
    have hvt1 : tvalid (fun q => if q = t then (⟨abs_time, 0, waiter⟩ : fev_timer) else s.mem q)
        t := by
      unfold tvalid
      simp only [if_true]
      exact hvt
    obtain ⟨-, -, -, -, -, a6, a7, a8, a9⟩ := fev_timers_add_spec
      { s with mem := fun q => if q = t then (⟨abs_time, 0, waiter⟩ : fev_timer) else s.mem q }
      t ok hwf1 hsh hnew hvt1
    have hE : fev_timed_wait_enter s t waiter abs_time ok =
        if (fev_timers_add { s with mem := fun q =>
              if q = t then (⟨abs_time, 0, waiter⟩ : fev_timer) else s.mem q } t ok).2 < 0 then
          ((fev_timers_add { s with mem := fun q =>
              if q = t then (⟨abs_time, 0, waiter⟩ : fev_timer) else s.mem q } t ok).1,
            some (fev_timers_add { s with mem := fun q =>
              if q = t then (⟨abs_time, 0, waiter⟩ : fev_timer) else s.mem q } t ok).2)
        else
          ((fev_timers_add { s with mem := fun q =>
              if q = t then (⟨abs_time, 0, waiter⟩ : fev_timer) else s.mem q } t ok).1,
            none) := rfl
    rw [hE]
    rcases a6 with h0 | hm
    · have hnf : ¬ (s.bucket.len = s.bucket.capacity ∧ ok = false) := by
        intro h
        have := a7.2 h
        rw [h0] at this
        exact absurd this (by simp [ENOMEM])
      rw [h0]
      simp only [lt_irrefl, if_false]
      refine ⟨⟨fun h => absurd h (by simp), fun h => absurd h hnf⟩,
        fun h => absurd h (by simp), fun _ => ⟨trivial, (a9 h0 t).2 (Or.inl rfl)⟩⟩
    · have hf := a7.1 hm
      have hs := a8 hm
      rw [hm]
      have hneg : (-ENOMEM : Int) < 0 := by simp [ENOMEM]
      simp only [hneg, if_true]
      refine ⟨⟨fun _ => hf, fun _ => trivial⟩, fun _ => ?_, fun h => absurd rfl h⟩
      rw [hs]

/-- Witness for C8: the bucket holds the timer 1 only, expiring at 5 s; resumed with
`FEV_WAITER_TIMED_OUT_CHECK` at 9 s, `fev_timed_wait` returns `-ETIMEDOUT`. -/
theorem fev_timed_wait_spec_witness :
    (fev_timed_wait_resume
      ⟨⟨fun _ => 1, 1, 1, some 1, none⟩, fun _ => ⟨⟨5, 0⟩, 0, 7⟩, fun _ => ⟨0, 1, 0, 0, 0, 4⟩⟩
      1 FEV_WAITER_TIMED_OUT_CHECK ⟨9, 0⟩).2 = -ETIMEDOUT :=
  (((fev_timed_wait_spec
    ⟨⟨fun _ => 1, 1, 1, some 1, none⟩, fun _ => ⟨⟨5, 0⟩, 0, 7⟩, fun _ => ⟨0, 1, 0, 0, 0, 4⟩⟩ 1
    ⟨9, 0⟩
    ⟨le_refl _,
      fun i hi => by
        have h : i = 0 := Nat.lt_one_iff.1 hi
        rw [h],
      fun i h0 hi => by
        have h : i = 0 := Nat.lt_one_iff.1 hi
        omega,
      fun i _ => by
        show fev_timespec_valid ⟨5, 0⟩
        decide⟩
    (Or.inr ⟨by decide, rfl⟩)
    (by decide)
    (by decide)
    (Or.inl ⟨0, by decide, rfl⟩)).2.2.1.2.2.1 ⟨0, by decide, rfl⟩).1).2 (by decide)

/-! ## Fiber attributes -/

/-- C19: with any page size, `fev_fiber_attr_set_stack_size` and
`fev_fiber_attr_set_guard_size` return `-EINVAL` and leave the attribute unchanged
when the size is not a multiple of the page size, and otherwise return 0, store
the size so that the matching getter returns it, and leave the other fields
alone; `fev_fiber_attr_set_stack` returns `-EINVAL` and leaves the attribute
unchanged (address and size included) when the address or the size is not a
multiple of the page size, and otherwise returns 0 and stores both. -/
theorem fev_fiber_attr_set_spec (FEV_PAGE_SIZE : Nat) (attr : fev_fiber_attr)
    (addr size : Nat) :
    (size % FEV_PAGE_SIZE ≠ 0 →
      (fev_fiber_attr_set_stack_size FEV_PAGE_SIZE attr size = (attr, -EINVAL) ∧
        fev_fiber_attr_set_guard_size FEV_PAGE_SIZE attr size = (attr, -EINVAL))) ∧
    (size % FEV_PAGE_SIZE = 0 →
      ((fev_fiber_attr_set_stack_size FEV_PAGE_SIZE attr size).2 = 0 ∧
        fev_fiber_attr_get_stack_size (fev_fiber_attr_set_stack_size FEV_PAGE_SIZE attr size).1 =
          size ∧
        (fev_fiber_attr_set_stack_size FEV_PAGE_SIZE attr size).1 =
          { attr with stack_size := size } ∧
        (fev_fiber_attr_set_guard_size FEV_PAGE_SIZE attr size).2 = 0 ∧
        fev_fiber_attr_get_guard_size (fev_fiber_attr_set_guard_size FEV_PAGE_SIZE attr size).1 =
          size ∧
        (fev_fiber_attr_set_guard_size FEV_PAGE_SIZE attr size).1 =
          { attr with guard_size := size })) ∧
    ((addr % FEV_PAGE_SIZE ≠ 0 ∨ size % FEV_PAGE_SIZE ≠ 0) →
      (fev_fiber_attr_set_stack FEV_PAGE_SIZE attr addr size = (attr, -EINVAL) ∧
        fev_fiber_attr_get_stack (fev_fiber_attr_set_stack FEV_PAGE_SIZE attr addr size).1 =
          (attr.stack_addr, attr.stack_size))) ∧
    ((addr % FEV_PAGE_SIZE = 0 ∧ size % FEV_PAGE_SIZE = 0) →
      ((fev_fiber_attr_set_stack FEV_PAGE_SIZE attr addr size).2 = 0 ∧
        fev_fiber_attr_get_stack (fev_fiber_attr_set_stack FEV_PAGE_SIZE attr addr size).1 =
          (addr, size))) := by
  refine ⟨?_, ?_, ?_, ?_⟩
  · intro h
    simp [fev_fiber_attr_set_stack_size, fev_fiber_attr_set_guard_size, h]
  · intro h
    simp [fev_fiber_attr_set_stack_size, fev_fiber_attr_set_guard_size, h,
      fev_fiber_attr_get_stack_size, fev_fiber_attr_get_guard_size]
  · intro h
    have he : fev_fiber_attr_set_stack FEV_PAGE_SIZE attr addr size = (attr, -EINVAL) := by
      unfold fev_fiber_attr_set_stack
      by_cases ha : addr % FEV_PAGE_SIZE ≠ 0
      · rw [if_pos ha]
      · rw [if_neg ha]
        rcases h with h | h
        · exact absurd h ha
        · rw [if_pos h]
    rw [he]
    exact ⟨rfl, rfl⟩
  · rintro ⟨ha, hs⟩
    simp [fev_fiber_attr_set_stack, ha, hs, fev_fiber_attr_get_stack]

/-- Witness for C19: with pages of 4096 bytes, the stack size 100 is refused and the
attribute is unchanged. -/
theorem fev_fiber_attr_set_spec_witness :
    fev_fiber_attr_set_stack_size 4096 ⟨0, 8192, 4096, false⟩ 100 =
      (⟨0, 8192, 4096, false⟩, -EINVAL) :=
  ((fev_fiber_attr_set_spec 4096 ⟨0, 8192, 4096, false⟩ 0 100).1 (by decide)).1

/-! ## Fibers -/

/-- C16: `fev_fiber_create` returns `-EINVAL`, with no call to an allocator, no fiber
stored and the schedulers (hence `num_fibers`) unchanged, when `sched` is NULL
and the caller is not inside a worker; when `sched` is not the scheduler of the
caller (or the caller is not inside a worker) and is running; and when the fiber
is not scheduled into the worker of the caller and the attributes are not
detached, which includes NULL attributes. -/
theorem fev_fiber_create_einval (FEV_DEFAULT_STACK_SIZE FEV_DEFAULT_GUARD_SIZE : Nat)
    (scheds : Nat → fev_sched) (attr : Option fev_fiber_attr) (env : create_env) :
    fev_fiber_create FEV_DEFAULT_STACK_SIZE FEV_DEFAULT_GUARD_SIZE scheds none none attr env =
      some { ret := -EINVAL, scheds := scheds, fiber := none, calls := [] } ∧
    (∀ (p : Nat) (cur_worker : Option Nat), cur_worker ≠ some p →
      fev_sched_is_running (scheds p) = true →
      fev_fiber_create FEV_DEFAULT_STACK_SIZE FEV_DEFAULT_GUARD_SIZE scheds (some p) cur_worker
          attr env =
        some { ret := -EINVAL, scheds := scheds, fiber := none, calls := [] }) ∧
    (∀ (p : Nat) (cur_worker : Option Nat), cur_worker ≠ some p →
      (attr = none ∨ ∃ a, attr = some a ∧ a.detached = false) →
      fev_fiber_create FEV_DEFAULT_STACK_SIZE FEV_DEFAULT_GUARD_SIZE scheds (some p) cur_worker
          attr env =
        some { ret := -EINVAL, scheds := scheds, fiber := none, calls := [] }) := by
  have hbody : (attr = none ∨ ∃ a, attr = some a ∧ a.detached = false) → ∀ p,
      fev_fiber_create_body FEV_DEFAULT_STACK_SIZE FEV_DEFAULT_GUARD_SIZE scheds p false
          attr env =
        some { ret := -EINVAL, scheds := scheds, fiber := none, calls := [] } := by
    intro h p
    rcases h with h | ⟨a, h, ha⟩
    · subst h
      simp [fev_fiber_create_body, fev_fiber_create_default_attr]
    · subst h
      simp [fev_fiber_create_body, ha]
  refine ⟨rfl, ?_, ?_⟩
  · intro p cur_worker hne hrun
    cases cur_worker with
    | none => simp [fev_fiber_create, hrun]
    | some w =>
      have hpw : p ≠ w := fun h => hne (by rw [h])
      simp [fev_fiber_create, hrun, hpw]
  · intro p cur_worker hne hattr
    cases cur_worker with
    | none =>
      by_cases hrun : fev_sched_is_running (scheds p) = true
      · simp [fev_fiber_create, hrun]
      · simp [fev_fiber_create, hrun, hbody hattr p]
    | some w =>
      have hpw : p ≠ w := fun h => hne (by rw [h])
      by_cases hrun : fev_sched_is_running (scheds p) = true
      · simp [fev_fiber_create, hrun, hpw]
      · simp [fev_fiber_create, hrun, hpw, hbody hattr p]

/-- Witness for C16: called outside a worker with a scheduler that is not running
and NULL attributes, `fev_fiber_create` returns `-EINVAL`. -/
theorem fev_fiber_create_einval_witness :
    fev_fiber_create 8192 4096 (fun _ => ⟨0, 0, [], false⟩) (some 1) none none
        ⟨64, 0, 128, 0, 0, true⟩ =
      some { ret := -EINVAL, scheds := fun _ => ⟨0, 0, [], false⟩, fiber := none, calls := [] } :=
  (fev_fiber_create_einval 8192 4096 (fun _ => ⟨0, 0, [], false⟩) none
    ⟨64, 0, 128, 0, 0, true⟩).2.2 1 none (by decide) (Or.inl rfl)

/-- C17: `fev_fiber_join` returns `-EINVAL` and changes nothing when called outside a
worker or when `FEV_FIBER_JOINING` is already set (second join); on a fiber that
is not joinable it sets `FEV_FIBER_JOINING`, then returns `-EINVAL` from the first
pass of its loop, with the reference count untouched and nothing freed, and a
caller already in the loop returns `-EINVAL` in the same way once the fiber is
not joinable.  `fev_fiber_detach` returns `-EINVAL` and changes nothing (flags and
reference count included) when called outside a worker or on a fiber that is
not joinable. -/
theorem fev_fiber_join_detach_einval (fiber : fev_fiber) :
    fev_fiber_join_enter false fiber = (fiber, some (-EINVAL)) ∧
    (fiber.flags.joining = true → fev_fiber_join_enter true fiber = (fiber, some (-EINVAL))) ∧
    (fiber.flags.joining = false → fiber.flags.joinable = false →
      ((fev_fiber_join_enter true fiber).2 = none ∧
        (fev_fiber_join_loop (fev_fiber_join_enter true fiber).1).2 = some (-EINVAL) ∧
        (fev_fiber_join_loop (fev_fiber_join_enter true fiber).1).1.ref_count =
          fiber.ref_count ∧
        (fev_fiber_join_loop (fev_fiber_join_enter true fiber).1).1.freed = fiber.freed)) ∧
    (fiber.flags.joinable = false → fev_fiber_join_loop fiber = (fiber, some (-EINVAL))) ∧
    fev_fiber_detach false fiber = (fiber, -EINVAL) ∧
    (fiber.flags.joinable = false → fev_fiber_detach true fiber = (fiber, -EINVAL)) := by
  refine ⟨rfl, ?_, ?_, ?_, rfl, ?_⟩
  · intro h
    simp [fev_fiber_join_enter, h]
  · intro h1 h2
    simp [fev_fiber_join_enter, fev_fiber_join_loop, h1, h2]
  · intro h
    simp [fev_fiber_join_loop, h]
  · intro h
    simp [fev_fiber_detach, h]

/-- Witness for C17: a second join on a fiber with `FEV_FIBER_JOINING` set returns
`-EINVAL` and leaves the fiber as it is. -/
theorem fev_fiber_join_detach_einval_witness :
    fev_fiber_join_enter true ⟨64, 8192, false, 0, ⟨false, true, true⟩, 2, false⟩ =
      (⟨64, 8192, false, 0, ⟨false, true, true⟩, 2, false⟩, some (-EINVAL)) :=
  (fev_fiber_join_detach_einval ⟨64, 8192, false, 0, ⟨false, true, true⟩, 2, false⟩).2.1 rfl

/-- A step in the life of a fiber created joinable preserves the invariant. -/
theorem fiber_life_inv_step (op : fiber_op) (l : fiber_life) (h : fiber_life_inv l) :
    fiber_life_inv (fiber_op_step op l) := by
  obtain ⟨⟨sa, ts, us, rv, ⟨dead, joinable, joining⟩, rc, freed⟩, sched, ec, pd, jl, joins,
    detaches⟩ := l
  obtain ⟨h1, h2, h3, h4, h5, h6, h7, h8, h9⟩ := h
  simp only [fiber_life.released] at h8 h9
  dsimp only at h1 h2 h3 h4 h5 h6 h7 h8 h9
  have hj : joins = 0 ∨ joins = 1 := by omega
  have hd : detaches = 0 ∨ detaches = 1 := by omega
  subst h3 h6 h8
  cases op with
  | exit v =>
    cases dead <;> cases pd <;> rcases hj with rfl | rfl <;> rcases hd with rfl | rfl <;>
      simp [fiber_life_inv, fiber_op_step, EINVAL, fev_fiber_exit_mark, fiber_life.released] at * <;>
      simp_all
  | exit_post =>
    cases dead <;> cases pd <;> rcases hj with rfl | rfl <;> rcases hd with rfl | rfl <;>
      simp [fiber_life_inv, fiber_op_step, EINVAL, fev_fiber_exit_post, fev_fiber_release,
        fiber_life.released] at * <;> simp_all
  | join_enter =>
    cases joining <;> cases pd <;> rcases hj with rfl | rfl <;> rcases hd with rfl | rfl <;>
      simp [fiber_life_inv, fiber_op_step, EINVAL, fev_fiber_join_enter, fiber_life.released] at * <;>
      simp_all
  | join_loop =>
    cases jl <;> cases dead <;> cases pd <;> rcases hj with rfl | rfl <;>
      rcases hd with rfl | rfl <;>
      simp [fiber_life_inv, fiber_op_step, EINVAL, fev_fiber_join_loop, fev_fiber_release,
        fiber_life.released] at * <;> simp_all
  | detach =>
    cases pd <;> rcases hj with rfl | rfl <;> rcases hd with rfl | rfl <;>
      simp [fiber_life_inv, fiber_op_step, EINVAL, fev_fiber_detach, fev_fiber_release,
        fiber_life.released] at * <;> simp_all
/-- A step in the life of a fiber created detached preserves the invariant. -/
theorem fiber_life_inv_detached_step (op : fiber_op) (l : fiber_life)
    (h : fiber_life_inv_detached l) : fiber_life_inv_detached (fiber_op_step op l) := by
  obtain ⟨⟨sa, ts, us, rv, ⟨dead, joinable, joining⟩, rc, freed⟩, sched, ec, pd, jl, joins,
    detaches⟩ := l
  obtain ⟨h1, h2, h3, h4, h5⟩ := h
  dsimp only at h1 h2 h3 h4 h5
  subst h1 h2 h3 h4 h5
  cases op with
  | exit v =>
    cases ec <;> cases freed <;>
      simp [fiber_life_inv_detached, fiber_op_step, fev_fiber_exit_mark]
  | exit_post =>
    cases ec <;> cases freed <;>
      simp [fiber_life_inv_detached, fiber_op_step, fev_fiber_exit_post, fev_fiber_release]
  | join_enter =>
    cases joining <;> cases freed <;>
      simp [fiber_life_inv_detached, fiber_op_step, fev_fiber_join_enter]
  | join_loop =>
    cases jl <;> cases freed <;>
      simp [fiber_life_inv_detached, fiber_op_step, fev_fiber_join_loop, EINVAL]
  | detach =>
    cases freed <;>
      simp [fiber_life_inv_detached, fiber_op_step, fev_fiber_detach, EINVAL]

/-- The invariant holds throughout the life of a fiber created joinable. -/
theorem fiber_life_inv_run (ops : List fiber_op) :
    ∀ l, fiber_life_inv l → fiber_life_inv (fiber_run ops l) := by
  induction ops with
  | nil => intro l h; exact h
  | cons op ops ih => intro l h; exact ih _ (fiber_life_inv_step op l h)

/-- The invariant holds throughout the life of a fiber created detached. -/
theorem fiber_life_inv_detached_run (ops : List fiber_op) :
    ∀ l, fiber_life_inv_detached l → fiber_life_inv_detached (fiber_run ops l) := by
  induction ops with
  | nil => intro l h; exact h
  | cons op ops ih => intro l h; exact ih _ (fiber_life_inv_detached_step op l h)

/-- A call of `fev_fiber_create_body` that stores a fiber returns 0, and the fiber
is the one initialised by `fev_fiber_create_init`. -/
theorem fev_fiber_create_body_fiber (FEV_DEFAULT_STACK_SIZE FEV_DEFAULT_GUARD_SIZE : Nat)
    (scheds : Nat → fev_sched) (sched : Nat) (in_cur : Bool) (attr : Option fev_fiber_attr)
    (env : create_env) (r : create_result) (p : Nat) (f : fev_fiber)
    (h : fev_fiber_create_body FEV_DEFAULT_STACK_SIZE FEV_DEFAULT_GUARD_SIZE scheds sched in_cur
      attr env = some r) (hf : r.fiber = some (p, f)) :
    r.ret = 0 ∧
    f = fev_fiber_create_init
      (attr.getD (fev_fiber_create_default_attr FEV_DEFAULT_STACK_SIZE FEV_DEFAULT_GUARD_SIZE))
      env.stack_alloc_addr := by
  unfold fev_fiber_create_body at h
  dsimp only at h
  generalize attr.getD
    (fev_fiber_create_default_attr FEV_DEFAULT_STACK_SIZE FEV_DEFAULT_GUARD_SIZE) = A at h ⊢
  by_cases c1 : in_cur = false ∧ A.detached = false
  · rw [if_pos c1] at h
    rw [← Option.some.inj h] at hf
    exact absurd hf (by simp)
  rw [if_neg c1] at h
  by_cases c2 : env.malloc_ret = 0
  · rw [if_pos c2] at h
    rw [← Option.some.inj h] at hf
    exact absurd hf (by simp)
  rw [if_neg c2] at h
  by_cases c3 : A.stack_addr = 0 ∧ env.stack_alloc_ret ≠ 0
  · rw [if_pos c3] at h
    rw [← Option.some.inj h] at hf
    exact absurd hf (by simp)
  rw [if_neg c3] at h
  by_cases c4 : env.cond_init_ret ≠ 0
  · rw [if_pos c4] at h
    rw [← Option.some.inj h] at hf
    exact absurd hf (by simp)
  rw [if_neg c4] at h
  by_cases c5 : env.mutex_init_ret ≠ 0
  · rw [if_pos c5] at h
    rw [← Option.some.inj h] at hf
    exact absurd hf (by simp)
  rw [if_neg c5] at h
  by_cases c6 : in_cur = true
  · rw [if_pos c6] at h
    split at h
    · exact absurd h (by simp)
    · rw [← Option.some.inj h] at hf
      have := Option.some.inj hf
      exact ⟨by rw [← Option.some.inj h], (congrArg Prod.snd this).symm⟩
  · rw [if_neg c6] at h
    rw [← Option.some.inj h] at hf
    have := Option.some.inj hf
    exact ⟨by rw [← Option.some.inj h], (congrArg Prod.snd this).symm⟩
/-- A call of `fev_fiber_create` that stores a fiber returns 0, and the fiber is the
one initialised by `fev_fiber_create_init`. -/
theorem fev_fiber_create_fiber (FEV_DEFAULT_STACK_SIZE FEV_DEFAULT_GUARD_SIZE : Nat)
    (scheds : Nat → fev_sched) (sched cur_worker : Option Nat) (attr : Option fev_fiber_attr)
    (env : create_env) (r : create_result) (p : Nat) (f : fev_fiber)
    (h : fev_fiber_create FEV_DEFAULT_STACK_SIZE FEV_DEFAULT_GUARD_SIZE scheds sched cur_worker
      attr env = some r) (hf : r.fiber = some (p, f)) :
    r.ret = 0 ∧
    f = fev_fiber_create_init
      (attr.getD (fev_fiber_create_default_attr FEV_DEFAULT_STACK_SIZE FEV_DEFAULT_GUARD_SIZE))
      env.stack_alloc_addr := by
  have hbad : ∀ ret : Int,
      some ({ ret := ret, scheds := scheds, fiber := none, calls := [] } : create_result) =
        some r → False := by
    intro ret h2
    rw [← Option.some.inj h2] at hf
    exact absurd hf (by simp)
  unfold fev_fiber_create at h
  split at h
  · exact absurd h (hbad _)
  · exact fev_fiber_create_body_fiber _ _ _ _ _ _ _ _ _ _ h hf
  · split_ifs at h
    · exact absurd h (hbad _)
    · exact fev_fiber_create_body_fiber _ _ _ _ _ _ _ _ _ _ h hf
  · split_ifs at h
    · exact fev_fiber_create_body_fiber _ _ _ _ _ _ _ _ _ _ h hf
    · exact absurd h (hbad _)
    · exact fev_fiber_create_body_fiber _ _ _ _ _ _ _ _ _ _ h hf

/-- The part of C18 that holds in every run: a fiber stored by `fev_fiber_create` has
the reference count 1 and is not joinable when the attributes are detached, and
has the reference count 2 and is joinable otherwise.  The post-action of `fev_fiber_exit`, a `fev_fiber_join` that
returns 0 and a `fev_fiber_detach` that returns 0 each call `fev_fiber_release`
once, and `fev_fiber_release` frees the fiber exactly when it reads the count 1,
leaving 0.  Hence, through every sequence of steps in the life of a fiber
created joinable, the fiber is freed only once it has exited and a join or a
detach has returned 0, and, when at most one join or detach returns 0, exactly
once the post-action of its exit and that join or detach have both run; a fiber
created detached is freed exactly when the post-action of its exit has run. -/
theorem fev_fiber_ref_count_lifecycle :
    (∀ (FEV_DEFAULT_STACK_SIZE FEV_DEFAULT_GUARD_SIZE : Nat) (scheds : Nat → fev_sched)
      (sched cur_worker : Option Nat) (attr : Option fev_fiber_attr) (env : create_env)
      (r : create_result) (p : Nat) (f : fev_fiber),
      fev_fiber_create FEV_DEFAULT_STACK_SIZE FEV_DEFAULT_GUARD_SIZE scheds sched cur_worker
        attr env = some r →
      r.fiber = some (p, f) →
      (f.freed = false ∧
        f.flags = { dead := false,
                    joinable := !(attr.getD (fev_fiber_create_default_attr
                      FEV_DEFAULT_STACK_SIZE FEV_DEFAULT_GUARD_SIZE)).detached,
                    joining := false } ∧
        f.ref_count = if (attr.getD (fev_fiber_create_default_attr FEV_DEFAULT_STACK_SIZE
          FEV_DEFAULT_GUARD_SIZE)).detached = true then 1 else 2)) ∧
    (∀ (fiber : fev_fiber) (sched : fev_sched),
      (fev_fiber_exit_post fiber sched).1 = fev_fiber_release fiber) ∧
    (∀ fiber : fev_fiber, (fev_fiber_join_loop fiber).2 = some 0 →
      (fev_fiber_join_loop fiber).1 = fev_fiber_release fiber) ∧
    (∀ fiber : fev_fiber, (fev_fiber_detach true fiber).2 = 0 →
      (fev_fiber_detach true fiber).1 =
        fev_fiber_release { fiber with flags := { fiber.flags with joinable := false } }) ∧
    (∀ fiber : fev_fiber, fiber.freed = false →
      (((fev_fiber_release fiber).freed = true ↔ fiber.ref_count = 1) ∧
        (fiber.ref_count = 1 → (fev_fiber_release fiber).ref_count = 0) ∧
        (0 < fiber.ref_count → fiber.ref_count < 4294967296 →
          (fev_fiber_release fiber).ref_count = fiber.ref_count - 1))) ∧
    (∀ (fiber : fev_fiber) (sched : fev_sched) (ops : List fiber_op),
      fiber.ref_count = 2 → fiber.flags = { dead := false, joinable := true, joining := false } →
      fiber.freed = false →
      (((fiber_run ops (fiber_life_init fiber sched)).fiber.freed = true →
          ((fiber_run ops (fiber_life_init fiber sched)).exit_called = true ∧
            1 ≤ (fiber_run ops (fiber_life_init fiber sched)).joins +
              (fiber_run ops (fiber_life_init fiber sched)).detaches)) ∧
        ((fiber_run ops (fiber_life_init fiber sched)).joins +
            (fiber_run ops (fiber_life_init fiber sched)).detaches ≤ 1 →
          ((fiber_run ops (fiber_life_init fiber sched)).fiber.freed = true ↔
            ((fiber_run ops (fiber_life_init fiber sched)).post_done = true ∧
              (fiber_run ops (fiber_life_init fiber sched)).joins +
                (fiber_run ops (fiber_life_init fiber sched)).detaches = 1))))) ∧
    (∀ (fiber : fev_fiber) (sched : fev_sched) (ops : List fiber_op),
      fiber.ref_count = 1 → fiber.flags.joinable = false → fiber.freed = false →
      ((fiber_run ops (fiber_life_init fiber sched)).fiber.freed = true ↔
        (fiber_run ops (fiber_life_init fiber sched)).post_done = true)) := by
  refine ⟨?_, ?_, ?_, ?_, ?_, ?_, ?_⟩
  · intro S G scheds sched cur_worker attr env r p f h hf
    obtain ⟨-, rfl⟩ := fev_fiber_create_fiber S G scheds sched cur_worker attr env r p f h hf
    exact ⟨rfl, rfl, rfl⟩
  · intro fiber sched
    rfl
  · intro fiber h
    by_cases hj : fiber.flags.joinable = false
    · simp [fev_fiber_join_loop, hj, EINVAL] at h
    · by_cases hd : fiber.flags.dead = true
      · simp [fev_fiber_join_loop, hj, hd]
      · simp [fev_fiber_join_loop, hj, hd] at h
  · intro fiber h
    by_cases hj : fiber.flags.joinable = false
    · simp [fev_fiber_detach, hj, EINVAL] at h
    · simp [fev_fiber_detach, hj]
  · intro fiber hfreed
    refine ⟨?_, ?_, ?_⟩
    · unfold fev_fiber_release
      by_cases h1 : fiber.ref_count = 1
      · simp [h1]
      · simp [h1, hfreed]
    · intro h1
      simp [fev_fiber_release, h1]
    · intro h0 hlt
      have : (fev_fiber_release fiber).ref_count =
          (fiber.ref_count + 4294967295) % 4294967296 := by
        unfold fev_fiber_release
        dsimp only
        split <;> rfl
      rw [this]
      omega
  · intro fiber sched ops hrc hflags hfreed
    have hinit : fiber_life_inv (fiber_life_init fiber sched) := by
      simp [fiber_life_inv, fiber_life_init, fiber_life.released, hrc, hflags, hfreed]
    obtain ⟨h1, h2, h3, h4, h5, h6, h7, h8, h9⟩ :=
      fiber_life_inv_run ops _ hinit
    generalize fiber_run ops (fiber_life_init fiber sched) = l at h1 h2 h3 h4 h5 h6 h7 h8 h9 ⊢
    unfold fiber_life.released at h8 h9
    rw [h9]
    simp only [decide_eq_true_eq]
    refine ⟨?_, ?_⟩
    · intro h
      refine ⟨?_, ?_⟩
      · by_cases hp : l.post_done = true
        · exact h7 hp
        · rw [if_neg hp] at h
          have hj : l.joins = 1 := by omega
          rw [← h6]
          exact (h4 hj).2.1
      · split at h <;> omega
    · intro hle
      constructor
      · intro h
        by_cases hp : l.post_done = true
        · rw [if_pos hp] at h
          exact ⟨hp, by omega⟩
        · rw [if_neg hp] at h
          omega
      · rintro ⟨hp, hs⟩
        rw [if_pos hp]
        omega
  · intro fiber sched ops hrc hflags hfreed
    have hinit : fiber_life_inv_detached (fiber_life_init fiber sched) := by
      simp [fiber_life_inv_detached, fiber_life_init, hrc, hflags, hfreed]
    obtain ⟨-, -, -, -, h5⟩ := fiber_life_inv_detached_run ops _ hinit
    rw [h5]

/-- The theorem `fev_fiber_ref_count_lifecycle` on a run: a joinable fiber exits, is
joined, and the post-action of its exit runs: it is freed, after its exit and
the successful join. -/
theorem fev_fiber_ref_count_lifecycle_witness :
    (fiber_run [fiber_op.exit 5, fiber_op.join_enter, fiber_op.join_loop, fiber_op.exit_post]
        (fiber_life_init ⟨64, 8192, false, 0, ⟨false, true, false⟩, 2, false⟩
          ⟨1, 1, [], true⟩)).fiber.freed = true ∧
    (fiber_run [fiber_op.exit 5, fiber_op.join_enter, fiber_op.join_loop, fiber_op.exit_post]
        (fiber_life_init ⟨64, 8192, false, 0, ⟨false, true, false⟩, 2, false⟩
          ⟨1, 1, [], true⟩)).exit_called = true ∧
    1 ≤ (fiber_run [fiber_op.exit 5, fiber_op.join_enter, fiber_op.join_loop, fiber_op.exit_post]
        (fiber_life_init ⟨64, 8192, false, 0, ⟨false, true, false⟩, 2, false⟩
          ⟨1, 1, [], true⟩)).joins +
      (fiber_run [fiber_op.exit 5, fiber_op.join_enter, fiber_op.join_loop, fiber_op.exit_post]
        (fiber_life_init ⟨64, 8192, false, 0, ⟨false, true, false⟩, 2, false⟩
          ⟨1, 1, [], true⟩)).detaches :=
  ⟨by decide,
    (fev_fiber_ref_count_lifecycle.2.2.2.2.2.1
      ⟨64, 8192, false, 0, ⟨false, true, false⟩, 2, false⟩ ⟨1, 1, [], true⟩
      [fiber_op.exit 5, fiber_op.join_enter, fiber_op.join_loop, fiber_op.exit_post]
      rfl rfl rfl).1 (by decide)⟩

/-- C20 (divergence of the code): `fev_fiber_create` is called outside a worker, for
the scheduler 1 that is not running, with detached attributes.  When `fev_malloc`
fails, it returns `-ENOMEM` and the fiber is not counted; when `fev_stack_alloc`
fails with `-ENOMEM`, it frees the fiber, returns that code and the fiber is not
counted.  When both succeed and the pool has no run-queue node to give,
`fev_sched_put` returns `-ENOMEM`, yet `fev_fiber_create` returns 0 and stores the
fiber: the fiber is counted in `num_fibers`, and it is not in the run queue. -/
theorem fev_fiber_create_drops_sched_put_error :
    (fev_fiber_create 8192 4096 (fun _ => ⟨0, 0, [], false⟩) (some 1) none
        (some ⟨0, 8192, 4096, true⟩) ⟨0, 0, 128, 0, 0, true⟩).map
      (fun r => (r.ret, r.fiber.map Prod.fst, (r.scheds 1).num_fibers, r.calls)) =
        some (-ENOMEM, none, 0, [alloc_call.fev_malloc]) ∧
    (fev_fiber_create 8192 4096 (fun _ => ⟨0, 0, [], false⟩) (some 1) none
        (some ⟨0, 8192, 4096, true⟩) ⟨64, -ENOMEM, 0, 0, 0, true⟩).map
      (fun r => (r.ret, r.fiber.map Prod.fst, (r.scheds 1).num_fibers, r.calls)) =
        some (-ENOMEM, none, 0,
          [alloc_call.fev_malloc, alloc_call.fev_stack_alloc, alloc_call.fev_free]) ∧
    (fev_sched_put ⟨0, 1, [], false⟩ 64 false).2 = -ENOMEM ∧
    (fev_fiber_create 8192 4096 (fun _ => ⟨0, 0, [], false⟩) (some 1) none
        (some ⟨0, 8192, 4096, true⟩) ⟨64, 0, 128, 0, 0, false⟩).map
      (fun r => (r.ret, r.fiber.map Prod.fst, (r.scheds 1).num_fibers, (r.scheds 1).run_queue,
        (r.scheds 1).num_run_fibers)) = some (0, some 64, 1, [], 0) := by
  refine ⟨?_, ?_, ?_, ?_⟩ <;> decide

/-! ## QSBR -/

/-- Counting over `0..n` only looks at the numbers below `n`. -/
theorem countP_range_congr (p q : Nat → Bool) (n : Nat) (h : ∀ t, t < n → p t = q t) :
    (List.range n).countP p = (List.range n).countP q := by
  induction n with
  | zero => rfl
  | succ n ih =>
    rw [List.range_succ, List.countP_append, List.countP_append,
      ih (fun t ht => h t (Nat.lt_succ_of_lt ht))]
    simp [List.countP_cons, h n (Nat.lt_succ_self n)]

/-- Switching one counted number off lowers the count by one. -/
theorem countP_range_update (p q : Nat → Bool) (n V : Nat) (hV : V < n) (hp : p V = true)
    (hq : q V = false) (h : ∀ t, t < n → t ≠ V → p t = q t) :
    (List.range n).countP q + 1 = (List.range n).countP p := by
  induction n with
  | zero => exact absurd hV (Nat.not_lt_zero V)
  | succ n ih =>
    rw [List.range_succ, List.countP_append, List.countP_append]
    by_cases hVn : V = n
    · subst hVn
      rw [countP_range_congr p q V (fun t ht => h t (Nat.lt_succ_of_lt ht) (Nat.ne_of_lt ht))]
      simp [List.countP_cons, hp, hq]
    · have hlt : V < n := by omega
      have := ih hlt (fun t ht => h t (Nat.lt_succ_of_lt ht))
      have hn : p n = q n := h n (Nat.lt_succ_self n) (fun e => hVn e.symm)
      simp only [List.countP_cons, List.countP_nil, hn]
      omega

/-- A count of zero over `0..n` means that no number below `n` is counted. -/
theorem countP_range_zero (p : Nat → Bool) (n : Nat) (h : (List.range n).countP p = 0) :
    ∀ t, t < n → p t = false := by
  intro t ht
  have := (List.countP_eq_zero.1 h) t (List.mem_range.2 ht)
  simpa using this

/-- When exactly the numbers other than `T` are counted, the count is `n - 1`. -/
theorem countP_range_all_but (p : Nat → Bool) (n T : Nat) (hT : T < n) (hp : p T = false)
    (h : ∀ t, t < n → t ≠ T → p t = true) : (List.range n).countP p = n - 1 := by
  have h1 := countP_range_update (fun _ => true) p n T hT rfl hp
    (fun t ht hne => (h t ht hne).symm)
  have h2 : (List.range n).countP (fun _ => true) = n := by
    rw [List.countP_eq_length.2 (fun _ _ => rfl), List.length_range]
  omega

/-- The number of threads that lag behind is at most the number of threads. -/
theorem qsbr_stale_le (s : qsbr_state) : qsbr_stale s ≤ s.global.num_threads := by
  unfold qsbr_stale
  have h : (List.range s.global.num_threads).countP
      (fun t => decide (s.locals t ≠ s.global.epoch)) ≤
      (List.range s.global.num_threads).length := List.countP_le_length _
  rwa [List.length_range] at h

/-- The function `fev_qsbr_free` on a state that satisfies the invariant: either
`to_free1` is empty, then the entry alone becomes `to_free1`, a new epoch starts,
the caller is at it and every other thread lags behind; or the entry is pushed on
`to_free2` and nothing else changes. -/
theorem fev_qsbr_free_cases (s : qsbr_state) (t entry : Nat) (h : qsbr_inv s)
    (ht : t < s.global.num_threads) :
    ((s.global.to_free1 = [] ∧
        (fev_qsbr_free s t entry).global.to_free1 = [entry] ∧
        (fev_qsbr_free s t entry).global.to_free2 = [] ∧
        (fev_qsbr_free s t entry).locals t = (fev_qsbr_free s t entry).global.epoch ∧
        (∀ u, u < s.global.num_threads → u ≠ t →
          (fev_qsbr_free s t entry).locals u ≠ (fev_qsbr_free s t entry).global.epoch)) ∨
      (s.global.to_free1 ≠ [] ∧
        fev_qsbr_free s t entry =
          { s with global := { s.global with to_free2 := entry :: s.global.to_free2 } })) ∧
    qsbr_inv (fev_qsbr_free s t entry) := by
  obtain ⟨h1, h2, h3, h4, h5⟩ := h
  by_cases h0 : s.global.to_free1 = []
  · obtain ⟨h6, h7⟩ := h4 h0
    have hne : uint32_wrap (s.global.epoch + 1) ≠ s.global.epoch := by
      unfold uint32_wrap
      omega
    have hloc : ∀ u, u < s.global.num_threads → u ≠ t →
        (fev_qsbr_free s t entry).locals u ≠ (fev_qsbr_free s t entry).global.epoch := by
      intro u hu hut
      simp only [fev_qsbr_free, h0, if_true, set_local, hut, if_false]
      rw [h7 u hu]
      exact fun e => hne e.symm
    have hself : (fev_qsbr_free s t entry).locals t =
        (fev_qsbr_free s t entry).global.epoch := by
      simp [fev_qsbr_free, h0, set_local]
    refine ⟨Or.inl ⟨h0, by simp [fev_qsbr_free, h0], by simp [fev_qsbr_free, h0, h6], hself,
      hloc⟩, ?_⟩
    have hN : (fev_qsbr_free s t entry).global.num_threads = s.global.num_threads := by
      simp [fev_qsbr_free, h0]
    refine ⟨by rw [hN]; exact h1, by rw [hN]; exact h2, ?_, ?_, ?_⟩
    · simp only [fev_qsbr_free, h0, if_true, uint32_wrap]
      omega
    · intro hc
      simp [fev_qsbr_free, h0] at hc
    · intro _
      have hst : qsbr_stale (fev_qsbr_free s t entry) = s.global.num_threads - 1 := by
        unfold qsbr_stale
        rw [hN]
        refine countP_range_all_but _ _ t ht ?_ ?_
        · simp [hself]
        · intro u hu hut
          simpa using hloc u hu hut
      rw [hst]
      simp only [fev_qsbr_free, h0, if_true, uint32_wrap]
      omega
  · have he : fev_qsbr_free s t entry =
        { s with global := { s.global with to_free2 := entry :: s.global.to_free2 } } := by
      simp [fev_qsbr_free, h0]
    refine ⟨Or.inr ⟨h0, he⟩, ?_⟩
    rw [he]
    refine ⟨h1, h2, h3, fun hc => absurd hc h0, fun _ => ?_⟩
    exact h5 h0
/-- The function `fev_qsbr_quiescent` on a state that satisfies the invariant, called
by one of the threads: the invariant is kept, and either the caller is at the
global epoch and nothing changes; or the caller catches up with the global
epoch and nothing is returned; or the caller is the last thread to catch up:
`to_free1` is returned, `to_free2` takes its place, and when that is not empty a
new epoch starts at which only the caller is. -/
theorem fev_qsbr_quiescent_cases (s : qsbr_state) (t : Nat) (h : qsbr_inv s)
    (ht : t < s.global.num_threads) :
    qsbr_inv (fev_qsbr_quiescent s t).1 ∧
    (fev_qsbr_quiescent s t).1.global.num_threads = s.global.num_threads ∧
    (fev_qsbr_quiescent s t = (s, []) ∨
      ((fev_qsbr_quiescent s t).2 = [] ∧
        (fev_qsbr_quiescent s t).1.global.to_free1 = s.global.to_free1 ∧
        (fev_qsbr_quiescent s t).1.global.to_free2 = s.global.to_free2 ∧
        (fev_qsbr_quiescent s t).1.global.epoch = s.global.epoch ∧
        (fev_qsbr_quiescent s t).1.locals = set_local s.locals t s.global.epoch) ∨
      ((fev_qsbr_quiescent s t).2 = s.global.to_free1 ∧
        (∀ u, u < s.global.num_threads → u ≠ t → s.locals u = s.global.epoch) ∧
        (fev_qsbr_quiescent s t).1.global.to_free1 = s.global.to_free2 ∧
        (fev_qsbr_quiescent s t).1.global.to_free2 = [] ∧
        ((fev_qsbr_quiescent s t).1.global.to_free1 ≠ [] →
          ∀ u, u < s.global.num_threads →
            (fev_qsbr_quiescent s t).1.locals u = (fev_qsbr_quiescent s t).1.global.epoch →
            u = t))) := by
  obtain ⟨h1, h2, h3, h4, h5⟩ := h
  by_cases hloc : s.global.epoch = s.locals t
  · have he : fev_qsbr_quiescent s t = (s, []) := by
      simp [fev_qsbr_quiescent, hloc]
    rw [he]
    exact ⟨⟨h1, h2, h3, h4, h5⟩, rfl, Or.inl rfl⟩
  have h0 : s.global.to_free1 ≠ [] := by
    intro hc
    exact hloc ((h4 hc).2 t ht).symm
  have hnr := h5 h0
  have hst : (List.range s.global.num_threads).countP
      (fun u => decide (set_local s.locals t s.global.epoch u ≠ s.global.epoch)) + 1 =
      qsbr_stale s := by
    unfold qsbr_stale
    refine countP_range_update _ _ _ t ht ?_ ?_ ?_
    · simpa using fun e => hloc e.symm
    · simp [set_local]
    · intro u _ hut
      simp [set_local, hut]
  have hle := qsbr_stale_le s
  have hdec : uint32_wrap (4294967295 + s.global.num_remaining) =
      s.global.num_remaining - 1 := by
    unfold uint32_wrap
    omega
  have hN : (fev_qsbr_quiescent s t).1.global.num_threads = s.global.num_threads := by
    unfold fev_qsbr_quiescent
    dsimp only
    rw [if_neg hloc]
    split_ifs <;> exact Eq.refl _
  by_cases hone : s.global.num_remaining = 1
  · have hzero : (List.range s.global.num_threads).countP
        (fun u => decide (set_local s.locals t s.global.epoch u ≠ s.global.epoch)) = 0 := by
      omega
    have hall : ∀ u, u < s.global.num_threads → u ≠ t → s.locals u = s.global.epoch := by
      intro u hu hut
      have hz := countP_range_zero
        (fun u => decide (set_local s.locals t s.global.epoch u ≠ s.global.epoch))
        s.global.num_threads hzero u hu
      simpa [set_local, hut] using hz
    have hret : (fev_qsbr_quiescent s t).2 = s.global.to_free1 := by
      unfold fev_qsbr_quiescent
      dsimp only
      rw [if_neg hloc, if_pos hone]
      split_ifs <;> exact Eq.refl _
    have hf1 : (fev_qsbr_quiescent s t).1.global.to_free1 = s.global.to_free2 := by
      unfold fev_qsbr_quiescent
      dsimp only
      rw [if_neg hloc, if_pos hone]
      by_cases h2e : s.global.to_free2 = []
      · rw [if_neg (not_not.2 h2e)]
        exact h2e.symm
      · rw [if_pos h2e]
    have hf2 : (fev_qsbr_quiescent s t).1.global.to_free2 = [] := by
      unfold fev_qsbr_quiescent
      dsimp only
      rw [if_neg hloc, if_pos hone]
      by_cases h2e : s.global.to_free2 = []
      · rw [if_neg (not_not.2 h2e)]
        exact h2e
      · rw [if_pos h2e]
    by_cases h2e : s.global.to_free2 = []
    · have hep : (fev_qsbr_quiescent s t).1.global.epoch = s.global.epoch := by
        unfold fev_qsbr_quiescent
        dsimp only
        rw [if_neg hloc, if_pos hone, if_neg (not_not.2 h2e)]
      have hl : (fev_qsbr_quiescent s t).1.locals = set_local s.locals t s.global.epoch := by
        unfold fev_qsbr_quiescent
        dsimp only
        rw [if_neg hloc, if_pos hone, if_neg (not_not.2 h2e)]
      refine ⟨?_, hN, Or.inr (Or.inr ⟨hret, hall, hf1, hf2, ?_⟩)⟩
      · unfold qsbr_inv
        rw [hN, hep, hf1, hf2, hl]
        refine ⟨h1, h2, h3, fun _ => ⟨rfl, ?_⟩, fun hc => absurd h2e hc⟩
        intro u hu
        by_cases hut : u = t
        · simp [set_local, hut]
        · simp only [set_local, hut, if_false]
          exact hall u hu hut
      · intro hc
        rw [hf1] at hc
        exact absurd h2e hc
    · have hep : (fev_qsbr_quiescent s t).1.global.epoch =
          uint32_wrap (s.global.epoch + 1) := by
        unfold fev_qsbr_quiescent
        dsimp only
        rw [if_neg hloc, if_pos hone, if_pos h2e]
      have hl : (fev_qsbr_quiescent s t).1.locals =
          set_local s.locals t (uint32_wrap (s.global.epoch + 1)) := by
        unfold fev_qsbr_quiescent
        dsimp only
        rw [if_neg hloc, if_pos hone, if_pos h2e]
      have hr : (fev_qsbr_quiescent s t).1.global.num_remaining =
          uint32_wrap (4294967295 + s.global.num_threads) := by
        unfold fev_qsbr_quiescent
        dsimp only
        rw [if_neg hloc, if_pos hone, if_pos h2e]
      have hne : uint32_wrap (s.global.epoch + 1) ≠ s.global.epoch := by
        unfold uint32_wrap
        omega
      have honly : ∀ u, u < s.global.num_threads →
          set_local s.locals t (uint32_wrap (s.global.epoch + 1)) u =
            uint32_wrap (s.global.epoch + 1) → u = t := by
        intro u hu hq
        by_contra hut
        simp only [set_local, hut, if_false] at hq
        rw [hall u hu hut] at hq
        exact hne hq.symm
      refine ⟨?_, hN, Or.inr (Or.inr ⟨hret, hall, hf1, hf2, ?_⟩)⟩
      · unfold qsbr_inv
        rw [hN, hep, hf1, hf2, hr]
        refine ⟨h1, h2, by unfold uint32_wrap; omega, fun hc => absurd hc h2e, fun _ => ?_⟩
        unfold qsbr_stale
        rw [hN, hep, hl]
        rw [countP_range_all_but _ _ t ht (by simp [set_local])
          (fun u hu hut => by
            have : ¬ set_local s.locals t (uint32_wrap (s.global.epoch + 1)) u =
                uint32_wrap (s.global.epoch + 1) := fun hq => hut (honly u hu hq)
            simpa using this)]
        unfold uint32_wrap
        omega
      · intro _ u hu hq
        rw [hl, hep] at hq
        exact honly u hu hq
  · have hret : (fev_qsbr_quiescent s t).2 = [] := by
      unfold fev_qsbr_quiescent
      dsimp only
      rw [if_neg hloc, if_neg hone]
    have hf1 : (fev_qsbr_quiescent s t).1.global.to_free1 = s.global.to_free1 := by
      unfold fev_qsbr_quiescent
      dsimp only
      rw [if_neg hloc, if_neg hone]
    have hf2 : (fev_qsbr_quiescent s t).1.global.to_free2 = s.global.to_free2 := by
      unfold fev_qsbr_quiescent
      dsimp only
      rw [if_neg hloc, if_neg hone]
    have hep : (fev_qsbr_quiescent s t).1.global.epoch = s.global.epoch := by
      unfold fev_qsbr_quiescent
      dsimp only
      rw [if_neg hloc, if_neg hone]
    have hl : (fev_qsbr_quiescent s t).1.locals = set_local s.locals t s.global.epoch := by
      unfold fev_qsbr_quiescent
      dsimp only
      rw [if_neg hloc, if_neg hone]
    have hr : (fev_qsbr_quiescent s t).1.global.num_remaining =
        uint32_wrap (4294967295 + s.global.num_remaining) := by
      unfold fev_qsbr_quiescent
      dsimp only
      rw [if_neg hloc, if_neg hone]
    refine ⟨?_, hN, Or.inr (Or.inl ⟨hret, hf1, hf2, hep, hl⟩)⟩
    unfold qsbr_inv
    rw [hN, hep, hf1, hf2, hr]
    refine ⟨h1, h2, h3, fun hc => absurd hc h0, fun _ => ?_⟩
    unfold qsbr_stale
    rw [hN, hep, hl, hdec]
    omega
/-- The function `fev_qsbr_free` does not change the number of threads. -/
theorem fev_qsbr_free_num_threads (s : qsbr_state) (t entry : Nat) :
    (fev_qsbr_free s t entry).global.num_threads = s.global.num_threads := by
  unfold fev_qsbr_free
  split_ifs <;> exact Eq.refl _

/-- A call by one of the threads keeps the invariant of QSBR and the number of
threads. -/
theorem qsbr_op_step_inv (op : qsbr_op) (s : qsbr_state) (h : qsbr_inv s)
    (ht : op.thread < s.global.num_threads) :
    qsbr_inv (qsbr_op_step op s) ∧
    (qsbr_op_step op s).global.num_threads = s.global.num_threads := by
  cases op with
  | free t entry => exact ⟨(fev_qsbr_free_cases s t entry h ht).2, fev_qsbr_free_num_threads s t entry⟩
  | quiescent t =>
    obtain ⟨c1, c2, -⟩ := fev_qsbr_quiescent_cases s t h ht
    exact ⟨c1, c2⟩

/-- Calls by the threads keep the invariant of QSBR and the number of threads. -/
theorem qsbr_run_inv (ops : List qsbr_op) :
    ∀ s : qsbr_state, qsbr_inv s → (∀ op ∈ ops, qsbr_op.thread op < s.global.num_threads) →
      (qsbr_inv (qsbr_run ops s) ∧
        (qsbr_run ops s).global.num_threads = s.global.num_threads) := by
  induction ops with
  | nil => intro s h _; exact ⟨h, rfl⟩
  | cons op ops ih =>
    intro s h hthr
    obtain ⟨k1, k2⟩ := qsbr_op_step_inv op s h (hthr op (List.mem_cons_self _ _))
    obtain ⟨i1, i2⟩ := ih (qsbr_op_step op s) k1
      (fun o ho => by rw [k2]; exact hthr o (List.mem_cons_of_mem _ ho))
    exact ⟨i1, i2.trans k2⟩

/-- The initial state satisfies the invariant of QSBR when there are at least two
threads and their number is a `uint32_t`. -/
theorem qsbr_inv_init (n : Nat) (h2 : 2 ≤ n) (hn : n < 4294967296) :
    qsbr_inv (fev_qsbr_init n) := by
  refine ⟨h2, hn, ?_, fun _ => ⟨rfl, fun _ _ => rfl⟩, fun hc => absurd rfl hc⟩
  show (0 : Nat) < 4294967296
  decide

/-- Right after `fev_qsbr_free` of an entry that was not in `to_free1`, the entry is
covered by no thread at all: either it is alone in `to_free1` and every other
thread lags behind, or it is in `to_free2`. -/
theorem qsbr_covered_free (s : qsbr_state) (T e : Nat) (h : qsbr_inv s)
    (hT : T < s.global.num_threads) (hnew : e ∉ s.global.to_free1) :
    qsbr_covered (fev_qsbr_free s T e) T e (fun _ => False) := by
  intro hin u hu hne hq
  rw [fev_qsbr_free_num_threads] at hu
  rcases (fev_qsbr_free_cases s T e h hT).1 with ⟨-, -, -, -, c5⟩ | ⟨-, c2⟩
  · exact c5 u hu hne hq
  · rw [c2] at hin
    exact hnew hin

/-- A call that does not free the entry again keeps it covered, by the former
threads and the caller of `fev_qsbr_quiescent`. -/
theorem qsbr_covered_step (op : qsbr_op) (s : qsbr_state) (T e : Nat) (seen : Nat → Prop)
    (h : qsbr_inv s) (ht : op.thread < s.global.num_threads)
    (hop : ∀ t, op ≠ qsbr_op.free t e) (hc : qsbr_covered s T e seen) :
    qsbr_covered (qsbr_op_step op s) T e (fun t => seen t ∨ op = qsbr_op.quiescent t) := by
  cases op with
  | free t entry =>
    have hne : e ≠ entry := fun he => hop t (by rw [he])
    intro hin u hu hnT hq
    have hN := fev_qsbr_free_num_threads s t entry
    rcases (fev_qsbr_free_cases s t entry h ht).1 with ⟨-, c2, -⟩ | ⟨-, c2⟩
    · have hin2 : e ∈ (fev_qsbr_free s t entry).global.to_free1 := hin
      rw [c2] at hin2
      exact absurd (List.mem_singleton.1 hin2) hne
    · have hin2 : e ∈ (fev_qsbr_free s t entry).global.to_free1 := hin
      have hq2 : (fev_qsbr_free s t entry).locals u =
          (fev_qsbr_free s t entry).global.epoch := hq
      have hu2 : u < (fev_qsbr_free s t entry).global.num_threads := hu
      rw [c2] at hin2 hq2
      rw [hN] at hu2
      exact Or.inl (hc hin2 u hu2 hnT hq2)
  | quiescent t =>
    obtain ⟨-, cN, cases3⟩ := fev_qsbr_quiescent_cases s t h ht
    intro hin u hu hnT hq
    have hin2 : e ∈ (fev_qsbr_quiescent s t).1.global.to_free1 := hin
    have hq2 : (fev_qsbr_quiescent s t).1.locals u =
        (fev_qsbr_quiescent s t).1.global.epoch := hq
    have hu2 : u < (fev_qsbr_quiescent s t).1.global.num_threads := hu
    rw [cN] at hu2
    rcases cases3 with c | ⟨-, c2, -, c4, c5⟩ | ⟨-, -, c3, -, c5⟩
    · rw [c] at hin2 hq2
      exact Or.inl (hc hin2 u hu2 hnT hq2)
    · rw [c2] at hin2
      rw [c4, c5] at hq2
      by_cases hut : u = t
      · exact Or.inr (by rw [hut])
      · simp only [set_local, hut, if_false] at hq2
        exact Or.inl (hc hin2 u hu2 hnT hq2)
    · have hne : (fev_qsbr_quiescent s t).1.global.to_free1 ≠ [] :=
        List.ne_nil_of_mem hin2
      exact Or.inr (by rw [c5 hne u hu2 hq2])

/-- Through calls that do not free the entry again, the entry stays covered by
the threads that have called `fev_qsbr_quiescent` meanwhile. -/
theorem qsbr_covered_run (T e : Nat) (ops : List qsbr_op) :
    ∀ (s : qsbr_state) (seen : Nat → Prop), qsbr_inv s →
      (∀ op ∈ ops, qsbr_op.thread op < s.global.num_threads) →
      (∀ op ∈ ops, ∀ t, op ≠ qsbr_op.free t e) → qsbr_covered s T e seen →
      qsbr_covered (qsbr_run ops s) T e (fun t => seen t ∨ qsbr_op.quiescent t ∈ ops) := by
  induction ops with
  | nil =>
    intro s seen _ _ _ hc hin u hu hnT hq
    exact Or.inl (hc hin u hu hnT hq)
  | cons op ops ih =>
    intro s seen h hthr hfree hc
    obtain ⟨k1, k2⟩ := qsbr_op_step_inv op s h (hthr op (List.mem_cons_self _ _))
    have hstep := qsbr_covered_step op s T e seen h (hthr op (List.mem_cons_self _ _))
      (hfree op (List.mem_cons_self _ _)) hc
    have hrest := ih (qsbr_op_step op s) _ k1
      (fun o ho => by rw [k2]; exact hthr o (List.mem_cons_of_mem _ ho))
      (fun o ho => hfree o (List.mem_cons_of_mem _ ho)) hstep
    intro hin u hu hnT hq
    rcases hrest hin u hu hnT hq with (h1 | h1) | h1
    · exact Or.inl h1
    · exact Or.inr (by rw [h1]; exact List.mem_cons_self _ _)
    · exact Or.inr (List.mem_cons_of_mem _ h1)
/-- C15: QSBR with `num_threads` threads, at least 2, every operation one atomic
step, started from the initial state.  After any calls `pre` by the threads, the
thread `T` frees the entry `e` (which is not in `to_free1` then), the calls `mid`
follow, none of which frees `e` again, and then a call of `fev_qsbr_quiescent` by
the thread `U` returns a list that holds `e`: then every thread other than `T` has
called `fev_qsbr_quiescent` after that free, in `mid` or as that last call.
And `fev_poller_free_socket` hands the socket to `fev_free` exactly when the
scheduler has one worker; otherwise it passes the socket to `fev_qsbr_free` and
frees nothing. -/
theorem fev_qsbr_quiescent_after_all :
    (∀ (num_threads : Nat) (pre mid : List qsbr_op) (T U e : Nat),
      2 ≤ num_threads → num_threads < 4294967296 →
      (∀ op ∈ pre, qsbr_op.thread op < num_threads) →
      (∀ op ∈ mid, qsbr_op.thread op < num_threads) →
      T < num_threads → U < num_threads →
      e ∉ (qsbr_run pre (fev_qsbr_init num_threads)).global.to_free1 →
      (∀ op ∈ mid, ∀ t, op ≠ qsbr_op.free t e) →
      e ∈ (fev_qsbr_quiescent
        (qsbr_run mid (fev_qsbr_free (qsbr_run pre (fev_qsbr_init num_threads)) T e)) U).2 →
      ∀ V, V < num_threads → V ≠ T → (V = U ∨ qsbr_op.quiescent V ∈ mid)) ∧
    (∀ (s : poller_sockets) (worker socket : Nat),
      (s.num_workers = 1 →
        ((fev_poller_free_socket s worker socket).freed = socket :: s.freed ∧
          (fev_poller_free_socket s worker socket).qsbr = s.qsbr)) ∧
      (s.num_workers ≠ 1 →
        ((fev_poller_free_socket s worker socket).freed = s.freed ∧
          (fev_poller_free_socket s worker socket).qsbr =
            fev_qsbr_free s.qsbr worker socket))) := by
  constructor
  · intro N pre mid T U e h2 hN hpre hmid hT hU hnew hfree hret V hV hVT
    have hinit := qsbr_inv_init N h2 hN
    obtain ⟨p1, p2⟩ := qsbr_run_inv pre (fev_qsbr_init N) hinit hpre
    have p2N : (qsbr_run pre (fev_qsbr_init N)).global.num_threads = N := p2
    obtain ⟨f1, f2⟩ := qsbr_op_step_inv (qsbr_op.free T e) _ p1 (by rw [p2N]; exact hT)
    have f2N : (fev_qsbr_free (qsbr_run pre (fev_qsbr_init N)) T e).global.num_threads = N :=
      f2.trans p2N
    have f1q : qsbr_inv (fev_qsbr_free (qsbr_run pre (fev_qsbr_init N)) T e) := f1
    have hc0 := qsbr_covered_free _ T e p1 (by rw [p2N]; exact hT) hnew
    obtain ⟨m1, m2⟩ := qsbr_run_inv mid _ f1q (fun o ho => by rw [f2N]; exact hmid o ho)
    have m2N := m2.trans f2N
    have hc := qsbr_covered_run T e mid _ _ f1q (fun o ho => by rw [f2N]; exact hmid o ho)
      hfree hc0
    obtain ⟨-, -, cases3⟩ := fev_qsbr_quiescent_cases _ U m1 (by rw [m2N]; exact hU)
    rcases cases3 with c | ⟨c1, -⟩ | ⟨c1, c2, -⟩
    · rw [c] at hret
      exact absurd hret (List.not_mem_nil e)
    · rw [c1] at hret
      exact absurd hret (List.not_mem_nil e)
    · rw [c1] at hret
      by_cases hVU : V = U
      · exact Or.inl hVU
      · rcases hc hret V (by rw [m2N]; exact hV) hVT (c2 V (by rw [m2N]; exact hV) hVU) with
          hf | hq
        · exact absurd hf id
        · exact Or.inr hq
  · intro s worker socket
    constructor
    · intro h1
      simp [fev_poller_free_socket, h1]
    · intro h1
      simp [fev_poller_free_socket, h1]

/-- Witness for C15: with two threads, the thread 0 frees the entry 7 and the next
call of `fev_qsbr_quiescent`, by the thread 1, returns it: the only other thread
has called `fev_qsbr_quiescent` after the free. -/
theorem fev_qsbr_quiescent_after_all_witness :
    7 ∈ (fev_qsbr_quiescent (qsbr_run [] (fev_qsbr_free (qsbr_run [] (fev_qsbr_init 2)) 0 7))
      1).2 ∧
    ∀ V, V < 2 → V ≠ 0 → (V = 1 ∨ qsbr_op.quiescent V ∈ ([] : List qsbr_op)) :=
  ⟨by decide,
    fev_qsbr_quiescent_after_all.1 2 [] [] 0 1 7 (by decide) (by decide)
      (fun _ h => absurd h (List.not_mem_nil _)) (fun _ h => absurd h (List.not_mem_nil _))
      (by decide) (by decide) (by decide) (fun _ h => absurd h (List.not_mem_nil _))
      (by decide)⟩

/-- A well-formed bucket in the terms of the source: every timer knows its
position, `fev_timers_cmp` puts no parent after its child, and the length is
within the capacity. -/
theorem bucket_wf_cmp (b : fev_timers_bucket) (mem : timer_mem) (hwf : bucket_wf b mem) :
    (∀ i, i < b.len → (mem (b.heap i)).index = i) ∧
    (∀ i, 0 < i → i < b.len → fev_timers_cmp mem (b.heap ((i - 1) / 2)) (b.heap i) ≤ 0) ∧
    b.len ≤ b.capacity := by
  obtain ⟨h1, h2, h3, h4⟩ := hwf
  refine ⟨h2, ?_, h1⟩
  intro i hi0 hin
  have hp : (i - 1) / 2 < b.len := by omega
  exact (fev_timespec_cmp_le_iff _ _ (h4 _ hp) (h4 i hin)).2
    ((timespec_le_iff_ns _ _ (h4 _ hp) (h4 i hin)).1 (h3 i hi0 hin))

/-- C25: the binary-heap bucket stays well formed under every operation.  Let the
bucket be well formed (with valid expiry times), and let `b2`, `mem2` be the
bucket and the memory left by `fev_timers_bucket_add` of a valid timer that is
not in the bucket (whether or not `fev_realloc` succeeds), by
`fev_timers_bucket_del` of a timer of the bucket, or by `fev_timers_bucket_del_min`
on a non-empty bucket.  Then the bucket is well formed again: for every
`i < len` the timer at `heap[i]` has `index == i`, for every `0 < i < len` the
timer at `heap[(i-1)/2]` is not later than the timer at `heap[i]`
(`fev_timers_cmp <= 0`), and `len <= capacity`. -/
theorem fev_timers_bucket_stays_well_formed (b : fev_timers_bucket) (mem : timer_mem)
    (timer : Nat) (realloc_ok : Bool) (b2 : fev_timers_bucket) (mem2 : timer_mem)
    (hwf : bucket_wf b mem)
    (hop : (¬ in_bucket b timer ∧ tvalid mem timer ∧
        b2 = (fev_timers_bucket_add b mem timer realloc_ok).1 ∧
        mem2 = (fev_timers_bucket_add b mem timer realloc_ok).2.1) ∨
      (in_bucket b timer ∧ b2 = (fev_timers_bucket_del b mem timer).1 ∧
        mem2 = (fev_timers_bucket_del b mem timer).2.1) ∨
      (b.len ≠ 0 ∧ b2 = (fev_timers_bucket_del_min b mem).1 ∧
        mem2 = (fev_timers_bucket_del_min b mem).2)) :
    bucket_wf b2 mem2 ∧
    (∀ i, i < b2.len → (mem2 (b2.heap i)).index = i) ∧
    (∀ i, 0 < i → i < b2.len →
      fev_timers_cmp mem2 (b2.heap ((i - 1) / 2)) (b2.heap i) ≤ 0) ∧
    b2.len ≤ b2.capacity := by
  have key : bucket_wf b2 mem2 := by
    rcases hop with ⟨hnew, hvt, e1, e2⟩ | ⟨hin, e1, e2⟩ | ⟨hne, e1, e2⟩
    · rw [e1, e2, fev_timers_bucket_add_ok]
      by_cases hfail : b.len = b.capacity ∧ realloc_ok = false
      · rw [if_pos hfail]
        exact hwf
      · rw [if_neg hfail]
        exact (fev_timers_bucket_add_spec b mem timer hwf hnew hvt).1
    · rw [e1, e2]
      exact (fev_timers_bucket_del_spec b mem timer hwf hin).1
    · rw [e1, e2]
      exact (fev_timers_bucket_del_min_spec b mem hwf hne).1
  exact ⟨key, bucket_wf_cmp b2 mem2 key⟩

/-- Witness for C25: timer 2 (3 s) is added to the bucket that holds timer 1 (5 s);
`fev_realloc` grows the heap and the sift-up swaps the two timers: timer 2 is at
`heap[0]`, timer 1 at `heap[1]`, both know their index and the parent is not later
than the child. -/
theorem fev_timers_bucket_stays_well_formed_witness :
    bucket_wf (⟨fun _ => 1, 1, 1, some 1, none⟩ : fev_timers_bucket)
      (fun p => if p = 1 then ⟨⟨5, 0⟩, 0, 7⟩ else ⟨⟨3, 0⟩, 0, 8⟩) ∧
    (fev_timers_bucket_add ⟨fun _ => 1, 1, 1, some 1, none⟩
      (fun p => if p = 1 then ⟨⟨5, 0⟩, 0, 7⟩ else ⟨⟨3, 0⟩, 0, 8⟩) 2 true).1.len = 2 ∧
    (fev_timers_bucket_add ⟨fun _ => 1, 1, 1, some 1, none⟩
      (fun p => if p = 1 then ⟨⟨5, 0⟩, 0, 7⟩ else ⟨⟨3, 0⟩, 0, 8⟩) 2 true).1.heap 0 = 2 ∧
    (fev_timers_bucket_add ⟨fun _ => 1, 1, 1, some 1, none⟩
      (fun p => if p = 1 then ⟨⟨5, 0⟩, 0, 7⟩ else ⟨⟨3, 0⟩, 0, 8⟩) 2 true).1.heap 1 = 1 ∧
    (∀ i, i < (fev_timers_bucket_add ⟨fun _ => 1, 1, 1, some 1, none⟩
        (fun p => if p = 1 then ⟨⟨5, 0⟩, 0, 7⟩ else ⟨⟨3, 0⟩, 0, 8⟩) 2 true).1.len →
      ((fev_timers_bucket_add ⟨fun _ => 1, 1, 1, some 1, none⟩
        (fun p => if p = 1 then ⟨⟨5, 0⟩, 0, 7⟩ else ⟨⟨3, 0⟩, 0, 8⟩) 2 true).2.1
        ((fev_timers_bucket_add ⟨fun _ => 1, 1, 1, some 1, none⟩
          (fun p => if p = 1 then ⟨⟨5, 0⟩, 0, 7⟩ else ⟨⟨3, 0⟩, 0, 8⟩) 2
            true).1.heap i)).index = i) ∧
    (∀ i, 0 < i → i < (fev_timers_bucket_add ⟨fun _ => 1, 1, 1, some 1, none⟩
        (fun p => if p = 1 then ⟨⟨5, 0⟩, 0, 7⟩ else ⟨⟨3, 0⟩, 0, 8⟩) 2 true).1.len →
      fev_timers_cmp
        (fev_timers_bucket_add ⟨fun _ => 1, 1, 1, some 1, none⟩
          (fun p => if p = 1 then ⟨⟨5, 0⟩, 0, 7⟩ else ⟨⟨3, 0⟩, 0, 8⟩) 2 true).2.1
        ((fev_timers_bucket_add ⟨fun _ => 1, 1, 1, some 1, none⟩
          (fun p => if p = 1 then ⟨⟨5, 0⟩, 0, 7⟩ else ⟨⟨3, 0⟩, 0, 8⟩) 2
            true).1.heap ((i - 1) / 2))
        ((fev_timers_bucket_add ⟨fun _ => 1, 1, 1, some 1, none⟩
          (fun p => if p = 1 then ⟨⟨5, 0⟩, 0, 7⟩ else ⟨⟨3, 0⟩, 0, 8⟩) 2
            true).1.heap i) ≤ 0) :=
  have hwf : bucket_wf (⟨fun _ => 1, 1, 1, some 1, none⟩ : fev_timers_bucket)
      (fun p => if p = 1 then ⟨⟨5, 0⟩, 0, 7⟩ else ⟨⟨3, 0⟩, 0, 8⟩) :=
    ⟨le_refl _,
      fun i hi => by
        have h : i = 0 := Nat.lt_one_iff.1 hi
        rw [h]
        rfl,
      fun i h0 hi => by
        have h : i = 0 := Nat.lt_one_iff.1 hi
        omega,
      fun i _ => by
        show fev_timespec_valid ⟨5, 0⟩
        decide⟩
  have h := fev_timers_bucket_stays_well_formed ⟨fun _ => 1, 1, 1, some 1, none⟩
    (fun p => if p = 1 then ⟨⟨5, 0⟩, 0, 7⟩ else ⟨⟨3, 0⟩, 0, 8⟩) 2 true _ _ hwf
    (Or.inl ⟨fun h => by
        obtain ⟨i, -, hh⟩ := h
        exact (by decide : ¬ ((1 : Nat) = 2)) hh,
      by show fev_timespec_valid ⟨3, 0⟩; decide, rfl, rfl⟩)
  ⟨hwf, by decide, by decide, by decide, h.2.1, h.2.2.1⟩

/-- The mirror property only depends on `heap`, `len` and `min`. -/
theorem shadow_mirrors_congr (b b2 : fev_timers_bucket) (hh : b2.heap = b.heap)
    (hl : b2.len = b.len) (hm : b2.min = b.min) : shadow_mirrors b2 ↔ shadow_mirrors b := by
  unfold shadow_mirrors fev_timers_bucket_empty fev_timers_bucket_min
  rw [hh, hl, hm]

/-- The function `fev_timers_bucket_del` does not write the shadow minimum. -/
theorem fev_timers_bucket_del_min_field (b : fev_timers_bucket) (mem : timer_mem) (timer : Nat) :
    (fev_timers_bucket_del b mem timer).1.min = b.min := by
  unfold fev_timers_bucket_del
  dsimp only
  split_ifs <;> rfl

/-- The loop of `fev_timers_wake_expired` does not write the shadow minimum, however
many passes it makes. -/
theorem fev_timers_wake_expired_loop_min (now : timespec) (fuel : Nat) :
    ∀ w : wake_expired_state,
      (fev_timers_wake_expired_loop now fuel w).state.bucket.min = w.state.bucket.min := by
  induction fuel with
  | zero =>
    intro w
    rfl
  | succ n ih =>
    intro w
    unfold fev_timers_wake_expired_loop
    by_cases he : fev_timers_bucket_empty w.state.bucket = true
    · rw [if_pos he]
    · rw [if_neg he]
      dsimp only
      by_cases hc : fev_timespec_cmp
          (w.state.mem (fev_timers_bucket_min w.state.bucket)).abs_time now > 0
      · rw [if_pos hc]
      · rw [if_neg hc, ih]
        rfl

/-- The end of `fev_timers_process` makes the shadow minimum, NULL before, mirror the
bucket. -/
theorem fev_timers_process_rearm_mirrors (b : fev_timers_bucket) (m : timer_mem)
    (hmin : b.min = none) :
    shadow_mirrors (if fev_timers_bucket_empty b = true then b
      else fev_poller_set_timeout { b with min := some (fev_timers_bucket_min b) }
        (m (fev_timers_bucket_min b)).abs_time) := by
  by_cases he : fev_timers_bucket_empty b = true
  · rw [if_pos he]
    unfold shadow_mirrors
    rw [if_pos he, hmin]
  · rw [if_neg he]
    have he2 : fev_timers_bucket_empty b = false := Bool.eq_false_iff.2 he
    unfold shadow_mirrors fev_poller_set_timeout
    unfold fev_timers_bucket_empty at he2 ⊢
    unfold fev_timers_bucket_min
    dsimp only
    rw [he2]
    rfl

/-- After `fev_timers_process` the shadow minimum mirrors the bucket, whatever it was
before. -/
theorem fev_timers_process_mirrors (s : timers_state) (timer : Nat) (now : timespec) :
    shadow_mirrors (fev_timers_process s timer now).state.bucket := by
  obtain ⟨W, hW⟩ : ∃ W, W = fev_timers_wake_expired
      { bucket := { s.bucket with min := none }, mem := s.mem, waiters := s.waiters } now :=
    ⟨_, rfl⟩
  have hWmin : W.state.bucket.min = none := by
    rw [hW]
    unfold fev_timers_wake_expired
    rw [fev_timers_wake_expired_loop_min]
  obtain ⟨-, -, u3, u4⟩ := fev_timers_process_unfold s timer now W hW
  by_cases hexp : fev_timer_is_expired W.state.mem timer = true
  · rw [(u3 hexp).2]
    exact fev_timers_process_rearm_mirrors _ _ hWmin
  · rw [(u4 (Bool.eq_false_iff.2 hexp)).2]
    exact fev_timers_process_rearm_mirrors _ _
      ((fev_timers_bucket_del_min_field _ _ _).trans hWmin)

/-- After `fev_timers_del` of a timer of the bucket, or of an expired timer, the
shadow minimum mirrors the bucket when it did before. -/
theorem fev_timers_del_mirrors (s : timers_state) (timer : Nat)
    (hwf : bucket_wf s.bucket s.mem) (hsh : shadow_mirrors s.bucket)
    (hown : in_bucket s.bucket timer ∨ fev_timer_is_expired s.mem timer = true) :
    shadow_mirrors (fev_timers_del s timer).bucket := by
  by_cases hexp : fev_timer_is_expired s.mem timer = true
  · have he : fev_timers_del s timer = s := by
      unfold fev_timers_del
      rw [if_pos hexp]
    rw [he]
    exact hsh
  · have hin : in_bucket s.bucket timer := by
      rcases hown with h | h
      · exact h
      · exact absurd h hexp
    obtain ⟨-, -, e3, e4, -, e6⟩ := fev_timers_del_eq s timer (Bool.eq_false_iff.2 hexp)
    obtain ⟨-, d2, d3, -, -, d6, -, -, d9, d10⟩ :=
      fev_timers_bucket_del_spec s.bucket s.mem timer hwf hin
    have hpos : 0 < s.bucket.len := by
      obtain ⟨i, hi, -⟩ := hin
      omega
    by_cases h0 : (fev_timers_bucket_del s.bucket s.mem timer).2.2 = 0
    · rw [if_pos h0, d6] at e6
      have hnt : timer ≠ fev_timers_bucket_min s.bucket := by
        intro h
        have := d9.2 h
        omega
      have hroot0 : in_bucket s.bucket (fev_timers_bucket_min s.bucket) := ⟨0, hpos, rfl⟩
      obtain ⟨i, hi, -⟩ := (d3 _).2 ⟨hroot0, fun h => hnt h.symm⟩
      have hm := d10 h0
      unfold shadow_mirrors fev_timers_bucket_empty at hsh ⊢
      unfold fev_timers_bucket_min at hsh hm ⊢
      rw [e6, e3, e4, hsh, hm]
      have h1 : ¬ s.bucket.len = 0 := by omega
      have h2 : ¬ (fev_timers_bucket_del s.bucket s.mem timer).1.len = 0 := by omega
      simp only [h1, h2, decide_False, Bool.false_eq_true, if_false]
    · rw [if_neg h0] at e6
      unfold shadow_mirrors
      unfold fev_timers_bucket_empty at e6 ⊢
      unfold fev_timers_bucket_min at e6 ⊢
      rw [e6, e3, e4]

/-- After `fev_timers_add` of a valid timer that is not in the well-formed bucket, the
shadow minimum mirrors the bucket when it did before. -/
theorem fev_timers_add_mirrors (s : timers_state) (t : Nat) (ok : Bool)
    (hwf : bucket_wf s.bucket s.mem) (hsh : shadow_mirrors s.bucket)
    (hnew : ¬ in_bucket s.bucket t) (hvt : tvalid s.mem t) :
    shadow_mirrors (fev_timers_add s t ok).1.bucket := by
  by_cases hfail : s.bucket.len = s.bucket.capacity ∧ ok = false
  · have he : fev_timers_add s t ok = (s, -ENOMEM) := by
      unfold fev_timers_add
      rw [fev_timers_bucket_add_ok, if_pos hfail]
      simp [ENOMEM]
    rw [he]
    exact hsh
  · obtain ⟨-, a2, -, -, -, a6, -, a8, a9, a10, a11⟩ :=
      fev_timers_bucket_add_spec s.bucket s.mem t hwf hnew hvt
    have hlen1 : ¬ (fev_timers_bucket_add s.bucket s.mem t true).1.len = 0 := by
      rw [a2]; omega
    rcases a8 with h1 | h0
    · have he : fev_timers_add s t ok =
          ({ s with
              bucket := fev_poller_set_timeout
                { (fev_timers_bucket_add s.bucket s.mem t true).1 with min := some t }
                ((fev_timers_bucket_add s.bucket s.mem t true).2.1 t).abs_time,
              mem := (fev_timers_bucket_add s.bucket s.mem t true).2.1 }, 0) := by
        unfold fev_timers_add
        rw [fev_timers_bucket_add_ok, if_neg hfail]
        simp [h1]
      rw [he]
      have hm := a10 h1
      unfold shadow_mirrors fev_timers_bucket_empty fev_poller_set_timeout
      unfold fev_timers_bucket_min at hm ⊢
      dsimp only
      simp only [hlen1, decide_False, Bool.false_eq_true, if_false, hm]
    · have he : fev_timers_add s t ok =
          ({ s with
              bucket := (fev_timers_bucket_add s.bucket s.mem t true).1,
              mem := (fev_timers_bucket_add s.bucket s.mem t true).2.1 }, 0) := by
        unfold fev_timers_add
        rw [fev_timers_bucket_add_ok, if_neg hfail]
        simp [h0]
      rw [he]
      have hm := a11 h0
      have hl : ¬ s.bucket.len = 0 := by
        intro h
        have := a9.2 (Or.inl h)
        omega
      unfold shadow_mirrors fev_timers_bucket_empty at hsh ⊢
      unfold fev_timers_bucket_min at hsh hm ⊢
      dsimp only
      rw [a6, hsh, hm]
      simp only [hl, hlen1, decide_False, Bool.false_eq_true, if_false]

/-- The record `mins` of the loop of `fev_timers_wake_expired`: two entries for every
call of `fev_waiter_wake`, and all of them NULL when the loop is entered with
`bucket->min` NULL. -/
theorem fev_timers_wake_expired_loop_mins (now : timespec) (fuel : Nat) :
    ∀ w : wake_expired_state,
      (w.mins.length = 2 * w.calls.length →
        (fev_timers_wake_expired_loop now fuel w).mins.length =
          2 * (fev_timers_wake_expired_loop now fuel w).calls.length) ∧
      (w.state.bucket.min = none → (∀ m ∈ w.mins, m = none) →
        ∀ m ∈ (fev_timers_wake_expired_loop now fuel w).mins, m = none) := by
  induction fuel with
  | zero =>
    intro w
    exact ⟨fun h => h, fun _ h => h⟩
  | succ n ih =>
    intro w
    unfold fev_timers_wake_expired_loop
    by_cases he : fev_timers_bucket_empty w.state.bucket = true
    · rw [if_pos he]
      exact ⟨fun h => h, fun _ h => h⟩
    · rw [if_neg he]
      dsimp only
      by_cases hc : fev_timespec_cmp
          (w.state.mem (fev_timers_bucket_min w.state.bucket)).abs_time now > 0
      · rw [if_pos hc]
        exact ⟨fun h => h, fun _ h => h⟩
      · rw [if_neg hc]
        refine ⟨fun hlen => (ih _).1 ?_, fun hmin hall => (ih _).2 ?_ ?_⟩
        · simp only [List.length_append, List.length_cons, List.length_nil]
          omega
        · exact hmin
        · intro m hm
          rcases List.mem_append.1 hm with h | h
          · exact hall m h
          · have hdel : (fev_timers_bucket_del_min w.state.bucket w.state.mem).1.min =
                w.state.bucket.min := rfl
            simp only [List.mem_cons, List.mem_singleton, List.not_mem_nil, or_false] at h
            rcases h with h | h
            · rw [h]
              exact hmin
            · rw [h, hdel]
              exact hmin

/-- C24: the shadow minimum mirrors the bucket.  It does so in the bucket left by
`fev_timers_bucket_init`; on a well-formed bucket whose shadow minimum mirrors it,
it does so again after `fev_timers_add` (of a valid timer that is not in the
bucket, whether or not the allocation succeeds) and after `fev_timers_del` (of a
timer that is in the bucket or expired); after `fev_timers_process` it does so
whatever it was before.  And inside `fev_timers_process`, whatever `bucket->min` holds
at the call: at every removal of an expired timer and at every call of
`fev_waiter_wake` (two entries of the record `mins` for every call), `bucket->min` is
NULL. -/
theorem fev_timers_shadow_min_mirrors (s : timers_state) (timer : Nat) (now : timespec)
    (realloc_ok : Bool) (hwf : bucket_wf s.bucket s.mem) (hsh : shadow_mirrors s.bucket) :
    shadow_mirrors fev_timers_bucket_init ∧
    (¬ in_bucket s.bucket timer → tvalid s.mem timer →
      shadow_mirrors (fev_timers_add s timer realloc_ok).1.bucket) ∧
    (in_bucket s.bucket timer ∨ fev_timer_is_expired s.mem timer = true →
      shadow_mirrors (fev_timers_del s timer).bucket) ∧
    shadow_mirrors (fev_timers_process s timer now).state.bucket ∧
    (fev_timers_process s timer now).mins.length =
      2 * (fev_timers_process s timer now).calls.length ∧
    (∀ m ∈ (fev_timers_process s timer now).mins, m = none) := by
  refine ⟨rfl, fev_timers_add_mirrors s timer realloc_ok hwf hsh,
    fev_timers_del_mirrors s timer hwf hsh, fev_timers_process_mirrors s timer now, ?_, ?_⟩
  · exact (fev_timers_wake_expired_loop_mins now s.bucket.len
      { state := { bucket := { s.bucket with min := none }, mem := s.mem,
                   waiters := s.waiters },
        fibers := [], num := 0, calls := [], mins := [] }).1 rfl
  · exact (fev_timers_wake_expired_loop_mins now s.bucket.len
      { state := { bucket := { s.bucket with min := none }, mem := s.mem,
                   waiters := s.waiters },
        fibers := [], num := 0, calls := [], mins := [] }).2 rfl
      (fun m hm => absurd hm (List.not_mem_nil m))

/-- Witness for C24: a bucket that holds the timer 1, expiring at 5 s, which is its
shadow minimum, processed at 9 s: the timer is removed and its waiter woken, and
`bucket->min`, which held the timer at the call, is NULL at the removal and at the
call of `fev_waiter_wake`; the bucket is left empty with `bucket->min` NULL. -/
theorem fev_timers_shadow_min_mirrors_witness :
    bucket_wf (⟨fun _ => 1, 1, 1, some 1, none⟩ : fev_timers_bucket)
      (fun _ => ⟨⟨5, 0⟩, 0, 7⟩) ∧
    shadow_mirrors (⟨fun _ => 1, 1, 1, some 1, none⟩ : fev_timers_bucket) ∧
    (fev_timers_process
      ⟨⟨fun _ => 1, 1, 1, some 1, none⟩, fun _ => ⟨⟨5, 0⟩, 0, 7⟩, fun _ => ⟨0, 1, 0, 0, 0, 4⟩⟩
      1 ⟨9, 0⟩).calls = [(1, true)] ∧
    (fev_timers_process
      ⟨⟨fun _ => 1, 1, 1, some 1, none⟩, fun _ => ⟨⟨5, 0⟩, 0, 7⟩, fun _ => ⟨0, 1, 0, 0, 0, 4⟩⟩
      1 ⟨9, 0⟩).mins = [none, none] ∧
    (fev_timers_process
      ⟨⟨fun _ => 1, 1, 1, some 1, none⟩, fun _ => ⟨⟨5, 0⟩, 0, 7⟩, fun _ => ⟨0, 1, 0, 0, 0, 4⟩⟩
      1 ⟨9, 0⟩).state.bucket.min = none ∧
    (∀ m ∈ (fev_timers_process
      ⟨⟨fun _ => 1, 1, 1, some 1, none⟩, fun _ => ⟨⟨5, 0⟩, 0, 7⟩, fun _ => ⟨0, 1, 0, 0, 0, 4⟩⟩
      1 ⟨9, 0⟩).mins, m = none) :=
  have hwf : bucket_wf (⟨fun _ => 1, 1, 1, some 1, none⟩ : fev_timers_bucket)
      (fun _ => ⟨⟨5, 0⟩, 0, 7⟩) :=
    ⟨le_refl _,
      fun i hi => by
        have h : i = 0 := Nat.lt_one_iff.1 hi
        rw [h],
      fun i h0 hi => by
        have h : i = 0 := Nat.lt_one_iff.1 hi
        omega,
      fun i _ => by
        show fev_timespec_valid ⟨5, 0⟩
        decide⟩
  ⟨hwf, rfl, by decide, by decide, by decide,
    (fev_timers_shadow_min_mirrors
      ⟨⟨fun _ => 1, 1, 1, some 1, none⟩, fun _ => ⟨⟨5, 0⟩, 0, 7⟩, fun _ => ⟨0, 1, 0, 0, 0, 4⟩⟩
      1 ⟨9, 0⟩ true hwf rfl).2.2.2.2.2⟩

/-- Two lists in front of a third one may be swapped, up to permutation. -/
theorem perm_swap_front (a b c : List Nat) : List.Perm (a ++ (b ++ c)) (b ++ (a ++ c)) := by
  rw [← List.append_assoc, ← List.append_assoc]
  exact List.Perm.append_right _ List.perm_append_comm

/-- The function `fev_qsbr_free` adds the entry to the entries held in `to_free1` and
`to_free2`, and nothing else. -/
theorem fev_qsbr_free_lists (s : qsbr_state) (t entry : Nat) :
    List.Perm ((fev_qsbr_free s t entry).global.to_free1 ++
        (fev_qsbr_free s t entry).global.to_free2)
      (entry :: (s.global.to_free1 ++ s.global.to_free2)) := by
  by_cases h0 : s.global.to_free1 = []
  · simp [fev_qsbr_free, h0]
  · simp only [fev_qsbr_free, h0, if_false]
    exact List.perm_middle

/-- The function `fev_qsbr_quiescent` returns entries of `to_free1` and `to_free2` and
keeps the others: what it returns, followed by what it leaves in `to_free1` and
`to_free2`, is `to_free1` followed by `to_free2` as they were. -/
theorem fev_qsbr_quiescent_lists (s : qsbr_state) (t : Nat) :
    (fev_qsbr_quiescent s t).2 ++ ((fev_qsbr_quiescent s t).1.global.to_free1 ++
        (fev_qsbr_quiescent s t).1.global.to_free2) =
      s.global.to_free1 ++ s.global.to_free2 := by
  unfold fev_qsbr_quiescent
  dsimp only
  by_cases hloc : s.global.epoch = s.locals t
  · rw [if_pos hloc]
    rfl
  · rw [if_neg hloc]
    by_cases hone : s.global.num_remaining = 1
    · rw [if_pos hone]
      by_cases h2 : s.global.to_free2 = []
      · rw [if_neg (not_not.2 h2)]
        simp [h2]
      · rw [if_pos h2]
        simp
    · rw [if_neg hone]
      rfl

/-- The entries returned by the calls of a list together with those left in
`to_free1` and `to_free2` are the entries held at the start together with the
entries freed by the calls. -/
theorem qsbr_run_returned_perm (ops : List qsbr_op) :
    ∀ s : qsbr_state,
      List.Perm ((qsbr_run_returned ops s).2 ++
          ((qsbr_run_returned ops s).1.global.to_free1 ++
            (qsbr_run_returned ops s).1.global.to_free2))
        (qsbr_freed_entries ops ++ (s.global.to_free1 ++ s.global.to_free2)) := by
  induction ops with
  | nil =>
    intro s
    exact List.Perm.refl _
  | cons op ops ih =>
    intro s
    cases op with
    | free t entry =>
      show List.Perm ((qsbr_run_returned ops (fev_qsbr_free s t entry)).2 ++
          ((qsbr_run_returned ops (fev_qsbr_free s t entry)).1.global.to_free1 ++
            (qsbr_run_returned ops (fev_qsbr_free s t entry)).1.global.to_free2))
        ((entry :: qsbr_freed_entries ops) ++ (s.global.to_free1 ++ s.global.to_free2))
      refine (ih (fev_qsbr_free s t entry)).trans ?_
      refine (List.Perm.append_left _ (fev_qsbr_free_lists s t entry)).trans ?_
      exact List.perm_middle
    | quiescent t =>
      show List.Perm (((fev_qsbr_quiescent s t).2 ++
            (qsbr_run_returned ops (fev_qsbr_quiescent s t).1).2) ++
          ((qsbr_run_returned ops (fev_qsbr_quiescent s t).1).1.global.to_free1 ++
            (qsbr_run_returned ops (fev_qsbr_quiescent s t).1).1.global.to_free2))
        (qsbr_freed_entries ops ++ (s.global.to_free1 ++ s.global.to_free2))
      rw [List.append_assoc, ← fev_qsbr_quiescent_lists s t]
      refine (List.Perm.append_left _ (ih (fev_qsbr_quiescent s t).1)).trans ?_
      exact perm_swap_front _ _ _

/-- C30: QSBR neither loses nor duplicates entries.  Each operation is one atomic
step; for every number of threads and every sequence of calls of `fev_qsbr_free`
and `fev_qsbr_quiescent` from the initial state, followed by
`fev_qsbr_fini_global`, the entries of the lists returned by the calls of
`fev_qsbr_quiescent` together with the lists `to_free1` and `to_free2` returned by
`fev_qsbr_fini_global` are a permutation of the entries passed to `fev_qsbr_free`:
every entry is there as many times as it was passed, so exactly once when it
was passed once. -/
theorem fev_qsbr_no_loss_no_duplicate (num_threads : Nat) (ops : List qsbr_op) :
    List.Perm
      ((qsbr_run_returned ops (fev_qsbr_init num_threads)).2 ++
        ((fev_qsbr_fini_global (qsbr_run_returned ops (fev_qsbr_init num_threads)).1).1 ++
          (fev_qsbr_fini_global (qsbr_run_returned ops (fev_qsbr_init num_threads)).1).2))
      (qsbr_freed_entries ops) ∧
    (∀ entry,
      ((qsbr_run_returned ops (fev_qsbr_init num_threads)).2 ++
        ((fev_qsbr_fini_global (qsbr_run_returned ops (fev_qsbr_init num_threads)).1).1 ++
          (fev_qsbr_fini_global (qsbr_run_returned ops (fev_qsbr_init num_threads)).1).2)).count
        entry = (qsbr_freed_entries ops).count entry) := by
  have h := qsbr_run_returned_perm ops (fev_qsbr_init num_threads)
  have h0 : (fev_qsbr_init num_threads).global.to_free1 ++
      (fev_qsbr_init num_threads).global.to_free2 = [] := rfl
  rw [h0, List.append_nil] at h
  exact ⟨h, fun entry => h.count_eq entry⟩

/-- Once a `fev_fiber_detach` has returned 0 on a fiber created joinable, a step
makes no further join or detach succeed. -/
theorem fiber_op_step_after_detach (op : fiber_op) (l : fiber_life) (h : fiber_life_inv l)
    (hdet : l.detaches = 1) :
    (fiber_op_step op l).joins = l.joins ∧ (fiber_op_step op l).detaches = 1 := by
  obtain ⟨⟨sa, ts, us, rv, ⟨dead, joinable, joining⟩, rc, freed⟩, sched, ec, pd, jl, joins,
    detaches⟩ := l
  obtain ⟨h1, h2, h3, h4, h5, h6, h7, h8, h9⟩ := h
  dsimp only at h1 h2 h3 h4 h5 h6 h7 h8 h9 hdet
  subst hdet
  have hj : joinable = false := by simpa using h3
  subst hj
  cases op with
  | exit v =>
    cases ec <;> simp [fiber_op_step]
  | exit_post =>
    cases ec <;> cases pd <;> simp [fiber_op_step]
  | join_enter => simp [fiber_op_step]
  | join_loop =>
    cases jl <;> simp [fiber_op_step, fev_fiber_join_loop, EINVAL]
  | detach => simp [fiber_op_step, fev_fiber_detach, EINVAL]

/-- Once a `fev_fiber_detach` has returned 0 on a fiber created joinable, no later
join or detach succeeds. -/
theorem fiber_run_after_detach (ops : List fiber_op) :
    ∀ l, fiber_life_inv l → l.detaches = 1 →
      (fiber_run ops l).joins = l.joins ∧ (fiber_run ops l).detaches = 1 := by
  induction ops with
  | nil =>
    intro l _ hd
    exact ⟨rfl, hd⟩
  | cons op ops ih =>
    intro l h hd
    obtain ⟨s1, s2⟩ := fiber_op_step_after_detach op l h hd
    obtain ⟨r1, r2⟩ := ih _ (fiber_life_inv_step op l h) s2
    exact ⟨r1.trans s1, r2⟩

/-- The steps of two lists, one after the other. -/
theorem fiber_run_append (ops1 ops2 : List fiber_op) :
    ∀ l, fiber_run (ops1 ++ ops2) l = fiber_run ops2 (fiber_run ops1 l) := by
  induction ops1 with
  | nil => intro l; rfl
  | cons op ops ih => intro l; exact ih _

/-- The part of C28 that holds in every run: through every sequence of steps in the
life of a fiber created joinable, at most one call of `fev_fiber_join` returns 0 and at most one
call of `fev_fiber_detach` returns 0; once a `fev_fiber_detach` has returned 0, no
later call of `fev_fiber_join` or `fev_fiber_detach` returns 0 (detach then join,
detach twice); and as long as at most one of all these calls has returned 0,
the reference count is 2 minus the number of references released by the
post-action of the exit and by that call, so it has not gone below zero and the
reference of the joiner has been released at most once. -/
theorem fev_fiber_join_detach_at_most_once (fiber : fev_fiber) (sched : fev_sched)
    (ops1 ops2 : List fiber_op) (hrc : fiber.ref_count = 2)
    (hflags : fiber.flags = { dead := false, joinable := true, joining := false })
    (hfreed : fiber.freed = false) :
    (fiber_run (ops1 ++ ops2) (fiber_life_init fiber sched)).joins ≤ 1 ∧
    (fiber_run (ops1 ++ ops2) (fiber_life_init fiber sched)).detaches ≤ 1 ∧
    ((fiber_run ops1 (fiber_life_init fiber sched)).detaches = 1 →
      ((fiber_run (ops1 ++ ops2) (fiber_life_init fiber sched)).joins =
          (fiber_run ops1 (fiber_life_init fiber sched)).joins ∧
        (fiber_run (ops1 ++ ops2) (fiber_life_init fiber sched)).detaches = 1)) ∧
    ((fiber_run ops1 (fiber_life_init fiber sched)).joins +
        (fiber_run ops1 (fiber_life_init fiber sched)).detaches ≤ 1 →
      ((fiber_run ops1 (fiber_life_init fiber sched)).fiber.ref_count +
          (fiber_run ops1 (fiber_life_init fiber sched)).released = 2 ∧
        (fiber_run ops1 (fiber_life_init fiber sched)).released =
          (if (fiber_run ops1 (fiber_life_init fiber sched)).post_done then 1 else 0) +
            ((fiber_run ops1 (fiber_life_init fiber sched)).joins +
              (fiber_run ops1 (fiber_life_init fiber sched)).detaches))) := by
  have hinit : fiber_life_inv (fiber_life_init fiber sched) := by
    simp [fiber_life_inv, fiber_life_init, fiber_life.released, hrc, hflags, hfreed]
  have h1 := fiber_life_inv_run ops1 _ hinit
  have h2 := fiber_life_inv_run (ops1 ++ ops2) _ hinit
  refine ⟨h2.1, h2.2.1, ?_, ?_⟩
  · intro hd
    rw [fiber_run_append]
    exact fiber_run_after_detach ops2 _ h1 hd
  · intro hle
    obtain ⟨-, -, -, -, -, -, -, h8, -⟩ := h1
    generalize fiber_run ops1 (fiber_life_init fiber sched) = l at h8 hle ⊢
    have hrel : l.released = (if l.post_done then 1 else 0) + (l.joins + l.detaches) := by
      unfold fiber_life.released
      omega
    refine ⟨?_, hrel⟩
    rw [h8]
    have hb : l.released ≤ 2 := by
      rw [hrel]
      split <;> omega
    omega

/-- The theorem `fev_fiber_join_detach_at_most_once` on a run: a joinable fiber is
detached, exits, and a join is attempted: only the detach has returned 0. -/
theorem fev_fiber_join_detach_at_most_once_witness :
    (fiber_run [fiber_op.detach]
        (fiber_life_init ⟨64, 8192, false, 0, ⟨false, true, false⟩, 2, false⟩
          ⟨1, 1, [], true⟩)).detaches = 1 ∧
    (fiber_run ([fiber_op.detach] ++ [fiber_op.exit 5, fiber_op.join_enter, fiber_op.join_loop,
        fiber_op.detach])
        (fiber_life_init ⟨64, 8192, false, 0, ⟨false, true, false⟩, 2, false⟩
          ⟨1, 1, [], true⟩)).joins =
      (fiber_run [fiber_op.detach]
        (fiber_life_init ⟨64, 8192, false, 0, ⟨false, true, false⟩, 2, false⟩
          ⟨1, 1, [], true⟩)).joins ∧
    (fiber_run ([fiber_op.detach] ++ [fiber_op.exit 5, fiber_op.join_enter, fiber_op.join_loop,
        fiber_op.detach])
        (fiber_life_init ⟨64, 8192, false, 0, ⟨false, true, false⟩, 2, false⟩
          ⟨1, 1, [], true⟩)).detaches = 1 :=
  ⟨by decide,
    (fev_fiber_join_detach_at_most_once
      ⟨64, 8192, false, 0, ⟨false, true, false⟩, 2, false⟩ ⟨1, 1, [], true⟩
      [fiber_op.detach]
      [fiber_op.exit 5, fiber_op.join_enter, fiber_op.join_loop, fiber_op.detach]
      rfl rfl rfl).2.2.1 (by decide)⟩

/-- C28 (a run in which the code does not do what the claim says): a joinable fiber
exits; a call of `fev_fiber_join` finds it dead and returns 0; a call of
`fev_fiber_detach` made afterwards finds `FEV_FIBER_JOINABLE` still set, because
`fev_fiber_join` does not clear it, and returns 0 as well.  Two calls have returned
0, and with the post-action of the exit three references are released of the
two the fiber had: the last release reads the count 0, which passes below zero
(it wraps to `2^32 - 1`). -/
theorem fev_fiber_join_then_detach_both_succeed :
    (fev_fiber_join_loop
      (fiber_run [fiber_op.exit 5, fiber_op.join_enter]
        (fiber_life_init ⟨64, 8192, false, 0, ⟨false, true, false⟩, 2, false⟩
          ⟨1, 1, [], true⟩)).fiber).2 = some 0 ∧
    (fev_fiber_detach true
      (fiber_run [fiber_op.exit 5, fiber_op.join_enter, fiber_op.join_loop]
        (fiber_life_init ⟨64, 8192, false, 0, ⟨false, true, false⟩, 2, false⟩
          ⟨1, 1, [], true⟩)).fiber).2 = 0 ∧
    (fiber_run [fiber_op.exit 5, fiber_op.join_enter, fiber_op.join_loop, fiber_op.detach,
        fiber_op.exit_post]
        (fiber_life_init ⟨64, 8192, false, 0, ⟨false, true, false⟩, 2, false⟩
          ⟨1, 1, [], true⟩)).joins = 1 ∧
    (fiber_run [fiber_op.exit 5, fiber_op.join_enter, fiber_op.join_loop, fiber_op.detach,
        fiber_op.exit_post]
        (fiber_life_init ⟨64, 8192, false, 0, ⟨false, true, false⟩, 2, false⟩
          ⟨1, 1, [], true⟩)).detaches = 1 ∧
    (fiber_run [fiber_op.exit 5, fiber_op.join_enter, fiber_op.join_loop, fiber_op.detach]
        (fiber_life_init ⟨64, 8192, false, 0, ⟨false, true, false⟩, 2, false⟩
          ⟨1, 1, [], true⟩)).fiber.ref_count = 0 ∧
    (fiber_run [fiber_op.exit 5, fiber_op.join_enter, fiber_op.join_loop, fiber_op.detach,
        fiber_op.exit_post]
        (fiber_life_init ⟨64, 8192, false, 0, ⟨false, true, false⟩, 2, false⟩
          ⟨1, 1, [], true⟩)).fiber.ref_count = 4294967295 := by
  refine ⟨by decide, by decide, by decide, by decide, by decide, by decide⟩

/-- A pass of a worker through `get_fiber` removes the first fiber of the run queue,
if there is one. -/
theorem fev_sched_work_get_fiber_spec (sched : fev_sched_shr_locking) :
    sched.fev_sched_work_get_fiber.2.toList ++ sched.fev_sched_work_get_fiber.1.run_queue =
      sched.run_queue := by
  unfold fev_sched_shr_locking.fev_sched_work_get_fiber
  cases h : sched.run_queue with
  | nil => simp [h]
  | cons f rest => simp

/-- With insertions at the tail only, the fibers removed so far followed by the run
queue are the run queue at the start followed by the fibers inserted. -/
theorem run_queue_run_fifo (ops : List run_queue_op) :
    ∀ sched : fev_sched_shr_locking, (∀ op ∈ ops, op.at_tail = true) →
      (run_queue_run ops sched).2 ++ (run_queue_run ops sched).1.run_queue =
        sched.run_queue ++ run_queue_inserted ops := by
  induction ops with
  | nil =>
    intro sched _
    simp [run_queue_run, run_queue_inserted]
  | cons op ops ih =>
    intro sched hops
    have hrest : ∀ op2 ∈ ops, op2.at_tail = true := fun op2 h =>
      hops op2 (List.mem_cons_of_mem _ h)
    have hop := hops op (List.mem_cons_self _ _)
    have ih2 := ih (run_queue_op_step op sched).1 hrest
    show ((run_queue_op_step op sched).2 ++ (run_queue_run ops (run_queue_op_step op sched).1).2) ++
        (run_queue_run ops (run_queue_op_step op sched).1).1.run_queue = _
    rw [List.append_assoc, ih2]
    cases op with
    | put fiber => exact absurd hop (by simp [run_queue_op.at_tail])
    | push_one fiber =>
      simp [run_queue_op_step, fev_sched_shr_locking.fev_push_one, run_queue_inserted]
    | push_stq fibers =>
      simp [run_queue_op_step, fev_sched_shr_locking.fev_push_stq, run_queue_inserted]
    | get_fiber =>
      show sched.fev_sched_work_get_fiber.2.toList ++
        (sched.fev_sched_work_get_fiber.1.run_queue ++ run_queue_inserted ops) = _
      rw [← List.append_assoc, fev_sched_work_get_fiber_spec]
      rfl

/-- The part of C27 that holds in every run: in the work-sharing scheduler with the
locked run queue, the run queue is a FIFO for the insertions at the tail.  For every
sequence of insertions by `fev_push_one` and `fev_push_stq` (of lists that are not
empty) and of passes of workers through `get_fiber` of `fev_sched_work`, the fibers
removed by the workers, followed by the fibers left in the run queue, are the
fibers of the run queue at the start followed by the inserted fibers in the
order of their insertion.  The function `fev_sched_put` inserts at the head:
the fiber it puts is the next one removed, before the fibers that were in the
run queue. -/
theorem fev_sched_shr_locking_fifo (ops : List run_queue_op) (sched : fev_sched_shr_locking)
    (fiber : Nat) (hops : ∀ op ∈ ops, op.at_tail = true) :
    (run_queue_run ops sched).2 ++ (run_queue_run ops sched).1.run_queue =
      sched.run_queue ++ run_queue_inserted ops ∧
    (sched.fev_sched_put fiber).1.fev_sched_work_get_fiber.2 = some fiber ∧
    (sched.fev_sched_put fiber).1.fev_sched_work_get_fiber.1.run_queue = sched.run_queue ∧
    (sched.fev_sched_put fiber).2 = 0 :=
  ⟨run_queue_run_fifo ops sched hops, rfl, rfl, rfl⟩

/-- The theorem `fev_sched_shr_locking_fifo` on a run: the fibers 1, then 2 and 3, are
pushed on the empty run queue; two passes of a worker remove 1 and 2, in this
order, and 3 is left. -/
theorem fev_sched_shr_locking_fifo_witness :
    (run_queue_run [run_queue_op.push_one 1, run_queue_op.push_stq [2, 3],
        run_queue_op.get_fiber, run_queue_op.get_fiber] ⟨[], 0⟩).2 = [1, 2] ∧
    (run_queue_run [run_queue_op.push_one 1, run_queue_op.push_stq [2, 3],
        run_queue_op.get_fiber, run_queue_op.get_fiber] ⟨[], 0⟩).2 ++
      (run_queue_run [run_queue_op.push_one 1, run_queue_op.push_stq [2, 3],
        run_queue_op.get_fiber, run_queue_op.get_fiber] ⟨[], 0⟩).1.run_queue =
      ([] : List Nat) ++ run_queue_inserted [run_queue_op.push_one 1,
        run_queue_op.push_stq [2, 3], run_queue_op.get_fiber, run_queue_op.get_fiber] :=
  ⟨by decide,
    (fev_sched_shr_locking_fifo [run_queue_op.push_one 1, run_queue_op.push_stq [2, 3],
      run_queue_op.get_fiber, run_queue_op.get_fiber] ⟨[], 0⟩ 0 (by decide)).1⟩

/-- C27 (a run in which the code does not do what the claim says): the fibers 1 and
2 are inserted in this order by `fev_sched_put`, which uses `STAILQ_INSERT_HEAD`, into
the empty run queue; the workers remove 2 first and 1 second.  And a fiber 3 inserted by `fev_sched_put` after the fiber 1
was pushed by `fev_push_one` is removed before it. -/
theorem fev_sched_put_not_fifo :
    run_queue_inserted [run_queue_op.put 1, run_queue_op.put 2, run_queue_op.get_fiber,
      run_queue_op.get_fiber] = [1, 2] ∧
    (run_queue_run [run_queue_op.put 1, run_queue_op.put 2, run_queue_op.get_fiber,
      run_queue_op.get_fiber] ⟨[], 0⟩).2 = [2, 1] ∧
    (run_queue_run [run_queue_op.push_one 1, run_queue_op.put 3, run_queue_op.get_fiber,
      run_queue_op.get_fiber] ⟨[], 0⟩).2 = [3, 1] := by
  refine ⟨by decide, by decide, by decide⟩

/-- A call on the ilock keeps the encoding, and no assertion fails. -/
theorem ilock_op_step_inv (op : ilock_op) (s : ilock_owned) (h : ilock_inv s) :
    ∃ s1, ilock_op_step op s = some s1 ∧ ilock_inv s1 := by
  obtain ⟨⟨state, waiters⟩, owner⟩ := s
  obtain ⟨h0, h1, h2, h3⟩ := h
  dsimp only at h0 h1 h2 h3
  cases op with
  | lock fiber cas_ok =>
    refine ⟨_, rfl, ?_⟩
    cases owner with
    | none =>
      have hs : state = 0 := h0.2 rfl
      subst hs
      have hw : waiters = [] := h3 rfl
      subst hw
      cases cas_ok <;>
        simp [ilock_inv, fev_ilock_lock, fev_ilock_lock_slow]
    | some o =>
      have hs : state ≠ 0 := fun hc => by simpa using h0.1 hc
      cases cas_ok <;>
        simp [ilock_inv, fev_ilock_lock, fev_ilock_lock_slow, hs]
  | unlock =>
    cases owner with
    | none => exact ⟨_, rfl, h0, h1, h2, h3⟩
    | some o =>
      cases waiters with
      | nil =>
        have hs : state = 1 := h1.2 ⟨by simp, rfl⟩
        subst hs
        refine ⟨_, rfl, ?_⟩
        simp [ilock_inv]
      | cons f rest =>
        have hs : state = 2 := h2.2 ⟨by simp, by simp⟩
        subst hs
        cases rest with
        | nil =>
          refine ⟨_, rfl, ?_⟩
          simp [ilock_inv]
        | cons g rest2 =>
          refine ⟨_, rfl, ?_⟩
          simp [ilock_inv]

/-- Every sequence of calls runs without a failed assertion and keeps the
encoding. -/
theorem ilock_run_inv (ops : List ilock_op) :
    ∀ s, ilock_inv s → ∃ s1, ilock_run ops s = some s1 ∧ ilock_inv s1 := by
  induction ops with
  | nil =>
    intro s h
    exact ⟨s, rfl, h⟩
  | cons op ops ih =>
    intro s h
    obtain ⟨s1, e1, h1⟩ := ilock_op_step_inv op s h
    obtain ⟨s2, e2, h2⟩ := ih s1 h1
    refine ⟨s2, ?_, h2⟩
    show (match ilock_op_step op s with
      | none => none
      | some s1 => ilock_run ops s1) = some s2
    rw [e1]
    exact e2

/-- C26: at every point between two calls of `fev_ilock_lock` and `fev_ilock_unlock`
(the slow paths under the inner lock being one step each), from the state left by
`fev_ilock_init`: no assertion has failed, and the state of the ilock encodes the
lock: it is 0 exactly when nobody owns the lock, 1 exactly when the lock is
owned and the queue of waiting fibers is empty, 2 exactly when the lock is
owned and the queue is not empty.  There `fev_ilock_unlock` on state 2 removes and
returns the fiber at the head of the queue, leaving state 1 if the queue became
empty and state 2 otherwise; on state 1 it sets state 0 and returns NULL; and a
fiber that `fev_ilock_lock` switches out was inserted at the tail of the queue, so
the head is the fiber that has waited longest. -/
theorem fev_ilock_state_encodes (ops : List ilock_op) :
    ∃ s, ilock_run ops { ilock := fev_ilock_init, owner := none } = some s ∧
      ilock_inv s ∧
      (s.ilock.state = 2 → ∃ fiber rest, s.ilock.waiters = fiber :: rest ∧
        fev_ilock_unlock s.ilock =
          some ({ state := if rest = [] then 1 else 2, waiters := rest }, some fiber)) ∧
      (s.ilock.state = 1 →
        fev_ilock_unlock s.ilock = some ({ state := 0, waiters := [] }, none)) ∧
      (∀ fiber cas_ok, (fev_ilock_lock s.ilock fiber cas_ok).2 = true →
        ((fev_ilock_lock s.ilock fiber cas_ok).1.waiters = s.ilock.waiters ++ [fiber] ∧
          (fev_ilock_lock s.ilock fiber cas_ok).1.state = 2 ∧ s.owner ≠ none)) ∧
      (∀ fiber cas_ok, (fev_ilock_lock s.ilock fiber cas_ok).2 = false →
        ((fev_ilock_lock s.ilock fiber cas_ok).1 = { state := 1, waiters := [] } ∧
          s.owner = none)) := by
  have hinit : ilock_inv { ilock := fev_ilock_init, owner := none } := by
    simp [ilock_inv, fev_ilock_init]
  obtain ⟨s, e, h⟩ := ilock_run_inv ops _ hinit
  refine ⟨s, e, h, ?_, ?_, ?_, ?_⟩
  · intro hs
    obtain ⟨⟨state, waiters⟩, owner⟩ := s
    obtain ⟨h0, h1, h2, h3⟩ := h
    dsimp only at h0 h1 h2 h3 hs ⊢
    subst hs
    cases waiters with
    | nil => exact absurd rfl (h2.1 rfl).2
    | cons f rest =>
      refine ⟨f, rest, rfl, ?_⟩
      cases rest with
      | nil => rfl
      | cons g rest2 => rfl
  · intro hs
    obtain ⟨⟨state, waiters⟩, owner⟩ := s
    obtain ⟨h0, h1, h2, h3⟩ := h
    dsimp only at h0 h1 h2 h3 hs ⊢
    subst hs
    have hw : waiters = [] := (h1.1 rfl).2
    subst hw
    rfl
  · intro fiber cas_ok hb
    obtain ⟨⟨state, waiters⟩, owner⟩ := s
    obtain ⟨h0, h1, h2, h3⟩ := h
    dsimp only at h0 h1 h2 h3 hb ⊢
    by_cases hs : state = 0
    · subst hs
      cases cas_ok <;> simp [fev_ilock_lock, fev_ilock_lock_slow] at hb
    · have ho : owner ≠ none := fun hc => hs (h0.2 hc)
      cases cas_ok <;> simp [fev_ilock_lock, fev_ilock_lock_slow, hs, ho]
  · intro fiber cas_ok hb
    obtain ⟨⟨state, waiters⟩, owner⟩ := s
    obtain ⟨h0, h1, h2, h3⟩ := h
    dsimp only at h0 h1 h2 h3 hb ⊢
    by_cases hs : state = 0
    · subst hs
      have ho : owner = none := h0.1 rfl
      subst ho
      have hw : waiters = [] := h3 rfl
      subst hw
      cases cas_ok <;> simp [fev_ilock_lock, fev_ilock_lock_slow]
    · cases cas_ok <;> simp [fev_ilock_lock, fev_ilock_lock_slow, hs] at hb

/-- A complete operation keeps the counters in agreement with the fibers. -/
theorem counters_op_step_inv (op : counters_op) (s : sched_counters)
    (h : sched_counters_inv s) : sched_counters_inv (counters_op_step op s) := by
  obtain ⟨nr, nf, r, p⟩ := s
  obtain ⟨h1, h2, h3⟩ := h
  dsimp only at h1 h2 h3
  subst h1 h2
  cases op with
  | create =>
    by_cases hc : nr + p < 4294967295
    · simp only [counters_op_step, hc, if_true, sched_counters.fev_fiber_create,
        sched_counters_inv, uint32_wrap]
      omega
    · simp only [counters_op_step, hc, if_false, sched_counters_inv]
      exact ⟨trivial, trivial, h3⟩
  | park =>
    by_cases hc : 0 < nr
    · simp only [counters_op_step, hc, if_true, sched_counters.park, sched_counters_inv,
        uint32_wrap]
      omega
    · simp only [counters_op_step, hc, if_false, sched_counters_inv]
      exact ⟨trivial, trivial, h3⟩
  | wake k =>
    by_cases hc : k ≤ p
    · simp only [counters_op_step, hc, if_true, sched_counters.fev_wake_up_waiting_workers,
        sched_counters_inv, uint32_wrap]
      omega
    · simp only [counters_op_step, hc, if_false, sched_counters_inv]
      exact ⟨trivial, trivial, h3⟩
  | exit =>
    by_cases hc : 0 < nr
    · simp only [counters_op_step, hc, if_true, sched_counters.fev_fiber_exit_post,
        sched_counters_inv, uint32_wrap]
      omega
    · simp only [counters_op_step, hc, if_false, sched_counters_inv]
      exact ⟨trivial, trivial, h3⟩

/-- Every sequence of complete operations keeps the counters in agreement with the
fibers. -/
theorem counters_run_inv (ops : List counters_op) :
    ∀ s, sched_counters_inv s → sched_counters_inv (counters_run ops s) := by
  induction ops with
  | nil => intro s h; exact h
  | cons op ops ih => intro s h; exact ih _ (counters_op_step_inv op s h)

/-- A worker that has reached the label `out` has passed `check_poller` with both
counters read as 0. -/
theorem fev_sched_work_labels_out (rs : List work_reads) :
    ∀ label, label ≠ work_label.out → fev_sched_work_labels rs label = work_label.out →
      ∃ r ∈ rs, r.num_run_fibers = 0 ∧ r.num_fibers = 0 := by
  induction rs with
  | nil =>
    intro label hne h
    exact absurd h hne
  | cons r rs ih =>
    intro label hne h
    by_cases hnext : fev_sched_work_next label r = work_label.out
    · refine ⟨r, List.mem_cons_self _ _, ?_⟩
      cases label <;> simp only [fev_sched_work_next] at hnext
      · split at hnext <;> cases hnext
      · split at hnext <;> cases hnext
      · by_cases h1 : r.num_run_fibers > 0
        · rw [if_pos h1] at hnext
          cases hnext
        · rw [if_neg h1] at hnext
          by_cases h2 : r.num_fibers = 0
          · exact ⟨by omega, h2⟩
          · rw [if_neg h2] at hnext
            cases hnext
      · cases hnext
      · exact absurd rfl hne
    · obtain ⟨r2, hr2, h2⟩ := ih _ hnext h
      exact ⟨r2, List.mem_cons_of_mem _ hr2, h2⟩

/-- C21: the counters of the scheduler, as a step relation whose steps are the
complete operations that change them: a fiber is created (`num_fibers + 1` and
`num_run_fibers + 1`), a running fiber parks in `fev_waiter_wait`,
`fev_ilock_lock_slow` or `fev_yield` (`num_run_fibers - 1`), `k` parked fibers are woken
(`num_run_fibers + k`), a running fiber exits (both `- 1`).  In every state
reachable from (0, 0), `num_run_fibers` is the number of runnable fibers and
`num_fibers` the number of all fibers, so `num_run_fibers <= num_fibers`.  And in
`fev_sched_work` the label `out` is reached from `check_poller` only, exactly when
the load of `num_run_fibers` reads 0 and the load of `num_fibers` reads 0: a worker
that started at `get_fiber` and has left the loop has made such reads. -/
theorem fev_sched_counters_invariant (ops : List counters_op) (rs : List work_reads)
    (label : work_label) (r : work_reads) :
    (counters_run ops sched_counters_init).num_run_fibers ≤
      (counters_run ops sched_counters_init).num_fibers ∧
    (counters_run ops sched_counters_init).num_run_fibers =
      (counters_run ops sched_counters_init).runnable ∧
    (counters_run ops sched_counters_init).num_fibers =
      (counters_run ops sched_counters_init).runnable +
        (counters_run ops sched_counters_init).parked ∧
    ((label ≠ work_label.out ∧ fev_sched_work_next label r = work_label.out) ↔
      (label = work_label.check_poller ∧ r.num_run_fibers = 0 ∧ r.num_fibers = 0)) ∧
    (fev_sched_work_labels rs work_label.get_fiber = work_label.out →
      ∃ r2 ∈ rs, r2.num_run_fibers = 0 ∧ r2.num_fibers = 0) := by
  have hinit : sched_counters_inv sched_counters_init := by
    simp [sched_counters_inv, sched_counters_init]
  obtain ⟨h1, h2, h3⟩ := counters_run_inv ops _ hinit
  refine ⟨by omega, h1, h2, ?_, ?_⟩
  · constructor
    · rintro ⟨hne, hnext⟩
      cases label <;> simp only [fev_sched_work_next] at hnext
      · split at hnext <;> cases hnext
      · split at hnext <;> cases hnext
      · by_cases h1 : r.num_run_fibers > 0
        · rw [if_pos h1] at hnext
          cases hnext
        · rw [if_neg h1] at hnext
          by_cases h2 : r.num_fibers = 0
          · exact ⟨rfl, by omega, h2⟩
          · rw [if_neg h2] at hnext
            cases hnext
      · cases hnext
      · exact absurd rfl hne
    · rintro ⟨rfl, h1, h2⟩
      refine ⟨by decide, ?_⟩
      simp [fev_sched_work_next, h1, h2]
  · intro h
    exact fev_sched_work_labels_out rs _ (by decide) h

/-- A capacity `2^k` with `1 <= k <= 31`: it is at least 2, at most `2^31`, and
divides `2^32`. -/
theorem capacity_facts (k : Nat) (h1 : 1 ≤ k) (h31 : k ≤ 31) :
    2 ≤ 2 ^ k ∧ 2 ^ k ≤ 2147483648 ∧ 2 ^ k ∣ 4294967296 := by
  refine ⟨?_, ?_, ?_⟩
  · calc 2 = 2 ^ 1 := by norm_num
      _ ≤ 2 ^ k := Nat.pow_le_pow_right (by norm_num) h1
  · calc 2 ^ k ≤ 2 ^ 31 := Nat.pow_le_pow_right (by norm_num) h31
      _ = 2147483648 := by norm_num
  · have : (4294967296 : Nat) = 2 ^ 32 := by norm_num
    rw [this]
    exact Nat.pow_dvd_pow 2 (by omega)

/-- Two offsets below the capacity that lead to the same cell are equal. -/
theorem cell_index_inj (C h i j : Nat) (hi : i < C) (hj : j < C)
    (e : (h + i) % C = (h + j) % C) : i = j := by
  have e2 : i % C = j % C := Nat.ModEq.add_left_cancel' h e
  rwa [Nat.mod_eq_of_lt hi, Nat.mod_eq_of_lt hj] at e2

/-- The cell of a 32-bit position is the cell of the position. -/
theorem cell_index_wrap (C a : Nat) (hd : C ∣ 4294967296) :
    uint32_wrap a % C = a % C := by
  unfold uint32_wrap
  exact Nat.mod_mod_of_dvd a hd

/-- The cell of a position `i` places after a 32-bit position. -/
theorem cell_index_wrap_add (C a i : Nat) (hd : C ∣ 4294967296) :
    (uint32_wrap a + i) % C = (a + i) % C := by
  have h1 : uint32_wrap a % C = a % C := cell_index_wrap C a hd
  exact Nat.ModEq.add_right i h1

/-- One pass of the loop of `fev_bounded_mpmc_queue_push`. -/
theorem fev_bounded_mpmc_queue_push_loop_succ (queue : fev_bounded_mpmc_queue) (data : Nat)
    (fuel tail : Nat) :
    fev_bounded_mpmc_queue_push_loop queue data (fuel + 1) tail =
      if int32_wrap (uint32_wrap (4294967296 +
          (queue.buffer (tail &&& queue.buffer_mask)).sequence - tail) : Nat) = 0 then
        if queue.tail = tail then
          some ({ queue with
                  tail := uint32_wrap (tail + 1),
                  buffer := cell_set queue.buffer (tail &&& queue.buffer_mask)
                    { sequence := uint32_wrap (tail + 1), data := data } },
                true)
        else fev_bounded_mpmc_queue_push_loop queue data fuel queue.tail
      else if int32_wrap (uint32_wrap (4294967296 +
          (queue.buffer (tail &&& queue.buffer_mask)).sequence - tail) : Nat) < 0 then
        some (queue, false)
      else fev_bounded_mpmc_queue_push_loop queue data fuel queue.tail := rfl

/-- One pass of the loop of `fev_bounded_mpmc_queue_pop`. -/
theorem fev_bounded_mpmc_queue_pop_loop_succ (queue : fev_bounded_mpmc_queue)
    (fuel head : Nat) :
    fev_bounded_mpmc_queue_pop_loop queue (fuel + 1) head =
      if int32_wrap (uint32_wrap (4294967296 +
          (queue.buffer (head &&& queue.buffer_mask)).sequence - uint32_wrap (head + 1)) : Nat) =
          0 then
        if queue.head = head then
          some ({ queue with
                  head := uint32_wrap (head + 1),
                  buffer := cell_set queue.buffer (head &&& queue.buffer_mask)
                    { sequence := uint32_wrap (head + queue.buffer_mask + 1),
                      data := (queue.buffer (head &&& queue.buffer_mask)).data } },
                some (queue.buffer (head &&& queue.buffer_mask)).data)
        else fev_bounded_mpmc_queue_pop_loop queue fuel queue.head
      else if int32_wrap (uint32_wrap (4294967296 +
          (queue.buffer (head &&& queue.buffer_mask)).sequence - uint32_wrap (head + 1)) : Nat) <
          0 then
        some (queue, none)
      else fev_bounded_mpmc_queue_pop_loop queue fuel queue.head := rfl
/-- The function `fev_bounded_mpmc_queue_push` on a queue of capacity `2^k`: it returns
within one pass; it succeeds exactly when fewer than `2^k` elements are stored,
and then stores the element last. -/
theorem fev_bounded_mpmc_queue_push_spec (k : Nat) (q : fev_bounded_mpmc_queue) (fuel : Nat)
    (d : Nat) (hk1 : 1 ≤ k) (hk31 : k ≤ 31) (hinv : mpmc_inv k q) (hfuel : 1 ≤ fuel) :
    ∃ q2, fev_bounded_mpmc_queue_push fuel q d =
        some (q2, decide (fev_bounded_mpmc_queue_size q < 2 ^ k)) ∧
      mpmc_inv k q2 ∧
      fev_bounded_mpmc_queue_contents q2 =
        (if fev_bounded_mpmc_queue_size q < 2 ^ k then fev_bounded_mpmc_queue_contents q ++ [d]
          else fev_bounded_mpmc_queue_contents q) ∧
      fev_bounded_mpmc_queue_size q2 =
        (if fev_bounded_mpmc_queue_size q < 2 ^ k then fev_bounded_mpmc_queue_size q + 1
          else fev_bounded_mpmc_queue_size q) := by
  obtain ⟨hC2, hC31, hdvd⟩ := capacity_facts k hk1 hk31
  obtain ⟨buf, mask, head, tail⟩ := q
  obtain ⟨hmask, hh, ht, hn, hI2, hI3⟩ := hinv
  obtain ⟨fuel, rfl⟩ : ∃ f, fuel = f + 1 := ⟨fuel - 1, by omega⟩
  dsimp only at hmask hh ht
  have hidx : tail &&& mask = tail % 2 ^ k := by
    rw [hmask]
    exact Nat.and_pow_two_sub_one_eq_mod _ k
  have hmask1 : mask + 1 = 2 ^ k := by omega
  obtain ⟨n, hnd⟩ : ∃ n, fev_bounded_mpmc_queue_size ⟨buf, mask, head, tail⟩ = n := ⟨_, rfl⟩
  rw [hnd] at hn hI2 hI3 ⊢
  dsimp only at hI2 hI3
  have hnv : (4294967296 + tail - head) % 4294967296 = n := hnd
  have htl : tail = (head + n) % 4294967296 := by omega
  have hcell : tail % 2 ^ k = (head + n) % 2 ^ k := by
    have := cell_index_wrap (2 ^ k) (head + n) hdvd
    unfold uint32_wrap at this
    rw [← this, ← htl]
  by_cases hfull : n < 2 ^ k
  · -- a free cell is at the tail
    have hseq : (buf (tail % 2 ^ k)).sequence = tail := by
      rw [hcell, hI3 n (le_refl _) hfull]
      unfold uint32_wrap
      exact htl.symm
    have hdiff : int32_wrap (uint32_wrap (4294967296 + (buf (tail % 2 ^ k)).sequence -
        tail) : Nat) = 0 := by
      rw [hseq]
      unfold int32_wrap uint32_wrap
      omega
    have hsize : fev_bounded_mpmc_queue_size
        ⟨cell_set buf (tail % 2 ^ k) ⟨uint32_wrap (tail + 1), d⟩, mask, head,
          uint32_wrap (tail + 1)⟩ = n + 1 := by
      show uint32_wrap (4294967296 + uint32_wrap (tail + 1) - head) = n + 1
      unfold uint32_wrap
      omega
    have hother : ∀ i, i < 2 ^ k → i ≠ n →
        cell_set buf (tail % 2 ^ k) ⟨uint32_wrap (tail + 1), d⟩ ((head + i) % 2 ^ k) =
          buf ((head + i) % 2 ^ k) := by
      intro i hi hne
      have hne2 : (head + i) % 2 ^ k ≠ tail % 2 ^ k := by
        rw [hcell]
        intro e
        exact hne (cell_index_inj _ _ _ _ hi hfull e)
      unfold cell_set
      rw [if_neg hne2]
    have hself : cell_set buf (tail % 2 ^ k) ⟨uint32_wrap (tail + 1), d⟩ ((head + n) % 2 ^ k) =
        ⟨uint32_wrap (tail + 1), d⟩ := by
      unfold cell_set
      rw [← hcell, if_pos rfl]
    refine ⟨⟨cell_set buf (tail % 2 ^ k) ⟨uint32_wrap (tail + 1), d⟩, mask, head,
      uint32_wrap (tail + 1)⟩, ?_, ?_, ?_, ?_⟩
    · rw [decide_eq_true hfull]
      show fev_bounded_mpmc_queue_push_loop ⟨buf, mask, head, tail⟩ d (fuel + 1) tail = _
      rw [fev_bounded_mpmc_queue_push_loop_succ]
      dsimp only
      rw [hidx, if_pos hdiff, if_pos rfl]
    · refine ⟨hmask, hh, ?_, ?_, ?_, ?_⟩
      · show uint32_wrap (tail + 1) < 4294967296
        unfold uint32_wrap
        omega
      · rw [hsize]
        omega
      · rw [hsize]
        intro i hi
        dsimp only
        by_cases hin : i = n
        · rw [hin, hself]
          show uint32_wrap (tail + 1) = uint32_wrap (head + n + 1)
          unfold uint32_wrap
          omega
        · rw [hother i (by omega) hin]
          exact hI2 i (by omega)
      · rw [hsize]
        intro i hi1 hi2
        dsimp only
        rw [hother i hi2 (by omega)]
        exact hI3 i (by omega) hi2
    · rw [if_pos hfull]
      unfold fev_bounded_mpmc_queue_contents
      rw [hsize, hnd, List.range_succ, List.map_append]
      dsimp only
      rw [hmask1]
      have e1 : (List.range n).map (fun i =>
          (cell_set buf (tail % 2 ^ k) ⟨uint32_wrap (tail + 1), d⟩ ((head + i) % 2 ^ k)).data) =
          (List.range n).map (fun i => (buf ((head + i) % 2 ^ k)).data) := by
        apply List.map_congr_left
        intro i hi
        have hi2 : i < n := List.mem_range.1 hi
        rw [hother i (by omega) (by omega)]
      rw [e1, List.map_cons, List.map_nil, hself]
    · rw [if_pos hfull]
      exact hsize
  · -- the queue is full: the cell at the tail holds the oldest element
    have hnC : n = 2 ^ k := by omega
    have hcell0 : tail % 2 ^ k = (head + 0) % 2 ^ k := by
      rw [hcell, hnC, Nat.add_zero, Nat.add_mod_right]
    have hseq : (buf (tail % 2 ^ k)).sequence = (head + 0 + 1) % 4294967296 := by
      rw [hcell0]
      exact hI2 0 (by omega)
    have hdiff : int32_wrap (uint32_wrap (4294967296 + (buf (tail % 2 ^ k)).sequence -
        tail) : Nat) < 0 := by
      rw [hseq]
      unfold int32_wrap uint32_wrap
      omega
    have hdiff0 : ¬ int32_wrap (uint32_wrap (4294967296 +
        (buf (tail % 2 ^ k)).sequence - tail) : Nat) = 0 := ne_of_lt hdiff
    refine ⟨⟨buf, mask, head, tail⟩, ?_, ⟨hmask, hh, ht, by rw [hnd]; exact hn,
      by rw [hnd]; exact hI2, by rw [hnd]; exact hI3⟩, ?_, ?_⟩
    · rw [decide_eq_false hfull]
      show fev_bounded_mpmc_queue_push_loop ⟨buf, mask, head, tail⟩ d (fuel + 1) tail = _
      rw [fev_bounded_mpmc_queue_push_loop_succ]
      dsimp only
      rw [hidx, if_neg hdiff0, if_pos hdiff]
    · rw [if_neg hfull]
    · rw [if_neg hfull]
      exact hnd
/-- The function `fev_bounded_mpmc_queue_pop` on a queue of capacity `2^k`: it returns
within one pass; it succeeds exactly when an element is stored, and then
removes and returns the oldest one. -/
theorem fev_bounded_mpmc_queue_pop_spec (k : Nat) (q : fev_bounded_mpmc_queue) (fuel : Nat)
    (hk1 : 1 ≤ k) (hk31 : k ≤ 31) (hinv : mpmc_inv k q) (hfuel : 1 ≤ fuel) :
    ∃ q2, fev_bounded_mpmc_queue_pop fuel q =
        some (q2, (fev_bounded_mpmc_queue_contents q).head?) ∧
      mpmc_inv k q2 ∧
      fev_bounded_mpmc_queue_contents q2 = (fev_bounded_mpmc_queue_contents q).tail ∧
      fev_bounded_mpmc_queue_size q2 = fev_bounded_mpmc_queue_size q - 1 := by
  obtain ⟨hC2, hC31, hdvd⟩ := capacity_facts k hk1 hk31
  obtain ⟨buf, mask, head, tail⟩ := q
  obtain ⟨hmask, hh, ht, hn, hI2, hI3⟩ := hinv
  obtain ⟨fuel, rfl⟩ : ∃ f, fuel = f + 1 := ⟨fuel - 1, by omega⟩
  dsimp only at hmask hh ht
  have hidx : head &&& mask = head % 2 ^ k := by
    rw [hmask]
    exact Nat.and_pow_two_sub_one_eq_mod _ k
  have hmask1 : mask + 1 = 2 ^ k := by omega
  obtain ⟨n, hnd⟩ : ∃ n, fev_bounded_mpmc_queue_size ⟨buf, mask, head, tail⟩ = n := ⟨_, rfl⟩
  rw [hnd] at hn hI2 hI3 ⊢
  dsimp only at hI2 hI3
  have hnv : (4294967296 + tail - head) % 4294967296 = n := hnd
  have hcell0 : head % 2 ^ k = (head + 0) % 2 ^ k := by rw [Nat.add_zero]
  have hcont : fev_bounded_mpmc_queue_contents ⟨buf, mask, head, tail⟩ =
      (List.range n).map (fun i => (buf ((head + i) % 2 ^ k)).data) := by
    unfold fev_bounded_mpmc_queue_contents
    rw [hnd]
    dsimp only
    rw [hmask1]
  rw [hcont]
  by_cases hempty : n = 0
  · -- the cell at the head is free
    have hseq : (buf (head % 2 ^ k)).sequence = head % 4294967296 := by
      rw [hcell0, hI3 0 (by omega) (by omega)]
      rfl
    have hdiff : int32_wrap (uint32_wrap (4294967296 + (buf (head % 2 ^ k)).sequence -
        uint32_wrap (head + 1)) : Nat) < 0 := by
      rw [hseq]
      unfold int32_wrap uint32_wrap
      omega
    have hdiff0 : ¬ int32_wrap (uint32_wrap (4294967296 + (buf (head % 2 ^ k)).sequence -
        uint32_wrap (head + 1)) : Nat) = 0 := ne_of_lt hdiff
    refine ⟨⟨buf, mask, head, tail⟩, ?_, ⟨hmask, hh, ht, by rw [hnd]; exact hn,
      by rw [hnd]; exact hI2, by rw [hnd]; exact hI3⟩, ?_, ?_⟩
    · show fev_bounded_mpmc_queue_pop_loop ⟨buf, mask, head, tail⟩ (fuel + 1) head = _
      rw [fev_bounded_mpmc_queue_pop_loop_succ]
      dsimp only
      rw [hidx, if_neg hdiff0, if_pos hdiff, hempty]
      rfl
    · rw [hcont, hempty]
      rfl
    · rw [hnd]
      omega
  · -- the cell at the head holds the oldest element
    obtain ⟨m, hm⟩ : ∃ m, n = m + 1 := ⟨n - 1, by omega⟩
    have hseq : (buf (head % 2 ^ k)).sequence = (head + 0 + 1) % 4294967296 := by
      rw [hcell0]
      exact hI2 0 (by omega)
    have hdiff : int32_wrap (uint32_wrap (4294967296 + (buf (head % 2 ^ k)).sequence -
        uint32_wrap (head + 1)) : Nat) = 0 := by
      rw [hseq]
      unfold int32_wrap uint32_wrap
      omega
    have hsize : fev_bounded_mpmc_queue_size
        ⟨cell_set buf (head % 2 ^ k)
          ⟨uint32_wrap (head + mask + 1), (buf (head % 2 ^ k)).data⟩, mask,
          uint32_wrap (head + 1), tail⟩ = m := by
      show uint32_wrap (4294967296 + tail - uint32_wrap (head + 1)) = m
      unfold uint32_wrap
      omega
    have hshift : ∀ i, (uint32_wrap (head + 1) + i) % 2 ^ k = (head + (i + 1)) % 2 ^ k := by
      intro i
      rw [cell_index_wrap_add _ _ _ hdvd]
      have : head + 1 + i = head + (i + 1) := by omega
      rw [this]
    have hother : ∀ i, i + 1 < 2 ^ k →
        cell_set buf (head % 2 ^ k) ⟨uint32_wrap (head + mask + 1), (buf (head % 2 ^ k)).data⟩
          ((head + (i + 1)) % 2 ^ k) = buf ((head + (i + 1)) % 2 ^ k) := by
      intro i hi
      have hne2 : (head + (i + 1)) % 2 ^ k ≠ head % 2 ^ k := by
        rw [hcell0]
        intro e
        have := cell_index_inj _ _ _ _ hi (by omega) e
        omega
      unfold cell_set
      rw [if_neg hne2]
    have hself : cell_set buf (head % 2 ^ k)
        ⟨uint32_wrap (head + mask + 1), (buf (head % 2 ^ k)).data⟩
          ((head + 2 ^ k) % 2 ^ k) =
        ⟨uint32_wrap (head + mask + 1), (buf (head % 2 ^ k)).data⟩ := by
      unfold cell_set
      rw [Nat.add_mod_right, if_pos rfl]
    refine ⟨⟨cell_set buf (head % 2 ^ k)
      ⟨uint32_wrap (head + mask + 1), (buf (head % 2 ^ k)).data⟩, mask,
      uint32_wrap (head + 1), tail⟩, ?_, ?_, ?_, ?_⟩
    · show fev_bounded_mpmc_queue_pop_loop ⟨buf, mask, head, tail⟩ (fuel + 1) head = _
      rw [fev_bounded_mpmc_queue_pop_loop_succ]
      dsimp only
      rw [hidx, if_pos hdiff, if_pos rfl, hm, List.range_succ_eq_map]
      rw [List.map_cons, List.head?_cons]
      rfl
    · refine ⟨hmask, ?_, ht, ?_, ?_, ?_⟩
      · show uint32_wrap (head + 1) < 4294967296
        unfold uint32_wrap
        omega
      · rw [hsize]
        omega
      · rw [hsize]
        intro i hi
        dsimp only
        rw [hshift i, hother i (by omega), hI2 (i + 1) (by omega)]
        unfold uint32_wrap
        omega
      · rw [hsize]
        intro i hi1 hi2
        dsimp only
        rw [hshift i]
        by_cases hlast : i + 1 < 2 ^ k
        · rw [hother i hlast, hI3 (i + 1) (by omega) hlast]
          unfold uint32_wrap
          omega
        · have hi3 : i + 1 = 2 ^ k := by omega
          rw [hi3, hself]
          show uint32_wrap (head + mask + 1) = uint32_wrap (uint32_wrap (head + 1) + i)
          unfold uint32_wrap
          omega
    · unfold fev_bounded_mpmc_queue_contents
      rw [hsize]
      dsimp only
      rw [hmask1, hm, List.range_succ_eq_map, List.map_cons, List.tail_cons, List.map_map]
      apply List.map_congr_left
      intro i hi
      have hi2 : i < m := List.mem_range.1 hi
      show (cell_set buf (head % 2 ^ k) _ ((uint32_wrap (head + 1) + i) % 2 ^ k)).data =
        (buf ((head + (i + 1)) % 2 ^ k)).data
      rw [hshift i, hother i (by omega)]
    · rw [hsize, hm]
      rfl
/-- The number of stored elements is the value of `fev_bounded_mpmc_queue_size`. -/
theorem fev_bounded_mpmc_queue_contents_length (q : fev_bounded_mpmc_queue) :
    (fev_bounded_mpmc_queue_contents q).length = fev_bounded_mpmc_queue_size q := by
  unfold fev_bounded_mpmc_queue_contents
  rw [List.length_map, List.length_range]

/-- The state left by `fev_bounded_mpmc_queue_init` with the capacity `2^k`: no element
is stored. -/
theorem fev_bounded_mpmc_queue_init_inv (k : Nat) (hk1 : 1 ≤ k) (hk31 : k ≤ 31)
    (buffer0 : Nat → fev_bounded_mpmc_queue_cell) :
    mpmc_inv k (fev_bounded_mpmc_queue_init buffer0 (2 ^ k)) ∧
    fev_bounded_mpmc_queue_contents (fev_bounded_mpmc_queue_init buffer0 (2 ^ k)) = [] := by
  obtain ⟨hC2, hC31, hdvd⟩ := capacity_facts k hk1 hk31
  have hsize : fev_bounded_mpmc_queue_size (fev_bounded_mpmc_queue_init buffer0 (2 ^ k)) = 0 := by
    show uint32_wrap (4294967296 + 0 - 0) = 0
    unfold uint32_wrap
    omega
  refine ⟨⟨rfl, by show 0 < 4294967296; omega, by show 0 < 4294967296; omega, ?_, ?_, ?_⟩, ?_⟩
  · rw [hsize]
    omega
  · rw [hsize]
    intro i hi
    omega
  · rw [hsize]
    intro i _ hi
    show ((fun j => if j < 2 ^ k then { buffer0 j with sequence := j } else buffer0 j)
      ((0 + i) % 2 ^ k)).sequence = uint32_wrap (0 + i)
    rw [Nat.zero_add, Nat.mod_eq_of_lt hi]
    dsimp only
    rw [if_pos hi]
    unfold uint32_wrap
    dsimp only
    omega
  · unfold fev_bounded_mpmc_queue_contents
    rw [hsize]
    rfl

/-- Run without interleaving, the queue of capacity `2^k` returns what the bounded
FIFO returns and stores what it stores, for every sequence of operations. -/
theorem mpmc_run_refines (k fuel : Nat) (hk1 : 1 ≤ k) (hk31 : k ≤ 31) (hfuel : 1 ≤ fuel)
    (ops : List mpmc_op) :
    ∀ q, mpmc_inv k q →
      ∃ q2, mpmc_run fuel ops q =
          some (q2, (fifo_run (2 ^ k) ops (fev_bounded_mpmc_queue_contents q)).2) ∧
        fev_bounded_mpmc_queue_contents q2 =
          (fifo_run (2 ^ k) ops (fev_bounded_mpmc_queue_contents q)).1 ∧
        mpmc_inv k q2 := by
  induction ops with
  | nil =>
    intro q hinv
    exact ⟨q, rfl, rfl, hinv⟩
  | cons op ops ih =>
    intro q hinv
    cases op with
    | push d =>
      obtain ⟨q1, e1, hinv1, hc1, -⟩ :=
        fev_bounded_mpmc_queue_push_spec k q fuel d hk1 hk31 hinv hfuel
      have hspec : fifo_push (2 ^ k) (fev_bounded_mpmc_queue_contents q) d =
          (fev_bounded_mpmc_queue_contents q1,
            decide (fev_bounded_mpmc_queue_size q < 2 ^ k)) := by
        unfold fifo_push
        rw [fev_bounded_mpmc_queue_contents_length, hc1]
        by_cases hfull : fev_bounded_mpmc_queue_size q < 2 ^ k
        · rw [if_pos hfull, if_pos hfull, decide_eq_true hfull]
        · rw [if_neg hfull, if_neg hfull, decide_eq_false hfull]
      obtain ⟨q2, e2, hc2, hinv2⟩ := ih q1 hinv1
      refine ⟨q2, ?_, ?_, hinv2⟩
      · show (match fev_bounded_mpmc_queue_push fuel q d with
          | none => none
          | some r =>
            match mpmc_run fuel ops r.1 with
            | none => none
            | some r2 => some (r2.1, mpmc_result.pushed r.2 :: r2.2)) = _
        rw [e1]
        dsimp only
        rw [e2]
        show _ = some (q2, mpmc_result.pushed (fifo_push (2 ^ k)
            (fev_bounded_mpmc_queue_contents q) d).2 ::
          (fifo_run (2 ^ k) ops (fifo_push (2 ^ k) (fev_bounded_mpmc_queue_contents q) d).1).2)
        rw [hspec]
      · show _ = (fifo_run (2 ^ k) ops
          (fifo_push (2 ^ k) (fev_bounded_mpmc_queue_contents q) d).1).1
        rw [hspec]
        exact hc2
    | pop =>
      obtain ⟨q1, e1, hinv1, hc1, -⟩ :=
        fev_bounded_mpmc_queue_pop_spec k q fuel hk1 hk31 hinv hfuel
      have hspec : fifo_pop (fev_bounded_mpmc_queue_contents q) =
          (fev_bounded_mpmc_queue_contents q1, (fev_bounded_mpmc_queue_contents q).head?) := by
        rw [hc1]
        unfold fifo_pop
        cases fev_bounded_mpmc_queue_contents q with
        | nil => rfl
        | cons x rest => rfl
      obtain ⟨q2, e2, hc2, hinv2⟩ := ih q1 hinv1
      refine ⟨q2, ?_, ?_, hinv2⟩
      · show (match fev_bounded_mpmc_queue_pop fuel q with
          | none => none
          | some r =>
            match mpmc_run fuel ops r.1 with
            | none => none
            | some r2 => some (r2.1, mpmc_result.popped r.2 :: r2.2)) = _
        rw [e1]
        dsimp only
        rw [e2]
        show _ = some (q2, mpmc_result.popped (fifo_pop
            (fev_bounded_mpmc_queue_contents q)).2 ::
          (fifo_run (2 ^ k) ops (fifo_pop (fev_bounded_mpmc_queue_contents q)).1).2)
        rw [hspec]
      · show _ = (fifo_run (2 ^ k) ops (fifo_pop (fev_bounded_mpmc_queue_contents q)).1).1
        rw [hspec]
        exact hc2

/-- C22: executed without interleaving, the bounded MPMC queue of capacity `2^k`
(`1 <= k <= 31`: a power of two, at least 2, that fits 32 bits) behaves as a FIFO
bounded by the capacity.  From every state that the queue can be in between two
operations, whatever the values of the 32-bit counters `head` and `tail` (so also
when they are about to wrap around), every sequence of calls of
`fev_bounded_mpmc_queue_push` and `fev_bounded_mpmc_queue_pop` returns (each loop ends within
its first pass), returns what the bounded FIFO returns (a push succeeds
exactly when fewer than `2^k` elements are stored, a pop succeeds exactly when
an element is stored and returns the oldest one), and leaves the queue in such
a state, storing what the FIFO stores.  The state left by
`fev_bounded_mpmc_queue_init` is such a state, with no element stored. -/
theorem fev_bounded_mpmc_queue_fifo (k fuel : Nat) (q : fev_bounded_mpmc_queue)
    (ops : List mpmc_op) (hk1 : 1 ≤ k) (hk31 : k ≤ 31) (hfuel : 1 ≤ fuel)
    (hinv : mpmc_inv k q) :
    (∃ q2, mpmc_run fuel ops q =
        some (q2, (fifo_run (2 ^ k) ops (fev_bounded_mpmc_queue_contents q)).2) ∧
      fev_bounded_mpmc_queue_contents q2 =
        (fifo_run (2 ^ k) ops (fev_bounded_mpmc_queue_contents q)).1 ∧
      mpmc_inv k q2) ∧
    (∀ buffer0, mpmc_inv k (fev_bounded_mpmc_queue_init buffer0 (2 ^ k)) ∧
      fev_bounded_mpmc_queue_contents (fev_bounded_mpmc_queue_init buffer0 (2 ^ k)) = []) :=
  ⟨mpmc_run_refines k fuel hk1 hk31 hfuel ops q hinv,
    fun buffer0 => fev_bounded_mpmc_queue_init_inv k hk1 hk31 buffer0⟩

/-- Witness for C22: a queue of capacity 2 whose counters are `2^32 - 1`, about to
wrap around; three pushes and three pops: the third push fails, the pops return
the elements in the order of the pushes, and the third pop fails. -/
theorem fev_bounded_mpmc_queue_fifo_witness :
    mpmc_inv 1 ⟨fun j => if j = 1 then ⟨4294967295, 0⟩ else ⟨0, 0⟩, 1, 4294967295, 4294967295⟩ ∧
    (mpmc_run 1 [mpmc_op.push 7, mpmc_op.push 8, mpmc_op.push 9, mpmc_op.pop, mpmc_op.pop,
        mpmc_op.pop]
      ⟨fun j => if j = 1 then ⟨4294967295, 0⟩ else ⟨0, 0⟩, 1, 4294967295, 4294967295⟩).map
        Prod.snd =
      some [mpmc_result.pushed true, mpmc_result.pushed true, mpmc_result.pushed false,
        mpmc_result.popped (some 7), mpmc_result.popped (some 8), mpmc_result.popped none] :=
  have hinv : mpmc_inv 1
      ⟨fun j => if j = 1 then ⟨4294967295, 0⟩ else ⟨0, 0⟩, 1, 4294967295, 4294967295⟩ := by
    refine ⟨rfl, by decide, by decide, by decide, ?_, ?_⟩
    · intro i hi
      exact absurd hi (Nat.not_lt_zero i)
    · intro i _ hi
      have hi2 : i < 2 := hi
      have h01 : i = 0 ∨ i = 1 := by omega
      rcases h01 with rfl | rfl
      · decide
      · decide
  ⟨hinv, by
    obtain ⟨q2, h, -, -⟩ := (fev_bounded_mpmc_queue_fifo 1 1 _
      [mpmc_op.push 7, mpmc_op.push 8, mpmc_op.push 9, mpmc_op.pop, mpmc_op.pop, mpmc_op.pop]
      (by decide) (by decide) (by decide) hinv).1
    rw [h]
    rfl⟩

/-- One pass of the loop of `fev_bounded_spmc_queue_push_stq`. -/
theorem fev_bounded_spmc_queue_push_stq_loop_succ (mask n : Nat) (buffer : Nat → Nat)
    (tail cur : Nat) (next : List Nat) :
    fev_bounded_spmc_queue_push_stq_loop mask (n + 1) buffer tail (cur :: next) =
      fev_bounded_spmc_queue_push_stq_loop mask n (heap_set buffer (tail &&& mask) cur)
        (uint32_wrap (tail + 1)) next := rfl

/-- The loop of `fev_bounded_spmc_queue_push_stq` stores the next `n` fibers of the list
after the `count` fibers of the queue, when the queue has room for them. -/
theorem fev_bounded_spmc_queue_push_stq_loop_spec (k mask head : Nat) (hk1 : 1 ≤ k)
    (hk31 : k ≤ 31) (hmask : mask = 2 ^ k - 1) (n : Nat) :
    ∀ (buffer : Nat → Nat) (tail : Nat) (cur : List Nat) (count : Nat),
      tail = uint32_wrap (head + count) → count + n ≤ 2 ^ k → n ≤ cur.length →
      ∃ buffer2, fev_bounded_spmc_queue_push_stq_loop mask n buffer tail cur =
          some (buffer2, uint32_wrap (tail + n), cur.drop n) ∧
        (List.range (count + n)).map (fun i => buffer2 ((head + i) % 2 ^ k)) =
          (List.range count).map (fun i => buffer ((head + i) % 2 ^ k)) ++ cur.take n := by
  obtain ⟨hC2, hC31, hdvd⟩ := capacity_facts k hk1 hk31
  induction n with
  | zero =>
    intro buffer tail cur count htail hroom hlen
    refine ⟨buffer, ?_, ?_⟩
    · show some (buffer, tail, cur) = some (buffer, uint32_wrap (tail + 0), cur)
      have : uint32_wrap (tail + 0) = tail := by
        rw [htail]
        unfold uint32_wrap
        omega
      rw [this]
    · rw [List.take_zero, List.append_nil]
      rfl
  | succ n ih =>
    intro buffer tail cur count htail hroom hlen
    cases cur with
    | nil => exact absurd hlen (by simp)
    | cons fiber next =>
      have hidx : tail &&& mask = (head + count) % 2 ^ k := by
        rw [hmask, Nat.and_pow_two_sub_one_eq_mod, htail]
        exact cell_index_wrap _ _ hdvd
      have htail2 : uint32_wrap (tail + 1) = uint32_wrap (head + (count + 1)) := by
        rw [htail]
        unfold uint32_wrap
        omega
      have hlen2 : n ≤ next.length := by
        rw [List.length_cons] at hlen
        omega
      obtain ⟨buffer2, e, hc⟩ := ih (heap_set buffer (tail &&& mask) fiber)
        (uint32_wrap (tail + 1)) next (count + 1) htail2 (by omega) hlen2
      refine ⟨buffer2, ?_, ?_⟩
      · rw [fev_bounded_spmc_queue_push_stq_loop_succ, e]
        have : uint32_wrap (uint32_wrap (tail + 1) + n) = uint32_wrap (tail + (n + 1)) := by
          unfold uint32_wrap
          omega
        rw [this]
        rfl
      · have hadd : count + (n + 1) = count + 1 + n := by omega
        rw [hadd, hc, List.range_succ, List.map_append, List.take_succ_cons,
          List.append_assoc]
        have e1 : (List.range count).map
            (fun i => heap_set buffer (tail &&& mask) fiber ((head + i) % 2 ^ k)) =
            (List.range count).map (fun i => buffer ((head + i) % 2 ^ k)) := by
          apply List.map_congr_left
          intro i hi
          have hi2 : i < count := List.mem_range.1 hi
          have hne : (head + i) % 2 ^ k ≠ tail &&& mask := by
            rw [hidx]
            intro e2
            have := cell_index_inj _ _ _ _ (by omega) (by omega) e2
            omega
          unfold heap_set
          rw [if_neg hne]
        have e2 : heap_set buffer (tail &&& mask) fiber ((head + count) % 2 ^ k) = fiber := by
          unfold heap_set
          rw [hidx, if_pos rfl]
        rw [e1, List.map_cons, List.map_nil, e2]
        rfl
/-- The function `fev_bounded_spmc_queue_push_stq` on a queue of size `2^k`, called with
the length of the list in `*num_fibers`: it stores the first `min(n, f)` fibers of
the list after the fibers of the queue, in the order of the list, leaves the
other fibers in the list, in their order, and leaves `min(n, f)` in `*num_fibers`;
`n` is the length of the list and `f` the number of free slots. -/
theorem fev_bounded_spmc_queue_push_stq_spec (k : Nat) (q : fev_bounded_spmc_queue)
    (fibers : List Nat) (hk1 : 1 ≤ k) (hk31 : k ≤ 31) (hinv : spmc_inv k q)
    (hlen : fibers.length < 4294967296) :
    ∃ q2, fev_bounded_spmc_queue_push_stq q fibers fibers.length =
        some (q2, fibers.drop (min fibers.length (2 ^ k - fev_bounded_spmc_queue_size q)),
          min fibers.length (2 ^ k - fev_bounded_spmc_queue_size q)) ∧
      fev_bounded_spmc_queue_contents q2 =
        fev_bounded_spmc_queue_contents q ++
          fibers.take (min fibers.length (2 ^ k - fev_bounded_spmc_queue_size q)) ∧
      spmc_inv k q2 ∧
      fev_bounded_spmc_queue_size q2 =
        fev_bounded_spmc_queue_size q +
          min fibers.length (2 ^ k - fev_bounded_spmc_queue_size q) := by
  obtain ⟨hC2, hC31, hdvd⟩ := capacity_facts k hk1 hk31
  obtain ⟨buf, mask, head, tail⟩ := q
  obtain ⟨hmask, hh, ht, hn⟩ := hinv
  dsimp only at hmask hh ht
  have hmask1 : mask + 1 = 2 ^ k := by omega
  obtain ⟨s, hsd⟩ : ∃ s, fev_bounded_spmc_queue_size ⟨buf, mask, head, tail⟩ = s := ⟨_, rfl⟩
  rw [hsd] at hn ⊢
  have hsv : (4294967296 + tail - head) % 4294967296 = s := hsd
  have htl : tail = uint32_wrap (head + s) := by
    unfold uint32_wrap
    omega
  obtain ⟨m, hm⟩ : ∃ m, m = min fibers.length (2 ^ k - s) := ⟨_, rfl⟩
  rw [← hm]
  have hn2 : (if uint32_wrap (4294967296 + uint32_wrap (mask + 1) -
      uint32_wrap (4294967296 + tail - head)) < fibers.length then
      uint32_wrap (4294967296 + uint32_wrap (mask + 1) - uint32_wrap (4294967296 + tail - head))
      else fibers.length) = m := by
    have hfree : uint32_wrap (4294967296 + uint32_wrap (mask + 1) -
        uint32_wrap (4294967296 + tail - head)) = 2 ^ k - s := by
      unfold uint32_wrap
      rw [hsv, hmask1]
      omega
    rw [hfree]
    split_ifs <;> omega
  obtain ⟨buffer2, e, hc⟩ := fev_bounded_spmc_queue_push_stq_loop_spec k mask head hk1 hk31 hmask
    m buf tail fibers s htl (by omega) (by omega)
  have hsize2 : fev_bounded_spmc_queue_size ⟨buffer2, mask, head, uint32_wrap (tail + m)⟩ =
      s + m := by
    show uint32_wrap (4294967296 + uint32_wrap (tail + m) - head) = s + m
    unfold uint32_wrap
    omega
  refine ⟨⟨buffer2, mask, head, uint32_wrap (tail + m)⟩, ?_, ?_, ?_, hsize2⟩
  · unfold fev_bounded_spmc_queue_push_stq
    dsimp only
    rw [hn2, e]
  · unfold fev_bounded_spmc_queue_contents
    rw [hsize2, hsd]
    dsimp only
    rw [hmask1]
    exact hc
  · refine ⟨hmask, hh, ?_, ?_⟩
    · show uint32_wrap (tail + m) < 4294967296
      unfold uint32_wrap
      omega
    · rw [hsize2]
      omega

/-- The loop of `fev_bounded_mpmc_queue_push_stq` on a queue of capacity `2^k`: it pushes
the first `min(n, f)` fibers of the list and counts them. -/
theorem fev_bounded_mpmc_queue_push_stq_loop_spec (k fuel : Nat) (hk1 : 1 ≤ k) (hk31 : k ≤ 31)
    (hfuel : 1 ≤ fuel) (fibers : List Nat) :
    ∀ (q : fev_bounded_mpmc_queue) (n0 : Nat), mpmc_inv k q →
      n0 + fibers.length < 4294967296 →
      ∃ q2, fev_bounded_mpmc_queue_push_stq_loop fuel q fibers n0 =
          some (q2, fibers.drop (min fibers.length (2 ^ k - fev_bounded_mpmc_queue_size q)),
            n0 + min fibers.length (2 ^ k - fev_bounded_mpmc_queue_size q)) ∧
        fev_bounded_mpmc_queue_contents q2 =
          fev_bounded_mpmc_queue_contents q ++
            fibers.take (min fibers.length (2 ^ k - fev_bounded_mpmc_queue_size q)) ∧
        mpmc_inv k q2 := by
  induction fibers with
  | nil =>
    intro q n0 hinv _
    refine ⟨q, ?_, ?_, hinv⟩
    · show some (q, [], n0) = _
      simp
    · simp
  | cons cur next ih =>
    intro q n0 hinv hlen
    rw [List.length_cons] at hlen
    obtain ⟨q1, e1, hinv1, hc1, hs1⟩ :=
      fev_bounded_mpmc_queue_push_spec k q fuel cur hk1 hk31 hinv hfuel
    have hsle := hinv.2.2.2.1
    have hloop : fev_bounded_mpmc_queue_push_stq_loop fuel q (cur :: next) n0 =
        (if decide (fev_bounded_mpmc_queue_size q < 2 ^ k) = false then
          some (q1, cur :: next, n0)
        else fev_bounded_mpmc_queue_push_stq_loop fuel q1 next (uint32_wrap (n0 + 1))) := by
      show (match fev_bounded_mpmc_queue_push fuel q cur with
        | none => none
        | some r =>
          if r.2 = false then some (r.1, cur :: next, n0)
          else fev_bounded_mpmc_queue_push_stq_loop fuel r.1 next (uint32_wrap (n0 + 1))) = _
      rw [e1]
    rw [hloop]
    by_cases hfull : fev_bounded_mpmc_queue_size q < 2 ^ k
    · rw [if_pos hfull] at hc1 hs1
      rw [decide_eq_true hfull, if_neg (by simp)]
      have hn1 : uint32_wrap (n0 + 1) = n0 + 1 := by
        unfold uint32_wrap
        omega
      rw [hn1]
      obtain ⟨q2, e2, hc2, hinv2⟩ := ih q1 (n0 + 1) hinv1 (by omega)
      have hmin : min (next.length + 1) (2 ^ k - fev_bounded_mpmc_queue_size q) =
          min next.length (2 ^ k - fev_bounded_mpmc_queue_size q1) + 1 := by
        rw [hs1]
        omega
      refine ⟨q2, ?_, ?_, hinv2⟩
      · rw [e2, List.length_cons, hmin, List.drop_succ_cons]
        have : n0 + 1 + min next.length (2 ^ k - fev_bounded_mpmc_queue_size q1) =
            n0 + (min next.length (2 ^ k - fev_bounded_mpmc_queue_size q1) + 1) := by omega
        rw [this]
      · rw [hc2, hc1, List.length_cons, hmin, List.take_succ_cons, List.append_assoc]
        rfl
    · rw [if_neg hfull] at hc1
      rw [decide_eq_false hfull, if_pos rfl]
      have hmin : min (cur :: next).length (2 ^ k - fev_bounded_mpmc_queue_size q) = 0 := by
        omega
      refine ⟨q1, ?_, ?_, hinv1⟩
      · rw [hmin]
        rfl
      · rw [hmin, hc1]
        simp

/-- The function `fev_push_stq` of the work-stealing scheduler on a run queue of size
`2^k`: the first `min(n, f)` fibers go to the run queue and the others to the
fallback queue, each list in the order of the input. -/
theorem fev_push_stq_spec (k : Nat) (s : fev_sched_steal_bounded_spmc) (fibers : List Nat)
    (hk1 : 1 ≤ k) (hk31 : k ≤ 31) (hinv : spmc_inv k s.run_queue)
    (hlen : fibers.length < 4294967296) :
    ∃ s2, s.fev_push_stq fibers fibers.length = some s2 ∧
      fev_bounded_spmc_queue_contents s2.run_queue =
        fev_bounded_spmc_queue_contents s.run_queue ++
          fibers.take (min fibers.length (2 ^ k - fev_bounded_spmc_queue_size s.run_queue)) ∧
      s2.fallback_queue = s.fallback_queue ++
        fibers.drop (min fibers.length (2 ^ k - fev_bounded_spmc_queue_size s.run_queue)) ∧
      s2.fallback_queue_len =
        (if min fibers.length (2 ^ k - fev_bounded_spmc_queue_size s.run_queue) = fibers.length
          then s.fallback_queue_len
          else uint32_wrap (s.fallback_queue_len + (fibers.length -
            min fibers.length (2 ^ k - fev_bounded_spmc_queue_size s.run_queue)))) ∧
      spmc_inv k s2.run_queue := by
  obtain ⟨q2, e, hc, hinv2, -⟩ :=
    fev_bounded_spmc_queue_push_stq_spec k s.run_queue fibers hk1 hk31 hinv hlen
  obtain ⟨m, hm⟩ : ∃ m, m = min fibers.length (2 ^ k - fev_bounded_spmc_queue_size s.run_queue) :=
    ⟨_, rfl⟩
  rw [← hm] at e hc ⊢
  have hstep : s.fev_push_stq fibers fibers.length =
      (if m ≠ fibers.length then
        some (fev_sched_steal_bounded_spmc.fev_push_stq_fallback { s with run_queue := q2 }
          (fibers.drop m) (uint32_wrap (4294967296 + fibers.length - m)))
      else some { s with run_queue := q2 }) := by
    unfold fev_sched_steal_bounded_spmc.fev_push_stq
    rw [e]
  rw [hstep]
  by_cases hall : m = fibers.length
  · rw [if_neg (not_not.2 hall)]
    refine ⟨_, rfl, hc, ?_, ?_, hinv2⟩
    · show s.fallback_queue = _
      rw [hall, List.drop_length, List.append_nil]
    · rw [if_pos hall]
  · rw [if_pos hall]
    refine ⟨_, rfl, hc, rfl, ?_, hinv2⟩
    rw [if_neg hall]
    show uint32_wrap (s.fallback_queue_len + uint32_wrap (4294967296 + fibers.length - m)) = _
    unfold uint32_wrap
    omega

/-- C23: the functions `fev_bounded_spmc_queue_push_stq` and
`fev_bounded_mpmc_queue_push_stq`, called without concurrent access on a list of `n`
fibers (with `n` in `*num_fibers`) and a queue of size `2^k` with `f` free slots,
push the first `min(n, f)` fibers after the stored ones, in the order of the list,
leave `min(n, f)` in `*num_fibers`, and leave in the list the other fibers, in their
order.  Hence `fev_push_stq` of the work-stealing scheduler puts the first
`min(n, f)` fibers in the run queue and links the others after the fallback
queue: every fiber of the input is in one of the two, once. -/
theorem fev_push_stq_places_every_fiber (k fuel : Nat) (qs : fev_bounded_spmc_queue)
    (qm : fev_bounded_mpmc_queue) (s : fev_sched_steal_bounded_spmc) (fibers : List Nat)
    (hk1 : 1 ≤ k) (hk31 : k ≤ 31) (hfuel : 1 ≤ fuel) (hqs : spmc_inv k qs)
    (hqm : mpmc_inv k qm) (hs : spmc_inv k s.run_queue) (hlen : fibers.length < 4294967296) :
    (∃ q2, fev_bounded_spmc_queue_push_stq qs fibers fibers.length =
        some (q2, fibers.drop (min fibers.length (2 ^ k - fev_bounded_spmc_queue_size qs)),
          min fibers.length (2 ^ k - fev_bounded_spmc_queue_size qs)) ∧
      fev_bounded_spmc_queue_contents q2 =
        fev_bounded_spmc_queue_contents qs ++
          fibers.take (min fibers.length (2 ^ k - fev_bounded_spmc_queue_size qs)) ∧
      spmc_inv k q2) ∧
    (∃ q2, fev_bounded_mpmc_queue_push_stq fuel qm fibers fibers.length =
        some (q2, fibers.drop (min fibers.length (2 ^ k - fev_bounded_mpmc_queue_size qm)),
          min fibers.length (2 ^ k - fev_bounded_mpmc_queue_size qm)) ∧
      fev_bounded_mpmc_queue_contents q2 =
        fev_bounded_mpmc_queue_contents qm ++
          fibers.take (min fibers.length (2 ^ k - fev_bounded_mpmc_queue_size qm)) ∧
      mpmc_inv k q2) ∧
    (∃ s2 pushed spilled, s.fev_push_stq fibers fibers.length = some s2 ∧
      fev_bounded_spmc_queue_contents s2.run_queue =
        fev_bounded_spmc_queue_contents s.run_queue ++ pushed ∧
      s2.fallback_queue = s.fallback_queue ++ spilled ∧
      pushed ++ spilled = fibers ∧
      pushed.length = min fibers.length (2 ^ k - fev_bounded_spmc_queue_size s.run_queue) ∧
      spmc_inv k s2.run_queue) := by
  refine ⟨?_, ?_, ?_⟩
  · obtain ⟨q2, e, hc, hinv2, -⟩ :=
      fev_bounded_spmc_queue_push_stq_spec k qs fibers hk1 hk31 hqs hlen
    exact ⟨q2, e, hc, hinv2⟩
  · obtain ⟨q2, e, hc, hinv2⟩ :=
      fev_bounded_mpmc_queue_push_stq_loop_spec k fuel hk1 hk31 hfuel fibers qm 0 hqm (by omega)
    refine ⟨q2, ?_, hc, hinv2⟩
    show fev_bounded_mpmc_queue_push_stq_loop fuel qm fibers 0 = _
    rw [e, Nat.zero_add]
  · obtain ⟨s2, e, hc, hf, -, hinv2⟩ := fev_push_stq_spec k s fibers hk1 hk31 hs hlen
    refine ⟨s2, _, _, e, hc, hf, List.take_append_drop _ _, ?_, hinv2⟩
    rw [List.length_take]
    omega

/-- Witness for C23: three fibers are pushed on empty queues of size 2: the fibers 5
and 6 are stored, the count is 2, and the fiber 7 is left in the list. -/
theorem fev_push_stq_places_every_fiber_witness :
    spmc_inv 1 ⟨fun _ => 0, 1, 0, 0⟩ ∧
    mpmc_inv 1 (fev_bounded_mpmc_queue_init (fun _ => ⟨0, 0⟩) (2 ^ 1)) ∧
    (fev_bounded_spmc_queue_push_stq ⟨fun _ => 0, 1, 0, 0⟩ [5, 6, 7] 3).map Prod.snd =
      some ([7], 2) ∧
    (fev_bounded_mpmc_queue_push_stq 1 (fev_bounded_mpmc_queue_init (fun _ => ⟨0, 0⟩) (2 ^ 1))
      [5, 6, 7] 3).map Prod.snd = some ([7], 2) :=
  have hqs : spmc_inv 1 ⟨fun _ => 0, 1, 0, 0⟩ := ⟨rfl, by decide, by decide, by decide⟩
  have hqm : mpmc_inv 1 (fev_bounded_mpmc_queue_init (fun _ => ⟨0, 0⟩) (2 ^ 1)) :=
    (fev_bounded_mpmc_queue_init_inv 1 (by decide) (by decide) _).1
  ⟨hqs, hqm, by
    obtain ⟨⟨q2, e, -, -⟩, -, -⟩ := fev_push_stq_places_every_fiber 1 1
      ⟨fun _ => 0, 1, 0, 0⟩ (fev_bounded_mpmc_queue_init (fun _ => ⟨0, 0⟩) (2 ^ 1))
      ⟨⟨fun _ => 0, 1, 0, 0⟩, [], 0⟩ [5, 6, 7] (by decide) (by decide) (by decide) hqs hqm hqs
      (by decide)
    show (fev_bounded_spmc_queue_push_stq ⟨fun _ => 0, 1, 0, 0⟩ [5, 6, 7]
      [5, 6, 7].length).map Prod.snd = _
    rw [e]
    rfl, by
    obtain ⟨-, ⟨q2, e, -, -⟩, -⟩ := fev_push_stq_places_every_fiber 1 1
      ⟨fun _ => 0, 1, 0, 0⟩ (fev_bounded_mpmc_queue_init (fun _ => ⟨0, 0⟩) (2 ^ 1))
      ⟨⟨fun _ => 0, 1, 0, 0⟩, [], 0⟩ [5, 6, 7] (by decide) (by decide) (by decide) hqs hqm hqs
      (by decide)
    show (fev_bounded_mpmc_queue_push_stq 1
      (fev_bounded_mpmc_queue_init (fun _ => ⟨0, 0⟩) (2 ^ 1)) [5, 6, 7]
      [5, 6, 7].length).map Prod.snd = _
    rw [e]
    rfl⟩

/-- The values returned by `fev_timed_wait` once `fev_timers_add` has succeeded: 0 exactly
for the wake reason `FEV_WAITER_READY`, and otherwise `-ETIMEDOUT` or `-EAGAIN`. -/
theorem fev_timed_wait_ret_cases (reason : Nat) (expired : Bool) :
    (fev_timed_wait_ret true reason expired = 0 ↔ reason = FEV_WAITER_READY) ∧
    (fev_timed_wait_ret true reason expired = 0 ∨
      fev_timed_wait_ret true reason expired = -ETIMEDOUT ∨
      fev_timed_wait_ret true reason expired = -EAGAIN) ∧
    fev_timed_wait_ret true reason expired ≠ -ENOMEM := by
  unfold fev_timed_wait_ret
  rw [if_neg (by simp)]
  by_cases h1 : reason = FEV_WAITER_READY
  · rw [if_pos h1]
    simp [h1, ENOMEM]
  · rw [if_neg h1]
    by_cases h2 : reason = FEV_WAITER_TIMED_OUT_NO_CHECK
    · rw [if_pos h2]
      simp [h1, ETIMEDOUT, ENOMEM]
    · rw [if_neg h2]
      cases expired <;> simp [h1, ETIMEDOUT, EAGAIN, ENOMEM]

/-- The function `fev_timed_wait_ret` gives the return value of `fev_timed_wait` after the
wait. -/
theorem fev_timed_wait_resume_ret (s : timers_state) (timer reason : Nat) (now : timespec) :
    (fev_timed_wait_resume s timer reason now).2 =
      fev_timed_wait_ret true reason (fev_timers_process s timer now).expired := by
  by_cases h1 : reason = FEV_WAITER_READY
  · simp only [fev_timed_wait_resume, fev_timed_wait_ret, if_pos h1, Bool.true_eq_false,
      if_false]
  · by_cases h2 : reason = FEV_WAITER_TIMED_OUT_NO_CHECK
    · simp only [fev_timed_wait_resume, fev_timed_wait_ret, if_neg h1, if_pos h2,
        Bool.true_eq_false, if_false]
    · simp only [fev_timed_wait_resume, fev_timed_wait_ret, if_neg h1, if_neg h2,
        Bool.true_eq_false, if_false]

/-- The reason of a waiter after `fev_waiter_wake`: the new one when it had none. -/
theorem fev_waiter_wake_reason (w : fev_waiter) (r : Nat) :
    (fev_waiter_wake w r).1.reason = if w.reason = FEV_WAITER_NONE then r else w.reason := by
  by_cases h : w.reason = FEV_WAITER_NONE
  · by_cases h0 : w.do_wake = 0 <;> simp [fev_waiter_wake, h, h0]
  · simp [fev_waiter_wake, h]

/-- A call of `fev_waiter_wake` by the timers keeps the number of nodes of a fiber. -/
theorem node_count_nodes_wake (nodes : List fev_waiters_queue_node) (fiber reason caller : Nat) :
    node_count (nodes_wake nodes fiber reason) caller = node_count nodes caller := by
  unfold node_count nodes_wake
  rw [List.countP_map]
  apply List.countP_congr
  intro n _
  by_cases h : n.waiter.fiber = fiber
  · simp [h, fev_waiter_wake_fiber]
  · simp [h]

/-- A call of `fev_waiter_wake` by the timers does not give a node the reason
`FEV_WAITER_READY`. -/
theorem nodes_wake_not_ready (nodes : List fev_waiters_queue_node) (fiber reason caller : Nat)
    (hr : reason ≠ FEV_WAITER_READY)
    (h : ∀ n ∈ nodes, n.waiter.fiber = caller → n.waiter.reason ≠ FEV_WAITER_READY) :
    ∀ n ∈ nodes_wake nodes fiber reason, n.waiter.fiber = caller →
      n.waiter.reason ≠ FEV_WAITER_READY := by
  intro n hn hf
  unfold nodes_wake at hn
  obtain ⟨n0, hn0, rfl⟩ := List.mem_map.1 hn
  by_cases hfib : n0.waiter.fiber = fiber
  · rw [if_pos hfib] at hf ⊢
    have hf0 : n0.waiter.fiber = caller := by
      rw [← hf]
      exact (fev_waiter_wake_fiber _ _).symm
    show (fev_waiter_wake n0.waiter reason).1.reason ≠ FEV_WAITER_READY
    rw [fev_waiter_wake_reason]
    by_cases hnone : n0.waiter.reason = FEV_WAITER_NONE
    · rw [if_pos hnone]
      exact hr
    · rw [if_neg hnone]
      exact h n0 hn0 hf0
  · rw [if_neg hfib] at hf ⊢
    exact h n0 hn0 hf

/-- After the removal of the node of a fiber the queue has no node of it. -/
theorem node_count_nodes_remove_self (nodes : List fev_waiters_queue_node) (caller : Nat) :
    node_count (nodes_remove nodes caller) caller = 0 := by
  unfold node_count nodes_remove
  rw [List.countP_eq_zero]
  intro n hn
  have := (List.mem_filter.1 hn).2
  simpa using this

/-- The removal of a node does not add nodes. -/
theorem node_count_nodes_remove_le (nodes : List fev_waiters_queue_node) (fiber caller : Nat) :
    node_count (nodes_remove nodes fiber) caller ≤ node_count nodes caller := by
  unfold node_count nodes_remove
  exact List.Sublist.countP_le _ (List.filter_sublist nodes)

/-- The nodes left by a removal were in the queue. -/
theorem mem_nodes_remove (nodes : List fev_waiters_queue_node) (fiber : Nat)
    (n : fev_waiters_queue_node) (h : n ∈ nodes_remove nodes fiber) : n ∈ nodes :=
  (List.mem_filter.1 h).1

/-- A queue without node of the fiber. -/
theorem node_count_eq_zero (nodes : List fev_waiters_queue_node) (caller : Nat) :
    node_count nodes caller = 0 ↔ ∀ n ∈ nodes, n.waiter.fiber ≠ caller := by
  unfold node_count
  rw [List.countP_eq_zero]
  constructor
  · intro h n hn
    simpa using h n hn
  · intro h n hn
    simpa using h n hn

/-- The function `fev_waiter_wait` with its post-action writes neither `reason` nor
`fiber`. -/
theorem fev_waiter_wait_enter_reason (w : fev_waiter) :
    (fev_waiter_wait_enter w).reason = w.reason ∧ (fev_waiter_wait_enter w).fiber = w.fiber := by
  unfold fev_waiter_wait_enter
  dsimp only
  split_ifs <;> exact ⟨rfl, rfl⟩

/-- The caller reaching `fev_waiter_wait` keeps the number of nodes of a fiber. -/
theorem node_count_nodes_wait_enter (nodes : List fev_waiters_queue_node)
    (fiber caller : Nat) :
    node_count (nodes_wait_enter nodes fiber) caller = node_count nodes caller := by
  unfold node_count nodes_wait_enter
  rw [List.countP_map]
  apply List.countP_congr
  intro n _
  by_cases h : n.waiter.fiber = fiber
  · simp [h, (fev_waiter_wait_enter_reason n.waiter).2]
  · simp [h]

/-- The caller reaching `fev_waiter_wait` does not give a node the reason
`FEV_WAITER_READY`. -/
theorem nodes_wait_enter_not_ready (nodes : List fev_waiters_queue_node)
    (fiber caller : Nat)
    (h : ∀ n ∈ nodes, n.waiter.fiber = caller → n.waiter.reason ≠ FEV_WAITER_READY) :
    ∀ n ∈ nodes_wait_enter nodes fiber, n.waiter.fiber = caller →
      n.waiter.reason ≠ FEV_WAITER_READY := by
  intro n hn hf
  unfold nodes_wait_enter at hn
  obtain ⟨n0, hn0, rfl⟩ := List.mem_map.1 hn
  by_cases hfib : n0.waiter.fiber = fiber
  · rw [if_pos hfib] at hf ⊢
    have hf0 : n0.waiter.fiber = caller := by
      rw [← hf]
      exact (fev_waiter_wait_enter_reason _).2.symm
    show (fev_waiter_wait_enter n0.waiter).reason ≠ FEV_WAITER_READY
    rw [(fev_waiter_wait_enter_reason _).1]
    exact h n0 hn0 hf0
  · rw [if_neg hfib] at hf ⊢
    exact h n0 hn0 hf
/-- The nodes taken off the queue by the slow path of `fev_mutex_unlock`: the nodes
before the first pending one, on which `fev_waiter_wake` fails, and the first
pending one, woken with `FEV_WAITER_READY`. -/
theorem fev_mutex_unlock_removed (m : fev_mutex) (h : m.state ≠ 1) :
    (fev_mutex_unlock m).removed =
      (m.wq.nodes.takeWhile (fun n => !n.pending)).map
          (fun n => ({ waiter := n.waiter, deleted := true }, FEV_WAITER_FAILED)) ++
        ((m.wq.nodes.dropWhile (fun n => !n.pending)).take 1).map
          (fun n => ({ waiter := (fev_waiter_wake n.waiter FEV_WAITER_READY).1, deleted := true },
            (fev_waiter_wake n.waiter FEV_WAITER_READY).2)) := by
  obtain ⟨-, -, h3⟩ := fev_waiters_queue_wake_loop_one m.wq.nodes
    { nodes := m.wq.nodes, removed := [], fibers := [], num_fibers := 0, num_woken := 0 } rfl
  have : (fev_mutex_unlock m).removed = (fev_waiters_queue_wake_loop 1 m.wq.nodes
      { nodes := m.wq.nodes, removed := [], fibers := [], num_fibers := 0,
        num_woken := 0 }).removed := by
    simp [fev_mutex_unlock, h, fev_waiters_queue_wake, fev_mutex_wq]
  rw [this, h3]
  simp

/-- What `fev_mutex_unlock`, called by the holder of the mutex, does for the fiber
`caller`: while somebody holds the mutex afterwards its state is not 0; the queue
only loses nodes; when the caller has no node in the queue it is not woken and
none of the removed nodes is its node; when it has at most one node, and that
without the reason `FEV_WAITER_READY`, then either its node stays and it is not woken,
or its node is removed, with a wake reason that is `FEV_WAITER_READY` exactly when the
caller is the fiber woken. -/
theorem fev_mutex_unlock_for (caller : Nat) (m : fev_mutex) (hst : m.state ≠ 0) :
    ((fev_mutex_unlock m).woken.head? ≠ none → (fev_mutex_unlock m).mutex.state ≠ 0) ∧
    node_count (fev_mutex_unlock m).mutex.wq.nodes caller ≤ node_count m.wq.nodes caller ∧
    (∀ n ∈ (fev_mutex_unlock m).mutex.wq.nodes, n ∈ m.wq.nodes) ∧
    (node_count m.wq.nodes caller = 0 →
      (fev_mutex_unlock m).woken.head? ≠ some caller ∧
        removed_node_of (fev_mutex_unlock m).removed caller = none) ∧
    (node_count m.wq.nodes caller ≤ 1 →
      (∀ n ∈ m.wq.nodes, n.waiter.fiber = caller → n.waiter.reason ≠ FEV_WAITER_READY) →
      (removed_node_of (fev_mutex_unlock m).removed caller = none →
        (fev_mutex_unlock m).woken.head? ≠ some caller) ∧
      (∀ x, removed_node_of (fev_mutex_unlock m).removed caller = some x →
        node_count (fev_mutex_unlock m).mutex.wq.nodes caller = 0 ∧
          x.waiter.reason ≠ FEV_WAITER_NONE ∧
          (x.waiter.reason = FEV_WAITER_READY ↔
            (fev_mutex_unlock m).woken.head? = some caller))) := by
  by_cases h1 : m.state = 1
  · have e : fev_mutex_unlock m =
        { mutex := { m with state := 0 }, slow_path := false, removed := [], fibers := [],
          num_woken := 0 } := by
      simp [fev_mutex_unlock, h1]
    rw [e]
    refine ⟨fun h => absurd rfl h, le_refl _, fun n hn => hn,
      fun _ => ⟨by simp [mutex_unlock_result.woken], rfl⟩,
      fun _ _ => ⟨fun _ => by simp [mutex_unlock_result.woken], fun x hx => ?_⟩⟩
    simp [removed_node_of] at hx
  · obtain ⟨-, hw, -, -, hnodes, hs⟩ := fev_mutex_unlock_slow m h1
    have hrem := fev_mutex_unlock_removed m h1
    obtain ⟨T, hT⟩ : ∃ T, T = m.wq.nodes.takeWhile (fun n => !n.pending) := ⟨_, rfl⟩
    obtain ⟨D, hD⟩ : ∃ D, D = m.wq.nodes.dropWhile (fun n => !n.pending) := ⟨_, rfl⟩
    have hsplit : m.wq.nodes = T ++ D := by
      rw [hT, hD, List.takeWhile_append_dropWhile]
    have hTnp : ∀ n ∈ T, n.waiter.reason ≠ FEV_WAITER_NONE := by
      intro n hn
      rw [hT] at hn
      have := List.mem_takeWhile_imp hn
      simpa [fev_waiters_queue_node.pending] using this
    have hDhead : ∀ d D2, D = d :: D2 → d.waiter.reason = FEV_WAITER_NONE := by
      intro d D2 hd
      have := List.head_dropWhile_not (fun n : fev_waiters_queue_node => !n.pending) m.wq.nodes
      rw [← hD] at this
      have h2 := this (by rw [hd]; simp)
      simp only [hd, List.head_cons] at h2
      simpa [fev_waiters_queue_node.pending] using h2
    rw [← hT, ← hD] at hrem
    rw [← hD] at hw hnodes hs
    rw [hw, hnodes, hrem]
    have hcount : node_count m.wq.nodes caller = node_count T caller + node_count D caller := by
      unfold node_count
      rw [hsplit, List.countP_append]
    have hfind : removed_node_of
        (T.map (fun n => (({ waiter := n.waiter, deleted := true } : fev_waiters_queue_node),
            FEV_WAITER_FAILED)) ++
          (D.take 1).map (fun n =>
            (({ waiter := (fev_waiter_wake n.waiter FEV_WAITER_READY).1, deleted := true } :
              fev_waiters_queue_node), (fev_waiter_wake n.waiter FEV_WAITER_READY).2))) caller =
        match T.find? (fun n => decide (n.waiter.fiber = caller)) with
        | some n => some { waiter := n.waiter, deleted := true }
        | none =>
          match (D.take 1).find? (fun n => decide (n.waiter.fiber = caller)) with
          | some n => some { waiter := (fev_waiter_wake n.waiter FEV_WAITER_READY).1, deleted := true }
          | none => none := by
      unfold removed_node_of
      rw [List.find?_append, List.find?_map, List.find?_map]
      have p1 : ((fun x : fev_waiters_queue_node × fev_waiter_wake_result =>
          decide (x.1.waiter.fiber = caller)) ∘
          fun n : fev_waiters_queue_node =>
            (({ waiter := n.waiter, deleted := true } : fev_waiters_queue_node),
              FEV_WAITER_FAILED)) = fun n => decide (n.waiter.fiber = caller) := rfl
      have p2 : ((fun x : fev_waiters_queue_node × fev_waiter_wake_result =>
          decide (x.1.waiter.fiber = caller)) ∘
          fun n : fev_waiters_queue_node =>
            (({ waiter := (fev_waiter_wake n.waiter FEV_WAITER_READY).1, deleted := true } :
              fev_waiters_queue_node), (fev_waiter_wake n.waiter FEV_WAITER_READY).2)) =
          fun n => decide (n.waiter.fiber = caller) := by
        funext n
        simp [fev_waiter_wake_fiber]
      rw [p1, p2]
      cases T.find? (fun n => decide (n.waiter.fiber = caller)) with
      | some n => rfl
      | none =>
        cases (D.take 1).find? (fun n => decide (n.waiter.fiber = caller)) with
        | some n => rfl
        | none => rfl
    rw [hfind]
    have htailcount : node_count D.tail caller ≤ node_count D caller := by
      unfold node_count
      exact List.Sublist.countP_le _ (List.tail_sublist D)
    refine ⟨?_, ?_, ?_, ?_, ?_⟩
    · intro hne
      rw [hs]
      cases D with
      | nil => simp at hne
      | cons d D2 =>
        rw [if_neg (by simp)]
        split
        · decide
        · exact hst
    · omega
    · intro n hn
      rw [hsplit]
      exact List.mem_append_right _ (List.mem_of_mem_tail hn)
    · intro h0
      have hT0 : node_count T caller = 0 := by omega
      have hD0 : node_count D caller = 0 := by omega
      have hTf := (node_count_eq_zero T caller).1 hT0
      have hDf := (node_count_eq_zero D caller).1 hD0
      have hTfind : T.find? (fun n => decide (n.waiter.fiber = caller)) = none := by
        rw [List.find?_eq_none]
        intro n hn
        simpa using hTf n hn
      have hDfind : (D.take 1).find? (fun n => decide (n.waiter.fiber = caller)) = none := by
        rw [List.find?_eq_none]
        intro n hn
        simpa using hDf n (List.mem_of_mem_take hn)
      rw [hTfind, hDfind]
      refine ⟨?_, rfl⟩
      cases D with
      | nil => simp
      | cons d D2 =>
        simp only [List.take_succ_cons, List.take_zero, List.map_cons, List.map_nil,
          List.head?_cons]
        intro e
        exact hDf d (List.mem_cons_self _ _) (Option.some.inj e)
    · intro hle hnr
      cases hTfind : T.find? (fun n => decide (n.waiter.fiber = caller)) with
      | some n =>
        have hnT : n ∈ T := List.mem_of_find?_eq_some hTfind
        have hnf : n.waiter.fiber = caller := by
          simpa using List.find?_some hTfind
        have hT1 : 1 ≤ node_count T caller := by
          unfold node_count
          exact List.countP_pos_iff.2 ⟨n, hnT, by simpa using hnf⟩
        have hD0 : node_count D caller = 0 := by omega
        have hDf := (node_count_eq_zero D caller).1 hD0
        have hnotw : (List.map (fun n : fev_waiters_queue_node => n.waiter.fiber)
            (List.take 1 D)).head? ≠ some caller := by
          cases D with
          | nil => simp
          | cons d D2 =>
            simp only [List.take_succ_cons, List.take_zero, List.map_cons, List.map_nil,
              List.head?_cons]
            intro e
            exact hDf d (List.mem_cons_self _ _) (Option.some.inj e)
        refine ⟨fun hc => by simp at hc, ?_⟩
        intro x hx
        have hx2 : x = ⟨n.waiter, true⟩ := (Option.some.inj hx).symm
        rw [hx2]
        refine ⟨by omega, hTnp n hnT, ?_⟩
        constructor
        · intro hr
          exact absurd hr (hnr n (by rw [hsplit]; exact List.mem_append_left _ hnT) hnf)
        · intro hc
          exact absurd hc hnotw
      | none =>
        cases D with
        | nil =>
          simp only [List.take_nil, List.find?_nil, List.map_nil, List.head?_nil]
          exact ⟨fun _ => by simp, fun x hx => by simp at hx⟩
        | cons d D2 =>
          have hwk : (List.map (fun n : fev_waiters_queue_node => n.waiter.fiber)
              (List.take 1 (d :: D2))).head? = some d.waiter.fiber := rfl
          rw [hwk]
          by_cases hd : d.waiter.fiber = caller
          · have hfd : List.find? (fun n : fev_waiters_queue_node =>
                decide (n.waiter.fiber = caller)) (List.take 1 (d :: D2)) = some d := by
              simp [hd]
            rw [hfd]
            have hcons : node_count (d :: D2) caller = node_count D2 caller + 1 := by
              unfold node_count
              rw [List.countP_cons_of_pos _ _ (by simpa using hd)]
            refine ⟨fun hc => by simp at hc, ?_⟩
            intro x hx
            have hx2 : x = ⟨(fev_waiter_wake d.waiter FEV_WAITER_READY).1, true⟩ :=
              (Option.some.inj hx).symm
            rw [hx2]
            have hreason : (fev_waiter_wake d.waiter FEV_WAITER_READY).1.reason =
                FEV_WAITER_READY := by
              rw [fev_waiter_wake_reason, if_pos (hDhead d D2 rfl)]
            refine ⟨?_, ?_, ?_⟩
            · show node_count D2 caller = 0
              omega
            · show (fev_waiter_wake d.waiter FEV_WAITER_READY).1.reason ≠ FEV_WAITER_NONE
              rw [hreason]
              decide
            · constructor
              · intro _
                rw [hd]
              · intro _
                exact hreason
          · have hfd : List.find? (fun n : fev_waiters_queue_node =>
                decide (n.waiter.fiber = caller)) (List.take 1 (d :: D2)) = none := by
              simp [hd]
            rw [hfd]
            refine ⟨fun _ e => hd (Option.some.inj e), fun x hx => by simp at hx⟩
/-- The function `fev_mutex_lock` up to its return or to the wait: the caller takes the
mutex when its state is 0, and otherwise queues a pending node and leaves the
state 2. -/
theorem fev_mutex_lock_eq (m : fev_mutex) (f a b : Nat) :
    fev_mutex_lock m f a b =
      if m.state = 0 then { mutex := { m with state := 1 }, slow_path := false, parked := false }
      else
        { mutex := { state := 2,
                     wq := { nodes := m.wq.nodes ++ [⟨⟨FEV_WAITER_NONE, 0, a, b, 1, f⟩, false⟩] } },
          slow_path := true, parked := true } := by
  by_cases h0 : m.state = 0
  · simp [fev_mutex_lock, fev_mutex_try_lock, h0]
  · simp [fev_mutex_lock, fev_mutex_try_lock, h0, fev_waiters_queue_wait_enter,
      fev_mutex_lock_recheck, fev_mutex_wq]

/-- One pass of the loop of `fev_mutex_try_lock_until_slow`: the caller takes the mutex
when its state is 0; otherwise the state is 2 and the caller has a pending node
at the tail of the queue. -/
theorem wait_until_lock_pass_eq (caller : Nat) (w : wait_until_world) :
    wait_until_lock_pass caller w =
      if w.mutex.state = 0 then
        { w with mutex := { w.mutex with state := 1 }, owner := some caller, pc := .returned 0 }
      else
        { w with
          mutex := { state := 2,
                     wq := { nodes := w.mutex.wq.nodes ++
                       [⟨⟨FEV_WAITER_NONE, 0, 0, 0, 1, caller⟩, false⟩] } },
          mutex_node := none, pc := .mutex_add } := by
  by_cases h0 : w.mutex.state = 0
  · simp [wait_until_lock_pass, h0, fev_waiters_queue_wait_enter, fev_mutex_lock_recheck]
  · simp [wait_until_lock_pass, h0, fev_waiters_queue_wait_enter, fev_mutex_lock_recheck,
      fev_mutex_wq]

/-- A node of another fiber at the end of the queue does not count for the caller. -/
theorem node_count_append_other (nodes : List fev_waiters_queue_node)
    (n : fev_waiters_queue_node) (caller : Nat) (h : n.waiter.fiber ≠ caller) :
    node_count (nodes ++ [n]) caller = node_count nodes caller := by
  unfold node_count
  rw [List.countP_append, List.countP_cons_of_neg _ _ (by simpa using h), List.countP_nil]
  rfl

/-- One pass of the loop of `fev_mutex_try_lock_until_slow` by a caller that does not
hold the mutex and has no node in its queue keeps the invariant. -/
theorem wait_until_lock_pass_inv (strict : Bool) (caller : Nat) (w : wait_until_world)
    (hown : w.owner ≠ some caller) (hcnt : node_count w.mutex.wq.nodes caller = 0) :
    wait_until_inv strict caller (wait_until_lock_pass caller w) := by
  rw [wait_until_lock_pass_eq]
  by_cases h0 : w.mutex.state = 0
  · rw [if_pos h0]
    refine ⟨fun _ => Nat.one_ne_zero, ?_⟩
    show ((0 : Int) = 0 → some caller = some caller) ∧
      (some caller = some caller → (0 : Int) = 0 ∨ (strict = false ∧ (0 : Int) = -ENOMEM)) ∧ _
    exact ⟨fun _ => rfl, fun _ => Or.inl rfl, Or.inl rfl⟩
  · rw [if_neg h0]
    refine ⟨fun _ => (by decide : (2 : Nat) ≠ 0), ?_⟩
    show w.owner ≠ some caller ∧
      node_count (w.mutex.wq.nodes ++ [⟨⟨FEV_WAITER_NONE, 0, 0, 0, 1, caller⟩, false⟩])
        caller ≤ 1 ∧
      ∀ n ∈ w.mutex.wq.nodes ++ [⟨⟨FEV_WAITER_NONE, 0, 0, 0, 1, caller⟩, false⟩],
        n.waiter.fiber = caller → n.waiter.reason ≠ FEV_WAITER_READY
    refine ⟨hown, ?_, ?_⟩
    · unfold node_count at hcnt ⊢
      rw [List.countP_append, hcnt, Nat.zero_add]
      exact List.countP_le_length _
    · intro n hn hf
      rcases List.mem_append.1 hn with h | h
      · exact absurd hf ((node_count_eq_zero _ _).1 hcnt n h)
      · rw [List.mem_singleton.1 h]
        exact (by decide : FEV_WAITER_NONE ≠ FEV_WAITER_READY)
/-- A step of the environment that moves neither the caller nor the reason in its
node on the stack keeps the invariant, when it keeps the state of a held mutex
non-zero, does not change whether the caller holds the mutex, adds no node of the
caller and gives none of them the reason `FEV_WAITER_READY`. -/
theorem wait_until_inv_env (strict : Bool) (caller : Nat) (w w' : wait_until_world)
    (h : wait_until_inv strict caller w) (hpc : w'.pc = w.pc)
    (hmn : w.pc = .mutex_add ∨ w.pc = .mutex_wait →
      w'.mutex_node.map (fun n => n.waiter.reason) =
        w.mutex_node.map (fun n => n.waiter.reason))
    (h1 : w'.owner ≠ none → w'.mutex.state ≠ 0)
    (h2 : w'.owner = some caller ↔ w.owner = some caller)
    (h3 : node_count w'.mutex.wq.nodes caller ≤ node_count w.mutex.wq.nodes caller)
    (h4 : (∀ n ∈ w.mutex.wq.nodes, n.waiter.fiber = caller →
        n.waiter.reason ≠ FEV_WAITER_READY) →
      ∀ n ∈ w'.mutex.wq.nodes, n.waiter.fiber = caller →
        n.waiter.reason ≠ FEV_WAITER_READY) :
    wait_until_inv strict caller w' := by
  obtain ⟨cond, mutex, owner, cnode, mnode, pc⟩ := w
  obtain ⟨cond', mutex', owner', cnode', mnode', pc'⟩ := w'
  obtain ⟨hA, hB⟩ := h
  dsimp only at hpc hmn h1 h2 h3 h4 hA hB
  subst hpc
  refine ⟨h1, ?_⟩
  have hrel : wait_until_released caller ⟨cond, mutex, owner, cnode, mnode, pc'⟩ →
      wait_until_released caller ⟨cond', mutex', owner', cnode', mnode', pc'⟩ := by
    intro hB'
    have hB2 : owner ≠ some caller ∧ node_count mutex.wq.nodes caller = 0 := hB'
    show owner' ≠ some caller ∧ node_count mutex'.wq.nodes caller = 0
    exact ⟨fun e => hB2.1 (h2.1 e), by omega⟩
  have hqueued : mnode'.map (fun n => n.waiter.reason) =
        mnode.map (fun n => n.waiter.reason) →
      wait_until_queued caller ⟨cond, mutex, owner, cnode, mnode, pc'⟩ →
      wait_until_queued caller ⟨cond', mutex', owner', cnode', mnode', pc'⟩ := by
    intro hmn hB'
    cases mnode with
    | none =>
      cases mnode' with
      | some n' => simp at hmn
      | none =>
        have hB2 : owner ≠ some caller ∧ node_count mutex.wq.nodes caller ≤ 1 ∧
          ∀ n ∈ mutex.wq.nodes, n.waiter.fiber = caller →
            n.waiter.reason ≠ FEV_WAITER_READY := hB'
        show owner' ≠ some caller ∧ node_count mutex'.wq.nodes caller ≤ 1 ∧
          ∀ n ∈ mutex'.wq.nodes, n.waiter.fiber = caller →
            n.waiter.reason ≠ FEV_WAITER_READY
        exact ⟨fun e => hB2.1 (h2.1 e), by omega, h4 hB2.2.2⟩
    | some n =>
      cases mnode' with
      | none => simp at hmn
      | some n' =>
        have hB2 : node_count mutex.wq.nodes caller = 0 ∧
          n.waiter.reason ≠ FEV_WAITER_NONE ∧
          (n.waiter.reason = FEV_WAITER_READY ↔ owner = some caller) := hB'
        have hr : n'.waiter.reason = n.waiter.reason := by simpa using hmn
        show node_count mutex'.wq.nodes caller = 0 ∧
          n'.waiter.reason ≠ FEV_WAITER_NONE ∧
          (n'.waiter.reason = FEV_WAITER_READY ↔ owner' = some caller)
        rw [hr]
        exact ⟨by omega, hB2.2.1, hB2.2.2.trans h2.symm⟩
  cases pc' with
  | start =>
    have hB' : owner = some caller ∧ node_count mutex.wq.nodes caller = 0 := hB
    show owner' = some caller ∧ node_count mutex'.wq.nodes caller = 0
    exact ⟨h2.2 hB'.1, by omega⟩
  | cond_add => exact hrel hB
  | cond_wait => exact hrel hB
  | mutex_add => exact hqueued (hmn (Or.inl rfl)) hB
  | mutex_wait => exact hqueued (hmn (Or.inr rfl)) hB
  | returned ret =>
    have hB' : (ret = 0 → owner = some caller) ∧
      (owner = some caller → ret = 0 ∨ (strict = false ∧ ret = -ENOMEM)) ∧
      (ret = 0 ∨ ret = -ETIMEDOUT ∨ ret = -ENOMEM) := hB
    show (ret = 0 → owner' = some caller) ∧
      (owner' = some caller → ret = 0 ∨ (strict = false ∧ ret = -ENOMEM)) ∧
      (ret = 0 ∨ ret = -ETIMEDOUT ∨ ret = -ENOMEM)
    exact ⟨fun e => h2.2 (hB'.1 e), fun e => hB'.2.1 (h2.1 e), hB'.2.2⟩
/-- A call of `fev_mutex_lock` by another fiber keeps the invariant. -/
theorem wait_until_inv_lock (strict : Bool) (caller fiber : Nat) (w : wait_until_world)
    (h : wait_until_inv strict caller w) (hf : fiber ≠ caller) :
    wait_until_inv strict caller
      { w with mutex := (fev_mutex_lock w.mutex fiber 0 0).mutex,
               owner := if (fev_mutex_lock w.mutex fiber 0 0).parked then w.owner
                 else some fiber } := by
  have hA := h.1
  rw [fev_mutex_lock_eq]
  by_cases h0 : w.mutex.state = 0
  · rw [if_pos h0]
    have hown : w.owner = none := by
      by_contra hne
      exact hA hne h0
    refine wait_until_inv_env strict caller w _ h rfl (fun _ => rfl)
      (fun _ => Nat.one_ne_zero) ?_ (le_refl _) (fun h4 => h4)
    show some fiber = some caller ↔ w.owner = some caller
    rw [hown]
    simp [hf]
  · rw [if_neg h0]
    refine wait_until_inv_env strict caller w _ h rfl (fun _ => rfl)
      (fun _ => (by decide : (2 : Nat) ≠ 0)) Iff.rfl ?_ ?_
    · show node_count (w.mutex.wq.nodes ++ [⟨⟨FEV_WAITER_NONE, 0, 0, 0, 1, fiber⟩, false⟩])
        caller ≤ _
      rw [node_count_append_other _ _ _ hf]
    · intro h4 n hn hfib
      have hn' : n ∈ w.mutex.wq.nodes ++ [⟨⟨FEV_WAITER_NONE, 0, 0, 0, 1, fiber⟩, false⟩] := hn
      rcases List.mem_append.1 hn' with hm | hm
      · exact h4 n hm hfib
      · rw [List.mem_singleton.1 hm] at hfib
        exact absurd hfib hf

/-- A call of `fev_mutex_unlock` by the holder of the mutex, another fiber, keeps the
invariant while the caller has not returned. -/
theorem wait_until_inv_unlock (strict : Bool) (caller : Nat) (w : wait_until_world)
    (h : wait_until_inv strict caller w)
    (ho : ¬ (w.owner = none ∨ w.owner = some caller))
    (hpc : ∀ ret, w.pc ≠ .returned ret) :
    wait_until_inv strict caller
      { w with mutex := (fev_mutex_unlock w.mutex).mutex,
               owner := (fev_mutex_unlock w.mutex).woken.head?,
               mutex_node :=
                 match removed_node_of (fev_mutex_unlock w.mutex).removed caller with
                 | some n => some n
                 | none => w.mutex_node } := by
  obtain ⟨cond, mutex, owner, cnode, mnode, pc⟩ := w
  obtain ⟨hA, hB⟩ := h
  dsimp only at hA hB ho hpc ⊢
  have hst : mutex.state ≠ 0 := hA (fun e => ho (Or.inl e))
  have hnc : owner ≠ some caller := fun e => ho (Or.inr e)
  obtain ⟨u1, u2, u3, u4, u5⟩ := fev_mutex_unlock_for caller mutex hst
  refine ⟨u1, ?_⟩
  have hrel : wait_until_released caller ⟨cond, mutex, owner, cnode, mnode, pc⟩ →
      (fev_mutex_unlock mutex).woken.head? ≠ some caller ∧
        node_count (fev_mutex_unlock mutex).mutex.wq.nodes caller = 0 := by
    intro hB'
    have hB2 : owner ≠ some caller ∧ node_count mutex.wq.nodes caller = 0 := hB'
    exact ⟨(u4 hB2.2).1, by omega⟩
  have hqueued : wait_until_queued caller ⟨cond, mutex, owner, cnode, mnode, pc⟩ →
      wait_until_queued caller
        ⟨cond, (fev_mutex_unlock mutex).mutex, (fev_mutex_unlock mutex).woken.head?, cnode,
          (match removed_node_of (fev_mutex_unlock mutex).removed caller with
            | some n => some n
            | none => mnode), pc⟩ := by
    intro hB'
    cases mnode with
    | none =>
      have hB2 : owner ≠ some caller ∧ node_count mutex.wq.nodes caller ≤ 1 ∧
        ∀ n ∈ mutex.wq.nodes, n.waiter.fiber = caller →
          n.waiter.reason ≠ FEV_WAITER_READY := hB'
      obtain ⟨v1, v2⟩ := u5 hB2.2.1 hB2.2.2
      cases hrem : removed_node_of (fev_mutex_unlock mutex).removed caller with
      | none =>
        show (fev_mutex_unlock mutex).woken.head? ≠ some caller ∧
          node_count (fev_mutex_unlock mutex).mutex.wq.nodes caller ≤ 1 ∧
          ∀ n ∈ (fev_mutex_unlock mutex).mutex.wq.nodes, n.waiter.fiber = caller →
            n.waiter.reason ≠ FEV_WAITER_READY
        exact ⟨v1 hrem, by omega, fun n hn hfib => hB2.2.2 n (u3 n hn) hfib⟩
      | some x =>
        exact v2 x hrem
    | some n =>
      have hB2 : node_count mutex.wq.nodes caller = 0 ∧
        n.waiter.reason ≠ FEV_WAITER_NONE ∧
        (n.waiter.reason = FEV_WAITER_READY ↔ owner = some caller) := hB'
      obtain ⟨w1, w2⟩ := u4 hB2.1
      rw [w2]
      show node_count (fev_mutex_unlock mutex).mutex.wq.nodes caller = 0 ∧
        n.waiter.reason ≠ FEV_WAITER_NONE ∧
        (n.waiter.reason = FEV_WAITER_READY ↔
          (fev_mutex_unlock mutex).woken.head? = some caller)
      refine ⟨by omega, hB2.2.1, ?_⟩
      constructor
      · intro e
        exact absurd (hB2.2.2.1 e) hnc
      · intro e
        exact absurd e w1
  cases pc with
  | returned ret => exact absurd rfl (hpc ret)
  | start =>
    have hB' : owner = some caller ∧ node_count mutex.wq.nodes caller = 0 := hB
    exact absurd hB'.1 hnc
  | cond_add => exact hrel hB
  | cond_wait => exact hrel hB
  | mutex_add => exact hqueued hB
  | mutex_wait => exact hqueued hB
/-- A call of `fev_waiter_wake` by the timers on a waiter of the queue of the mutex keeps
the invariant. -/
theorem wait_until_inv_timeout (strict : Bool) (caller fiber reason : Nat)
    (w : wait_until_world) (h : wait_until_inv strict caller w)
    (hr : reason ≠ FEV_WAITER_READY) :
    wait_until_inv strict caller
      { w with
        mutex := { w.mutex with wq := { nodes := nodes_wake w.mutex.wq.nodes fiber reason } },
        mutex_node :=
          if fiber = caller then
            w.mutex_node.map (fun n => { n with waiter := (fev_waiter_wake n.waiter reason).1 })
          else w.mutex_node } := by
  refine wait_until_inv_env strict caller w _ h rfl ?_ h.1 Iff.rfl
    (le_of_eq (node_count_nodes_wake _ _ _ _)) (nodes_wake_not_ready _ _ _ _ hr)
  intro hpc
  obtain ⟨cond, mutex, owner, cnode, mnode, pc⟩ := w
  obtain ⟨-, hB⟩ := h
  dsimp only at hpc hB ⊢
  have hq : wait_until_queued caller ⟨cond, mutex, owner, cnode, mnode, pc⟩ := by
    rcases hpc with e | e <;> subst e <;> exact hB
  by_cases hf : fiber = caller
  · rw [if_pos hf]
    cases mnode with
    | none => rfl
    | some n =>
      have hB' : node_count mutex.wq.nodes caller = 0 ∧
        n.waiter.reason ≠ FEV_WAITER_NONE ∧
        (n.waiter.reason = FEV_WAITER_READY ↔ owner = some caller) := hq
      show some (fev_waiter_wake n.waiter reason).1.reason = some n.waiter.reason
      rw [fev_waiter_wake_reason, if_neg hB'.2.1]
  · rw [if_neg hf]

/-- The removal of the node of another fiber from the queue of the mutex keeps the
invariant. -/
theorem wait_until_inv_leave (strict : Bool) (caller fiber : Nat) (w : wait_until_world)
    (h : wait_until_inv strict caller w) :
    wait_until_inv strict caller
      { w with
        mutex := { w.mutex with wq := { nodes := nodes_remove w.mutex.wq.nodes fiber } } } :=
  wait_until_inv_env strict caller w _ h rfl (fun _ => rfl) h.1 Iff.rfl
    (node_count_nodes_remove_le _ _ _)
    (fun h4 n hn hfib => h4 n (mem_nodes_remove _ _ n hn) hfib)

/-- A change of the condition and of the node of the caller taken off its queue
keeps the invariant. -/
theorem wait_until_inv_cond (strict : Bool) (caller : Nat) (w : wait_until_world)
    (h : wait_until_inv strict caller w) (cond : fev_cond)
    (cond_node : Option fev_waiters_queue_node) :
    wait_until_inv strict caller { w with cond := cond, cond_node := cond_node } :=
  wait_until_inv_env strict caller w _ h rfl (fun _ => rfl) h.1 Iff.rfl (le_refl _)
    (fun h4 => h4)

/-- The call of `fev_cond_wait_until` up to the call of `fev_timed_wait` keeps the
invariant: the mutex is released. -/
theorem wait_until_inv_call (strict : Bool) (caller : Nat) (w : wait_until_world)
    (h : wait_until_inv strict caller w) (hpc : w.pc = .start) :
    wait_until_inv strict caller (wait_until_op_step caller .call w) := by
  obtain ⟨cond, mutex, owner, cnode, mnode, pc⟩ := w
  obtain ⟨hA, hB⟩ := h
  dsimp only at hpc hA hB
  subst hpc
  have hB' : owner = some caller ∧ node_count mutex.wq.nodes caller = 0 := hB
  have hst : mutex.state ≠ 0 := hA (by rw [hB'.1]; simp)
  obtain ⟨u1, u2, -, u4, -⟩ := fev_mutex_unlock_for caller mutex hst
  obtain ⟨w1, -⟩ := u4 hB'.2
  simp only [wait_until_op_step]
  refine ⟨u1, ?_⟩
  show (fev_mutex_unlock mutex).woken.head? ≠ some caller ∧
    node_count (fev_mutex_unlock mutex).mutex.wq.nodes caller = 0
  exact ⟨w1, by omega⟩

/-- The return of `fev_timers_add` in the wait on the condition keeps the invariant:
when it fails the call returns `-ENOMEM`, and the caller does not hold the
mutex. -/
theorem wait_until_inv_timers_add_cond (strict : Bool) (caller : Nat) (add_ok : Bool)
    (w : wait_until_world) (h : wait_until_inv strict caller w) (hpc : w.pc = .cond_add) :
    wait_until_inv strict caller (wait_until_op_step caller (.timers_add_cond add_ok) w) := by
  obtain ⟨cond, mutex, owner, cnode, mnode, pc⟩ := w
  obtain ⟨hA, hB⟩ := h
  dsimp only at hpc hA hB
  subst hpc
  have hB' : owner ≠ some caller ∧ node_count mutex.wq.nodes caller = 0 := hB
  simp only [wait_until_op_step]
  cases add_ok with
  | true =>
    rw [if_pos rfl]
    exact ⟨hA, hB'⟩
  | false =>
    rw [if_neg (by simp)]
    refine ⟨hA, ?_⟩
    show (-ENOMEM = 0 → owner = some caller) ∧
      (owner = some caller → -ENOMEM = 0 ∨ (strict = false ∧ -ENOMEM = -ENOMEM)) ∧
      (-ENOMEM = 0 ∨ -ENOMEM = -ETIMEDOUT ∨ -ENOMEM = -ENOMEM)
    exact ⟨fun e => absurd e (by decide), fun e => absurd e hB'.1, Or.inr (Or.inr rfl)⟩

/-- The return of `fev_timers_add` in the wait on the mutex keeps the invariant, in the
runs in which it may fail (`strict = false`) and when it succeeds. -/
theorem wait_until_inv_timers_add_mutex (strict : Bool) (caller : Nat) (add_ok : Bool)
    (w : wait_until_world) (h : wait_until_inv strict caller w) (hpc : w.pc = .mutex_add)
    (hok : strict = true → add_ok = true) :
    wait_until_inv strict caller (wait_until_op_step caller (.timers_add_mutex add_ok) w) := by
  have hpark := wait_until_inv_env strict caller w
    { w with
      mutex := { w.mutex with wq := { nodes := nodes_wait_enter w.mutex.wq.nodes caller } },
      mutex_node :=
        w.mutex_node.map (fun n => { n with waiter := fev_waiter_wait_enter n.waiter }) }
    h rfl
    (fun _ => by
      show Option.map _ (Option.map _ w.mutex_node) = _
      rw [Option.map_map]
      congr 1
      funext n
      exact (fev_waiter_wait_enter_reason n.waiter).1)
    h.1 Iff.rfl (le_of_eq (node_count_nodes_wait_enter _ _ _))
    (nodes_wait_enter_not_ready _ _ _)
  obtain ⟨cond, mutex, owner, cnode, mnode, pc⟩ := w
  obtain ⟨hA, hB⟩ := h
  dsimp only at hpc hA hB hpark
  subst hpc
  simp only [wait_until_op_step]
  cases add_ok with
  | true =>
    rw [if_pos rfl]
    exact hpark
  | false =>
    rw [if_neg (by simp)]
    have hs : strict = false := by
      cases strict with
      | false => rfl
      | true => exact absurd (hok rfl) (by simp)
    refine ⟨?_, ?_⟩
    · intro e
      show (if mnode = none then
          ({ mutex with wq := { nodes := nodes_remove mutex.wq.nodes caller } } : fev_mutex)
        else mutex).state ≠ 0
      by_cases hm : mnode = none
      · rw [if_pos hm]
        exact hA e
      · rw [if_neg hm]
        exact hA e
    · show (-ENOMEM = 0 → owner = some caller) ∧
        (owner = some caller → -ENOMEM = 0 ∨ (strict = false ∧ -ENOMEM = -ENOMEM)) ∧
        (-ENOMEM = 0 ∨ -ENOMEM = -ETIMEDOUT ∨ -ENOMEM = -ENOMEM)
      exact ⟨fun e => absurd e (by decide), fun _ => Or.inr ⟨hs, rfl⟩, Or.inr (Or.inr rfl)⟩
/-- The caller resumes from the wait on the condition: the invariant is kept. -/
theorem wait_until_inv_resume_cond (strict : Bool) (caller : Nat) (expired : Bool)
    (w : wait_until_world) (h : wait_until_inv strict caller w) (hpc : w.pc = .cond_wait) :
    wait_until_inv strict caller (wait_until_op_step caller (.resume_cond expired) w) := by
  obtain ⟨cond, mutex, owner, cnode, mnode, pc⟩ := w
  obtain ⟨hA, hB⟩ := h
  dsimp only at hpc hA hB
  subst hpc
  have hB' : owner ≠ some caller ∧ node_count mutex.wq.nodes caller = 0 := hB
  simp only [wait_until_op_step]
  by_cases hr : wait_reason cnode cond.wq.nodes caller = FEV_WAITER_NONE
  · rw [if_pos hr]
    exact ⟨hA, hB⟩
  · rw [if_neg hr]
    obtain ⟨c1, c2, c3⟩ :=
      fev_timed_wait_ret_cases (wait_reason cnode cond.wq.nodes caller) expired
    generalize fev_timed_wait_ret true (wait_reason cnode cond.wq.nodes caller) expired = res
      at c1 c2 c3 ⊢
    by_cases hres : res = -ENOMEM ∨ res = -ETIMEDOUT
    · rw [if_pos hres]
      refine ⟨hA, ?_⟩
      show (res = 0 → owner = some caller) ∧
        (owner = some caller → res = 0 ∨ (strict = false ∧ res = -ENOMEM)) ∧
        (res = 0 ∨ res = -ETIMEDOUT ∨ res = -ENOMEM)
      have hne : res ≠ 0 := by
        rcases hres with e | e <;> rw [e] <;> decide
      exact ⟨fun e => absurd e hne, fun e => absurd e hB'.1,
        hres.elim (fun e => Or.inr (Or.inr e)) (fun e => Or.inr (Or.inl e))⟩
    · rw [if_neg hres]
      by_cases h0 : mutex.state = 0
      · have ht : (fev_mutex_try_lock mutex) = ({ mutex with state := 1 }, true) := by
          simp [fev_mutex_try_lock, h0]
        rw [ht]
        rw [if_pos rfl]
        refine ⟨fun _ => Nat.one_ne_zero, ?_⟩
        show ((0 : Int) = 0 → some caller = some caller) ∧
          (some caller = some caller →
            (0 : Int) = 0 ∨ (strict = false ∧ (0 : Int) = -ENOMEM)) ∧ _
        exact ⟨fun _ => rfl, fun _ => Or.inl rfl, Or.inl rfl⟩
      · have ht : (fev_mutex_try_lock mutex) = (mutex, false) := by
          simp [fev_mutex_try_lock, h0]
        rw [ht]
        rw [if_neg (by simp)]
        exact wait_until_lock_pass_inv strict caller _ hB'.1 hB'.2

/-- The caller resumes from the wait on the mutex: the invariant is kept. -/
theorem wait_until_inv_resume_mutex (strict : Bool) (caller : Nat) (expired : Bool)
    (w : wait_until_world) (h : wait_until_inv strict caller w) (hpc : w.pc = .mutex_wait) :
    wait_until_inv strict caller (wait_until_op_step caller (.resume_mutex expired) w) := by
  obtain ⟨cond, mutex, owner, cnode, mnode, pc⟩ := w
  obtain ⟨hA, hB⟩ := h
  dsimp only at hpc hA hB
  subst hpc
  simp only [wait_until_op_step]
  by_cases hr : wait_reason mnode mutex.wq.nodes caller = FEV_WAITER_NONE
  · rw [if_pos hr]
    exact ⟨hA, hB⟩
  · rw [if_neg hr]
    obtain ⟨c1, c2, c3⟩ :=
      fev_timed_wait_ret_cases (wait_reason mnode mutex.wq.nodes caller) expired
    have hkey : (wait_reason mnode mutex.wq.nodes caller = FEV_WAITER_READY ↔
          owner = some caller) ∧
        node_count (if mnode = none then nodes_remove mutex.wq.nodes caller
          else mutex.wq.nodes) caller = 0 := by
      cases mnode with
      | none =>
        have hB' : owner ≠ some caller ∧ node_count mutex.wq.nodes caller ≤ 1 ∧
          ∀ n ∈ mutex.wq.nodes, n.waiter.fiber = caller →
            n.waiter.reason ≠ FEV_WAITER_READY := hB
        rw [if_pos rfl]
        refine ⟨?_, node_count_nodes_remove_self _ _⟩
        constructor
        · intro e
          exfalso
          unfold wait_reason at e
          dsimp only at e
          cases hn : node_of mutex.wq.nodes caller with
          | none =>
            rw [hn] at e
            exact absurd e (by decide)
          | some n =>
            rw [hn] at e
            have hmem : n ∈ mutex.wq.nodes := List.mem_of_find?_eq_some hn
            have hfib : n.waiter.fiber = caller := by
              have := List.find?_some hn
              simpa using this
            exact hB'.2.2 n hmem hfib e
        · intro e
          exact absurd e hB'.1
      | some n =>
        have hB' : node_count mutex.wq.nodes caller = 0 ∧
          n.waiter.reason ≠ FEV_WAITER_NONE ∧
          (n.waiter.reason = FEV_WAITER_READY ↔ owner = some caller) := hB
        rw [if_neg (by simp)]
        exact ⟨hB'.2.2, hB'.1⟩
    generalize wait_reason mnode mutex.wq.nodes caller = reason at c1 c2 c3 hkey hr
    generalize fev_timed_wait_ret true reason expired = res at c1 c2 c3 ⊢
    by_cases hres : res = 0
    · rw [if_pos hres]
      refine ⟨hA, ?_⟩
      show ((0 : Int) = 0 → owner = some caller) ∧
        (owner = some caller → (0 : Int) = 0 ∨ (strict = false ∧ (0 : Int) = -ENOMEM)) ∧ _
      exact ⟨fun _ => hkey.1.1 (c1.1 hres), fun _ => Or.inl rfl, Or.inl rfl⟩
    · rw [if_neg hres]
      have hown : owner ≠ some caller := fun e => hres (c1.2 (hkey.1.2 e))
      have hcnt : node_count (if mnode = none then
            ({ mutex with wq := { nodes := nodes_remove mutex.wq.nodes caller } } : fev_mutex)
          else mutex).wq.nodes caller = 0 := by
        by_cases hm : mnode = none
        · rw [if_pos hm]
          have := hkey.2
          rw [if_pos hm] at this
          exact this
        · rw [if_neg hm]
          have := hkey.2
          rw [if_neg hm] at this
          exact this
      have hA1 : owner ≠ none → (if mnode = none then
            ({ mutex with wq := { nodes := nodes_remove mutex.wq.nodes caller } } : fev_mutex)
          else mutex).state ≠ 0 := by
        intro e
        by_cases hm : mnode = none
        · rw [if_pos hm]
          exact hA e
        · rw [if_neg hm]
          exact hA e
      by_cases hag : res = -EAGAIN
      · rw [if_pos hag]
        exact wait_until_lock_pass_inv strict caller _ hown hcnt
      · rw [if_neg hag]
        refine ⟨hA1, ?_⟩
        show (res = 0 → owner = some caller) ∧
          (owner = some caller → res = 0 ∨ (strict = false ∧ res = -ENOMEM)) ∧
          (res = 0 ∨ res = -ETIMEDOUT ∨ res = -ENOMEM)
        refine ⟨fun e => absurd e hres, fun e => absurd e hown, ?_⟩
        rcases c2 with e | e | e
        · exact absurd e hres
        · exact Or.inr (Or.inl e)
        · exact absurd e hag

/-- Every step keeps the invariant; with `strict = true`, every step but a failure of
`fev_timers_add` in the wait on the mutex. -/
theorem wait_until_op_step_inv (strict : Bool) (caller : Nat) (step : wait_until_step)
    (w : wait_until_world) (h : wait_until_inv strict caller w)
    (hstep : strict = true → step ≠ .timers_add_mutex false) :
    wait_until_inv strict caller (wait_until_op_step caller step w) := by
  cases step with
  | call =>
    by_cases hpc : w.pc = .start
    · exact wait_until_inv_call strict caller w h hpc
    · obtain ⟨cond, mutex, owner, cnode, mnode, pc⟩ := w
      cases pc <;> first | exact absurd rfl hpc | exact h
  | timers_add_cond add_ok =>
    by_cases hpc : w.pc = .cond_add
    · exact wait_until_inv_timers_add_cond strict caller add_ok w h hpc
    · obtain ⟨cond, mutex, owner, cnode, mnode, pc⟩ := w
      cases pc <;> first | exact absurd rfl hpc | exact h
  | timers_add_mutex add_ok =>
    by_cases hpc : w.pc = .mutex_add
    · refine wait_until_inv_timers_add_mutex strict caller add_ok w h hpc ?_
      intro hs
      cases add_ok with
      | true => rfl
      | false => exact absurd rfl (hstep hs)
    · obtain ⟨cond, mutex, owner, cnode, mnode, pc⟩ := w
      cases pc <;> first | exact absurd rfl hpc | exact h
  | resume_cond expired =>
    by_cases hpc : w.pc = .cond_wait
    · exact wait_until_inv_resume_cond strict caller expired w h hpc
    · obtain ⟨cond, mutex, owner, cnode, mnode, pc⟩ := w
      cases pc <;> first | exact absurd rfl hpc | exact h
  | resume_mutex expired =>
    by_cases hpc : w.pc = .mutex_wait
    · exact wait_until_inv_resume_mutex strict caller expired w h hpc
    · obtain ⟨cond, mutex, owner, cnode, mnode, pc⟩ := w
      cases pc <;> first | exact absurd rfl hpc | exact h
  | lock fiber =>
    have key : wait_until_inv strict caller
        (if fiber = caller then w else
          { w with mutex := (fev_mutex_lock w.mutex fiber 0 0).mutex,
                   owner := if (fev_mutex_lock w.mutex fiber 0 0).parked then w.owner
                     else some fiber }) := by
      by_cases hf : fiber = caller
      · rw [if_pos hf]
        exact h
      · rw [if_neg hf]
        exact wait_until_inv_lock strict caller fiber w h hf
    obtain ⟨cond, mutex, owner, cnode, mnode, pc⟩ := w
    cases pc <;> first | exact h | exact key
  | unlock =>
    have key : (∀ ret, w.pc ≠ .returned ret) → wait_until_inv strict caller
        (if w.owner = none ∨ w.owner = some caller then w else
          { w with mutex := (fev_mutex_unlock w.mutex).mutex,
                   owner := (fev_mutex_unlock w.mutex).woken.head?,
                   mutex_node :=
                     match removed_node_of (fev_mutex_unlock w.mutex).removed caller with
                     | some n => some n
                     | none => w.mutex_node }) := by
      intro hpc
      by_cases ho : w.owner = none ∨ w.owner = some caller
      · rw [if_pos ho]
        exact h
      · rw [if_neg ho]
        exact wait_until_inv_unlock strict caller w h ho hpc
    obtain ⟨cond, mutex, owner, cnode, mnode, pc⟩ := w
    cases pc <;> first | exact h | exact key (fun ret e => by cases e)
  | notify max_waiters =>
    obtain ⟨cond, mutex, owner, cnode, mnode, pc⟩ := w
    cases pc <;> exact h
  | timeout on_cond fiber check =>
    have hr : (if check then FEV_WAITER_TIMED_OUT_CHECK else FEV_WAITER_TIMED_OUT_NO_CHECK) ≠
        FEV_WAITER_READY := by
      cases check <;> decide
    have key1 : ∀ r : Nat, wait_until_inv strict caller
        { w with
          cond := { wq := { nodes := nodes_wake w.cond.wq.nodes fiber r } },
          cond_node :=
            if fiber = caller then
              w.cond_node.map (fun n => { n with waiter := (fev_waiter_wake n.waiter r).1 })
            else w.cond_node } :=
      fun r => wait_until_inv_cond strict caller w h _ _
    have key2 := wait_until_inv_timeout strict caller fiber _ w h hr
    obtain ⟨cond, mutex, owner, cnode, mnode, pc⟩ := w
    cases on_cond <;> cases pc <;> first | exact h | exact key1 _ | exact key2
  | leave on_cond fiber =>
    have key1 := wait_until_inv_cond strict caller w h
      { wq := { nodes := nodes_remove w.cond.wq.nodes fiber } } w.cond_node
    have key2 := wait_until_inv_leave strict caller fiber w h
    obtain ⟨cond, mutex, owner, cnode, mnode, pc⟩ := w
    by_cases hf : fiber = caller
    · subst hf
      cases pc <;> simp only [wait_until_op_step, if_true] <;> exact h
    · cases on_cond <;> cases pc <;> simp only [wait_until_op_step, if_neg hf] <;>
        first | exact h | exact key1 | exact key2

/-- Every run keeps the invariant; with `strict = true`, every run in which
`fev_timers_add` does not fail in the wait on the mutex. -/
theorem wait_until_run_inv (strict : Bool) (caller : Nat) (steps : List wait_until_step)
    (hsteps : strict = true → wait_until_step.timers_add_mutex false ∉ steps) :
    ∀ w : wait_until_world, wait_until_inv strict caller w →
      wait_until_inv strict caller (wait_until_run caller steps w) := by
  induction steps with
  | nil =>
    intro w h
    exact h
  | cons step steps ih =>
    intro w h
    refine ih (fun hs hmem => hsteps hs (List.mem_cons_of_mem _ hmem)) _
      (wait_until_op_step_inv strict caller step w h ?_)
    intro hs e
    exact hsteps hs (e ▸ List.mem_cons_self _ _)
/-- The steps of two lists one after the other. -/
theorem wait_until_run_append (caller : Nat) (steps1 steps2 : List wait_until_step) :
    ∀ w : wait_until_world,
      wait_until_run caller (steps1 ++ steps2) w =
        wait_until_run caller steps2 (wait_until_run caller steps1 w) := by
  induction steps1 with
  | nil =>
    intro w
    rfl
  | cons step steps1 ih =>
    intro w
    exact ih _

/-- Once the call has begun, a caller that holds the mutex keeps it over every step:
nobody else takes a mutex whose state is not 0, and only the holder unlocks. -/
theorem wait_until_op_step_owner (caller : Nat) (step : wait_until_step)
    (w : wait_until_world) (hA : w.owner ≠ none → w.mutex.state ≠ 0)
    (hpc : w.pc ≠ .start) (ho : w.owner = some caller) :
    (wait_until_op_step caller step w).pc ≠ .start ∧
      (wait_until_op_step caller step w).owner = some caller := by
  obtain ⟨cond, mutex, owner, cnode, mnode, pc⟩ := w
  dsimp only at hA hpc ho
  subst ho
  have hst : mutex.state ≠ 0 := hA (by simp)
  have hpass : ∀ w1 : wait_until_world, w1.owner = some caller →
      (wait_until_lock_pass caller w1).pc ≠ .start ∧
        (wait_until_lock_pass caller w1).owner = some caller := by
    intro w1 h1
    rw [wait_until_lock_pass_eq]
    by_cases h0 : w1.mutex.state = 0
    · rw [if_pos h0]
      exact ⟨(fun e => by cases e), rfl⟩
    · rw [if_neg h0]
      exact ⟨(fun e => by cases e), h1⟩
  cases step with
  | call =>
    cases pc <;> first | exact absurd rfl hpc | exact ⟨(fun e => by cases e), rfl⟩
  | timers_add_cond add_ok =>
    cases pc <;> cases add_ok <;>
      first | exact absurd rfl hpc | exact ⟨(fun e => by cases e), rfl⟩
  | timers_add_mutex add_ok =>
    cases pc <;> cases add_ok <;>
      first | exact absurd rfl hpc | exact ⟨(fun e => by cases e), rfl⟩
  | resume_cond expired =>
    cases pc with
    | cond_wait =>
      simp only [wait_until_op_step]
      split
      · exact ⟨(fun e => by cases e), rfl⟩
      · split
        · exact ⟨(fun e => by cases e), rfl⟩
        · split
          · exact ⟨(fun e => by cases e), rfl⟩
          · exact hpass _ rfl
    | start => exact absurd rfl hpc
    | _ => exact ⟨(fun e => by cases e), rfl⟩
  | resume_mutex expired =>
    cases pc with
    | mutex_wait =>
      simp only [wait_until_op_step]
      split
      · exact ⟨(fun e => by cases e), rfl⟩
      · split
        · exact ⟨(fun e => by cases e), rfl⟩
        · split
          · exact hpass _ rfl
          · exact ⟨(fun e => by cases e), rfl⟩
    | start => exact absurd rfl hpc
    | _ => exact ⟨(fun e => by cases e), rfl⟩
  | lock fiber =>
    cases pc <;> simp only [wait_until_op_step] <;>
      first
      | exact absurd rfl hpc
      | exact ⟨hpc, trivial⟩
      | (split
         · exact ⟨(fun e => by cases e), rfl⟩
         · rw [fev_mutex_lock_eq, if_neg hst]
           exact ⟨(fun e => by cases e), rfl⟩)
  | unlock =>
    cases pc <;> simp only [wait_until_op_step] <;>
      first
      | exact absurd rfl hpc
      | exact ⟨hpc, trivial⟩
      | exact ⟨(fun e => by cases e), rfl⟩
  | notify max_waiters =>
    cases pc <;> first | exact absurd rfl hpc | exact ⟨(fun e => by cases e), rfl⟩
  | timeout on_cond fiber check =>
    cases pc <;> cases on_cond <;>
      first | exact absurd rfl hpc | exact ⟨(fun e => by cases e), rfl⟩
  | leave on_cond fiber =>
    cases pc <;> simp only [wait_until_op_step] <;>
      first
      | exact absurd rfl hpc
      | exact ⟨hpc, trivial⟩
      | (split
         · exact ⟨(fun e => by cases e), rfl⟩
         · split <;> exact ⟨(fun e => by cases e), rfl⟩)

/-- Once the call has begun, a caller that holds the mutex holds it at the end of
every run. -/
theorem wait_until_run_owner (caller : Nat) (steps : List wait_until_step) :
    ∀ w : wait_until_world, wait_until_inv false caller w → w.pc ≠ .start →
      w.owner = some caller → (wait_until_run caller steps w).owner = some caller := by
  induction steps with
  | nil =>
    intro w _ _ ho
    exact ho
  | cons step steps ih =>
    intro w h hpc ho
    obtain ⟨h1, h2⟩ := wait_until_op_step_owner caller step w h.1 hpc ho
    exact ih _ (wait_until_op_step_inv false caller step w h (fun e => by cases e)) h1 h2

/-- The invariant holds before the call. -/
theorem wait_until_inv_start (strict : Bool) (caller : Nat) (w0 : wait_until_world)
    (hpc : w0.pc = .start) (hown : w0.owner = some caller) (hst : w0.mutex.state ≠ 0)
    (hq : node_count w0.mutex.wq.nodes caller = 0) : wait_until_inv strict caller w0 := by
  obtain ⟨cond, mutex, owner, cnode, mnode, pc⟩ := w0
  dsimp only at hpc hown hst hq
  subst hpc
  exact ⟨fun _ => hst, hown, hq⟩

/-- What holds of `fev_cond_wait_until` in every run, whatever the other fibers, the
timers and the notifiers do: when the caller, which held the mutex and had no
node in its queue, has returned `ret`, then `ret` is 0, `-ETIMEDOUT` or `-ENOMEM`; when
`ret` is 0 the caller holds the mutex; and when the caller holds the mutex at
some moment after the beginning of the call, then `ret` is 0, or `ret` is `-ENOMEM`
and `fev_timers_add` has failed in the wait on the mutex.  So a call that returns
`-ETIMEDOUT`, or `-ENOMEM` from the wait on the condition, has not re-acquired the
mutex. -/
theorem fev_cond_wait_until_spec (caller : Nat) (w0 : wait_until_world)
    (steps1 steps2 : List wait_until_step) (ret : Int)
    (hpc : w0.pc = .start) (hown : w0.owner = some caller) (hst : w0.mutex.state ≠ 0)
    (hq : node_count w0.mutex.wq.nodes caller = 0)
    (hret : (wait_until_run caller (steps1 ++ steps2) w0).pc = .returned ret) :
    (ret = 0 → (wait_until_run caller (steps1 ++ steps2) w0).owner = some caller) ∧
    (ret = 0 ∨ ret = -ETIMEDOUT ∨ ret = -ENOMEM) ∧
    ((wait_until_run caller steps1 w0).pc ≠ .start →
      (wait_until_run caller steps1 w0).owner = some caller →
      ret = 0 ∨
        (ret = -ENOMEM ∧ wait_until_step.timers_add_mutex false ∈ steps1 ++ steps2)) := by
  have hfin : ∀ strict : Bool,
      (strict = true → wait_until_step.timers_add_mutex false ∉ steps1 ++ steps2) →
      (ret = 0 → (wait_until_run caller (steps1 ++ steps2) w0).owner = some caller) ∧
      ((wait_until_run caller (steps1 ++ steps2) w0).owner = some caller →
        ret = 0 ∨ (strict = false ∧ ret = -ENOMEM)) ∧
      (ret = 0 ∨ ret = -ETIMEDOUT ∨ ret = -ENOMEM) := by
    intro strict hs
    have h := wait_until_run_inv strict caller (steps1 ++ steps2) hs w0
      (wait_until_inv_start strict caller w0 hpc hown hst hq)
    generalize wait_until_run caller (steps1 ++ steps2) w0 = wf at h hret
    obtain ⟨cond, mutex, owner, cnode, mnode, pc⟩ := wf
    dsimp only at hret
    subst hret
    exact h.2
  have hweak := hfin false (fun e => by cases e)
  refine ⟨hweak.1, hweak.2.2, ?_⟩
  intro hstart ho
  have hmid := wait_until_run_inv false caller steps1 (fun e => by cases e) w0
    (wait_until_inv_start false caller w0 hpc hown hst hq)
  have hend : (wait_until_run caller (steps1 ++ steps2) w0).owner = some caller := by
    rw [wait_until_run_append]
    exact wait_until_run_owner caller steps2 _ hmid hstart ho
  by_cases hmem : wait_until_step.timers_add_mutex false ∈ steps1 ++ steps2
  · rcases hweak.2.1 hend with e | e
    · exact Or.inl e
    · exact Or.inr ⟨e.2, hmem⟩
  · rcases (hfin true (fun _ => hmem)).2.1 hend with e | e
    · exact Or.inl e
    · exact absurd e.1 (by simp)

/-- The theorem `fev_cond_wait_until_spec` on a run: fiber 7 calls; fiber 8 locks the
mutex; a notifier wakes fiber 7, which finds the mutex held and waits on it;
its timer expires: it returns `-ETIMEDOUT`, and fiber 8 holds the mutex. -/
theorem fev_cond_wait_until_spec_witness :
    (wait_until_run 7
      ([.call, .timers_add_cond true, .lock 8, .notify 1, .resume_cond false,
        .timers_add_mutex true, .timeout false 7 true] ++ [.resume_mutex true])
      { cond := { wq := { nodes := [] } }, mutex := { state := 1, wq := { nodes := [] } },
        owner := some 7, cond_node := none, mutex_node := none, pc := .start }).pc =
      .returned (-ETIMEDOUT) ∧
    (wait_until_run 7
      ([.call, .timers_add_cond true, .lock 8, .notify 1, .resume_cond false,
        .timers_add_mutex true, .timeout false 7 true] ++ [.resume_mutex true])
      { cond := { wq := { nodes := [] } }, mutex := { state := 1, wq := { nodes := [] } },
        owner := some 7, cond_node := none, mutex_node := none, pc := .start }).owner =
      some 8 ∧
    (wait_until_run 7
      [.call, .timers_add_cond true, .lock 8, .notify 1, .resume_cond false,
        .timers_add_mutex true, .timeout false 7 true]
      { cond := { wq := { nodes := [] } }, mutex := { state := 1, wq := { nodes := [] } },
        owner := some 7, cond_node := none, mutex_node := none, pc := .start }).owner ≠
      some 7 :=
  ⟨by decide, by decide, fun ho =>
    absurd
      ((fev_cond_wait_until_spec 7
        { cond := { wq := { nodes := [] } }, mutex := { state := 1, wq := { nodes := [] } },
          owner := some 7, cond_node := none, mutex_node := none, pc := .start }
        [.call, .timers_add_cond true, .lock 8, .notify 1, .resume_cond false,
          .timers_add_mutex true, .timeout false 7 true]
        [.resume_mutex true] (-ETIMEDOUT) rfl rfl (by decide) rfl (by decide)).2.2
        (by decide) ho)
      (by decide)⟩

/-- C29 (a run in which the code does not do what the claim says): fiber 7 holds the
mutex and calls `fev_cond_wait_until`, which releases it; fiber 8 locks the mutex;
a notifier wakes fiber 7, whose `fev_mutex_try_lock` fails, so that it queues its
node on the mutex and calls `fev_timed_wait`; before `fev_timers_add` returns, fiber 8
calls `fev_mutex_unlock`, which takes the node off the queue, wakes its waiter with
`FEV_WAITER_READY` (`do_wake` is still 0, the result is `FEV_WAITER_SET_ONLY`) and leaves
the mutex locked on behalf of fiber 7; then
`fev_timers_add` fails: `fev_cond_wait_until` returns `-ENOMEM`, the mutex is locked on
behalf of the caller (state 1, empty queue), and `fev_mutex_try_lock` fails on it. -/
theorem fev_cond_wait_until_enomem_after_handoff :
    (wait_until_run 7 [.call]
      { cond := { wq := { nodes := [] } }, mutex := { state := 1, wq := { nodes := [] } },
        owner := some 7, cond_node := none, mutex_node := none, pc := .start }).owner =
      none ∧
    (wait_until_run 7
      [.call, .timers_add_cond true, .lock 8, .notify 1, .resume_cond false]
      { cond := { wq := { nodes := [] } }, mutex := { state := 1, wq := { nodes := [] } },
        owner := some 7, cond_node := none, mutex_node := none, pc := .start }) =
      { cond := { wq := { nodes := [] } },
        mutex := { state := 2,
                   wq := { nodes := [⟨⟨FEV_WAITER_NONE, 0, 0, 0, 1, 7⟩, false⟩] } },
        owner := some 8,
        cond_node := some ⟨⟨FEV_WAITER_READY, 0, FEV_WAITER_READY, 0, 0, 7⟩, true⟩,
        mutex_node := none, pc := .mutex_add } ∧
    (wait_until_run 7
      [.call, .timers_add_cond true, .lock 8, .notify 1, .resume_cond false, .unlock]
      { cond := { wq := { nodes := [] } }, mutex := { state := 1, wq := { nodes := [] } },
        owner := some 7, cond_node := none, mutex_node := none, pc := .start }) =
      { cond := { wq := { nodes := [] } },
        mutex := { state := 1, wq := { nodes := [] } },
        owner := some 7,
        cond_node := some ⟨⟨FEV_WAITER_READY, 0, FEV_WAITER_READY, 0, 0, 7⟩, true⟩,
        mutex_node := some ⟨⟨FEV_WAITER_READY, 0, 0, 0, 0, 7⟩, true⟩, pc := .mutex_add } ∧
    (wait_until_run 7
      [.call, .timers_add_cond true, .lock 8, .notify 1, .resume_cond false, .unlock,
        .timers_add_mutex false]
      { cond := { wq := { nodes := [] } }, mutex := { state := 1, wq := { nodes := [] } },
        owner := some 7, cond_node := none, mutex_node := none, pc := .start }) =
      { cond := { wq := { nodes := [] } },
        mutex := { state := 1, wq := { nodes := [] } },
        owner := some 7,
        cond_node := some ⟨⟨FEV_WAITER_READY, 0, FEV_WAITER_READY, 0, 0, 7⟩, true⟩,
        mutex_node := some ⟨⟨FEV_WAITER_READY, 0, 0, 0, 0, 7⟩, true⟩,
        pc := .returned (-ENOMEM) } ∧
    (fev_mutex_try_lock (wait_until_run 7
      [.call, .timers_add_cond true, .lock 8, .notify 1, .resume_cond false, .unlock,
        .timers_add_mutex false]
      { cond := { wq := { nodes := [] } }, mutex := { state := 1, wq := { nodes := [] } },
        owner := some 7, cond_node := none, mutex_node := none, pc := .start }).mutex).2 =
      false := by
  refine ⟨by decide, by decide, by decide, by decide, by decide⟩

/-- C18 (a run in which the code does not do what the claim says): a fiber created
joinable, with two references, calls `fev_fiber_exit`.  Before the post-action of
its exit has run, a call of `fev_fiber_join` finds the fiber dead, releases one
reference and returns 0: the count is 1 and the fiber is not freed.  A call of
`fev_fiber_detach` then finds `FEV_FIBER_JOINABLE` still set and releases a reference
too: this release reads 1 and frees the fiber, while the reference of the exit
has not been released.  The post-action of the exit then runs on the freed
fiber, and its `fev_fiber_release` reads the count 0. -/
theorem fev_fiber_freed_before_exit_post :
    (fiber_run [fiber_op.exit 5, fiber_op.join_enter, fiber_op.join_loop]
        (fiber_life_init ⟨64, 8192, false, 0, ⟨false, true, false⟩, 2, false⟩
          ⟨1, 1, [], true⟩)).fiber.ref_count = 1 ∧
    (fiber_run [fiber_op.exit 5, fiber_op.join_enter, fiber_op.join_loop]
        (fiber_life_init ⟨64, 8192, false, 0, ⟨false, true, false⟩, 2, false⟩
          ⟨1, 1, [], true⟩)).fiber.freed = false ∧
    (fiber_run [fiber_op.exit 5, fiber_op.join_enter, fiber_op.join_loop]
        (fiber_life_init ⟨64, 8192, false, 0, ⟨false, true, false⟩, 2, false⟩
          ⟨1, 1, [], true⟩)).fiber.flags.joinable = true ∧
    (fiber_run [fiber_op.exit 5, fiber_op.join_enter, fiber_op.join_loop, fiber_op.detach]
        (fiber_life_init ⟨64, 8192, false, 0, ⟨false, true, false⟩, 2, false⟩
          ⟨1, 1, [], true⟩)).fiber.freed = true ∧
    (fiber_run [fiber_op.exit 5, fiber_op.join_enter, fiber_op.join_loop, fiber_op.detach]
        (fiber_life_init ⟨64, 8192, false, 0, ⟨false, true, false⟩, 2, false⟩
          ⟨1, 1, [], true⟩)).post_done = false ∧
    (fiber_run [fiber_op.exit 5, fiber_op.join_enter, fiber_op.join_loop, fiber_op.detach]
        (fiber_life_init ⟨64, 8192, false, 0, ⟨false, true, false⟩, 2, false⟩
          ⟨1, 1, [], true⟩)).fiber.ref_count = 0 ∧
    (fev_fiber_exit_post
      (fiber_run [fiber_op.exit 5, fiber_op.join_enter, fiber_op.join_loop, fiber_op.detach]
        (fiber_life_init ⟨64, 8192, false, 0, ⟨false, true, false⟩, 2, false⟩
          ⟨1, 1, [], true⟩)).fiber
      (fiber_run [fiber_op.exit 5, fiber_op.join_enter, fiber_op.join_loop, fiber_op.detach]
        (fiber_life_init ⟨64, 8192, false, 0, ⟨false, true, false⟩, 2, false⟩
          ⟨1, 1, [], true⟩)).sched).1.ref_count = 4294967295 := by
  refine ⟨by decide, by decide, by decide, by decide, by decide, by decide, by decide⟩

end Fev
